import Mathlib

/-!
# Connection protocol engine: channel record and out-of-order packet cache

A shallow embedding of parts of `Engine/Source/Runtime/Engine/Private/NetConnection.cpp`:

* `FChannelRecordImpl` (`PushPacketId`, `PushChannelRecord`,
  `ConsumeChannelRecordsForPacket`, `ConsumeAllChannelRecords`);
* the packet order cache of `UNetConnection::ReceivedPacket`,
  `UNetConnection::FlushPacketOrderCache` and `UNetConnection::ReceivedRawPacket`;
* the size check and the termination bit of `UNetConnection::ReceivedRawPacket`;
* `UNetConnection::ReceivedPacket` with its notifications, its bunch loop (header parse,
  channel creation, dispatch) and its ack, and the bunch header of
  `UNetConnection::SendRawBunch`;
* the send path (`FlushNet`, `WriteBitsToSendBuffer`, `SendRawBunch`, `IsNetReady`) and the
  lifecycle (`InitSequence`, `CreateChannelByName`, `Close`, `CleanUp`, `HandleClientPlayer`,
  `GetTimeoutValue`, `Tick`) of `UNetConnection`.

Machine integers are `Int` / `Nat`; the conversion `uint32(x)` is explicit.
A functor argument `Func` is modelled by the list of calls made to it; calls to
collaborators are modelled by a log of events, their answers by an environment.
-/

namespace NetConnection

/-! ## Channel record: data model -/

/-- The conversion `uint32(x)` of a signed 32 bit value. -/
def toUInt32 (x : Int) : Nat := (x % 4294967296).toNat

/-- The value `uint32(-1)` with which `PreviousChannelIndex` starts in both consume functions. -/
def UINT32_MAX : Nat := 4294967295

/-- Modelled from the spec: the declaration of `FWrittenChannelsRecord::FChannelRecordEntry`
is outside the source files at hand; it is a tagged entry `{isMarker: bool, value: u32}`
(spec 3 and 9).  The source writes an entry `{ Value, IsSequence }`:
`{ uint32(PacketId), 1u }` is a packet-id marker, `{ uint32(ChannelIndex), 0u }` a channel
entry. -/
structure FChannelRecordEntry where
  Value : Nat
  IsSequence : Bool
deriving DecidableEq

/-- Modelled from the spec: the declaration of `FWrittenChannelsRecord` is outside the source
files at hand; the entries are stored in insertion order in a FIFO (spec 3).  The source uses
its queue `ChannelRecord` (front of the queue = head of the list, `Enqueue` appends at the
end) and its field `LastPacketId`. -/
structure FWrittenChannelsRecord where
  ChannelRecord : List FChannelRecordEntry
  LastPacketId : Int
deriving DecidableEq

/-- The packet-id marker `{ uint32(PacketId), 1u }`. -/
def PacketEntry (PacketId : Int) : FChannelRecordEntry := ⟨toUInt32 PacketId, true⟩

/-- The channel entry `{ uint32(ChannelIndex), 0u }`. -/
def ChannelEntry (ChannelIndex : Int) : FChannelRecordEntry := ⟨toUInt32 ChannelIndex, false⟩

/-! ## Channel record: operations -/

/-- `FChannelRecordImpl::PushPacketId`. -/
def PushPacketId (r : FWrittenChannelsRecord) (PacketId : Int) : FWrittenChannelsRecord :=
  if PacketId ≠ r.LastPacketId then
    { ChannelRecord := r.ChannelRecord ++ [PacketEntry PacketId], LastPacketId := PacketId }
  else r

/-- `FChannelRecordImpl::PushChannelRecord`. -/
def PushChannelRecord (r : FWrittenChannelsRecord) (PacketId ChannelIndex : Int) :
    FWrittenChannelsRecord :=
  let r1 := PushPacketId r PacketId
  { r1 with ChannelRecord := r1.ChannelRecord ++ [ChannelEntry ChannelIndex] }

/-- The `while` loop of `ConsumeChannelRecordsForPacket`: pops channel entries from the front
of `Record` until a marker or the end; returns the calls `Func(PacketId, ChannelIndex)` made,
in order, and what is left of the queue.  The second argument is `PreviousChannelIndex`. -/
def consumeLoop (PacketId : Int) :
    List FChannelRecordEntry → Nat → List (Int × Nat) × List FChannelRecordEntry
  | [], _ => ([], [])
  | Entry :: Record, PreviousChannelIndex =>
    if Entry.IsSequence = false then
      if Entry.Value ≠ PreviousChannelIndex then
        let res := consumeLoop PacketId Record Entry.Value
        ((PacketId, Entry.Value) :: res.1, res.2)
      else consumeLoop PacketId Record PreviousChannelIndex
    else ([], Entry :: Record)

/-- `FChannelRecordImpl::ConsumeChannelRecordsForPacket`.  The result is `none` when the
function does not return normally: `Peek` on an empty queue, or the `check` that the popped
front entry is the marker of `PacketId` fails. -/
def ConsumeChannelRecordsForPacket (r : FWrittenChannelsRecord) (PacketId : Int) :
    Option (List (Int × Nat) × FWrittenChannelsRecord) :=
  match r.ChannelRecord with
  | [] => none
  | First :: Record =>
    if First.IsSequence = true ∧ First.Value = toUInt32 PacketId then
      let res := consumeLoop PacketId Record UINT32_MAX
      some (res.1, { r with ChannelRecord := res.2 })
    else none

/-- The `while` loop of `ConsumeAllChannelRecords`: pops every entry; returns the calls
`Func(ChannelIndex)` made, in order, and what is left of the queue. -/
def consumeAllLoop : List FChannelRecordEntry → Nat → List Nat × List FChannelRecordEntry
  | [], _ => ([], [])
  | Entry :: Record, PreviousChannelIndex =>
    if Entry.IsSequence = false ∧ Entry.Value ≠ PreviousChannelIndex then
      let res := consumeAllLoop Record Entry.Value
      (Entry.Value :: res.1, res.2)
    else consumeAllLoop Record PreviousChannelIndex

/-- `FChannelRecordImpl::ConsumeAllChannelRecords`. -/
def ConsumeAllChannelRecords (r : FWrittenChannelsRecord) : List Nat × FWrittenChannelsRecord :=
  let res := consumeAllLoop r.ChannelRecord UINT32_MAX
  (res.1, { r with ChannelRecord := res.2 })

/-! ## Channel record: vocabulary of the specification -/

/-- A channel entry, as opposed to a packet-id marker. -/
def isChannel (e : FChannelRecordEntry) : Bool := !e.IsSequence

/-- The channel entries at the front of a queue, up to the next marker or the end. -/
def frontChannels (q : List FChannelRecordEntry) : List FChannelRecordEntry :=
  q.takeWhile isChannel

/-- The queue from the next marker on. -/
def fromNextMarker (q : List FChannelRecordEntry) : List FChannelRecordEntry :=
  q.dropWhile isChannel

/-- Collapse every run of consecutive equal values to one value. -/
def collapseRuns (l : List Nat) : List Nat := l.destutter (fun a b => a ≠ b)


/-- The entries one flushed packet contributes to the record: its marker, then its channel
entries (given by their stored values). -/
def packetEntries (b : Int × List Nat) : List FChannelRecordEntry :=
  PacketEntry b.1 :: b.2.map (fun c => ⟨c, false⟩)

/-- A record queue made of packets: markers with their channel entries. -/
def recordOf (blocks : List (Int × List Nat)) : List FChannelRecordEntry :=
  (blocks.map packetEntries).flatten

/-- An in-order sequence of consumes, as made by the packet notifications
(`ReceivedAck` / `ReceivedNak`, one `ConsumeChannelRecordsForPacket` each): the calls of all of
them, and the record after the last one. -/
def consumeInOrder (r : FWrittenChannelsRecord) :
    List Int → Option (List (Int × Nat) × FWrittenChannelsRecord)
  | [] => some ([], r)
  | p :: ps =>
    match ConsumeChannelRecordsForPacket r p with
    | none => none
    | some (calls, r1) =>
      match consumeInOrder r1 ps with
      | none => none
      | some (calls2, r2) => some (calls ++ calls2, r2)

/-- One call made on the record by the send path. -/
inductive RecordOp where
  | pushPacketId (PacketId : Int)
  | pushChannelRecord (PacketId ChannelIndex : Int)
deriving DecidableEq

/-- The packet id a call is made with. -/
def RecordOp.PacketId : RecordOp → Int
  | .pushPacketId p => p
  | .pushChannelRecord p _ => p

/-- Run one call. -/
def applyOp (r : FWrittenChannelsRecord) : RecordOp → FWrittenChannelsRecord
  | .pushPacketId p => PushPacketId r p
  | .pushChannelRecord p c => PushChannelRecord r p c

/-- Run a sequence of calls, first call first. -/
def applyOps (r : FWrittenChannelsRecord) (ops : List RecordOp) : FWrittenChannelsRecord :=
  ops.foldl applyOp r

/-- The stored values of the channel indices pushed with packet id p, in call order. -/
def channelsPushed (p : Int) (ops : List RecordOp) : List Nat :=
  ops.filterMap (fun op =>
    match op with
    | .pushPacketId _ => none
    | .pushChannelRecord q c => if q = p then some (toUInt32 c) else none)

/-- A record with no entries.  The value `LastPacketId` starts with is set by the constructor
of `FWrittenChannelsRecord`, which is declared outside this file; it is a parameter here. -/
def emptyRecord (InitialLastPacketId : Int) : FWrittenChannelsRecord :=
  ⟨[], InitialLastPacketId⟩

/-- The previous channel index after the loop of a consume function has seen the values l. -/
def lastFrom (prev : Nat) : List Nat → Nat
  | [] => prev
  | c :: cs => lastFrom c cs

/-- The stored values of the channel entries a call appends (after the marker, if any). -/
def RecordOp.channels : RecordOp → List Nat
  | .pushPacketId _ => []
  | .pushChannelRecord _ c => [toUInt32 c]

/-- The values a consume loop passes to the functor when it sees the channel values l with
previous channel index prev: a value is passed when it differs from the one seen before. -/
def callsFrom (prev : Nat) : List Nat → List Nat
  | [] => []
  | c :: cs => if c ≠ prev then c :: callsFrom c cs else callsFrom prev cs

/-! ## Packet order cache: data model -/

/-- A received packet (the `FBitReader& Reader` of `ReceivedPacket`), as far as sequencing is
concerned: the sequence number in its notification header and its contents. -/
structure Packet where
  Seq : Int
  Data : Nat
deriving DecidableEq

/-- The console variables read by the packet order code. -/
structure NetCVars where
  DoPacketOrderCorrection : Int
  PacketOrderCorrectionEnableThreshold : Int
  PacketOrderMaxMissingPackets : Int
  PacketOrderMaxCachedPackets : Int
deriving DecidableEq

/-- The fields of `UNetConnection` used by the packet order code.  `PacketOrderCache` is the
`TOptional<TCircularBuffer<TUniquePtr<FBitReader>>>`: `none` when not set, otherwise the slots
(a slot is `none` when its pointer is not valid).  `Processed` is the log of the packets handed
to bunch processing, oldest first. -/
structure UNetConnection where
  InternalAck : Bool
  InPacketId : Int
  InPacketsLost : Int
  InTotalPacketsLost : Int
  TotalOutOfOrderPackets : Int
  PacketOrderCache : Option (List (Option Packet))
  PacketOrderCacheStartIdx : Nat
  PacketOrderCacheCount : Int
  bFlushingPacketOrderCache : Bool
  Processed : List Packet
deriving DecidableEq

/-- Modelled from the spec: `TCircularBuffer::GetNextIndex` is declared outside the source
files at hand; index arithmetic is modulo the capacity (spec 4.3). -/
def GetNextIndex (Capacity CurrentIndex : Nat) : Nat := (CurrentIndex + 1) % Capacity

/-- Modelled from the spec: `TCircularBuffer::GetPreviousIndex` is declared outside the source
files at hand; index arithmetic is modulo the capacity (spec 4.3). -/
def GetPreviousIndex (Capacity CurrentIndex : Nat) : Nat :=
  (CurrentIndex + Capacity - 1) % Capacity

/-- Modelled from the spec: `TCircularBuffer::operator[]` is declared outside the source files
at hand; the index is taken modulo the capacity (spec 4.3). -/
def cacheAt (Cache : List (Option Packet)) (Index : Nat) : Option Packet :=
  Cache.getD (Index % Cache.length) none

/-- Assignment through `TCircularBuffer::operator[]`, see `cacheAt`. -/
def cacheSet (Cache : List (Option Packet)) (Index : Nat) (v : Option Packet) :
    List (Option Packet) :=
  Cache.set (Index % Cache.length) v

/-- Modelled from the spec: `FMath::RoundUpToPowerOfTwo` is declared outside the source files
at hand; the cache capacity is a power of two (spec 4.3), the least one that is at least the
argument. -/
def RoundUpToPowerOfTwo (Arg : Int) : Nat := 2 ^ Nat.clog 2 Arg.toNat

/-- Modelled from the spec: `FNetPacketNotify::GetSequenceDelta` is declared outside the source
files at hand; it is the signed distance between the received sequence and the incoming
sequence (spec 4.1).  `ReceivedPacket` advances `InPacketId` by the delta and counts
`delta - 1` missing packets, so the distance is taken from the last accepted sequence,
`InPacketId`. -/
def GetSequenceDelta (c : UNetConnection) (Reader : Packet) : Int := Reader.Seq - c.InPacketId

/-! ## Packet order cache: operations -/

/-- `UNetConnection::ReceivedPacket`, the packet sequence part (the header is taken as read
successfully).  Everything after the sequence decision (notification update, bunch
disassembly and dispatch, ack) is the one step "append the packet to `Processed`". -/
def ReceivedPacket (cv : NetCVars) (c : UNetConnection) (Reader : Packet) : UNetConnection :=
  if c.InternalAck then
    { c with InPacketId := c.InPacketId + 1, Processed := c.Processed ++ [Reader] }
  else
    let bPacketOrderCacheActive := !c.bFlushingPacketOrderCache && c.PacketOrderCache.isSome
    let bCheckForMissingSequence :=
      bPacketOrderCacheActive && decide (c.PacketOrderCacheCount = 0)
    let bFillingPacketOrderCache :=
      bPacketOrderCacheActive && decide (c.PacketOrderCacheCount > 0)
    let MaxMissingPackets : Int :=
      if bCheckForMissingSequence then cv.PacketOrderMaxMissingPackets else 0
    let PacketSequenceDelta := GetSequenceDelta c Reader
    if PacketSequenceDelta > 0 then
      let MissingPacketCount := PacketSequenceDelta - 1
      if bFillingPacketOrderCache || (bCheckForMissingSequence
          && decide (MissingPacketCount > 0) && decide (MissingPacketCount ≤ MaxMissingPackets)) then
        match c.PacketOrderCache with
        | none => c
        | some Cache =>
          let CacheCapacity : Int := Cache.length
          let bLastCacheEntry := decide (PacketSequenceDelta - 1 ≥ CacheCapacity - 1)
          let LinearCacheIdx : Int :=
            if bLastCacheEntry then CacheCapacity - 1 else PacketSequenceDelta - 1
          let CiruclarCacheIdx :=
            Nat.iterate (GetNextIndex Cache.length) LinearCacheIdx.toNat c.PacketOrderCacheStartIdx
          match cacheAt Cache CiruclarCacheIdx with
          | none =>
            { c with
              PacketOrderCache := some (cacheSet Cache CiruclarCacheIdx (some Reader)),
              PacketOrderCacheCount := c.PacketOrderCacheCount + 1 }
          | some _ =>
            { c with TotalOutOfOrderPackets := c.TotalOutOfOrderPackets + 1 }
      else
        { c with
          InPacketsLost := c.InPacketsLost + MissingPacketCount,
          InTotalPacketsLost := c.InTotalPacketsLost + MissingPacketCount,
          InPacketId := c.InPacketId + PacketSequenceDelta,
          Processed := c.Processed ++ [Reader] }
    else
      let c1 : UNetConnection :=
        { c with TotalOutOfOrderPackets := c.TotalOutOfOrderPackets + 1 }
      if c1.PacketOrderCache.isNone ∧ cv.DoPacketOrderCorrection ≠ 0 then
        if c1.TotalOutOfOrderPackets ≥ cv.PacketOrderCorrectionEnableThreshold then
          let CacheSize := RoundUpToPowerOfTwo cv.PacketOrderMaxCachedPackets
          { c1 with PacketOrderCache := some (List.replicate CacheSize none) }
        else c1
      else c1

/-- The `while (PacketOrderCacheCount > 0)` loop of `FlushPacketOrderCache`.  The first
argument bounds the number of iterations; the result is `none` when the bound is reached
before the loop ends. -/
def flushLoop (cv : NetCVars) (bFlushWholeCache : Bool) :
    Nat → UNetConnection → Option UNetConnection
  | 0, _ => none
  | fuel + 1, c =>
    if c.PacketOrderCacheCount > 0 then
      match c.PacketOrderCache with
      | none => some c
      | some Cache =>
        match cacheAt Cache c.PacketOrderCacheStartIdx with
        | some CurCachePacket =>
          let c1 := ReceivedPacket cv c CurCachePacket
          let c2 := { c1 with
            PacketOrderCache :=
              c1.PacketOrderCache.map (fun C => cacheSet C c.PacketOrderCacheStartIdx none),
            PacketOrderCacheCount := c1.PacketOrderCacheCount - 1 }
          flushLoop cv bFlushWholeCache fuel { c2 with
            PacketOrderCacheStartIdx := GetNextIndex Cache.length c2.PacketOrderCacheStartIdx }
        | none =>
          if !bFlushWholeCache then some c
          else flushLoop cv bFlushWholeCache fuel { c with
            PacketOrderCacheStartIdx := GetNextIndex Cache.length c.PacketOrderCacheStartIdx }
    else some c

/-- `UNetConnection::FlushPacketOrderCache`; the first argument bounds the iterations of its
loop, see `flushLoop`. -/
def FlushPacketOrderCache (fuel : Nat) (cv : NetCVars) (c : UNetConnection)
    (bFlushWholeCache : Bool) : Option UNetConnection :=
  match c.PacketOrderCache with
  | none => some c
  | some Cache =>
    if c.PacketOrderCacheCount > 0 then
      let CacheEndIdx := GetPreviousIndex Cache.length c.PacketOrderCacheStartIdx
      let bEndOfCacheSet := (cacheAt Cache CacheEndIdx).isSome
      let c1 := { c with bFlushingPacketOrderCache := true }
      match flushLoop cv (bFlushWholeCache || bEndOfCacheSet) fuel c1 with
      | none => none
      | some c2 => some { c2 with bFlushingPacketOrderCache := false }
    else some c

/-- `UNetConnection::ReceivedRawPacket` from the point where the reader has bits left:
`ReceivedPacket(Reader)` followed by `FlushPacketOrderCache()`. -/
def ReceivedRawPacket (fuel : Nat) (cv : NetCVars) (c : UNetConnection) (Reader : Packet) :
    Option UNetConnection :=
  FlushPacketOrderCache fuel cv (ReceivedPacket cv c Reader) false

/-- A sequence of raw packets received one after the other, first arrival first. -/
def receiveAll (fuel : Nat) (cv : NetCVars) : UNetConnection → List Packet → Option UNetConnection
  | c, [] => some c
  | c, Reader :: rest =>
    match ReceivedRawPacket fuel cv c Reader with
    | none => none
    | some c1 => receiveAll fuel cv c1 rest

/-! ## Packet order cache: vocabulary of the specification -/

/-- The k consecutive sequence numbers starting at first. -/
def consecutive (first : Int) (k : Nat) : List Int :=
  (List.range k).map (fun (i : Nat) => first + (i : Int))

/-- The expected sequence: the least sequence number from e on that has not arrived yet
(seen lists the arrived ones; the first argument bounds the search). -/
def nextExpected (seen : List Int) : Nat → Int → Int
  | 0, e => e
  | k + 1, e => if e ∈ seen then nextExpected seen k (e + 1) else e

/-- No packet of the arrival order arrives further ahead of the expected sequence than the
window W: seen lists the sequence numbers that arrived before, first is the first sequence
number of the run. -/
def withinWindow (W first : Int) : List Int → List Int → Bool
  | _, [] => true
  | seen, s :: rest =>
    decide (s - nextExpected seen seen.length first ≤ W) && withinWindow W first (seen ++ [s]) rest

/-- Console variables for the examples: order correction enabled, threshold 1, the given
window and the given number of cached packets. -/
def exampleCVars (MaxMissingPackets MaxCachedPackets : Int) : NetCVars :=
  ⟨1, 1, MaxMissingPackets, MaxCachedPackets⟩

/-- A connection for the examples: not InternalAck, last accepted sequence InPacketId, one
out-of-order packet seen, the cache allocated with the given capacity and empty, start
index 0, not flushing, nothing processed yet. -/
def exampleConn (Capacity : Nat) (InPacketId : Int) : UNetConnection :=
  { InternalAck := false, InPacketId := InPacketId, InPacketsLost := 0, InTotalPacketsLost := 0,
    TotalOutOfOrderPackets := 1, PacketOrderCache := some (List.replicate Capacity none),
    PacketOrderCacheStartIdx := 0, PacketOrderCacheCount := 0,
    bFlushingPacketOrderCache := false, Processed := [] }

/-- The invariant of the packet order cache with window W and capacity cap: the cache is
allocated with slots C, the start index is in range, the count is the number of populated
slots, and the slot at offset i from the start index, when populated, holds the packet with
sequence InPacketId + 1 + i, with i within the window. -/
structure CacheInv (W : Int) (cap : Nat) (c : UNetConnection) (C : List (Option Packet)) :
    Prop where
  cache : c.PacketOrderCache = some C
  len : C.length = cap
  start : c.PacketOrderCacheStartIdx < cap
  internal : c.InternalAck = false
  count : c.PacketOrderCacheCount = (C.reduceOption.length : Int)
  aligned : ∀ i p, i < cap → cacheAt C (c.PacketOrderCacheStartIdx + i) = some p →
    p.Seq = c.InPacketId + 1 + i ∧ (i : Int) ≤ W

/-! ## Packet order cache: slots and runs -/

/-- The packets held by the cache, in buffer order (none when the cache is not set). -/
def cachedPackets (c : UNetConnection) : List Packet :=
  match c.PacketOrderCache with
  | none => []
  | some Cache => Cache.reduceOption

/-- The test of `ReceivedPacket` that sends a packet to the cache instead of processing it:
the connection is not InternalAck, the sequence delta is positive, and
`bFillingPacketOrderCache || (bCheckForMissingSequence && MissingPacketCount > 0 &&
MissingPacketCount <= MaxMissingPackets)`. -/
def takesCacheBranch (cv : NetCVars) (c : UNetConnection) (Reader : Packet) : Bool :=
  let bPacketOrderCacheActive := !c.bFlushingPacketOrderCache && c.PacketOrderCache.isSome
  let bCheckForMissingSequence :=
    bPacketOrderCacheActive && decide (c.PacketOrderCacheCount = 0)
  let bFillingPacketOrderCache :=
    bPacketOrderCacheActive && decide (c.PacketOrderCacheCount > 0)
  let MaxMissingPackets : Int :=
    if bCheckForMissingSequence then cv.PacketOrderMaxMissingPackets else 0
  let PacketSequenceDelta := GetSequenceDelta c Reader
  let MissingPacketCount := PacketSequenceDelta - 1
  !c.InternalAck && decide (PacketSequenceDelta > 0) &&
    (bFillingPacketOrderCache || (bCheckForMissingSequence
      && decide (MissingPacketCount > 0) && decide (MissingPacketCount ≤ MaxMissingPackets)))

/-- The populated slots met from slot s on, up to the first empty slot, visiting at most k
slots: the run replayed by a flush that stops at the first missing packet. -/
def populatedRun (Cache : List (Option Packet)) : Nat → Nat → List Packet
  | _, 0 => []
  | s, k + 1 =>
    match cacheAt Cache s with
    | some p => p :: populatedRun Cache (s + 1) k
    | none => []

/-- The packets in the k slots from slot s on, in slot order, empty slots skipped: what a
flush of the whole cache replays. -/
def slotsInOrder (Cache : List (Option Packet)) : Nat → Nat → List Packet
  | _, 0 => []
  | s, k + 1 =>
    match cacheAt Cache s with
    | some p => p :: slotsInOrder Cache (s + 1) k
    | none => slotsInOrder Cache (s + 1) k

/-- The k slots from slot s on are reset. -/
def clearSlots (Cache : List (Option Packet)) : Nat → Nat → List (Option Packet)
  | _, 0 => Cache
  | s, k + 1 => clearSlots (cacheSet Cache s none) (s + 1) k

/-- The packets are handed to `ReceivedPacket` one after the other. -/
def replayAll (cv : NetCVars) (c : UNetConnection) (Packets : List Packet) : UNetConnection :=
  Packets.foldl (ReceivedPacket cv) c

/-- The connection with the three cache fields replaced. -/
def withCacheState (c : UNetConnection) (Cache : List (Option Packet)) (StartIdx : Nat)
    (Count : Int) : UNetConnection :=
  { c with PacketOrderCache := some Cache, PacketOrderCacheStartIdx := StartIdx,
           PacketOrderCacheCount := Count }

/-- A connection whose cache holds the packet with sequence 2 at offset 1 (sequence 1 is
missing): capacity 8, last accepted sequence 0. -/
def fillingConn : UNetConnection :=
  { exampleConn 8 0 with
    PacketOrderCache := some [none, some ⟨2, 20⟩, none, none, none, none, none, none],
    PacketOrderCacheCount := 1 }

/-- A connection whose cache of capacity 8 starts at slot 6 and holds the sequences 11, 12, 13
in the slots 6, 7, 0 and the sequence 15 in slot 2; sequence 14 is missing, the last accepted
sequence is 10. -/
def runConn : UNetConnection :=
  { exampleConn 8 10 with
    PacketOrderCache :=
      some [some ⟨13, 3⟩, none, some ⟨15, 5⟩, none, none, none, some ⟨11, 1⟩, some ⟨12, 2⟩],
    PacketOrderCacheStartIdx := 6,
    PacketOrderCacheCount := 4 }

/-! ## Packet order cache: histories -/

/-- The packet order fields as the constructor of `UNetConnection` leaves them: no packet
accepted yet (`InPacketId` is -1), nothing lost, no out-of-order packet seen, the cache not
set. -/
def newConnection (InternalAck : Bool) : UNetConnection :=
  { InternalAck := InternalAck, InPacketId := -1, InPacketsLost := 0, InTotalPacketsLost := 0,
    TotalOutOfOrderPackets := 0, PacketOrderCache := none, PacketOrderCacheStartIdx := 0,
    PacketOrderCacheCount := 0, bFlushingPacketOrderCache := false, Processed := [] }

/-- One event in the life of the packet order code: a packet handed to `ReceivedPacket` from
outside, or a call of `FlushPacketOrderCache`. -/
inductive CacheEvent where
  | received (Reader : Packet)
  | flush (bFlushWholeCache : Bool)
deriving DecidableEq

/-- One event applied to a connection.  Next to the connection runs a counter of the
out-of-order packets observed so far: the packets received from outside on a connection that
is not InternalAck with sequence delta at most 0. -/
def observeEvent (fuel : Nat) (cv : NetCVars) (s : UNetConnection × Int) :
    CacheEvent → Option (UNetConnection × Int)
  | .received Reader =>
    some (ReceivedPacket cv s.1 Reader,
      if s.1.InternalAck = false ∧ GetSequenceDelta s.1 Reader ≤ 0 then s.2 + 1 else s.2)
  | .flush bFlushWholeCache =>
    match FlushPacketOrderCache fuel cv s.1 bFlushWholeCache with
    | none => none
    | some c => some (c, s.2)

/-- A history of events applied one after the other. -/
def observeEvents (fuel : Nat) (cv : NetCVars) :
    UNetConnection × Int → List CacheEvent → Option (UNetConnection × Int)
  | s, [] => some s
  | s, e :: rest =>
    match observeEvent fuel cv s e with
    | none => none
    | some s1 => observeEvents fuel cv s1 rest

/-- The relation between the cache, the out-of-order total and the number n of out-of-order
packets observed: while the cache is not set it holds no packet and the total is n; once it is
set, order correction is enabled, n has reached the threshold, the total is at least n and the
capacity is a power of two. -/
def ActivationInv (cv : NetCVars) (c : UNetConnection) (n : Int) : Prop :=
  (c.PacketOrderCache = none → c.TotalOutOfOrderPackets = n ∧ c.PacketOrderCacheCount = 0) ∧
  (∀ C, c.PacketOrderCache = some C →
    cv.DoPacketOrderCorrection ≠ 0 ∧ cv.PacketOrderCorrectionEnableThreshold ≤ n ∧
    n ≤ c.TotalOutOfOrderPackets ∧ ∃ k : Nat, C.length = 2 ^ k)


/-- The classification passed to `CLOSE_CONNECTION_DUE_TO_SECURITY_VIOLATION`. -/
inductive ESecurityEvent where
  | Malformed_Packet
  | Invalid_Data
deriving DecidableEq

/-- What `UNetConnection::ReceivedRawPacket` does with a raw packet that reaches its size
check: it closes the connection with a security violation and does not call
`ReceivedPacket`; or it calls `ReceivedPacket` and `FlushPacketOrderCache` on a reader of
`BitSize` bits; or the reader has no bits left and nothing is done. -/
inductive RawPacketOutcome where
  | closed (Event : ESecurityEvent)
  | received (BitSize : Int)
  | nothing (BitSize : Int)
deriving DecidableEq

/-- The loop `while (!(LastByte & 0x80)) { LastByte *= 2; BitSize--; }`.  `LastByte` is a
`uint8`, so the product is taken modulo 256.  The first argument bounds the number of times
the loop condition is evaluated; the result is `none` when the bound is reached before the
loop ends. -/
def trimLoop : Nat → Nat → Int → Option (Nat × Int)
  | 0, _, _ => none
  | fuel + 1, LastByte, BitSize =>
    if LastByte &&& 0x80 = 0 then trimLoop fuel (LastByte * 2 % 256) (BitSize - 1)
    else some (LastByte, BitSize)

/-- The byte `uint8 LastByte = Data[Count-1]` of a raw packet. -/
def lastByteOf (Data : List Nat) : Nat := Data.getD (Data.length - 1) 0 % 256

/-- The `BitSize` with which `ReceivedRawPacket` constructs its `FBitReader`, for a packet
with `Count > 0` and a last byte that is not 0. -/
def ReaderBitSize (fuel : Nat) (Data : List Nat) : Option Int :=
  let Count : Int := Data.length
  match trimLoop fuel (lastByteOf Data) (Count * 8 - 1) with
  | none => none
  | some (_, BitSize) => some BitSize

/-- `UNetConnection::ReceivedRawPacket` from its size check on, on the bytes of the packet
(no packet handler is set, so `IncomingHigh` is not called before `GetBitsLeft`). -/
def ReceivedRawPacketData (fuel : Nat) (Data : List Nat) : Option RawPacketOutcome :=
  let Count : Int := Data.length
  if Count > 0 then
    let LastByte := lastByteOf Data
    if LastByte ≠ 0 then
      match ReaderBitSize fuel Data with
      | none => none
      | some BitSize =>
        if BitSize > 0 then some (.received BitSize) else some (.nothing BitSize)
    else some (.closed .Malformed_Packet)
  else some (.closed .Malformed_Packet)

/-- The value of a byte whose bits are given least significant bit first. -/
def byteOfBits : List Bool → Nat
  | [] => 0
  | b :: rest => (if b then 1 else 0) + 2 * byteOfBits rest

/-- The first argument is the number of bytes to produce. -/
def packBitsAux : Nat → List Bool → List Nat
  | 0, _ => []
  | n + 1, bits => byteOfBits (bits.take 8) :: packBitsAux n (bits.drop 8)

/-- Modelled from the spec: `FBitWriter` is declared outside the source files at hand.  The
bits of a buffer are laid out byte after byte, least significant bit first ("Bit streaming,
starts at the Least Significant Bit, and ends at the MSB"), and the last byte is padded with
zero bits. -/
def packBits (bits : List Bool) : List Nat := packBitsAux ((bits.length + 7) / 8) bits

/-- The bytes sent for a packet body by `FlushNet`: the body followed by the termination bit
written by `SendBuffer.WriteBit(1)`. -/
def withTerminationBit (body : List Bool) : List Nat := packBits (body ++ [true])

/-! ## Packet processing: bit streams

`FBitReader`, `FBitWriter` and `UPackageMap::StaticSerializeName` are declared outside the
source files at hand.  The specification gives the wire format field by field ("conceptual,
not bit-exact"), and so does this model: a stream is a list of fields. -/

/-- A channel name (`FName`), identified by a number. -/
abbrev FName := Nat

/-- Modelled from the spec: one field of a serialized stream (`FBitWriter` / `FBitReader` are
declared outside the source files at hand).  `bit` is one bit (`WriteBit` / `ReadBit`, and
each bit of a payload); `int` is a bounded integer (`SerializeInt`, `WriteIntWrapped` /
`ReadInt`) with its bound; `packed` is a `SerializeIntPacked` integer; `name` is a name
written by `UPackageMap::StaticSerializeName`. -/
inductive StreamField where
  | bit (b : Bool)
  | int (Value ValueMax : Nat)
  | packed (Value : Nat)
  | name (Name : FName)
deriving DecidableEq

/-- Modelled from the spec: the `FBitReader` (declared outside the source files at hand), the
fields not read yet and the error flag `IsError()`.  A read that does not find its field sets
the flag and yields 0; once the flag is set every read yields 0. -/
structure FBitReader where
  Fields : List StreamField
  bError : Bool
deriving DecidableEq

/-- Modelled from the spec: `FBitReader::AtEnd` (declared outside the source files at hand);
nothing is left to read, or the reader is in error. -/
def FBitReader.AtEnd (r : FBitReader) : Bool := r.bError || r.Fields.isEmpty

/-- The reader after a failed read. -/
def FBitReader.failed : FBitReader := { Fields := [], bError := true }

/-- Modelled from the spec: `FBitReader::ReadBit`. -/
def FBitReader.ReadBit (r : FBitReader) : Bool × FBitReader :=
  if r.bError then (false, r)
  else
    match r.Fields with
    | .bit b :: rest => (b, { r with Fields := rest })
    | _ => (false, FBitReader.failed)

/-- Modelled from the spec: `FBitReader::ReadInt(Max)`; the value read is below `Max`. -/
def FBitReader.ReadInt (r : FBitReader) (Max : Nat) : Nat × FBitReader :=
  if r.bError then (0, r)
  else
    match r.Fields with
    | .int Value ValueMax :: rest =>
      if ValueMax = Max ∧ Value < Max then (Value, { r with Fields := rest })
      else (0, FBitReader.failed)
    | _ => (0, FBitReader.failed)

/-- Modelled from the spec: `FBitReader::SerializeIntPacked`, reading a `uint32`. -/
def FBitReader.SerializeIntPacked (r : FBitReader) : Nat × FBitReader :=
  if r.bError then (0, r)
  else
    match r.Fields with
    | .packed Value :: rest =>
      if Value < 4294967296 then (Value, { r with Fields := rest })
      else (0, FBitReader.failed)
    | _ => (0, FBitReader.failed)

/-- Modelled from the spec: `UPackageMap::StaticSerializeName` on a reader; the second
argument is the value the name has when nothing is read. -/
def FBitReader.StaticSerializeName (r : FBitReader) (Default : FName) : FName × FBitReader :=
  if r.bError then (Default, r)
  else
    match r.Fields with
    | .name Name :: rest => (Name, { r with Fields := rest })
    | _ => (Default, FBitReader.failed)

/-- The next n bits of a list of fields, and the fields after them; `none` when fewer than n
bits follow. -/
def takeBits : Nat → List StreamField → Option (List Bool × List StreamField)
  | 0, fields => some ([], fields)
  | n + 1, .bit b :: rest =>
    match takeBits n rest with
    | some (bits, rest1) => some (b :: bits, rest1)
    | none => none
  | _ + 1, _ => none

/-- Modelled from the spec: `FInBunch::SetData(Reader, CountBits)`, which moves the next
`CountBits` bits of the reader into the bunch and sets the error flag of the reader when the
reader holds fewer bits. -/
def FBitReader.ReadBits (r : FBitReader) (CountBits : Nat) : List Bool × FBitReader :=
  if r.bError then ([], r)
  else
    match takeBits CountBits r.Fields with
    | some (bits, rest) => (bits, { r with Fields := rest })
    | none => ([], FBitReader.failed)

/-! ## Packet processing: data model -/

/-- `EConnectionState`. -/
inductive EConnectionState where
  | USOCK_Invalid
  | USOCK_Closed
  | USOCK_Pending
  | USOCK_Open
deriving DecidableEq

/-- The fields of `FInBunch` set by the bunch header parse of `ReceivedPacket`, and the
payload bits.  (`ChType` is left out: it is derived from the name and not read again.) -/
structure FInBunch where
  PacketId : Int
  bOpen : Bool
  bClose : Bool
  bDormant : Bool
  CloseReason : Nat
  bIsReplicationPaused : Bool
  bReliable : Bool
  ChIndex : Nat
  bHasPackageMapExports : Bool
  bHasMustBeMappedGUIDs : Bool
  bPartial : Bool
  ChSequence : Int
  bPartialInitial : Bool
  bPartialFinal : Bool
  ChName : FName
  Data : List Bool
deriving DecidableEq

/-- The fields of `FOutBunch` read by `SendRawBunch`, and the payload bits
(`Bunch.GetData()`, `Bunch.GetNumBits()` of them). -/
structure FOutBunch where
  bOpen : Bool
  bClose : Bool
  CloseReason : Nat
  bIsReplicationPaused : Bool
  bReliable : Bool
  ChIndex : Nat
  bHasPackageMapExports : Bool
  bHasMustBeMappedGUIDs : Bool
  bPartial : Bool
  ChSequence : Nat
  bPartialInitial : Bool
  bPartialFinal : Bool
  ChName : FName
  Data : List Bool
deriving DecidableEq

/-- What `ReceivedPacket` does that is visible outside the connection, in the order in which
it happens. -/
inductive NetEvent where
  | SecurityViolation (Event : ESecurityEvent)
  | Close
  | FlushNet
  | ReceivedAck (PacketId : Int)
  | ReceivedNak (PacketId : Int)
  | CreateChannel (ChName : FName) (ChIndex : Nat)
  | ChannelRefused (ChIndex : Nat)
  | NotProcessed (ChIndex : Nat)
  | ReceivedRawBunch (Bunch : FInBunch) (bLocalSkipAck : Bool)
  | CorruptedBunch (ChIndex : Nat)
  | AckSeq (PacketId : Int)
  | NakSeq (PacketId : Int)
deriving DecidableEq

/-- The connection as `ReceivedPacket` sees it: the packet order fields of `UNetConnection`
together with the connection state, the pending ack counter, the channel table (for each
index the name of the channel, `none` for a null pointer), the reliable sequences, the last
notified packet id, and the log of events. -/
structure UNetConnectionFull extends UNetConnection where
  State : EConnectionState
  HasDirtyAcks : Nat
  MaxChannelSize : Nat
  Channels : List (Option FName)
  InReliable : List Int
  LastNotifiedPacketId : Int
  Log : List NetEvent
deriving DecidableEq

/-- Everything `ReceivedPacket` and `SendRawBunch` take from outside the source files at hand:
constants of the engine headers, the protocol version of the connection, the state of the
driver, and the answers of the collaborators. -/
structure NetEnv where
  /-- `UNetConnection::MaxPacket`. -/
  MaxPacket : Nat
  MAX_CHSEQUENCE : Nat
  /-- The bound `(uint32)EChannelCloseReason::MAX`. -/
  CloseReasonMAX : Nat
  /-- The value of `EChannelCloseReason::Destroyed`. -/
  Destroyed : Nat
  /-- The value of `EChannelCloseReason::Dormancy`. -/
  Dormancy : Nat
  CHTYPE_MAX : Nat
  CHTYPE_None : Nat
  NAME_None : FName
  NAME_Control : FName
  /-- The `switch (Bunch.ChType)` of old protocol versions: the name for a channel type. -/
  ChTypeName : Nat → FName
  /-- The bound `FNetPacketNotify::MaxSequenceHistoryLength`. -/
  MaxSequenceHistoryLength : Nat
  /-- The conversion `FNetPacketNotify::SequenceNumberT(LastNotifiedPacketId)`. -/
  SequenceNumberT : Int → Int
  /-- The function `MakeRelative(Value, Reference, Max)`. -/
  MakeRelative : Nat → Int → Nat → Int
  /-- The test `Bunch.EngineNetVer() < HISTORY_CHANNEL_CLOSE_REASON`. -/
  bBeforeCloseReason : Bool
  /-- The test `Bunch.EngineNetVer() < HISTORY_MAX_ACTOR_CHANNELS_CUSTOMIZATION`. -/
  bBeforeMaxChannels : Bool
  /-- The test `Bunch.EngineNetVer() < HISTORY_CHANNEL_NAMES`. -/
  bBeforeChannelNames : Bool
  /-- The test `EngineNetworkProtocolVersion < HISTORY_ACKS_INCLUDED_IN_HEADER`. -/
  bBeforeAcksInHeader : Bool
  /-- The answer of `Driver->IsServer()`. -/
  bIsServer : Bool
  /-- Whether `Driver->ServerConnection` is set. -/
  bHasServerConnection : Bool
  /-- The test `PlayerController == NULL && Driver->ClientConnections.Contains(this)`. -/
  bLoggingIn : Bool
  /-- The test of `Close` before its `FlushNet`:
  `(Handler == nullptr || Handler->IsFullyInitialized()) && HasReceivedClientPacket()`. -/
  bCloseFlushes : Bool
  IsKnownChannelName : FName → Bool
  /-- The flag `Driver->ChannelDefinitionMap[ChName].bClientOpen`. -/
  bClientOpen : FName → Bool
  /-- The answer of `Driver->Notify->NotifyAcceptingChannel` for a new channel. -/
  NotifyAcceptingChannel : Nat → FName → Bool
  /-- The answer of `Channel->ReceivedRawBunch`: `bLocalSkipAck`, and whether the bunch is
  in error afterwards (`Bunch.IsCriticalError() || Bunch.IsError()`). -/
  ReceivedRawBunch : FInBunch → Bool × Bool
  /-- Whether the replay code for already opened channels skips the bunch
  (`bIgnoreAlreadyOpenedChannels`, `IgnoringChannels`). -/
  bIgnoredOpenedChannel : FInBunch → Bool
  /-- Whether the replay code for ignored actors skips the bunch (`bIgnoreActorBunches`,
  `IgnoredBunchGuids`, `IgnoredBunchChannels`). -/
  bIgnoredActorBunch : FInBunch → Bool
  /-- The value `FlushNet` leaves in `HasDirtyAcks`, given the value before: `FlushNet` resets
  the counter when it rewrites the packet header and leaves it alone otherwise. -/
  FlushedDirtyAcks : Nat → Nat

/-- A packet as `ReceivedPacket` gets it: whether the reader is in error on entry, whether
`PacketNotify.ReadHeader` succeeds, the sequence number in the header, the delivery
notifications `PacketNotify.Update` dispatches for the ack history of the header (acked
sequence and delivered flag, in order), whether `ReadPacketInfo` succeeds, and the fields
that follow: the bunches.  `Data` identifies the packet in the `Processed` log. -/
structure FInPacket where
  bReaderError : Bool
  bHeaderOk : Bool
  Seq : Int
  Data : Nat
  Notifications : List (Int × Bool)
  bPacketInfoOk : Bool
  Bunches : List StreamField
deriving DecidableEq

/-- The packet as the packet order code sees it. -/
def FInPacket.toPacket (Reader : FInPacket) : Packet := ⟨Reader.Seq, Reader.Data⟩

/-! ## Packet processing: closing and flushing -/

/-- Appends an event to the log of the connection. -/
def UNetConnectionFull.logEvent (c : UNetConnectionFull) (e : NetEvent) : UNetConnectionFull :=
  { c with Log := c.Log ++ [e] }

/-- The part of `UNetConnection::FlushNet` seen by `ReceivedPacket`: the call, and what it
leaves in `HasDirtyAcks`. -/
def FlushNetAcks (env : NetEnv) (c : UNetConnectionFull) : UNetConnectionFull :=
  { c.logEvent .FlushNet with HasDirtyAcks := env.FlushedDirtyAcks c.HasDirtyAcks }

/-- `UNetConnection::Close` (the driver is set): nothing happens on a closed connection;
otherwise the state becomes `USOCK_Closed` and `FlushNet` is called when the handshake allows
it. -/
def Close (env : NetEnv) (c : UNetConnectionFull) : UNetConnectionFull :=
  if c.State ≠ .USOCK_Closed then
    let c1 := { c.logEvent .Close with State := .USOCK_Closed }
    if env.bCloseFlushes then FlushNetAcks env c1 else c1
  else c

/-- Modelled from the spec: the macro `CLOSE_CONNECTION_DUE_TO_SECURITY_VIOLATION` is defined
outside the source files at hand; the violation is reported with its classification and the
connection closes immediately (spec 4.4 (a)). -/
def CloseSecurityViolation (env : NetEnv) (c : UNetConnectionFull) (Event : ESecurityEvent) :
    UNetConnectionFull :=
  Close env (c.logEvent (.SecurityViolation Event))

/-- `UNetConnection::CreateChannelByName` with a given channel index: the channel is entered
in the channel table. -/
def CreateChannelByName (c : UNetConnectionFull) (ChName : FName) (ChIndex : Nat) :
    UNetConnectionFull :=
  { c.logEvent (.CreateChannel ChName ChIndex) with
    Channels := c.Channels.set ChIndex (some ChName) }

/-! ## Packet processing: one bunch -/

/-- The outcome of the bunch header parse: the connection was closed and `ReceivedPacket`
returns; or a table was indexed outside its bounds (which C++ leaves undefined); or the bunch
was read, leaving the reader after the payload, with the channel found at its index. -/
inductive ParseResult where
  | Closed (c : UNetConnectionFull)
  | IndexOutOfRange
  | Parsed (Bunch : FInBunch) (Reader : FBitReader) (Channel : Option FName)
deriving DecidableEq

/-- The reliable sequence of the bunch and the reader after it; `none` when `InReliable` is
indexed outside its bounds. -/
def ReadChSequence (env : NetEnv) (c : UNetConnectionFull) (bReliable bPartial : Bool)
    (ChIndex : Nat) (Reader : FBitReader) : Option (Int × FBitReader) :=
  if bReliable then
    match c.InReliable[ChIndex]? with
    | none => none
    | some InReliable =>
      if c.InternalAck then some (InReliable + 1, Reader)
      else
        let x := Reader.ReadInt env.MAX_CHSEQUENCE
        some (env.MakeRelative x.1 InReliable env.MAX_CHSEQUENCE, x.2)
  else if bPartial then some (c.InPacketId, Reader)
  else some (0, Reader)

/-- The channel name of the bunch and the reader after it; `none` when the name cannot be
read ("Channel name serialization failed"). -/
def ReadChName (env : NetEnv) (bReliable bOpen : Bool) (Reader : FBitReader) :
    Option (FName × FBitReader) :=
  if env.bBeforeChannelNames then
    let x := if bReliable || bOpen then Reader.ReadInt env.CHTYPE_MAX
      else (env.CHTYPE_None, Reader)
    some (env.ChTypeName x.1, x.2)
  else if bReliable || bOpen then
    let x := Reader.StaticSerializeName env.NAME_None
    if x.2.bError then none else some x
  else some (env.NAME_None, Reader)

/-- The bunch header parse of `ReceivedPacket` from `bHasPackageMapExports` on, for a bunch
whose first fields are read already. -/
def ReadBunchTail (env : NetEnv) (c : UNetConnectionFull) (Bunch : FInBunch)
    (Reader : FBitReader) : ParseResult :=
  let xExports := Reader.ReadBit
  let xGUIDs := xExports.2.ReadBit
  let xPartial := xGUIDs.2.ReadBit
  match ReadChSequence env c Bunch.bReliable xPartial.1 Bunch.ChIndex xPartial.2 with
  | none => .IndexOutOfRange
  | some xSequence =>
    let xInitial := if xPartial.1 then xSequence.2.ReadBit else (false, xSequence.2)
    let xFinal := if xPartial.1 then xInitial.2.ReadBit else (false, xInitial.2)
    match ReadChName env Bunch.bReliable Bunch.bOpen xFinal.2 with
    | none => .Closed (CloseSecurityViolation env c .Malformed_Packet)
    | some xName =>
      match c.Channels[Bunch.ChIndex]? with
      | none => .IndexOutOfRange
      | some Channel =>
        if Channel.isSome ∧ xName.1 ≠ env.NAME_None ∧ Channel ≠ some xName.1 then
          .Closed (Close env c)
        else
          let xDataBits := xName.2.ReadInt (env.MaxPacket * 8)
          if xDataBits.2.bError then
            .Closed (CloseSecurityViolation env c .Malformed_Packet)
          else
            let xData := xDataBits.2.ReadBits xDataBits.1
            if xData.2.bError then .Closed (CloseSecurityViolation env c .Invalid_Data)
            else
              .Parsed
                { Bunch with
                  bHasPackageMapExports := xExports.1,
                  bHasMustBeMappedGUIDs := xGUIDs.1,
                  bPartial := xPartial.1,
                  ChSequence := xSequence.1,
                  bPartialInitial := xInitial.1,
                  bPartialFinal := xFinal.1,
                  ChName := xName.1,
                  Data := xData.1 }
                xData.2 Channel

/-- The bunch header parse of `ReceivedPacket` from the channel index on, for a bunch whose
first fields are read already: the index is read, checked against `MaxChannelSize` on the
current protocol version, and the parse goes on with `bHasPackageMapExports`. -/
def ReadBunchIndex (env : NetEnv) (c : UNetConnectionFull) (Bunch : FInBunch)
    (Reader : FBitReader) : ParseResult :=
  if env.bBeforeMaxChannels then
    let xIndex := Reader.ReadInt 10240
    ReadBunchTail env c { Bunch with ChIndex := xIndex.1 } xIndex.2
  else
    let xIndex := Reader.SerializeIntPacked
    if xIndex.1 ≥ c.MaxChannelSize then
      .Closed (CloseSecurityViolation env c .Malformed_Packet)
    else ReadBunchTail env c { Bunch with ChIndex := xIndex.1 } xIndex.2

/-- The close reason of the bunch with its `bDormant` flag, and the reader after it. -/
def ReadCloseReason (env : NetEnv) (bClose : Bool) (Reader : FBitReader) :
    (Bool × Nat) × FBitReader :=
  if env.bBeforeCloseReason then
    let x := if bClose then Reader.ReadBit else (false, Reader)
    ((x.1, if x.1 then env.Dormancy else env.Destroyed), x.2)
  else
    let x := if bClose then Reader.ReadInt env.CloseReasonMAX else (env.Destroyed, Reader)
    ((decide (x.1 = env.Dormancy), x.1), x.2)

/-- The bunch header parse of `ReceivedPacket` ("Parse the incoming data"), up to and
including `Bunch.SetData`. -/
def ReadBunch (env : NetEnv) (c : UNetConnectionFull) (Reader : FBitReader) : ParseResult :=
  let xControl := Reader.ReadBit
  let xOpen := if xControl.1 then xControl.2.ReadBit else (false, xControl.2)
  let xClose := if xControl.1 then xOpen.2.ReadBit else (false, xOpen.2)
  let xReason := ReadCloseReason env xClose.1 xClose.2
  let xPaused := xReason.2.ReadBit
  let xReliable := xPaused.2.ReadBit
  ReadBunchIndex env c
    { PacketId := c.InPacketId, bOpen := xOpen.1, bClose := xClose.1,
      bDormant := xReason.1.1, CloseReason := xReason.1.2,
      bIsReplicationPaused := xPaused.1, bReliable := xReliable.1, ChIndex := 0,
      bHasPackageMapExports := false, bHasMustBeMappedGUIDs := false, bPartial := false,
      ChSequence := 0, bPartialInitial := false, bPartialFinal := false,
      ChName := env.NAME_None, Data := [] }
    xReliable.2

/-- How one pass through the body of the bunch loop ends: with `return`; or with `continue`
or at the end of the body, with the new values of `bSkipAck` and `RejectedChans`. -/
inductive BunchResult where
  | Return (c : UNetConnectionFull)
  | Next (c : UNetConnectionFull) (bSkipAck : Bool) (RejectedChans : List Nat)
deriving DecidableEq

/-- The end of the loop body of `ReceivedPacket`: "Dispatch the raw, unsequenced bunch to the
channel", and the disconnect on a corrupted bunch from a client. -/
def DispatchBunch (env : NetEnv) (c : UNetConnectionFull) (Bunch : FInBunch)
    (bSkipAck : Bool) (RejectedChans : List Nat) : BunchResult :=
  let x := env.ReceivedRawBunch Bunch
  let c1 := c.logEvent (.ReceivedRawBunch Bunch x.1)
  if !env.bHasServerConnection ∧ x.2 then
    .Next (Close env (c1.logEvent (.CorruptedBunch Bunch.ChIndex))) true RejectedChans
  else .Next c1 (bSkipAck || x.1) RejectedChans

/-- The block "Create channel if necessary" of the loop body of `ReceivedPacket`, entered
when no channel exists at the index of the bunch, followed by the dispatch of the bunch to
the new channel.  A channel refused by `NotifyAcceptingChannel` is closed, flushed and
cleaned up, which takes it out of the channel table again. -/
def OpenChannelForBunch (env : NetEnv) (c : UNetConnectionFull) (Bunch : FInBunch)
    (bSkipAck : Bool) (RejectedChans : List Nat) : BunchResult :=
  if RejectedChans.contains Bunch.ChIndex then .Next c bSkipAck RejectedChans
  else if env.IsKnownChannelName Bunch.ChName = false then
    .Return (CloseSecurityViolation env c .Invalid_Data)
  else if env.bIsServer ∧ env.bClientOpen Bunch.ChName = false then
    .Next c bSkipAck (RejectedChans ++ [Bunch.ChIndex])
  else if c.InternalAck ∧ env.bIgnoredActorBunch Bunch then
    .Next c bSkipAck RejectedChans
  else if env.NotifyAcceptingChannel Bunch.ChIndex Bunch.ChName = false then
    let c1 := CreateChannelByName c Bunch.ChName Bunch.ChIndex
    let c2 := FlushNetAcks env (c1.logEvent (.ChannelRefused Bunch.ChIndex))
    let c3 := { c2 with Channels := c2.Channels.set Bunch.ChIndex none }
    .Next (if Bunch.ChIndex = 0 then { c3 with State := .USOCK_Closed } else c3) bSkipAck
      (RejectedChans ++ [Bunch.ChIndex])
  else
    DispatchBunch env (CreateChannelByName c Bunch.ChName Bunch.ChIndex) Bunch bSkipAck
      RejectedChans

/-- The loop body of `ReceivedPacket` after the bunch header parse, for the bunch read and
the channel found at its index.  The tables are indexed here with indices the parse has used
already, and with 0. -/
def HandleBunch (env : NetEnv) (c : UNetConnectionFull) (Bunch : FInBunch)
    (Channel : Option FName) (bSkipAck : Bool) (RejectedChans : List Nat) : BunchResult :=
  let bNoChannel : Bool := (c.Channels.getD Bunch.ChIndex none).isNone
  let bNoControl : Bool := (c.Channels.getD 0 none).isNone
  let bNotControl : Bool := Bunch.ChIndex ≠ 0 ∨ Bunch.ChName ≠ env.NAME_Control
  if bNoChannel ∧ bNotControl ∧ bNoControl then .Return (Close env c)
  else if bNoChannel ∧ bNotControl ∧ env.bLoggingIn then
    .Return (CloseSecurityViolation env c .Malformed_Packet)
  else if Bunch.ChIndex = 0 ∧ bNoControl ∧ Bunch.bClose ∧ Bunch.ChName = env.NAME_Control then
    .Return (Close env c)
  else if c.InternalAck ∧ Channel.isSome ∧ env.bIgnoredOpenedChannel Bunch then
    .Next c bSkipAck RejectedChans
  else if Bunch.bReliable ∧ Bunch.ChSequence ≤ c.InReliable.getD Bunch.ChIndex 0 then
    .Next c bSkipAck RejectedChans
  else if Channel.isNone ∧ Bunch.bReliable = false
      ∧ (Bunch.bOpen && (Bunch.bClose || Bunch.bPartial)) = false then
    .Next (c.logEvent (.NotProcessed Bunch.ChIndex)) true RejectedChans
  else if Channel.isNone then OpenChannelForBunch env c Bunch bSkipAck RejectedChans
  else DispatchBunch env c Bunch bSkipAck RejectedChans

/-! ## Packet processing: the packet -/

/-- How the bunch loop of `ReceivedPacket` ends: `ReceivedPacket` returns from inside the
loop; or a table is indexed outside its bounds; or the loop is left, with the final value of
`bSkipAck`. -/
inductive LoopResult where
  | Return (c : UNetConnectionFull)
  | IndexOutOfRange
  | Finished (c : UNetConnectionFull) (bSkipAck : Bool)
deriving DecidableEq

/-- The loop `while (!Reader.AtEnd() && State != USOCK_Closed)` of `ReceivedPacket`
("Disassemble and dispatch all bunches in the packet").  The first argument bounds the number
of iterations; the result is `none` when the bound is reached before the loop ends. -/
def BunchLoop (env : NetEnv) :
    Nat → UNetConnectionFull → FBitReader → Bool → List Nat → Option LoopResult
  | 0, _, _, _, _ => none
  | fuel + 1, c, Reader, bSkipAck, RejectedChans =>
    if !Reader.AtEnd ∧ c.State ≠ .USOCK_Closed then
      let Reader1 :=
        if c.InternalAck ∧ env.bBeforeAcksInHeader then Reader.ReadBit.2 else Reader
      match ReadBunch env c Reader1 with
      | .Closed c1 => some (.Return c1)
      | .IndexOutOfRange => some .IndexOutOfRange
      | .Parsed Bunch Reader2 Channel =>
        match HandleBunch env c Bunch Channel bSkipAck RejectedChans with
        | .Return c1 => some (.Return c1)
        | .Next c1 bSkipAck1 RejectedChans1 =>
          BunchLoop env fuel c1 Reader2 bSkipAck1 RejectedChans1
    else some (.Finished c bSkipAck)

/-- The lambda `HandlePacketNotification` of `ReceivedPacket`, called by
`PacketNotify.Update` for each delivery notification. -/
def HandlePacketNotification (env : NetEnv) (c : UNetConnectionFull)
    (Notification : Int × Bool) : UNetConnectionFull :=
  let c1 := { c with LastNotifiedPacketId := c.LastNotifiedPacketId + 1 }
  if env.SequenceNumberT c1.LastNotifiedPacketId ≠ Notification.1 then
    CloseSecurityViolation env c1 .Malformed_Packet
  else if Notification.2 then c1.logEvent (.ReceivedAck c1.LastNotifiedPacketId)
  else c1.logEvent (.ReceivedNak c1.LastNotifiedPacketId)

/-- The flush of `ReceivedPacket` when too many acks are pending:
`if (HasDirtyAcks >= MaxSequenceHistoryLength) { FlushNet(); if (HasDirtyAcks) FlushNet(); }`. -/
def FlushIfTooManyAcks (env : NetEnv) (c : UNetConnectionFull) : UNetConnectionFull :=
  if c.HasDirtyAcks ≥ env.MaxSequenceHistoryLength then
    let c1 := FlushNetAcks env c
    if c1.HasDirtyAcks ≠ 0 then FlushNetAcks env c1 else c1
  else c

/-- The end of `ReceivedPacket` ("Acknowledge the packet"): on a connection that is not
InternalAck, `NakSeq` or `AckSeq` for `InPacketId`, `++HasDirtyAcks` (a `uint32`), and the
flush when too many acks are pending. -/
def AcknowledgePacket (env : NetEnv) (c : UNetConnectionFull) (bSkipAck : Bool) :
    UNetConnectionFull :=
  if !c.InternalAck then
    let c1 := c.logEvent (if bSkipAck then .NakSeq c.InPacketId else .AckSeq c.InPacketId)
    FlushIfTooManyAcks env { c1 with HasDirtyAcks := (c1.HasDirtyAcks + 1) % 4294967296 }
  else c

/-- What a call of `ReceivedPacket` comes to: it returns, leaving the connection as given; or
a table is indexed outside its bounds. -/
inductive PacketResult where
  | Done (c : UNetConnectionFull)
  | IndexOutOfRange
deriving DecidableEq

/-- `ReceivedPacket` from the bunch loop on. -/
def ProcessBunches (fuel : Nat) (env : NetEnv) (c : UNetConnectionFull)
    (Reader : FInPacket) : Option PacketResult :=
  match BunchLoop env fuel c ⟨Reader.Bunches, false⟩ false [] with
  | none => none
  | some (.Return c1) => some (.Done c1)
  | some .IndexOutOfRange => some .IndexOutOfRange
  | some (.Finished c1 bSkipAck) => some (.Done (AcknowledgePacket env c1 bSkipAck))

/-- `UNetConnection::ReceivedPacket`, with the notifications, the bunches and the ack.  The
packet order fields change as `ReceivedPacket` (the sequence part) says; the first argument
bounds the iterations of the bunch loop. -/
def ReceivedPacketFull (fuel : Nat) (env : NetEnv) (cv : NetCVars) (c : UNetConnectionFull)
    (Reader : FInPacket) : Option PacketResult :=
  if Reader.bReaderError then some (.Done c)
  else if c.InternalAck then
    ProcessBunches fuel env
      { c with toUNetConnection := ReceivedPacket cv c.toUNetConnection Reader.toPacket } Reader
  else if !Reader.bHeaderOk then
    some (.Done (CloseSecurityViolation env c .Malformed_Packet))
  else
    let PacketSequenceDelta := GetSequenceDelta c.toUNetConnection Reader.toPacket
    if PacketSequenceDelta > 0 then
      if takesCacheBranch cv c.toUNetConnection Reader.toPacket then
        some (.Done
          { c with toUNetConnection := ReceivedPacket cv c.toUNetConnection Reader.toPacket })
      else
        let c1 : UNetConnectionFull :=
          { c with toUNetConnection := ReceivedPacket cv c.toUNetConnection Reader.toPacket }
        let c2 := Reader.Notifications.foldl (HandlePacketNotification env) c1
        if !Reader.bPacketInfoOk then
          some (.Done (CloseSecurityViolation env c2 .Malformed_Packet))
        else ProcessBunches fuel env c2 Reader
    else
      some (.Done
        { c with toUNetConnection := ReceivedPacket cv c.toUNetConnection Reader.toPacket })

/-! ## Packet processing: the send side of a bunch -/

/-- The header `SendRawBunch` builds in `SendBunchHeader`, followed by the payload bits, as
`WriteBitsToSendBuffer` appends them.  `WriteIntWrapped(Value, Max)` writes `Value` wrapped
into the range below `Max`. -/
def SendRawBunch (env : NetEnv) (InternalAck : Bool) (Bunch : FOutBunch) : List StreamField :=
  [.bit (Bunch.bOpen || Bunch.bClose)]
  ++ (if Bunch.bOpen || Bunch.bClose then
        [.bit Bunch.bOpen, .bit Bunch.bClose]
        ++ (if Bunch.bClose then [.int Bunch.CloseReason env.CloseReasonMAX] else [])
      else [])
  ++ [.bit Bunch.bIsReplicationPaused, .bit Bunch.bReliable, .packed Bunch.ChIndex,
      .bit Bunch.bHasPackageMapExports, .bit Bunch.bHasMustBeMappedGUIDs, .bit Bunch.bPartial]
  ++ (if Bunch.bReliable && !InternalAck then
        [.int (Bunch.ChSequence % env.MAX_CHSEQUENCE) env.MAX_CHSEQUENCE]
      else [])
  ++ (if Bunch.bPartial then [.bit Bunch.bPartialInitial, .bit Bunch.bPartialFinal] else [])
  ++ (if Bunch.bReliable || Bunch.bOpen then [.name Bunch.ChName] else [])
  ++ [.int (Bunch.Data.length % (env.MaxPacket * 8)) (env.MaxPacket * 8)]
  ++ Bunch.Data.map .bit

/-! ## Packet processing: vocabulary of the specification -/

/-- The event is the local decision for a packet: a call of `PacketNotify.AckSeq` or of
`PacketNotify.NakSeq`. -/
def isAckSeq : NetEvent → Bool
  | .AckSeq _ => true
  | .NakSeq _ => true
  | _ => false

/-- The event marks a rejected bunch, one for which `bSkipAck` is set: an unreliable bunch
that is not processed, a bunch for which the channel reports `bLocalSkipAck`, a corrupted
bunch. -/
def skipsAck : NetEvent → Bool
  | .NotProcessed _ => true
  | .ReceivedRawBunch _ bLocalSkipAck => bLocalSkipAck
  | .CorruptedBunch _ => true
  | _ => false

/-- The number of calls of `AckSeq` and `NakSeq` among the events. -/
def countAcks (Events : List NetEvent) : Nat := (Events.filter isAckSeq).length

/-- The connection c1 arises from c by the events ev, none of them a call of `AckSeq` or
`NakSeq`: the packet order fields are the same, the log grows by ev, and `HasDirtyAcks` is
the same unless `FlushNet` was called. -/
structure StepsTo (c c1 : UNetConnectionFull) (ev : List NetEvent) : Prop where
  order : c1.toUNetConnection = c.toUNetConnection
  log : c1.Log = c.Log ++ ev
  noAck : ∀ e, e ∈ ev → isAckSeq e = false
  dirty : c1.HasDirtyAcks = c.HasDirtyAcks ∨ NetEvent.FlushNet ∈ ev

/-- An environment for the examples: the current protocol version, a server whose clients
may open every channel, every name known, every channel accepted, every bunch received
without error; names 0 (none) and 1 (control); `FlushNet` resets the pending acks. -/
def exampleEnv : NetEnv :=
  { MaxPacket := 1024, MAX_CHSEQUENCE := 1024, CloseReasonMAX := 15, Destroyed := 0,
    Dormancy := 1, CHTYPE_MAX := 8, CHTYPE_None := 0, NAME_None := 0, NAME_Control := 1,
    ChTypeName := fun t => t, MaxSequenceHistoryLength := 256,
    SequenceNumberT := fun x => x % 16384,
    MakeRelative := fun Value Reference _ => Reference + ((Value : Int) - Reference) % 1024,
    bBeforeCloseReason := false, bBeforeMaxChannels := false, bBeforeChannelNames := false,
    bBeforeAcksInHeader := false, bIsServer := true, bHasServerConnection := false,
    bLoggingIn := false, bCloseFlushes := true, IsKnownChannelName := fun _ => true,
    bClientOpen := fun _ => true, NotifyAcceptingChannel := fun _ _ => true,
    ReceivedRawBunch := fun _ => (false, false), bIgnoredOpenedChannel := fun _ => false,
    bIgnoredActorBunch := fun _ => false, FlushedDirtyAcks := fun _ => 0 }

/-- The example environment for a connection that runs a protocol version from before the
number of channels could be set: the channel index is read with `ReadInt(10240)`. -/
def legacyEnv : NetEnv := { exampleEnv with bBeforeMaxChannels := true }

/-- A connection for the examples: not InternalAck, open, last accepted sequence 10, the
given number of channels with the control channel (name 1) at index 0 and a channel with
name 7 at index 1, no ack pending. -/
def exampleConnFull (MaxChannelSize : Nat) : UNetConnectionFull :=
  { toUNetConnection := { newConnection false with InPacketId := 10 },
    State := .USOCK_Open, HasDirtyAcks := 0, MaxChannelSize := MaxChannelSize,
    Channels := (List.replicate MaxChannelSize none).set 0 (some 1) |>.set 1 (some 7),
    InReliable := List.replicate MaxChannelSize 0,
    LastNotifiedPacketId := 0, Log := [] }

/-- A bunch for the examples: unreliable, not partial, neither open nor close, on the given
channel, with three payload bits. -/
def exampleBunch (ChIndex : Nat) : FOutBunch :=
  { bOpen := false, bClose := false, CloseReason := 0, bIsReplicationPaused := false,
    bReliable := false, ChIndex := ChIndex, bHasPackageMapExports := false,
    bHasMustBeMappedGUIDs := false, bPartial := false, ChSequence := 0,
    bPartialInitial := false, bPartialFinal := false, ChName := 0,
    Data := [true, false, true] }

/-- What holds of every outcome of one pass through the loop body, entered with the
connection c and `bSkipAck` equal to b: a `return` leaves the connection closed; otherwise
the connection arises by events that hold no ack, and `bSkipAck` is set exactly when it was
set before or one of the events marks a rejected bunch. -/
def BunchResult.Sound (c : UNetConnectionFull) (b : Bool) : BunchResult → Prop
  | .Return c1 => c1.State = .USOCK_Closed
  | .Next c1 b1 _ => ∃ ev, StepsTo c c1 ev ∧ b1 = (b || ev.any skipsAck)

/-- What holds of every outcome of the bunch header parse: when `ReceivedPacket` returns from
it, the connection is closed. -/
def ParseResult.Sound : ParseResult → Prop
  | .Closed c1 => c1.State = .USOCK_Closed
  | _ => True

/-- What holds of every outcome of the bunch loop entered with the connection c and
`bSkipAck` equal to b: a `return` leaves the connection closed; when the loop is left, the
connection arises by events that hold no ack, and `bSkipAck` is set exactly when it was set
before or one of the events marks a rejected bunch. -/
def LoopResult.Sound (c : UNetConnectionFull) (b : Bool) : LoopResult → Prop
  | .Return c1 => c1.State = .USOCK_Closed
  | .IndexOutOfRange => True
  | .Finished c1 b1 => ∃ ev, StepsTo c c1 ev ∧ b1 = (b || ev.any skipsAck)

/-- The connection with which `ReceivedPacket` goes on after the delivery notifications of
an accepted packet: the sequence part is done and `PacketNotify.Update` has dispatched the
notifications. -/
def afterNotifications (env : NetEnv) (cv : NetCVars) (c : UNetConnectionFull)
    (Reader : FInPacket) : UNetConnectionFull :=
  Reader.Notifications.foldl (HandlePacketNotification env)
    { c with toUNetConnection := ReceivedPacket cv c.toUNetConnection Reader.toPacket }

/-- The processing of an accepted packet ends in a connection-closing protocol violation:
`ReceivedPacket` returns where `ReadPacketInfo` fails, after
`CLOSE_CONNECTION_DUE_TO_SECURITY_VIOLATION`, or it returns from inside the bunch loop, which
it does after `Close` or `CLOSE_CONNECTION_DUE_TO_SECURITY_VIOLATION` only.  Otherwise the
bunch loop is left and `ReceivedPacket` goes on to "Acknowledge the packet". -/
def endsInViolation (fuel : Nat) (env : NetEnv) (cv : NetCVars) (c : UNetConnectionFull)
    (Reader : FInPacket) : Bool :=
  !Reader.bPacketInfoOk ||
    match BunchLoop env fuel (afterNotifications env cv c Reader) ⟨Reader.Bunches, false⟩
        false [] with
    | some (.Return _) => true
    | _ => false

/-- The example environment when the channels report every bunch as corrupted
(`Bunch.IsCriticalError() || Bunch.IsError()`). -/
def corruptingEnv : NetEnv :=
  { exampleEnv with ReceivedRawBunch := fun _ => (false, true) }

/-- A packet for the examples: sequence 11, one delivery notification (for sequence 1), and
the example bunch on channel 1. -/
def examplePacket : FInPacket :=
  ⟨false, true, 11, 0, [(1, true)], true, SendRawBunch exampleEnv false (exampleBunch 1)⟩

/-- A bunch for the examples: the example bunch on channel 1 made reliable, with a channel
name (9) that is not the name of the channel at index 1 of the example connection (7). -/
def mismatchedBunch : FOutBunch :=
  { exampleBunch 1 with bReliable := true, ChName := 9, ChSequence := 1 }

/-- The fields of a bunch on channel 5000 as a connection before the customisation of the
number of channels reads them: not control, not paused, the given reliable flag, the channel
index as `ReadInt(10240)`, no exports, no GUIDs, not partial, the reliable sequence if
reliable, no payload. -/
def legacyBunchFields (bReliable : Bool) : List StreamField :=
  [.bit false, .bit false, .bit bReliable, .int 5000 10240, .bit false, .bit false,
    .bit false] ++ (if bReliable then [.int 1 1024, .int 1 8] else []) ++ [.int 0 8192]

/-- The reader r2 is a later state of the reader r1: it holds no more fields, and it is in
error when r1 is. -/
def FBitReader.After (r2 r1 : FBitReader) : Prop :=
  r2.Fields.length ≤ r1.Fields.length ∧ (r2.bError = false → r1.bError = false)

/-! ## Send path and lifecycle: data model

`FlushNet`, `WriteBitsToSendBuffer` and `Close` call each other, and nothing bounds the depth
of these calls in general, so they take a bound on the call depth as their first argument.
Times are numbers of seconds; the floating point values of the source are taken as exact
integers.  Signed 32 bit arithmetic is taken without overflow. -/

/-- Why a call does not return: a `check` that fails, or an array indexed outside its
bounds. -/
inductive Fault where
  /-- `check(Driver)`, or `Driver` dereferenced while null. -/
  | NoDriver
  /-- `check(MaxPacket > 0)` of `InitSendBuffer`. -/
  | MaxPacket
  /-- `check( NumberOfFreeBits >= 0 )` of `GetFreeSendBufferBits`. -/
  | FreeSendBufferBits
  /-- The `Peek` on an empty queue or the `check` of `ConsumeChannelRecordsForPacket`. -/
  | ChannelRecord
  /-- A `check` of `CreateChannelByName`, or the `checkf` of `Tick` on the ticking channels. -/
  | Channel
  /-- The `check` of `InitSequence`. -/
  | Sequence
  /-- An array indexed outside its bounds. -/
  | IndexOutOfRange
deriving DecidableEq

/-- How a call ends: it returns a value; or it does not return (see `Fault`); or the bound on
the call depth is reached. -/
inductive Outcome (α : Type) where
  | ok (a : α)
  | fault (f : Fault)
  | outOfFuel
deriving DecidableEq

/-- The rest of a function after a call that returns. -/
def Outcome.bind {α β : Type} (x : Outcome α) (f : α → Outcome β) : Outcome β :=
  match x with
  | .ok a => f a
  | .fault e => .fault e
  | .outOfFuel => .outOfFuel

/-- What the send path and the lifecycle functions do that is visible outside the connection,
in the order in which it happens. -/
inductive ConnEvent where
  /-- `LowLevelSend` of the send buffer holding the packet with this id. -/
  | LowLevelSend (PacketId : Int) (CountBits : Nat) (bIsKeepAlive : Bool)
  /-- `Channels[0]->Close(EChannelCloseReason::Destroyed)`. -/
  | ChannelClose
  /-- The call `FlushNet()` made by `Close`. -/
  | CloseFlush
  /-- `NetAnalyticsData->CommitAnalytics(AnalyticsVars)`. -/
  | CommitAnalytics
  /-- `GEngine->BroadcastNetworkFailure(..., ENetworkFailure::ConnectionTimeout, ...)`. -/
  | ConnectionTimeout
  /-- A call of `AckChannelFunc` on an existing channel. -/
  | AckChannel (PacketId : Int) (ChannelIndex : Nat)
  /-- A call of `NakChannelFunc` on an existing channel. -/
  | NakChannel (PacketId : Int) (ChannelIndex : Nat)
  /-- A call of `InternnalAckChannelFunc` on an existing channel. -/
  | InternalAckChannel (ChannelIndex : Nat)
  /-- `PackageMap->ReceivedAck` / `PackageMap->ReceivedNak`. -/
  | PackageMapNotified (PacketId : Int) (bDelivered : Bool)
  | SecurityViolation (Event : ESecurityEvent)
  /-- A channel created by `CreateChannelByName`. -/
  | CreateChannel (ChName : FName) (ChIndex : Nat)
  /-- The warning "No free channel could be found in the channel list". -/
  | ChannelLimitWarning
  /-- `PacketNotify.Init(InPacketId, OutPacketId)`. -/
  | PacketNotifyInit (InPacketId OutPacketId : Int)
  /-- `PacketNotify.CommitAndIncrementOutSeq()`. -/
  | CommitAndIncrementOutSeq
  /-- `PackageMap->NotifyBunchCommit(Bunch.PacketId, &Bunch)`. -/
  | NotifyBunchCommit (PacketId : Int)
  /-- `Tick` of a channel. -/
  | ChannelTick (ChIndex : Nat)
  /-- `Handler->Tick(FrameTime)` and the sends of the packets queued in the handler. -/
  | HandlerTick
  /-- `CleanUp` of the child connections. -/
  | ChildrenCleanUp
  /-- The connection removed from its driver. -/
  | RemovedFromDriver
  /-- `ConditionalCleanUp` of the open channels. -/
  | ChannelsCleanUp
  /-- The player controller set by `HandleClientPlayer`. -/
  | ClientPlayer
deriving DecidableEq

/-- The fields of `UNetConnection` used by the send path (`FlushNet`,
`WriteBitsToSendBuffer`, `SendRawBunch`, `IsNetReady`), by the packet notifications
(`ReceivedAck`, `ReceivedNak`) and by the lifecycle functions (`InitSequence`, `Close`,
`CleanUp`, `Tick`, `HandleClientPlayer`, `CreateChannelByName`).  `bHasDriver` is
`Driver != nullptr`, `bHandlerValid` is `Handler.IsValid()`; of the send buffer the number of
bits written and the maximum are kept; a channel is identified by its index.  Counters that
only feed statistics are left out. -/
structure UNetConnectionState where
  bHasDriver : Bool
  bHandlerValid : Bool
  State : EConnectionState
  InternalAck : Bool
  MaxPacket : Int
  PacketOverhead : Int
  MaxPacketHandlerBits : Int
  /-- `SendBuffer.GetNumBits()`. -/
  SendBufferNumBits : Nat
  /-- `SendBuffer.GetMaxBits()`. -/
  SendBufferMaxBits : Int
  QueuedBits : Int
  TimeSensitive : Bool
  AllowMerge : Bool
  HasDirtyAcks : Nat
  InPacketId : Int
  OutPacketId : Int
  OutAckPacketId : Int
  LastNotifiedPacketId : Int
  InitInReliable : Int
  InitOutReliable : Int
  InReliable : List Int
  OutReliable : List Int
  /-- For each index the name of the channel, `none` for a null pointer. -/
  Channels : List (Option FName)
  OpenChannels : List Nat
  ChannelsToTick : List Nat
  ChannelRecord : FWrittenChannelsRecord
  bHasWarnedAboutChannelLimit : Bool
  bPendingDestroy : Bool
  bConnectionPendingCloseDueToSocketSendFailure : Bool
  LastTime : Int
  FrameTime : Int
  LastSendTime : Int
  LastTickTime : Int
  LastReceiveTime : Int
  LastReceiveRealtime : Int
  LastGoodPacketRealtime : Int
  LogCallLastTime : Int
  LogCallCount : Int
  LogSustainedCount : Int
  Log : List ConnEvent
deriving DecidableEq

/-- Everything the send path and the lifecycle functions take from outside the source files
at hand: console variables, constants of the engine headers, the state of the driver and of
the clock, and the answers of the collaborators. -/
structure ConnEnv where
  /-- `CVarRandomizeSequence`. -/
  RandomizeSequence : Int
  /-- `CVarForceNetFlush` (0 in a shipping build). -/
  ForceNetFlush : Int
  /-- `CVarTickAllOpenChannels`. -/
  TickAllOpenChannels : Int
  MAX_PACKET_HEADER_BITS : Int
  MAX_PACKET_TRAILER_BITS : Int
  MAX_CHSEQUENCE : Int
  /-- The number of bits `PacketNotify.WriteHeader` writes. -/
  PacketHeaderBits : Nat
  /-- The answer of `PacketNotify.WriteHeader` when it refreshes a header. -/
  bWroteHeader : Bool
  /-- The value of `bHasServerFrameTime` in `WritePacketInfo`. -/
  bHasServerFrameTime : Bool
  /-- The answer of `Driver->IsServer()`. -/
  bIsServer : Bool
  /-- Whether `Driver->ServerConnection` is set. -/
  bHasServerConnection : Bool
  /-- The answer of `Handler->IsFullyInitialized()`. -/
  bHandlerFullyInitialized : Bool
  /-- The number of bits in the send buffer after `Handler->OutgoingHigh(SendBuffer)`, given
  the number before. -/
  OutgoingHigh : Nat → Nat
  /-- The answer of `HasReceivedClientPacket()`. -/
  bHasReceivedClientPacket : Bool
  /-- `Driver->Time`. -/
  Time : Int
  /-- `Driver->KeepAliveTime`. -/
  KeepAliveTime : Int
  /-- The answer of `Driver->IsNetResourceValid()`. -/
  bNetResourceValid : Bool
  /-- The answer of `NetAnalyticsData.IsValid()`. -/
  bHasAnalyticsData : Bool
  /-- The answer of `Driver->IsKnownChannelName`. -/
  IsKnownChannelName : FName → Bool
  /-- `Driver->ChannelDefinitionMap[ChName].StaticChannelIndex`. -/
  StaticChannelIndex : FName → Int
  /-- `Driver->ChannelDefinitionMap[ChName].bTickOnCreate`. -/
  bTickOnCreate : FName → Bool
  /-- The answer of `CanStopTicking()` of the channel at an index. -/
  CanStopTicking : Nat → Bool
  /-- The conversion `FNetPacketNotify::SequenceNumberT(LastNotifiedPacketId)`. -/
  SequenceNumberT : Int → Int
  /-- `SendBunchHeader.GetNumBits()` for the header `SendRawBunch` builds. -/
  BunchHeaderBits : FOutBunch → Nat
  /-- `FPlatformTime::Seconds()`. -/
  Seconds : Int
  /-- `Driver->MaxNetTickRate`. -/
  MaxNetTickRate : Int
  /-- `GEngine->GetMaxTickRate(0.0f, false)`. -/
  EngineTickRate : Int
  MAX_flt : Int
  /-- `Driver->bNoTimeouts` (false in a shipping build). -/
  bNoTimeouts : Bool
  /-- `Driver->InitialConnectTimeout`. -/
  InitialConnectTimeout : Int
  /-- `Driver->ConnectionTimeout`. -/
  ConnectionTimeout : Int
  /-- The test `OwningActor && OwningActor->UseShortConnectTimeout()`. -/
  bUseShortConnectTimeout : Bool
  /-- `Driver->TimeoutMultiplierForUnoptimizedBuilds`. -/
  TimeoutMultiplierForUnoptimizedBuilds : Int
  /-- The test `LongTimeouts || WITH_EDITOR || UE_BUILD_DEBUG`. -/
  bLongTimeouts : Bool
  /-- The value `DeltaBits` of `Tick` (`CurrentNetSpeed * BandwidthDeltaTime * 8.f`). -/
  DeltaBits : Int

/-- `INDEX_NONE`. -/
def INDEX_NONE : Int := -1

/-- The conversion of a `uint32` to `int32`. -/
def toInt32 (x : Nat) : Int := if x < 2147483648 then (x : Int) else (x : Int) - 4294967296

/-- The operator `&` on two `int32` values. -/
def and32 (a b : Int) : Int := toInt32 (toUInt32 a &&& toUInt32 b)

/-- Appends an event to the log of the connection. -/
def UNetConnectionState.logEvent (c : UNetConnectionState) (e : ConnEvent) :
    UNetConnectionState :=
  { c with Log := c.Log ++ [e] }

/-! ## Send path: the send buffer -/

/-- `UNetConnection::InitSendBuffer`: the send buffer is empty afterwards and holds at most
`MaxPacket * 8 - MaxPacketHandlerBits` bits. -/
def UNetConnectionState.InitSendBuffer (c : UNetConnectionState) :
    Outcome UNetConnectionState :=
  if c.MaxPacket > 0 then
    .ok { c with
      SendBufferNumBits := 0,
      SendBufferMaxBits := c.MaxPacket * 8 - c.MaxPacketHandlerBits }
  else .fault .MaxPacket

/-- `UNetConnection::GetFreeSendBufferBits`. -/
def UNetConnectionState.GetFreeSendBufferBits (env : ConnEnv) (c : UNetConnectionState) :
    Outcome Int :=
  let ExtraBits : Int :=
    if c.SendBufferNumBits > 0 then env.MAX_PACKET_TRAILER_BITS
    else env.MAX_PACKET_HEADER_BITS + env.MAX_PACKET_TRAILER_BITS
  let NumberOfFreeBits : Int := c.SendBufferMaxBits - ((c.SendBufferNumBits : Int) + ExtraBits)
  if NumberOfFreeBits ≥ 0 then .ok NumberOfFreeBits else .fault .FreeSendBufferBits

/-- The number of bits `WritePacketInfo` writes: the bit `bHasServerFrameTime`, the byte
`FrameTimeByte` on a server that has the frame time, and the byte `InKBytesPerSecondByte`. -/
def PacketInfoBits (env : ConnEnv) : Nat :=
  1 + (if env.bHasServerFrameTime ∧ env.bIsServer then 8 else 0) + 8

/-- The block "If this is the start of the queue, make sure to add the packet id" of
`WriteBitsToSendBuffer`: `WritePacketHeader` and `WritePacketInfo` on an empty send buffer of
a connection that is not InternalAck. -/
def UNetConnectionState.WritePacketHeaders (env : ConnEnv) (c : UNetConnectionState) :
    UNetConnectionState :=
  if c.SendBufferNumBits = 0 ∧ c.InternalAck = false then
    { c with
      SendBufferNumBits := env.PacketHeaderBits + PacketInfoBits env,
      AllowMerge := false }
  else c

/-- The writes of `WriteBitsToSendBuffer`: the packet header on an empty send buffer (see
`WritePacketHeaders`), then the `SizeInBits` bits and the `ExtraSizeInBits` bits, of which
the total is given. -/
def UNetConnectionState.Written (env : ConnEnv) (c : UNetConnectionState)
    (TotalSizeInBits : Nat) : UNetConnectionState :=
  { c.WritePacketHeaders env with
    SendBufferNumBits := (c.WritePacketHeaders env).SendBufferNumBits + TotalSizeInBits }

/-- `UNetConnection::IsNetReady`. -/
def UNetConnectionState.IsNetReady (c : UNetConnectionState) (Saturate : Bool) :
    Bool × UNetConnectionState :=
  let c1 := if Saturate then { c with QueuedBits := -(c.SendBufferNumBits : Int) } else c
  (decide (c1.QueuedBits + (c1.SendBufferNumBits : Int) ≤ 0), c1)

/-! ## Send path: `FlushNet`, `WriteBitsToSendBuffer`, `Close` -/

/-- The test "If there is any pending data to send, send it" of `FlushNet`. -/
def UNetConnectionState.hasPendingData (env : ConnEnv) (c : UNetConnectionState) : Bool :=
  decide (c.SendBufferNumBits ≠ 0) || decide (c.HasDirtyAcks ≠ 0)
    || (decide (env.Time - c.LastSendTime > env.KeepAliveTime) && !c.InternalAck
        && decide (c.State ≠ .USOCK_Closed))

/-- The test of `FlushNet` that stops a send before the handshake is complete:
`!HasReceivedClientPacket() && CVarRandomizeSequence.GetValueOnAnyThread() != 0`. -/
def sendsBeforeHandshake (env : ConnEnv) : Bool :=
  !env.bHasReceivedClientPacket && decide (env.RandomizeSequence ≠ 0)

/-- `FlushNet` from `Handler->OutgoingHigh` on, up to `InitSendBuffer`, for a send buffer
that holds the packet (`DO_ENABLE_NET_TEST` is off): the handler, the termination bit, the
refresh of the header (which resets `HasDirtyAcks` when it succeeds), `LowLevelSend`, the
commit of the outgoing sequence, the marker for `OutPacketId` in the channel record,
`++OutPacketId`, and the queued bits. -/
def UNetConnectionState.Transmit (env : ConnEnv) (c : UNetConnectionState)
    (bIsKeepAlive : Bool) : UNetConnectionState :=
  let AfterHandler : Nat :=
    if c.bHandlerValid then env.OutgoingHigh c.SendBufferNumBits else c.SendBufferNumBits
  let NumBits : Nat := AfterHandler + 1
  let Dirty : Nat := if c.InternalAck = false ∧ env.bWroteHeader then 0 else c.HasDirtyAcks
  let Sent : List ConnEvent :=
    if env.bNetResourceValid then [.LowLevelSend c.OutPacketId NumBits bIsKeepAlive] else []
  let Committed : List ConnEvent :=
    if c.InternalAck = false then [.CommitAndIncrementOutSeq] else []
  let PacketBytes : Int := ((NumBits + 7) / 8 : Nat) + c.PacketOverhead
  { c with
    SendBufferNumBits := NumBits,
    HasDirtyAcks := Dirty,
    Log := c.Log ++ (Sent ++ Committed),
    ChannelRecord := PushPacketId c.ChannelRecord c.OutPacketId,
    OutPacketId := c.OutPacketId + 1,
    LastSendTime := env.Time,
    QueuedBits := c.QueuedBits + PacketBytes * 8 }

/-- `FlushNet` from `Handler->OutgoingHigh` on: the packet is sent (see `Transmit`) and the
send buffer is reset by `InitSendBuffer`. -/
def UNetConnectionState.FlushNetSend (env : ConnEnv) (c : UNetConnectionState)
    (bIsKeepAlive : Bool) : Outcome UNetConnectionState :=
  (c.Transmit env bIsKeepAlive).InitSendBuffer

/-- The end of `Close` on a connection that is being closed: the analytics commit, and the
reset of the log counters. -/
def UNetConnectionState.CloseEnd (env : ConnEnv) (c : UNetConnectionState) :
    UNetConnectionState :=
  { (if env.bHasAnalyticsData then c.logEvent .CommitAnalytics else c) with
    LogCallLastTime := 0,
    LogCallCount := 0,
    LogSustainedCount := 0 }

/-- The start of `Close` on a connection that is being closed: channel 0 is closed when it
exists, and the state becomes `USOCK_Closed`. -/
def UNetConnectionState.CloseStart (c : UNetConnectionState) (Channel0 : Option FName) :
    UNetConnectionState :=
  { (if Channel0.isSome then c.logEvent .ChannelClose else c) with State := .USOCK_Closed }

mutual

/-- `UNetConnection::FlushNet`.  The first argument bounds the depth of the calls. -/
def UNetConnectionState.FlushNet :
    Nat → ConnEnv → UNetConnectionState → Outcome UNetConnectionState
  | 0, _, _ => .outOfFuel
  | fuel + 1, env, c =>
    if c.bHasDriver = false then .fault .NoDriver
    else
      let c0 := { c with TimeSensitive := false }
      if c0.hasPendingData env then
        if sendsBeforeHandshake env then
          (UNetConnectionState.Close fuel env c0).bind UNetConnectionState.InitSendBuffer
        else if c0.SendBufferNumBits = 0 then
          (UNetConnectionState.WriteBitsToSendBuffer fuel env c0 0 0).bind
            (fun x => x.2.FlushNetSend env true)
        else c0.FlushNetSend env false
      else .ok c0

/-- `UNetConnection::WriteBitsToSendBuffer`, returning `RememberedPacketId` and the
connection; only the sizes of the two bit arrays are kept.  A write past the end of the send
buffer is met by the check of `GetFreeSendBufferBits` before the function returns.  The
`checkf` on the packet handler that builds other than shipping builds make on entry is left
out.  The first argument bounds the depth of the calls. -/
def UNetConnectionState.WriteBitsToSendBuffer :
    Nat → ConnEnv → UNetConnectionState → Nat → Nat → Outcome (Int × UNetConnectionState)
  | 0, _, _, _, _ => .outOfFuel
  | fuel + 1, env, c, SizeInBits, ExtraSizeInBits =>
    let TotalSizeInBits : Nat := SizeInBits + ExtraSizeInBits
    (c.GetFreeSendBufferBits env).bind fun Free =>
    (if (TotalSizeInBits : Int) > Free then UNetConnectionState.FlushNet fuel env c
      else .ok c).bind fun c1 =>
    let c3 := c1.Written env TotalSizeInBits
    let RememberedPacketId := c3.OutPacketId
    (c3.GetFreeSendBufferBits env).bind fun Free2 =>
    (if Free2 = 0 ∨ env.ForceNetFlush ≠ 0 then UNetConnectionState.FlushNet fuel env c3
      else .ok c3).bind fun c4 =>
    .ok (RememberedPacketId, c4)

/-- `UNetConnection::Close`.  The first argument bounds the depth of the calls. -/
def UNetConnectionState.Close :
    Nat → ConnEnv → UNetConnectionState → Outcome UNetConnectionState
  | 0, _, _ => .outOfFuel
  | fuel + 1, env, c =>
    if c.bHasDriver ∧ c.State ≠ .USOCK_Closed then
      match c.Channels with
      | [] => .fault .IndexOutOfRange
      | Channel0 :: _ =>
        let c1 := c.CloseStart Channel0
        (if (c1.bHandlerValid = false ∨ env.bHandlerFullyInitialized)
            ∧ env.bHasReceivedClientPacket then
          UNetConnectionState.FlushNet fuel env (c1.logEvent .CloseFlush)
        else .ok c1).bind fun c2 =>
        .ok (c2.CloseEnd env)
    else
      .ok { c with LogCallLastTime := 0, LogCallCount := 0, LogSustainedCount := 0 }

end

/-- `UNetConnection::SendRawBunch`, returning `Bunch.PacketId` and the connection: the bits of
the header and of the payload are written to the send buffer, and the channel of the bunch is
entered in the channel record under the packet id returned by the write. -/
def UNetConnectionState.SendRawBunch (fuel : Nat) (env : ConnEnv) (c : UNetConnectionState)
    (Bunch : FOutBunch) (InAllowMerge : Bool) : Outcome (Int × UNetConnectionState) :=
  if c.bHasDriver = false then .fault .NoDriver
  else
    let c0 := { c with TimeSensitive := true, AllowMerge := InAllowMerge }
    (UNetConnectionState.WriteBitsToSendBuffer fuel env c0 (env.BunchHeaderBits Bunch)
      Bunch.Data.length).bind fun x =>
    let c1 := { x.2 with ChannelRecord := PushChannelRecord x.2.ChannelRecord x.1 Bunch.ChIndex }
    .ok (x.1, if Bunch.bHasPackageMapExports then c1.logEvent (.NotifyBunchCommit x.1) else c1)

/-! ## Packet notifications -/

/-- The calls an ack or nak function makes for the calls of the functor: one for each call
whose channel exists. -/
def channelCalls (Channels : List (Option FName)) (Event : Int → Nat → ConnEvent)
    (Calls : List (Int × Nat)) : List ConnEvent :=
  (Calls.filter (fun x => (Channels.getD x.2 none).isSome)).map (fun x => Event x.1 x.2)

/-- `UNetConnection::ReceivedAck`. -/
def UNetConnectionState.ReceivedAck (c : UNetConnectionState) (AckPacketId : Int) :
    Outcome UNetConnectionState :=
  let c1 := { c.logEvent (.PackageMapNotified AckPacketId true) with
    OutAckPacketId := AckPacketId }
  match ConsumeChannelRecordsForPacket c1.ChannelRecord AckPacketId with
  | none => .fault .ChannelRecord
  | some x =>
    .ok { c1 with
      ChannelRecord := x.2,
      Log := c1.Log ++ channelCalls c1.Channels .AckChannel x.1 }

/-- `UNetConnection::ReceivedNak`. -/
def UNetConnectionState.ReceivedNak (c : UNetConnectionState) (NakPacketId : Int) :
    Outcome UNetConnectionState :=
  let c1 := c.logEvent (.PackageMapNotified NakPacketId false)
  match ConsumeChannelRecordsForPacket c1.ChannelRecord NakPacketId with
  | none => .fault .ChannelRecord
  | some x =>
    .ok { c1 with
      ChannelRecord := x.2,
      Log := c1.Log ++ channelCalls c1.Channels .NakChannel x.1 }

/-- Modelled from the spec: the macro `CLOSE_CONNECTION_DUE_TO_SECURITY_VIOLATION` is defined
outside the source files at hand; the violation is reported with its classification and the
connection closes immediately (spec 4.4 (a)).  The first argument bounds the depth of the
calls of `Close`. -/
def UNetConnectionState.CloseSecurityViolation (fuel : Nat) (env : ConnEnv)
    (c : UNetConnectionState) (Event : ESecurityEvent) : Outcome UNetConnectionState :=
  UNetConnectionState.Close fuel env (c.logEvent (.SecurityViolation Event))

/-- The lambda `HandlePacketNotification` of `ReceivedPacket` with the calls of `ReceivedAck`
and `ReceivedNak` it makes.  The first argument bounds the depth of the calls of `Close`. -/
def UNetConnectionState.HandlePacketNotification (fuel : Nat) (env : ConnEnv)
    (c : UNetConnectionState) (AckedSequence : Int) (bDelivered : Bool) :
    Outcome UNetConnectionState :=
  let c1 := { c with LastNotifiedPacketId := c.LastNotifiedPacketId + 1 }
  if env.SequenceNumberT c1.LastNotifiedPacketId ≠ AckedSequence then
    c1.CloseSecurityViolation fuel env .Malformed_Packet
  else if bDelivered then c1.ReceivedAck c1.LastNotifiedPacketId
  else c1.ReceivedNak c1.LastNotifiedPacketId

/-! ## Lifecycle -/

/-- `UNetConnection::InitSequence`. -/
def UNetConnectionState.InitSequence (env : ConnEnv) (c : UNetConnectionState)
    (IncomingSequence OutgoingSequence : Int) : Outcome UNetConnectionState :=
  if ¬(c.InPacketId = -1 ∨ env.bHasServerConnection) then .fault .Sequence
  else if c.InPacketId = -1 ∧ env.RandomizeSequence > 0 then
    let InitInReliable := and32 IncomingSequence (env.MAX_CHSEQUENCE - 1)
    let InitOutReliable := and32 OutgoingSequence (env.MAX_CHSEQUENCE - 1)
    .ok { c with
      InPacketId := IncomingSequence - 1,
      OutPacketId := OutgoingSequence,
      OutAckPacketId := OutgoingSequence - 1,
      LastNotifiedPacketId := OutgoingSequence - 1,
      InitInReliable := InitInReliable,
      InitOutReliable := InitOutReliable,
      InReliable := List.replicate c.InReliable.length InitInReliable,
      OutReliable := List.replicate c.OutReliable.length InitOutReliable,
      Log := c.Log ++ [.PacketNotifyInit (IncomingSequence - 1) OutgoingSequence] }
  else .ok c

/-- The loop `for( ChIndex=FirstChannel; ChIndex < Channels.Num(); ChIndex++ )` of
`CreateChannelByName` over the slots from `ChIndex` on: the index at which the loop ends. -/
def channelSearch : List (Option FName) → Nat → Nat
  | [], ChIndex => ChIndex
  | Slot :: rest, ChIndex => if Slot.isNone then ChIndex else channelSearch rest (ChIndex + 1)

/-- The value of `FirstChannel` in `CreateChannelByName`: 1, or the static channel index of
the channel name when it has one. -/
def FirstChannel (env : ConnEnv) (ChName : FName) : Int :=
  if env.StaticChannelIndex ChName ≠ INDEX_NONE then env.StaticChannelIndex ChName else 1

/-- `UNetConnection::CreateChannelByName`, returning the index of the new channel (`none` for
`NULL`) and the connection. -/
def UNetConnectionState.CreateChannelByName (env : ConnEnv) (c : UNetConnectionState)
    (ChName : FName) (ChIndex : Int) : Outcome (Option Nat × UNetConnectionState) :=
  if env.IsKnownChannelName ChName = false then .fault .Channel
  else
    if ChIndex = INDEX_NONE ∧ FirstChannel env ChName < 0 then .fault .IndexOutOfRange
    else
      let Found : Int :=
        if ChIndex = INDEX_NONE then
          channelSearch (c.Channels.drop (FirstChannel env ChName).toNat)
            (FirstChannel env ChName).toNat
        else ChIndex
      if ChIndex = INDEX_NONE ∧ Found = c.Channels.length then
        .ok (none,
          if c.bHasWarnedAboutChannelLimit then c
          else { c.logEvent .ChannelLimitWarning with bHasWarnedAboutChannelLimit := true })
      else if ¬(Found < c.Channels.length) then .fault .Channel
      else if Found < 0 then .fault .IndexOutOfRange
      else if (c.Channels.getD Found.toNat none).isSome then .fault .Channel
      else
        let c1 := c.logEvent (.CreateChannel ChName Found.toNat)
        .ok (some Found.toNat,
          { c1 with
            Channels := c1.Channels.set Found.toNat (some ChName),
            OpenChannels := c1.OpenChannels ++ [Found.toNat],
            ChannelsToTick :=
              if env.bTickOnCreate ChName then c1.ChannelsToTick ++ [Found.toNat]
              else c1.ChannelsToTick })

/-- `UNetConnection::GetTimeoutValue`. -/
def UNetConnectionState.GetTimeoutValue (env : ConnEnv) (c : UNetConnectionState) :
    Outcome Int :=
  if c.bHasDriver = false then .fault .NoDriver
  else if env.bNoTimeouts then .ok (if c.bPendingDestroy then 2 else env.MAX_flt)
  else
    let Timeout : Int :=
      if c.State ≠ .USOCK_Pending ∧ (c.bPendingDestroy ∨ env.bUseShortConnectTimeout) then
        if c.bPendingDestroy then 2 else env.ConnectionTimeout
      else env.InitialConnectTimeout
    .ok (if env.TimeoutMultiplierForUnoptimizedBuilds > 0 ∧ env.bLongTimeouts then
        Timeout * env.TimeoutMultiplierForUnoptimizedBuilds
      else Timeout)

/-- `UNetConnection::CleanUp`.  The first argument bounds the depth of the calls of
`Close`. -/
def UNetConnectionState.CleanUp (fuel : Nat) (env : ConnEnv) (c : UNetConnectionState) :
    Outcome UNetConnectionState :=
  (UNetConnectionState.Close fuel env (c.logEvent .ChildrenCleanUp)).bind fun c1 =>
  let c2 := if c1.bHasDriver then c1.logEvent .RemovedFromDriver else c1
  .ok { c2.logEvent .ChannelsCleanUp with bHandlerValid := false, bHasDriver := false }

/-- `UNetConnection::HandleClientPlayer`, as far as the connection is concerned. -/
def UNetConnectionState.HandleClientPlayer (env : ConnEnv) (c : UNetConnectionState) :
    Outcome UNetConnectionState :=
  if c.bHasDriver = false then .fault .NoDriver
  else
    .ok { c.logEvent .ClientPlayer with
      LastReceiveTime := env.Time,
      State := .USOCK_Open }

/-! ## Lifecycle: `Tick` -/

/-- The test of `Tick` that skips a tick because of the net tick rate:
`!InternalAck && MaxNetTickRateFloat < EngineTickRate && DesiredTickRate > 0.0f` and
`FrameTime < 1.0f / DesiredTickRate`, the last one written as
`FrameTime * DesiredTickRate < 1`. -/
def skipsTick (env : ConnEnv) (InternalAck : Bool) (FrameTime : Int) : Bool :=
  let EngineTickRate : Int :=
    if env.MaxNetTickRate > 0 ∧ env.EngineTickRate ≤ 0 then env.MAX_flt else env.EngineTickRate
  let MaxNetTickRateFloat : Int := if env.MaxNetTickRate > 0 then env.MaxNetTickRate else env.MAX_flt
  let DesiredTickRate : Int := max 0 (min EngineTickRate MaxNetTickRateFloat)
  !InternalAck && decide (MaxNetTickRateFloat < EngineTickRate) && decide (DesiredTickRate > 0)
    && decide (FrameTime * DesiredTickRate < 1)

/-- The block "Pretend everything was acked" of `Tick` on an InternalAck connection. -/
def UNetConnectionState.TickInternalAck (env : ConnEnv) (c : UNetConnectionState) :
    UNetConnectionState :=
  let x := ConsumeAllChannelRecords c.ChannelRecord
  { c with
    OutAckPacketId := c.OutPacketId,
    LastReceiveTime := env.Time,
    LastReceiveRealtime := env.Seconds,
    LastGoodPacketRealtime := env.Seconds,
    ChannelRecord := x.2,
    Log := c.Log ++ (x.1.filter (fun i => (c.Channels.getD i none).isSome)).map
      .InternalAckChannel }

/-- The end of `Tick`: "Tick Handler" and "Update queued byte count". -/
def UNetConnectionState.TickEnd (env : ConnEnv) (c : UNetConnectionState) :
    UNetConnectionState :=
  let c1 := if c.bHandlerValid then c.logEvent .HandlerTick else c
  let QueuedBits := c1.QueuedBits - env.DeltaBits
  let AllowedLag := 2 * env.DeltaBits
  { c1 with QueuedBits := if QueuedBits < -AllowedLag then -AllowedLag else QueuedBits }

/-- The block "Flush" of `Tick`, followed by the end of `Tick`. -/
def UNetConnectionState.TickFlush (fuel : Nat) (env : ConnEnv) (c : UNetConnectionState) :
    Outcome UNetConnectionState :=
  (if (c.TimeSensitive ∨ env.Time - c.LastSendTime > env.KeepAliveTime)
      ∧ (c.bHandlerValid = false ∨ env.bHandlerFullyInitialized)
      ∧ env.bHasReceivedClientPacket then
    UNetConnectionState.FlushNet fuel env c
  else .ok c).bind fun c1 => .ok (c1.TickEnd env)

/-- The channels ticked by `Tick`, in the order of the ticks, and the list `ChannelsToTick`
afterwards. -/
def UNetConnectionState.TickChannels (env : ConnEnv) (c : UNetConnectionState) :
    UNetConnectionState :=
  if env.TickAllOpenChannels = 0 then
    { c with
      Log := c.Log ++ c.ChannelsToTick.reverse.map .ChannelTick,
      ChannelsToTick := c.ChannelsToTick.filter (fun i => !env.CanStopTicking i) }
  else { c with Log := c.Log ++ c.OpenChannels.reverse.map .ChannelTick }

/-- The block "Handle timeouts" of `Tick` with its `else` branch, followed by the rest of
`Tick`. -/
def UNetConnectionState.TickTimeout (fuel : Nat) (env : ConnEnv) (c : UNetConnectionState) :
    Outcome UNetConnectionState :=
  let c1 := { c with LastTickTime := env.Time }
  (c1.GetTimeoutValue env).bind fun Timeout =>
  if env.Seconds - c1.LastReceiveRealtime > Timeout then
    let c2 := if c1.bPendingDestroy = false then c1.logEvent .ConnectionTimeout else c1
    (UNetConnectionState.Close fuel env c2).bind fun c3 => c3.TickFlush fuel env
  else if c1.ChannelsToTick.length > c1.OpenChannels.length then .fault .Channel
  else
    let c2 := c1.TickChannels env
    match c2.Channels, c2.OutReliable, c2.InReliable with
    | Channel0 :: _, OutReliable0 :: _, InReliable0 :: _ =>
      let c3 :=
        if Channel0.isNone
            ∧ (OutReliable0 ≠ c2.InitOutReliable ∨ InReliable0 ≠ c2.InitInReliable) then
          { c2 with State := .USOCK_Closed }
        else c2
      c3.TickFlush fuel env
    | _, _, _ => .fault .IndexOutOfRange

/-- The start of `Tick`: the first-tick guard on `LastTime`, and `FrameTime`. -/
def UNetConnectionState.TickTimes (env : ConnEnv) (c : UNetConnectionState) :
    UNetConnectionState :=
  let c1 :=
    if c.LastTime = 0 then
      { c with
        LastTime := env.Seconds,
        LastReceiveRealtime := env.Seconds,
        LastGoodPacketRealtime := env.Seconds }
    else c
  { c1 with FrameTime := env.Seconds - c1.LastTime }

/-- The part of `Tick` after the net tick rate test. -/
def UNetConnectionState.TickBody (fuel : Nat) (env : ConnEnv) (c2 : UNetConnectionState) :
    Outcome UNetConnectionState :=
  let c3 := { c2 with LastTime := env.Seconds }
  let c4 := if c3.InternalAck then c3.TickInternalAck env else c3
  if c4.bConnectionPendingCloseDueToSocketSendFailure then
    (UNetConnectionState.Close fuel env c4).bind fun c5 =>
    .ok { c5 with bConnectionPendingCloseDueToSocketSendFailure := false }
  else c4.TickTimeout fuel env

/-- `UNetConnection::Tick` (`DO_ENABLE_NET_TEST` is off; the statistics and the map
`KeepProcessingActorChannelBunchesMap` are left out).  The first argument bounds the depth of
the calls of `Close` and `FlushNet`. -/
def UNetConnectionState.Tick (fuel : Nat) (env : ConnEnv) (c : UNetConnectionState) :
    Outcome UNetConnectionState :=
  if c.bHasDriver = false then .fault .NoDriver
  else
    let c2 := c.TickTimes env
    if skipsTick env c2.InternalAck c2.FrameTime then .ok c2
    else c2.TickBody fuel env

/-! ## Send path and lifecycle: vocabulary of the specification -/

/-- The fields as the constructor of `UNetConnection` leaves them, for a channel table of
`MaxChannelSize` entries.  The value `LastPacketId` of the channel record is set by the
constructor of `FWrittenChannelsRecord` (see `emptyRecord`); the times are set by `InitBase`
and are 0 here. -/
def newConnectionState (MaxChannelSize : Nat) (InitialLastPacketId : Int) :
    UNetConnectionState :=
  { bHasDriver := false, bHandlerValid := false, State := .USOCK_Invalid, InternalAck := false,
    MaxPacket := 0, PacketOverhead := 0, MaxPacketHandlerBits := 0,
    SendBufferNumBits := 0, SendBufferMaxBits := 0, QueuedBits := 0,
    TimeSensitive := false, AllowMerge := false, HasDirtyAcks := 0,
    InPacketId := -1, OutPacketId := 0, OutAckPacketId := -1, LastNotifiedPacketId := -1,
    InitInReliable := 0, InitOutReliable := 0,
    InReliable := List.replicate MaxChannelSize 0,
    OutReliable := List.replicate MaxChannelSize 0,
    Channels := List.replicate MaxChannelSize none,
    OpenChannels := [], ChannelsToTick := [],
    ChannelRecord := emptyRecord InitialLastPacketId,
    bHasWarnedAboutChannelLimit := false, bPendingDestroy := false,
    bConnectionPendingCloseDueToSocketSendFailure := false,
    LastTime := 0, FrameTime := 0, LastSendTime := 0, LastTickTime := 0,
    LastReceiveTime := 0, LastReceiveRealtime := 0, LastGoodPacketRealtime := 0,
    LogCallLastTime := 0, LogCallCount := 0, LogSustainedCount := 0, Log := [] }

/-- An environment for the examples: a server whose client has completed the handshake,
sequence randomization on, no forced flush; packets of at most 32 header bits and 1 trailer
bit, a notification header of 15 bits; the driver time is 100 with a keep-alive time of 5,
the clock is at 1000 seconds; the timeouts are 60 and 80 seconds; the channel name 0 (the
control channel) has the static index 0, the other names have none. -/
def exampleConnEnv : ConnEnv :=
  { RandomizeSequence := 1, ForceNetFlush := 0, TickAllOpenChannels := 0,
    MAX_PACKET_HEADER_BITS := 32, MAX_PACKET_TRAILER_BITS := 1, MAX_CHSEQUENCE := 1024,
    PacketHeaderBits := 15, bWroteHeader := true, bHasServerFrameTime := false,
    bIsServer := true, bHasServerConnection := false, bHandlerFullyInitialized := true,
    OutgoingHigh := fun n => n, bHasReceivedClientPacket := true,
    Time := 100, KeepAliveTime := 5, bNetResourceValid := true, bHasAnalyticsData := true,
    IsKnownChannelName := fun _ => true,
    StaticChannelIndex := fun ChName => if ChName = 0 then 0 else -1,
    bTickOnCreate := fun _ => false, CanStopTicking := fun _ => false,
    SequenceNumberT := fun x => x % 16384,
    BunchHeaderBits := fun _ => 20,
    Seconds := 1000, MaxNetTickRate := 0, EngineTickRate := 0, MAX_flt := 1000000,
    bNoTimeouts := false, InitialConnectTimeout := 60, ConnectionTimeout := 80,
    bUseShortConnectTimeout := false, TimeoutMultiplierForUnoptimizedBuilds := 0,
    bLongTimeouts := false, DeltaBits := 0 }

/-- A connection for the examples: open, with a driver and a handler, packets of 64 bytes
with an overhead of 28 bytes, an empty send buffer of 512 bits, a channel table of four
entries with the control channel at index 0, the last send and the last packet received a
short time ago. -/
def exampleState : UNetConnectionState :=
  { newConnectionState 4 (-1) with
    bHasDriver := true, bHandlerValid := true, State := .USOCK_Open,
    MaxPacket := 64, PacketOverhead := 28, SendBufferMaxBits := 512,
    Channels := [some 0, none, none, none], OpenChannels := [0],
    LastTime := 999, LastSendTime := 100, LastTickTime := 100, LastReceiveTime := 100,
    LastReceiveRealtime := 995, LastGoodPacketRealtime := 995 }

/-- The example connection when its last packet was received at 900 seconds, 100 seconds
before the clock of the example environment. -/
def silentState : UNetConnectionState :=
  { exampleState with LastReceiveRealtime := 900 }

/-- The silent example connection after a `Tick` at 1000 seconds that timed it out:
closed, with the events of that tick in the log. -/
def timedOutState : UNetConnectionState :=
  { silentState with
    State := .USOCK_Closed,
    LastTime := 1000,
    FrameTime := 1,
    Log := [.ConnectionTimeout, .ChannelClose, .CloseFlush, .CommitAnalytics, .HandlerTick] }

/-- A connection on which `FlushNet` and `Close` return: it has a driver, the send buffer is
initialized for a positive packet size and has room for header and trailer, the packet header
fits in the bits kept for it, acks are only pending on a connection that is not InternalAck,
and the channel table is not empty. -/
structure Sendable (env : ConnEnv) (c : UNetConnectionState) : Prop where
  driver : c.bHasDriver = true
  maxPacket : 0 < c.MaxPacket
  sized : c.SendBufferMaxBits = c.MaxPacket * 8 - c.MaxPacketHandlerBits
  room : env.MAX_PACKET_HEADER_BITS + env.MAX_PACKET_TRAILER_BITS ≤ c.SendBufferMaxBits
  header : ((env.PacketHeaderBits + PacketInfoBits env : Nat) : Int) ≤ env.MAX_PACKET_HEADER_BITS
  acks : c.InternalAck = true → c.HasDirtyAcks = 0
  channels : c.Channels ≠ []

/-- A client connection as its constructor leaves it, with a driver: a channel table of two
entries, no sequence set yet (`InPacketId` is -1). -/
def newClientState : UNetConnectionState :=
  { newConnectionState 2 (-1) with bHasDriver := true }

/-- The environment of a client: the driver has a server connection. -/
def clientConnEnv : ConnEnv :=
  { exampleConnEnv with bHasServerConnection := true, bIsServer := false }

/-- The events of a send: `LowLevelSend` and the commit of the outgoing sequence. -/
def isSendEvent : ConnEvent → Bool
  | .LowLevelSend _ _ _ => true
  | .CommitAndIncrementOutSeq => true
  | _ => false

/-- What a closed connection keeps through a call: it stays closed, and the call adds only
events of sends to the log. -/
def StaysClosed (c c1 : UNetConnectionState) : Prop :=
  c.State = .USOCK_Closed →
    c1.State = .USOCK_Closed ∧ ∃ ev, c1.Log = c.Log ++ ev ∧ ∀ e ∈ ev, isSendEvent e = true

/-! ## Send path and notifications: histories -/

/-- The packets with the packet ids from `first` on, each given by the stored values of its
channel entries. -/
def numberBlocks : Int → List (List Nat) → List (Int × List Nat)
  | _, [] => []
  | first, cs :: rest => (first, cs) :: numberBlocks (first + 1) rest

/-- The invariant of the channel record of a connection: the last notified packet id is
below `OutPacketId`, and the record holds, in the order of the packet ids, one marker with
its channel entries for every packet id after `LastNotifiedPacketId` and below `OutPacketId`,
followed by the marker and the channel entries of `OutPacketId` exactly when `LastPacketId`
is `OutPacketId`. -/
def RecInv (c : UNetConnectionState) : Prop :=
  c.LastNotifiedPacketId < c.OutPacketId ∧
  ∃ blocks : List (List Nat),
    c.ChannelRecord.ChannelRecord
        = recordOf (numberBlocks (c.LastNotifiedPacketId + 1) blocks)
    ∧ ((c.LastNotifiedPacketId + 1 + (blocks.length : Int) = c.OutPacketId
          ∧ c.ChannelRecord.LastPacketId ≠ c.OutPacketId)
      ∨ (c.LastNotifiedPacketId + (blocks.length : Int) = c.OutPacketId
          ∧ c.ChannelRecord.LastPacketId = c.OutPacketId))

/-- One call in the life of a connection: a send (`SendRawBunch`, `FlushNet`) or a packet
notification (the lambda `HandlePacketNotification` of `ReceivedPacket`). -/
inductive ConnOp where
  | SendRawBunch (Bunch : FOutBunch) (InAllowMerge : Bool)
  | FlushNet
  | Notify (AckedSequence : Int) (bDelivered : Bool)
deriving DecidableEq

/-- One call on a connection. -/
def runOp (fuel : Nat) (env : ConnEnv) (c : UNetConnectionState) :
    ConnOp → Outcome UNetConnectionState
  | .SendRawBunch Bunch InAllowMerge =>
    (c.SendRawBunch fuel env Bunch InAllowMerge).bind fun x => .ok x.2
  | .FlushNet => c.FlushNet fuel env
  | .Notify AckedSequence bDelivered =>
    c.HandlePacketNotification fuel env AckedSequence bDelivered

/-- A history of calls, each in the environment of its time, one after the other; the
history ends at the first call that does not return. -/
def runOps (fuel : Nat) :
    UNetConnectionState → List (ConnEnv × ConnOp) → Outcome UNetConnectionState
  | c, [] => .ok c
  | c, x :: rest => (runOp fuel x.1 c x.2).bind fun c1 => runOps fuel c1 rest

/-- A notification arrives for a packet that was flushed, with the sequence number of the
next packet id to notify (so that `HandlePacketNotification` calls `ReceivedAck` or
`ReceivedNak`). -/
def admissibleOp (env : ConnEnv) (c : UNetConnectionState) : ConnOp → Prop
  | .Notify AckedSequence _ =>
    c.LastNotifiedPacketId + 1 < c.OutPacketId
      ∧ AckedSequence = env.SequenceNumberT (c.LastNotifiedPacketId + 1)
  | _ => True

/-- A history in which no more notifications arrive than packets were flushed: every
notification is admissible when it arrives. -/
def Admissible (fuel : Nat) : UNetConnectionState → List (ConnEnv × ConnOp) → Prop
  | _, [] => True
  | c, x :: rest =>
    admissibleOp x.1 c x.2
      ∧ ∀ c1, runOp fuel x.1 c x.2 = .ok c1 → Admissible fuel c1 rest

/-- What a call does to the channel record: a notification returns, moves
`LastNotifiedPacketId` to the next packet id and finds the marker of that id at the front of
the record; no call fails the check of `ConsumeChannelRecordsForPacket`. -/
def inOrderOp (fuel : Nat) (env : ConnEnv) (c : UNetConnectionState) : ConnOp → Prop
  | .Notify AckedSequence bDelivered =>
    ∃ c1, c.HandlePacketNotification fuel env AckedSequence bDelivered = .ok c1
      ∧ c1.LastNotifiedPacketId = c.LastNotifiedPacketId + 1
      ∧ c.ChannelRecord.ChannelRecord.head? = some (PacketEntry c1.LastNotifiedPacketId)
  | op => runOp fuel env c op ≠ .fault .ChannelRecord

/-- Every call of a history consumes the channel record in the order of the packet ids. -/
def InOrder (fuel : Nat) : UNetConnectionState → List (ConnEnv × ConnOp) → Prop
  | _, [] => True
  | c, x :: rest =>
    inOrderOp fuel x.1 c x.2 ∧ ∀ c1, runOp fuel x.1 c x.2 = .ok c1 → InOrder fuel c1 rest

/-- A connection for the examples: the example connection after the packets 0 and 1 were
flushed, packet 0 with a bunch on channel 0, and nothing was notified. -/
def sentState : UNetConnectionState :=
  { exampleState with
    OutPacketId := 2,
    ChannelRecord := ⟨[PacketEntry 0, ChannelEntry 0, PacketEntry 1], 1⟩ }
/-! ## Channel record: lemmas -/

theorem destutter'_eq_cons_tail (a : Nat) (l : List Nat) :
    List.destutter' (fun a b => a ≠ b) a l =
      a :: (List.destutter' (fun a b => a ≠ b) a l).tail := by
  induction l generalizing a with
  | nil => simp
  | cons b l ih =>
    by_cases h : a = b
    · simpa [List.destutter'_cons, h] using ih b
    · simp [List.destutter'_cons, h]

theorem consumeLoop_fst (p : Int) (q : List FChannelRecordEntry) (prev : Nat) :
    (consumeLoop p q prev).1 =
      ((List.destutter' (fun a b => a ≠ b) prev
        ((frontChannels q).map (fun e => e.Value))).tail).map (fun c => (p, c)) := by
  induction q generalizing prev with
  | nil => simp [consumeLoop, frontChannels]
  | cons e q ih =>
    unfold consumeLoop
    by_cases hs : e.IsSequence = false
    · by_cases hv : e.Value = prev
      · simp [hs, hv, frontChannels, isChannel, List.takeWhile_cons, List.destutter'_cons]
        simpa [frontChannels, isChannel] using ih prev
      · have hv' : prev ≠ e.Value := fun h => hv h.symm
        simp only [hs, hv, hv', frontChannels, isChannel, List.takeWhile_cons,
          List.destutter'_cons, if_true, if_false, List.map_cons, Bool.not_false, ne_eq,
          not_false_eq_true, List.tail_cons]
        rw [ih e.Value]
        obtain ⟨t, ht⟩ : ∃ t, List.destutter' (fun a b => a ≠ b) e.Value
            (List.map (fun e => e.Value) (frontChannels q)) = e.Value :: t :=
          ⟨_, destutter'_eq_cons_tail _ _⟩
        simp only [frontChannels, ne_eq] at ht
        simp [frontChannels, ht]
    · simp [hs, frontChannels, isChannel, List.takeWhile_cons]

theorem consumeLoop_snd (p : Int) (q : List FChannelRecordEntry) (prev : Nat) :
    (consumeLoop p q prev).2 = fromNextMarker q := by
  induction q generalizing prev with
  | nil => simp [consumeLoop, fromNextMarker]
  | cons e q ih =>
    unfold consumeLoop
    by_cases hs : e.IsSequence = false
    · by_cases hv : e.Value = prev
      · simp [hs, hv, fromNextMarker, isChannel, List.dropWhile_cons]
        simpa [fromNextMarker, isChannel] using ih prev
      · simp [hs, hv, fromNextMarker, isChannel, List.dropWhile_cons]
        simpa [fromNextMarker, isChannel] using ih e.Value
    · simp [hs, fromNextMarker, isChannel, List.dropWhile_cons]

theorem destutter'_tail_of_ne (s : Nat) (l : List Nat) (h : ∀ v ∈ l, v ≠ s) :
    (List.destutter' (fun a b => a ≠ b) s l).tail = collapseRuns l := by
  cases l with
  | nil => simp [collapseRuns]
  | cons v l =>
    have hv : s ≠ v := fun e => h v (by simp) e.symm
    simp [collapseRuns, List.destutter, List.destutter'_cons, hv]


theorem consume_marker_front (p l : Int) (rest : List FChannelRecordEntry) :
    ConsumeChannelRecordsForPacket ⟨PacketEntry p :: rest, l⟩ p =
      some ((consumeLoop p rest UINT32_MAX).1, ⟨fromNextMarker rest, l⟩) := by
  simp [ConsumeChannelRecordsForPacket, PacketEntry, consumeLoop_snd]

theorem frontChannels_packet (cs : List Nat) (q : List FChannelRecordEntry)
    (hq : ∀ e, q.head? = some e → e.IsSequence = true) :
    frontChannels (cs.map (fun c => (⟨c, false⟩ : FChannelRecordEntry)) ++ q) =
      cs.map (fun c => (⟨c, false⟩ : FChannelRecordEntry)) := by
  induction cs with
  | nil =>
    cases q with
    | nil => simp [frontChannels]
    | cons e q => simp [frontChannels, isChannel, List.takeWhile_cons, hq e rfl]
  | cons c cs ih => simpa [frontChannels, isChannel, List.takeWhile_cons] using ih

theorem fromNextMarker_packet (cs : List Nat) (q : List FChannelRecordEntry)
    (hq : ∀ e, q.head? = some e → e.IsSequence = true) :
    fromNextMarker (cs.map (fun c => (⟨c, false⟩ : FChannelRecordEntry)) ++ q) = q := by
  induction cs with
  | nil =>
    cases q with
    | nil => simp [fromNextMarker]
    | cons e q => simp [fromNextMarker, isChannel, List.dropWhile_cons, hq e rfl]
  | cons c cs ih => simpa [fromNextMarker, isChannel, List.dropWhile_cons] using ih

theorem recordOf_cons (b : Int × List Nat) (bs : List (Int × List Nat)) :
    recordOf (b :: bs) =
      PacketEntry b.1 :: (b.2.map (fun c => (⟨c, false⟩ : FChannelRecordEntry)) ++ recordOf bs) := by
  simp [recordOf, packetEntries]

theorem recordOf_head (bs : List (Int × List Nat)) :
    ∀ e, (recordOf bs).head? = some e → e.IsSequence = true := by
  intro e he
  cases bs with
  | nil => simp [recordOf] at he
  | cons b bs =>
    rw [recordOf_cons] at he
    simp at he
    simp [← he, PacketEntry]

theorem consumeInOrder_blocks (l : Int) (pre post : List (Int × List Nat)) :
    (consumeInOrder ⟨recordOf (pre ++ post), l⟩ (pre.map Prod.fst)).map Prod.snd =
      some ⟨recordOf post, l⟩ := by
  induction pre with
  | nil => simp [consumeInOrder]
  | cons b pre ih =>
    simp only [List.cons_append, List.map_cons, consumeInOrder, recordOf_cons]
    rw [consume_marker_front, fromNextMarker_packet _ _ (recordOf_head _)]
    simp only
    cases h : consumeInOrder ⟨recordOf (pre ++ post), l⟩ (pre.map Prod.fst) with
    | none => simp [h] at ih
    | some res => simpa [h] using ih

/-! ## Channel record: theorems -/

/-- C1: when the front entry of the record is the marker of packet p and the channel entries
of that packet hold channel indices (none is the value uint32(-1)), then
ConsumeChannelRecordsForPacket calls fn(p, c) for exactly the channel entries between that
marker and the next marker (or the end), in queue order, every run of consecutive equal
indices collapsed to one call; an index a that recurs after a different index b is
delivered again. -/
theorem consumeForPacket_calls (p l : Int) (rest : List FChannelRecordEntry)
    (a b : Nat) (hidx : ∀ e ∈ frontChannels rest, e.Value ≠ UINT32_MAX)
    (hab : a ≠ b) (ha : a ≠ UINT32_MAX) :
    (ConsumeChannelRecordsForPacket ⟨PacketEntry p :: rest, l⟩ p).map Prod.fst =
        some ((collapseRuns ((frontChannels rest).map (fun e => e.Value))).map
          (fun c => (p, c)))
    ∧ (ConsumeChannelRecordsForPacket
        ⟨PacketEntry p :: ⟨a, false⟩ :: ⟨b, false⟩ :: ⟨a, false⟩ :: fromNextMarker rest, l⟩
        p).map Prod.fst = some [(p, a), (p, b), (p, a)] := by
  constructor
  · rw [consume_marker_front, Option.map_some', consumeLoop_fst, destutter'_tail_of_ne]
    intro v hv
    obtain ⟨e, he, rfl⟩ := List.mem_map.1 hv
    exact hidx e he
  · have hq : ∀ e, (fromNextMarker rest).head? = some e → e.IsSequence = true := by
      intro e he
      have := List.head?_dropWhile_not isChannel rest
      simp only [fromNextMarker] at he
      simp [he, isChannel] at this
      exact this
    have hf := frontChannels_packet [a, b, a] (fromNextMarker rest) hq
    simp only [List.map_cons, List.map_nil, List.cons_append, List.nil_append] at hf
    rw [consume_marker_front, Option.map_some', consumeLoop_fst, hf]
    have hba : b ≠ a := fun h => hab h.symm
    have ha' : UINT32_MAX ≠ a := fun h => ha h.symm
    simp [List.destutter'_cons, hab, hba, ha']

/-- Witness of C1: packet 7 with channel entries 5, 5, 3, 5, followed by packet 8. -/
theorem consumeForPacket_calls_witness :
    (∀ e ∈ frontChannels [⟨5, false⟩, ⟨5, false⟩, ⟨3, false⟩, ⟨5, false⟩, PacketEntry 8,
        ⟨1, false⟩], e.Value ≠ UINT32_MAX)
    ∧ (ConsumeChannelRecordsForPacket ⟨PacketEntry 7 :: [⟨5, false⟩, ⟨5, false⟩, ⟨3, false⟩,
        ⟨5, false⟩, PacketEntry 8, ⟨1, false⟩], -1⟩ 7).map Prod.fst =
        some [(7, 5), (7, 3), (7, 5)] := by
  refine ⟨by decide, ?_⟩
  have h := (consumeForPacket_calls 7 (-1) [⟨5, false⟩, ⟨5, false⟩, ⟨3, false⟩, ⟨5, false⟩,
    PacketEntry 8, ⟨1, false⟩] 5 3 (by decide) (by decide) (by decide)).1
  rw [h]
  decide


/-- C2: when the front entry is the marker of packet p, ConsumeChannelRecordsForPacket
removes exactly that marker and the channel entries up to (not including) the next marker:
what is left is the old queue from the next marker on, unchanged and in the same order, and
LastPacketId is unchanged.  Over an in-order sequence of consumes of the packets pre of a
record made of the packets pre followed by the packets post, the record left is exactly the
packets post: each consume removes its own packet, whole and once. -/
theorem consumeForPacket_frame (p l : Int) (rest : List FChannelRecordEntry)
    (pre post : List (Int × List Nat)) :
    (ConsumeChannelRecordsForPacket ⟨PacketEntry p :: rest, l⟩ p).map Prod.snd =
        some ⟨fromNextMarker rest, l⟩
    ∧ PacketEntry p :: rest = PacketEntry p :: (frontChannels rest ++ fromNextMarker rest)
    ∧ (frontChannels rest).all (fun e => e.IsSequence = false) = true
    ∧ ((fromNextMarker rest).head?.map (fun e => e.IsSequence)).getD true = true
    ∧ (consumeInOrder ⟨recordOf (pre ++ post), l⟩ (pre.map Prod.fst)).map Prod.snd =
        some ⟨recordOf post, l⟩
    ∧ (consumeInOrder ⟨recordOf pre, l⟩ (pre.map Prod.fst)).map Prod.snd = some ⟨[], l⟩ := by
  refine ⟨?_, ?_, ?_, ?_, consumeInOrder_blocks l pre post, ?_⟩
  · rw [consume_marker_front]; rfl
  · simp [frontChannels, fromNextMarker]
  · simp only [frontChannels, List.all_eq_true]
    intro e he
    have := List.mem_takeWhile_imp he
    simpa [isChannel] using this
  · have := List.head?_dropWhile_not isChannel rest
    cases h : (fromNextMarker rest).head? with
    | none => simp
    | some e =>
      simp only [fromNextMarker] at h
      simp [h, isChannel] at this
      simp [this]
  · have := consumeInOrder_blocks l pre []
    simpa [recordOf] using this

/-- C4: PushChannelRecord appends the marker of p followed by the channel entry c when p
differs from LastPacketId, and only the channel entry c when p equals it; the entries already
in the record stay in front, unchanged, and LastPacketId becomes p. -/
theorem pushChannelRecord_spec (r : FWrittenChannelsRecord) (p c : Int) :
    PushChannelRecord r p c =
      ⟨r.ChannelRecord ++
        (if p ≠ r.LastPacketId then [PacketEntry p, ChannelEntry c] else [ChannelEntry c]), p⟩ := by
  by_cases h : p = r.LastPacketId
  · simp [PushChannelRecord, PushPacketId, h]
  · simp [PushChannelRecord, PushPacketId, h]

/-- C5: PushPacketId is idempotent, changes nothing when the id equals LastPacketId, and
otherwise appends exactly one entry, the marker of p, and sets LastPacketId to p. -/
theorem pushPacketId_idempotent (r : FWrittenChannelsRecord) (p : Int) :
    PushPacketId (PushPacketId r p) p = PushPacketId r p
    ∧ PushPacketId r p =
        (if r.LastPacketId = p then r else ⟨r.ChannelRecord ++ [PacketEntry p], p⟩) := by
  by_cases h : p = r.LastPacketId
  · simp [PushPacketId, h]
  · have h' : ¬ r.LastPacketId = p := fun e => h e.symm
    simp [PushPacketId, h, h']

/-! ## Channel record: sequences of pushes -/

theorem recordOf_append (a b : List (Int × List Nat)) :
    recordOf (a ++ b) = recordOf a ++ recordOf b := by
  simp [recordOf]

theorem recordOf_single (p : Int) (cs : List Nat) :
    recordOf [(p, cs)] = PacketEntry p :: cs.map (fun c => (⟨c, false⟩ : FChannelRecordEntry)) := by
  simp [recordOf, packetEntries]

theorem applyOps_append (r : FWrittenChannelsRecord) (ops : List RecordOp) (op : RecordOp) :
    applyOps r (ops ++ [op]) = applyOp (applyOps r ops) op := by
  simp [applyOps, List.foldl_append]

theorem applyOp_eq (r : FWrittenChannelsRecord) (op : RecordOp) :
    applyOp r op =
      ⟨r.ChannelRecord ++ (if op.PacketId ≠ r.LastPacketId then [PacketEntry op.PacketId] else [])
        ++ op.channels.map (fun c => (⟨c, false⟩ : FChannelRecordEntry)), op.PacketId⟩ := by
  cases op with
  | pushPacketId p =>
    by_cases h : p = r.LastPacketId
    · simp [applyOp, PushPacketId, RecordOp.PacketId, RecordOp.channels, h]
    · simp [applyOp, PushPacketId, RecordOp.PacketId, RecordOp.channels, h]
  | pushChannelRecord p c =>
    by_cases h : p = r.LastPacketId
    · simp [applyOp, PushChannelRecord, PushPacketId, RecordOp.PacketId, RecordOp.channels, h,
        ChannelEntry]
    · simp [applyOp, PushChannelRecord, PushPacketId, RecordOp.PacketId, RecordOp.channels, h,
        ChannelEntry]

theorem channelsPushed_append (p : Int) (ops : List RecordOp) (op : RecordOp) :
    channelsPushed p (ops ++ [op]) =
      channelsPushed p ops ++ (if op.PacketId = p then op.channels else []) := by
  cases op with
  | pushPacketId q => simp [channelsPushed, List.filterMap_append, RecordOp.channels]
  | pushChannelRecord q c =>
    by_cases h : q = p
    · simp [channelsPushed, List.filterMap_append, RecordOp.channels, RecordOp.PacketId, h]
    · simp [channelsPushed, List.filterMap_append, RecordOp.channels, RecordOp.PacketId, h]

theorem channelsPushed_of_not_mem (p : Int) (ops : List RecordOp)
    (h : p ∉ ops.map RecordOp.PacketId) : channelsPushed p ops = [] := by
  induction ops with
  | nil => simp [channelsPushed]
  | cons op ops ih =>
    simp only [List.map_cons, List.mem_cons, not_or] at h
    have ih' := ih h.2
    simp only [channelsPushed] at ih' ⊢
    cases op with
    | pushPacketId q => simpa [List.filterMap_cons] using ih'
    | pushChannelRecord q c =>
      have hq : ¬ q = p := fun e => h.1 (by simp [RecordOp.PacketId, e])
      simpa [List.filterMap_cons, hq] using ih'

/-- The shape of the record after a non-decreasing sequence of pushes on an empty record. -/
theorem push_blocks (init : Int) (ops : List RecordOp)
    (hsorted : (ops.map RecordOp.PacketId).Pairwise (fun a b => a ≤ b))
    (hinit : ∀ op ∈ ops, op.PacketId ≠ init) :
    ∃ blocks : List (Int × List Nat),
      (applyOps (emptyRecord init) ops).ChannelRecord = recordOf blocks
      ∧ (blocks.map Prod.fst).Pairwise (fun a b => a < b)
      ∧ (∀ p, p ∈ blocks.map Prod.fst ↔ p ∈ ops.map RecordOp.PacketId)
      ∧ (∀ b ∈ blocks, b.2 = channelsPushed b.1 ops)
      ∧ ((ops = [] ∧ blocks = [] ∧ (applyOps (emptyRecord init) ops).LastPacketId = init)
          ∨ ∃ bs cs, blocks = bs ++ [((applyOps (emptyRecord init) ops).LastPacketId, cs)]
              ∧ (∀ b ∈ bs, b.1 < (applyOps (emptyRecord init) ops).LastPacketId)
              ∧ (applyOps (emptyRecord init) ops).LastPacketId ∈ ops.map RecordOp.PacketId) := by
  induction ops using List.reverseRecOn with
  | nil =>
    exact ⟨[], by simp [applyOps, emptyRecord, recordOf], by simp, by simp, by simp,
      Or.inl ⟨rfl, rfl, by simp [applyOps, emptyRecord]⟩⟩
  | append_singleton ops op ih =>
    rw [List.map_append, List.pairwise_append] at hsorted
    obtain ⟨hs1, -, hs2⟩ := hsorted
    have hle : ∀ x ∈ ops.map RecordOp.PacketId, x ≤ op.PacketId := fun x hx =>
      hs2 x hx op.PacketId (by simp)
    obtain ⟨blocks, hrec, hpw, hmem, hch, hlast⟩ :=
      ih hs1 (fun o ho => hinit o (List.mem_append_left _ ho))
    have hq : op.PacketId ≠ init := hinit op (by simp)
    rw [applyOps_append, applyOp_eq]
    generalize applyOps (emptyRecord init) ops = r at hrec hlast
    rcases hlast with ⟨hops, hb, hL⟩ | ⟨bs, cs, hb, hlt, hLmem⟩
    · subst hops hb
      refine ⟨[(op.PacketId, op.channels)], ?_, by simp, by simp, ?_, Or.inr ⟨[], op.channels,
        by simp, by simp, by simp⟩⟩
      · simp [hrec, hL, hq, recordOf, packetEntries]
      · intro b hb
        simp only [List.mem_singleton] at hb
        subst hb
        show op.channels = channelsPushed op.PacketId ([] ++ [op])
        rw [channelsPushed_append]
        simp [channelsPushed]
    · by_cases hqL : op.PacketId = r.LastPacketId
      · refine ⟨bs ++ [(r.LastPacketId, cs ++ op.channels)], ?_, ?_, ?_, ?_, Or.inr ⟨bs,
          cs ++ op.channels, by simp [hqL], by simpa [hqL] using hlt, by simp⟩⟩
        · simp [hrec, hb, hqL, recordOf_append, recordOf_single]
        · simpa [hb] using hpw
        · intro p
          have := hmem p
          simp only [hb, List.map_append, List.map_cons, List.map_nil, List.mem_append,
            List.mem_singleton] at this ⊢
          constructor
          · intro h; exact Or.inl (this.1 h)
          · rintro (h | h)
            · exact this.2 h
            · exact Or.inr (by rw [h, hqL])
        · intro b hbm
          simp only [List.mem_append, List.mem_singleton] at hbm
          rcases hbm with hbm | hbm
          · have h1 := hch b (by simp [hb, hbm])
            have h2 : ¬ op.PacketId = b.1 := by
              have := hlt b hbm
              omega
            simp [channelsPushed_append, h1, h2]
          · subst hbm
            have h1 := hch (r.LastPacketId, cs) (by simp [hb])
            simp only at h1
            simp [channelsPushed_append, h1, hqL]
      · have hLq : r.LastPacketId < op.PacketId := by
          have := hle _ hLmem
          omega
        have hall : ∀ b ∈ blocks, b.1 < op.PacketId := by
          intro b hbm
          simp only [hb, List.mem_append, List.mem_singleton] at hbm
          rcases hbm with hbm | hbm
          · have := hlt b hbm
            omega
          · subst hbm; exact hLq
        have hnot : op.PacketId ∉ ops.map RecordOp.PacketId := by
          intro hin
          obtain ⟨b, hbm, hbe⟩ := List.mem_map.1 ((hmem _).2 hin)
          have := hall b hbm
          omega
        refine ⟨blocks ++ [(op.PacketId, op.channels)], ?_, ?_, ?_, ?_, Or.inr ⟨blocks,
          op.channels, rfl, hall, by simp⟩⟩
        · simp [hrec, hqL, recordOf_append, recordOf_single]
        · rw [List.map_append, List.pairwise_append]
          refine ⟨hpw, by simp, ?_⟩
          intro a ha b hbm
          obtain ⟨x, hx, rfl⟩ := List.mem_map.1 ha
          simp only [List.map_cons, List.map_nil, List.mem_singleton] at hbm
          subst hbm
          exact hall x hx
        · intro p
          have := hmem p
          simp only [List.map_append, List.map_cons, List.map_nil, List.mem_append,
            List.mem_singleton] at this ⊢
          rw [this]
        · intro b hbm
          simp only [List.mem_append, List.mem_singleton] at hbm
          rcases hbm with hbm | hbm
          · have h1 := hch b hbm
            have h2 : ¬ op.PacketId = b.1 := by
              have := hall b hbm
              omega
            simp [channelsPushed_append, h1, h2]
          · subst hbm
            simp [channelsPushed_append, channelsPushed_of_not_mem _ _ hnot]

theorem toUInt32_inj (a b : Int) (ha : -2147483648 ≤ a ∧ a < 2147483648)
    (hb : -2147483648 ≤ b ∧ b < 2147483648) (h : toUInt32 a = toUInt32 b) : a = b := by
  unfold toUInt32 at h
  omega

theorem count_marker_channels (p : Int) (cs : List Nat) :
    List.count (PacketEntry p) (cs.map (fun c => (⟨c, false⟩ : FChannelRecordEntry))) = 0 := by
  rw [List.count_eq_zero]
  intro h
  obtain ⟨c, -, hc⟩ := List.mem_map.1 h
  simp [PacketEntry] at hc

theorem count_marker_recordOf (p : Int) (hp : -2147483648 ≤ p ∧ p < 2147483648)
    (blocks : List (Int × List Nat))
    (hr : ∀ b ∈ blocks, -2147483648 ≤ b.1 ∧ b.1 < 2147483648) :
    List.count (PacketEntry p) (recordOf blocks) = List.count p (blocks.map Prod.fst) := by
  induction blocks with
  | nil => simp [recordOf]
  | cons b bs ih =>
    have ih' := ih (fun x hx => hr x (List.mem_cons_of_mem _ hx))
    rw [recordOf_cons, List.map_cons, List.count_cons, List.count_append, count_marker_channels,
      ih', List.count_cons]
    have hb := hr b (by simp)
    by_cases h : b.1 = p
    · simp [h]
    · have h' : ¬ PacketEntry b.1 = PacketEntry p := by
        intro e
        simp only [PacketEntry, FChannelRecordEntry.mk.injEq, and_true] at e
        exact h (toUInt32_inj _ _ hb hp e)
      simp [h, h']

/-- C3: after a sequence of PushPacketId / PushChannelRecord calls with non-decreasing packet
ids on an empty record (ids are int32 values other than the initial LastPacketId), the
record is made of packets, each a marker followed by channel entries: the marker ids are
strictly increasing, they are exactly the ids pushed, each id pushed has exactly one marker
in the record, and the channel entries after the marker of p and before the next marker are
exactly the channel indices pushed with p, in call order.  Scenario A: three
PushChannelRecord(p, 5) and then PushPacketId(p) leave the marker of p followed by three
channel-5 entries. -/
theorem push_sequence_markers (init : Int) (ops : List RecordOp) (p : Int)
    (hsorted : (ops.map RecordOp.PacketId).Pairwise (fun a b => a ≤ b))
    (hinit : ∀ op ∈ ops, op.PacketId ≠ init)
    (hrange : ∀ op ∈ ops, -2147483648 ≤ op.PacketId ∧ op.PacketId < 2147483648)
    (hp : p ≠ init) :
    (∃ blocks : List (Int × List Nat),
      (applyOps (emptyRecord init) ops).ChannelRecord = recordOf blocks
      ∧ (blocks.map Prod.fst).Pairwise (fun a b => a < b)
      ∧ (∀ q, q ∈ blocks.map Prod.fst ↔ q ∈ ops.map RecordOp.PacketId)
      ∧ (∀ b ∈ blocks, b.2 = channelsPushed b.1 ops))
    ∧ (∀ q ∈ ops.map RecordOp.PacketId,
        List.count (PacketEntry q) (applyOps (emptyRecord init) ops).ChannelRecord = 1)
    ∧ applyOps (emptyRecord init)
        [.pushChannelRecord p 5, .pushChannelRecord p 5, .pushChannelRecord p 5,
          .pushPacketId p] =
        ⟨[PacketEntry p, ChannelEntry 5, ChannelEntry 5, ChannelEntry 5], p⟩ := by
  obtain ⟨blocks, hrec, hpw, hmem, hch, -⟩ := push_blocks init ops hsorted hinit
  have hr : ∀ q ∈ ops.map RecordOp.PacketId, -2147483648 ≤ q ∧ q < 2147483648 := by
    intro q hq
    obtain ⟨op, hop, rfl⟩ := List.mem_map.1 hq
    exact hrange op hop
  refine ⟨⟨blocks, hrec, hpw, hmem, hch⟩, ?_, ?_⟩
  · intro q hq
    rw [hrec, count_marker_recordOf q (hr q hq) blocks]
    · apply List.count_eq_one_of_mem
      · exact (hpw.imp (fun h => ne_of_lt h) : List.Pairwise _ _)
      · exact (hmem q).2 hq
    · intro b hb
      exact hr _ ((hmem _).1 (List.mem_map_of_mem _ hb))
  · simp [applyOps, applyOp, PushChannelRecord, PushPacketId, emptyRecord, hp]

/-- Witness of C3: packets 3, 3, 4, 6 pushed on an empty record whose LastPacketId starts at -1. -/
theorem push_sequence_markers_witness :
    (∃ blocks : List (Int × List Nat),
      (applyOps (emptyRecord (-1)) [.pushChannelRecord 3 5, .pushChannelRecord 3 5,
        .pushPacketId 3, .pushPacketId 4, .pushChannelRecord 6 2]).ChannelRecord = recordOf blocks
      ∧ (blocks.map Prod.fst).Pairwise (fun a b => a < b))
    ∧ applyOps (emptyRecord (-1)) [.pushChannelRecord 3 5, .pushChannelRecord 3 5,
        .pushPacketId 3, .pushPacketId 4, .pushChannelRecord 6 2] =
      ⟨[PacketEntry 3, ChannelEntry 5, ChannelEntry 5, PacketEntry 4, PacketEntry 6,
        ChannelEntry 2], 6⟩ := by
  obtain ⟨⟨blocks, h1, h2, -, -⟩, -, -⟩ := push_sequence_markers (-1)
    [.pushChannelRecord 3 5, .pushChannelRecord 3 5, .pushPacketId 3, .pushPacketId 4,
      .pushChannelRecord 6 2] 0 (by decide) (by decide) (by decide) (by decide)
  exact ⟨⟨blocks, h1, h2⟩, by decide⟩

/-! ## Channel record: draining the whole record -/

theorem callsFrom_eq_destutter (s : Nat) (l : List Nat) :
    callsFrom s l = (List.destutter' (fun a b => a ≠ b) s l).tail := by
  induction l generalizing s with
  | nil => simp [callsFrom]
  | cons c cs ih =>
    by_cases h : c = s
    · simp [callsFrom, List.destutter'_cons, h, ih]
    · have h' : s ≠ c := fun e => h e.symm
      simp only [callsFrom, List.destutter'_cons, h, h', ih, ne_eq, not_false_eq_true, if_true,
        List.tail_cons]
      exact (destutter'_eq_cons_tail c cs).symm

theorem callsFrom_of_ne (l : List Nat) (h : ∀ v ∈ l, v ≠ UINT32_MAX) :
    callsFrom UINT32_MAX l = collapseRuns l := by
  rw [callsFrom_eq_destutter, destutter'_tail_of_ne _ _ h]

theorem callsFrom_append (s : Nat) (l1 l2 : List Nat) :
    callsFrom s (l1 ++ l2) = callsFrom s l1 ++ callsFrom (lastFrom s l1) l2 := by
  induction l1 generalizing s with
  | nil => simp [callsFrom, lastFrom]
  | cons c cs ih =>
    by_cases h : c = s
    · subst h; simp [callsFrom, lastFrom, ih]
    · simp [callsFrom, lastFrom, h, ih]

theorem lastFrom_append (s : Nat) (l1 l2 : List Nat) :
    lastFrom s (l1 ++ l2) = lastFrom (lastFrom s l1) l2 := by
  induction l1 generalizing s with
  | nil => simp [lastFrom]
  | cons c cs ih => simp [lastFrom, ih]

theorem callsFrom_idem (s : Nat) (l : List Nat) :
    callsFrom s (callsFrom s l) = callsFrom s l ∧ lastFrom s (callsFrom s l) = lastFrom s l := by
  induction l generalizing s with
  | nil => simp [callsFrom, lastFrom]
  | cons c cs ih =>
    by_cases h : c = s
    · subst h; simpa [callsFrom, lastFrom] using ih c
    · simp [callsFrom, lastFrom, h, ih c]

theorem callsFrom_sentinel (s : Nat) (l : List Nat) (hl : ∀ v ∈ l, v ≠ UINT32_MAX) :
    callsFrom s (callsFrom UINT32_MAX l) = callsFrom s l
    ∧ lastFrom s (callsFrom UINT32_MAX l) = lastFrom s l := by
  cases l with
  | nil => simp [callsFrom, lastFrom]
  | cons c cs =>
    have hc : c ≠ UINT32_MAX := hl c (by simp)
    by_cases h : c = s
    · subst h; simpa [callsFrom, lastFrom, hc] using callsFrom_idem c cs
    · simp [callsFrom, lastFrom, hc, h, callsFrom_idem c cs]

theorem mem_callsFrom (s : Nat) (l : List Nat) : ∀ v ∈ callsFrom s l, v ∈ l := by
  induction l generalizing s with
  | nil => simp [callsFrom]
  | cons c cs ih =>
    intro v hv
    by_cases h : c = s
    · subst h
      simp only [callsFrom, ne_eq, not_true_eq_false, if_false] at hv
      exact List.mem_cons_of_mem _ (ih _ v hv)
    · simp only [callsFrom, ne_eq, h, not_false_eq_true, if_true, List.mem_cons] at hv
      rcases hv with hv | hv
      · simp [hv]
      · exact List.mem_cons_of_mem _ (ih _ v hv)

theorem callsFrom_flatten (s : Nat) (ls : List (List Nat))
    (h : ∀ l ∈ ls, ∀ v ∈ l, v ≠ UINT32_MAX) :
    callsFrom s ((ls.map (callsFrom UINT32_MAX)).flatten) = callsFrom s ls.flatten := by
  induction ls generalizing s with
  | nil => simp
  | cons l ls ih =>
    have hl := h l (by simp)
    have ih' := fun t => ih t (fun x hx => h x (List.mem_cons_of_mem _ hx))
    simp only [List.map_cons, List.flatten_cons, callsFrom_append]
    rw [(callsFrom_sentinel s l hl).1, (callsFrom_sentinel s l hl).2, ih']

theorem consumeAllLoop_fst (q : List FChannelRecordEntry) (prev : Nat) :
    (consumeAllLoop q prev).1 = callsFrom prev ((q.filter isChannel).map (fun e => e.Value)) := by
  induction q generalizing prev with
  | nil => simp [consumeAllLoop, callsFrom]
  | cons e q ih =>
    unfold consumeAllLoop
    by_cases hs : e.IsSequence = false
    · by_cases hv : e.Value = prev
      · simp [hs, hv, isChannel, List.filter_cons, callsFrom, ih]
      · simp [hs, hv, isChannel, List.filter_cons, callsFrom, ih]
    · simp [hs, isChannel, List.filter_cons, ih]

theorem consumeAllLoop_snd (q : List FChannelRecordEntry) (prev : Nat) :
    (consumeAllLoop q prev).2 = [] := by
  induction q generalizing prev with
  | nil => simp [consumeAllLoop]
  | cons e q ih =>
    unfold consumeAllLoop
    split <;> simp [ih]

theorem channels_recordOf (blocks : List (Int × List Nat)) :
    ((recordOf blocks).filter isChannel).map (fun e => e.Value) =
      (blocks.map Prod.snd).flatten := by
  induction blocks with
  | nil => simp [recordOf]
  | cons b bs ih =>
    rw [recordOf_cons]
    have : (b.2.map (fun c => (⟨c, false⟩ : FChannelRecordEntry))).filter isChannel =
        b.2.map (fun c => (⟨c, false⟩ : FChannelRecordEntry)) := by
      rw [List.filter_eq_self]
      intro e he
      obtain ⟨c, -, rfl⟩ := List.mem_map.1 he
      rfl
    simp [List.filter_cons, isChannel, PacketEntry, ih, this, List.map_append,
      Function.comp_def]

theorem consumeLoop_fst_calls (p : Int) (q : List FChannelRecordEntry) (prev : Nat) :
    (consumeLoop p q prev).1 =
      (callsFrom prev ((frontChannels q).map (fun e => e.Value))).map (fun c => (p, c)) := by
  rw [consumeLoop_fst, callsFrom_eq_destutter]

theorem consumeInOrder_calls (l : Int) (blocks : List (Int × List Nat)) :
    consumeInOrder ⟨recordOf blocks, l⟩ (blocks.map Prod.fst) =
      some ((blocks.map (fun b => (callsFrom UINT32_MAX b.2).map (fun c => (b.1, c)))).flatten,
        ⟨[], l⟩) := by
  induction blocks with
  | nil => simp [consumeInOrder, recordOf]
  | cons b bs ih =>
    simp only [List.map_cons, consumeInOrder, recordOf_cons]
    rw [consume_marker_front, fromNextMarker_packet _ _ (recordOf_head _), consumeLoop_fst_calls,
      frontChannels_packet _ _ (recordOf_head _)]
    simp [ih, Function.comp_def]

/-- C6, counterexample: channel 5 wrote into packet 1 and into packet 2.  Consumed packet by
packet, fn is called with channel 5 twice (once per packet); ConsumeAllChannelRecords calls
it once, because PreviousChannelIndex is not reset at the marker of packet 2. -/
theorem consumeAll_differs_from_per_packet :
    (ConsumeAllChannelRecords
        ⟨[PacketEntry 1, ChannelEntry 5, PacketEntry 2, ChannelEntry 5], 2⟩).1 = [5]
    ∧ (consumeInOrder
        ⟨[PacketEntry 1, ChannelEntry 5, PacketEntry 2, ChannelEntry 5], 2⟩ [1, 2]).map
          (fun res => res.1.map Prod.snd) = some [5, 5]
    ∧ some (ConsumeAllChannelRecords
        ⟨[PacketEntry 1, ChannelEntry 5, PacketEntry 2, ChannelEntry 5], 2⟩).1 ≠
      (consumeInOrder
        ⟨[PacketEntry 1, ChannelEntry 5, PacketEntry 2, ChannelEntry 5], 2⟩ [1, 2]).map
          (fun res => res.1.map Prod.snd) := by
  decide

/-- C6, amended: for a record made of packets (markers with their channel entries, the
entries holding channel indices), consuming packet by packet in marker order succeeds and
empties the record, ConsumeAllChannelRecords empties it too, and the channel indices
ConsumeAllChannelRecords passes to fn are the concatenation of the per-packet sequences with
runs of consecutive equal indices collapsed also across packet boundaries. -/
theorem consumeAll_collapses_across_packets (l : Int) (blocks : List (Int × List Nat))
    (hidx : ∀ b ∈ blocks, ∀ c ∈ b.2, c ≠ UINT32_MAX) :
    ∃ calls,
      consumeInOrder ⟨recordOf blocks, l⟩ (blocks.map Prod.fst) = some (calls, ⟨[], l⟩)
      ∧ calls.map Prod.snd = (blocks.map (fun b => collapseRuns b.2)).flatten
      ∧ ConsumeAllChannelRecords ⟨recordOf blocks, l⟩ =
          (collapseRuns (calls.map Prod.snd), ⟨[], l⟩) := by
  have hcalls : ((blocks.map (fun b => (callsFrom UINT32_MAX b.2).map
      (fun c => (b.1, c)))).flatten).map Prod.snd =
      ((blocks.map Prod.snd).map (callsFrom UINT32_MAX)).flatten := by
    simp [List.map_flatten, Function.comp_def]
  have hls : ∀ x ∈ blocks.map Prod.snd, ∀ v ∈ x, v ≠ UINT32_MAX := by
    intro x hx v hv
    obtain ⟨b, hb, rfl⟩ := List.mem_map.1 hx
    exact hidx b hb v hv
  refine ⟨_, consumeInOrder_calls l blocks, ?_, ?_⟩
  · rw [hcalls, List.map_map]
    congr 1
    apply List.map_congr_left
    intro b hb
    exact callsFrom_of_ne _ (hidx b hb)
  · rw [hcalls]
    have hne : ∀ v ∈ ((blocks.map Prod.snd).map (callsFrom UINT32_MAX)).flatten,
        v ≠ UINT32_MAX := by
      intro v hv
      obtain ⟨x, hx, hvx⟩ := List.mem_flatten.1 hv
      obtain ⟨y, hy, rfl⟩ := List.mem_map.1 hx
      exact hls y hy v (mem_callsFrom _ _ v hvx)
    rw [← callsFrom_of_ne _ hne, callsFrom_flatten _ _ hls]
    simp [ConsumeAllChannelRecords, consumeAllLoop_fst, consumeAllLoop_snd, channels_recordOf]

/-- Witness of amended C6: packets 1 (channels 5, 5, 2) and 2 (channels 2, 7). -/
theorem consumeAll_collapses_across_packets_witness :
    (∀ b ∈ [((1 : Int), [5, 5, 2]), (2, [2, 7])], ∀ c ∈ b.2, c ≠ UINT32_MAX)
    ∧ ∃ calls,
      consumeInOrder ⟨recordOf [(1, [5, 5, 2]), (2, [2, 7])], 2⟩ [1, 2] = some (calls, ⟨[], 2⟩)
      ∧ calls.map Prod.snd = [5, 2, 2, 7]
      ∧ ConsumeAllChannelRecords ⟨recordOf [(1, [5, 5, 2]), (2, [2, 7])], 2⟩ =
          ([5, 2, 7], ⟨[], 2⟩) := by
  refine ⟨by decide, ?_⟩
  obtain ⟨calls, h1, h2, h3⟩ := consumeAll_collapses_across_packets 2
    [(1, [5, 5, 2]), (2, [2, 7])] (by decide)
  refine ⟨calls, h1, ?_, ?_⟩
  · rw [h2]; decide
  · rw [h3, h2]; decide

/-! ## Channel record: stored entries are not deduplicated -/

theorem channels_applyOp (r : FWrittenChannelsRecord) (op : RecordOp) :
    (applyOp r op).ChannelRecord.filter isChannel =
      r.ChannelRecord.filter isChannel
        ++ op.channels.map (fun c => (⟨c, false⟩ : FChannelRecordEntry)) := by
  rw [applyOp_eq]
  have : (op.channels.map (fun c => (⟨c, false⟩ : FChannelRecordEntry))).filter isChannel =
      op.channels.map (fun c => (⟨c, false⟩ : FChannelRecordEntry)) := by
    rw [List.filter_eq_self]
    intro e he
    obtain ⟨c, -, rfl⟩ := List.mem_map.1 he
    rfl
  by_cases h : op.PacketId = r.LastPacketId
  · simp [h, this]
  · simp [h, this, List.filter_cons, isChannel, PacketEntry]

/-- C7, counterexample: two PushChannelRecord(0, 5) on an empty record leave the marker of
packet 0 followed by two channel-5 entries: channel index 5 occurs twice after the marker. -/
theorem pushChannelRecord_stores_duplicates :
    (PushChannelRecord (PushChannelRecord (emptyRecord (-1)) 0 5) 0 5).ChannelRecord =
        [PacketEntry 0, ChannelEntry 5, ChannelEntry 5]
    ∧ List.count (ChannelEntry 5) (frontChannels
        (PushChannelRecord (PushChannelRecord (emptyRecord (-1)) 0 5) 0 5).ChannelRecord.tail)
        = 2 := by
  decide

/-- C7, amended: the stored entries are not deduplicated.  Every PushChannelRecord call
appends one channel entry: after any sequence of PushChannelRecord calls on a record r the
channel entries of the record are those of r followed by the pushed channel indices, in call
order, repeats included.  Repeats are collapsed when the record is consumed, and only
consecutive ones: ConsumeChannelRecordsForPacket never calls fn twice in succession with the
same channel index. -/
theorem pushChannelRecord_appends_every_index (r : FWrittenChannelsRecord)
    (pushes : List (Int × Int)) (p l : Int) (rest : List FChannelRecordEntry) :
    (applyOps r (pushes.map (fun pc => RecordOp.pushChannelRecord pc.1 pc.2))).ChannelRecord.filter
        isChannel =
      r.ChannelRecord.filter isChannel ++ pushes.map (fun pc => ChannelEntry pc.2)
    ∧ ∃ calls r1, ConsumeChannelRecordsForPacket ⟨PacketEntry p :: rest, l⟩ p = some (calls, r1)
        ∧ (calls.map Prod.snd).Chain' (fun a b => a ≠ b) := by
  constructor
  · induction pushes using List.reverseRecOn with
    | nil => simp [applyOps]
    | append_singleton ps pc ih =>
      rw [List.map_append, List.map_singleton, applyOps_append, channels_applyOp, ih]
      simp [RecordOp.channels, ChannelEntry]
  · refine ⟨_, _, consume_marker_front p l rest, ?_⟩
    rw [consumeLoop_fst]
    have h := List.destutter'_is_chain' ((frontChannels rest).map (fun e => e.Value))
      (fun a b : Nat => a ≠ b) UINT32_MAX
    have h2 := List.Chain'.tail h
    simpa [List.map_map, Function.comp_def] using h2

/-! ## Packet order cache: lemmas on the circular buffer -/

theorem iterate_GetNextIndex (cap s k : Nat) (hs : s < cap) :
    Nat.iterate (GetNextIndex cap) k s = (s + k) % cap := by
  induction k generalizing s with
  | zero => simp [Nat.mod_eq_of_lt hs]
  | succ k ih =>
    have hcap : 0 < cap := by omega
    rw [Function.iterate_succ_apply,
      ih _ (by unfold GetNextIndex; exact Nat.mod_lt _ hcap)]
    simp only [GetNextIndex]
    rw [Nat.add_mod, Nat.mod_mod, ← Nat.add_mod]
    congr 1
    omega

theorem cacheAt_replicate (cap i : Nat) : cacheAt (List.replicate cap none) i = none := by
  simp only [cacheAt, List.getD_eq_getElem?_getD, List.getElem?_replicate]
  split <;> rfl

theorem length_cacheSet (C : List (Option Packet)) (i : Nat) (v : Option Packet) :
    (cacheSet C i v).length = C.length := by
  simp [cacheSet]

theorem cacheAt_cacheSet (C : List (Option Packet)) (i j : Nat) (v : Option Packet)
    (hC : 0 < C.length) :
    cacheAt (cacheSet C i v) j = if i % C.length = j % C.length then v else cacheAt C j := by
  have hj : j % C.length < C.length := Nat.mod_lt _ hC
  simp only [cacheAt, cacheSet, List.length_set, List.getD_eq_getElem?_getD,
    List.getElem?_set]
  by_cases h : i % C.length = j % C.length
  · simp [h, hj]
  · simp [h]

theorem cacheAt_mod (C : List (Option Packet)) (i : Nat) :
    cacheAt C (i % C.length) = cacheAt C i := by
  simp [cacheAt, Nat.mod_mod]

theorem add_mod_inj (cap s i j : Nat) (hi : i < cap) (hj : j < cap)
    (h : (s + i) % cap = (s + j) % cap) : i = j := by
  have h1 : i ≡ j [MOD cap] := Nat.ModEq.add_left_cancel' s h
  have h2 : i % cap = j % cap := h1
  rwa [Nat.mod_eq_of_lt hi, Nat.mod_eq_of_lt hj] at h2

theorem cacheAt_congr (C : List (Option Packet)) (a b : Nat)
    (h : a % C.length = b % C.length) : cacheAt C a = cacheAt C b := by
  simp [cacheAt, h]

theorem cacheAt_cacheSet_offset (C : List (Option Packet)) (s i j : Nat) (v : Option Packet)
    (hi : i < C.length) (hj : j < C.length) :
    cacheAt (cacheSet C (s + i) v) (s + j) = if i = j then v else cacheAt C (s + j) := by
  rw [cacheAt_cacheSet _ _ _ _ (by omega)]
  by_cases h : i = j
  · simp [h]
  · rw [if_neg h, if_neg]
    intro e
    exact h (add_mod_inj _ _ _ _ hi hj e)

theorem cacheAt_previous (C : List (Option Packet)) (s : Nat) (hC : 0 < C.length) :
    cacheAt C (GetPreviousIndex C.length s) = cacheAt C (s + (C.length - 1)) := by
  apply cacheAt_congr
  simp only [GetPreviousIndex, Nat.mod_mod]
  congr 1
  omega

theorem cacheAt_next (C : List (Option Packet)) (s j : Nat) :
    cacheAt C (GetNextIndex C.length s + j) = cacheAt C (s + (j + 1)) := by
  apply cacheAt_congr
  simp only [GetNextIndex]
  rw [Nat.add_mod, Nat.mod_mod, ← Nat.add_mod]
  congr 1
  omega

theorem cacheAt_wrap (C : List (Option Packet)) (s : Nat) :
    cacheAt C (s + C.length) = cacheAt C (s + 0) := by
  apply cacheAt_congr
  simp

theorem GetNextIndex_lt (cap s : Nat) (hcap : 0 < cap) : GetNextIndex cap s < cap :=
  Nat.mod_lt _ hcap

/-! ## Packet order cache: lemmas on one step -/

/-- A packet with positive delta that is not cached is processed: the missing packets are
counted as lost and InPacketId advances by the delta. -/
theorem ReceivedPacket_process (cv : NetCVars) (c : UNetConnection) (p : Packet)
    (hint : c.InternalAck = false) (hdelta : 0 < p.Seq - c.InPacketId)
    (hno : c.bFlushingPacketOrderCache = true ∨ c.PacketOrderCache = none
      ∨ (c.PacketOrderCacheCount = 0
          ∧ (p.Seq - c.InPacketId - 1 ≤ 0
              ∨ cv.PacketOrderMaxMissingPackets < p.Seq - c.InPacketId - 1))) :
    ReceivedPacket cv c p =
      { c with
        InPacketsLost := c.InPacketsLost + (p.Seq - c.InPacketId - 1),
        InTotalPacketsLost := c.InTotalPacketsLost + (p.Seq - c.InPacketId - 1),
        InPacketId := c.InPacketId + (p.Seq - c.InPacketId),
        Processed := c.Processed ++ [p] } := by
  unfold ReceivedPacket
  simp only [hint, GetSequenceDelta, hdelta, if_true, Bool.false_eq_true, if_false]
  rw [if_neg]
  rcases hno with h | h | ⟨h0, h⟩
  · simp [h]
  · simp [h]
  · have h1 : ¬ (c.PacketOrderCacheCount > 0) := by omega
    rw [decide_eq_false h1, Bool.and_false, Bool.false_or]
    generalize (!c.bFlushingPacketOrderCache && c.PacketOrderCache.isSome
      && decide (c.PacketOrderCacheCount = 0)) = b
    cases b with
    | false => simp
    | true =>
      rcases h with h | h
      · have : ¬ (p.Seq - c.InPacketId - 1 > 0) := by omega
        rw [decide_eq_false this]; simp
      · have : ¬ (p.Seq - c.InPacketId - 1 ≤ cv.PacketOrderMaxMissingPackets) := by omega
        simp only [if_true]
        rw [decide_eq_false this]; simp

/-- A packet with positive delta is stored in the cache when the cache is being filled, or
when the cache is empty and the number of missing packets is within the window; the slot is
the one at offset k from the start index, k being the number of missing packets clamped to
the last offset. -/
theorem ReceivedPacket_cache (cv : NetCVars) (c : UNetConnection) (p : Packet)
    (C : List (Option Packet)) (k : Nat)
    (hint : c.InternalAck = false) (hfl : c.bFlushingPacketOrderCache = false)
    (hC : c.PacketOrderCache = some C) (hstart : c.PacketOrderCacheStartIdx < C.length)
    (hdelta : 0 < p.Seq - c.InPacketId)
    (hyes : 0 < c.PacketOrderCacheCount
      ∨ (c.PacketOrderCacheCount = 0 ∧ 0 < p.Seq - c.InPacketId - 1
          ∧ p.Seq - c.InPacketId - 1 ≤ cv.PacketOrderMaxMissingPackets))
    (hk : (k : Int) = min (p.Seq - c.InPacketId - 1) ((C.length : Int) - 1))
    (hfree : cacheAt C (c.PacketOrderCacheStartIdx + k) = none) :
    ReceivedPacket cv c p =
      { c with
        PacketOrderCache := some (cacheSet C (c.PacketOrderCacheStartIdx + k) (some p)),
        PacketOrderCacheCount := c.PacketOrderCacheCount + 1 } := by
  unfold ReceivedPacket
  have hcond : (0 < c.PacketOrderCacheCount) ∨ (c.PacketOrderCacheCount = 0
      ∧ 0 < p.Seq - c.InPacketId - 1
      ∧ p.Seq - c.InPacketId - 1 ≤
        (if c.PacketOrderCacheCount = 0 then cv.PacketOrderMaxMissingPackets else 0)) := by
    rcases hyes with h | ⟨h0, h1, h2⟩
    · exact Or.inl h
    · exact Or.inr ⟨h0, h1, by simpa [h0] using h2⟩
  have hidx : (if decide (p.Seq - c.InPacketId - 1 ≥ (C.length : Int) - 1) = true
      then (C.length : Int) - 1 else p.Seq - c.InPacketId - 1).toNat = k := by
    by_cases h : p.Seq - c.InPacketId - 1 ≥ (C.length : Int) - 1
    · simp only [h, decide_True, if_true]; omega
    · simp only [h, decide_False, Bool.false_eq_true, if_false]; omega
  simp only [hint, hfl, hC, GetSequenceDelta, hdelta, if_true, Bool.false_eq_true, if_false,
    Bool.not_false, Option.isSome_some, Bool.and_self, Bool.true_and, hidx,
    iterate_GetNextIndex _ _ _ hstart]
  rw [if_pos (by
    simp only [gt_iff_lt, Bool.or_eq_true, Bool.and_eq_true, decide_eq_true_eq]
    rcases hcond with h | ⟨h0, h1, h2⟩
    · exact Or.inl h
    · exact Or.inr ⟨⟨h0, h1⟩, h2⟩)]
  have hfree' : cacheAt C ((c.PacketOrderCacheStartIdx + k) % C.length) = none := by
    rw [cacheAt_mod]; exact hfree
  simp only [hfree']
  simp [cacheSet, Nat.mod_mod]

/-! ## Packet order cache: lemmas on the flush -/

theorem flush_of_count_zero (fuel : Nat) (cv : NetCVars) (c : UNetConnection) (b : Bool)
    (h : c.PacketOrderCacheCount ≤ 0) : FlushPacketOrderCache fuel cv c b = some c := by
  unfold FlushPacketOrderCache
  have : ¬ (c.PacketOrderCacheCount > 0) := by omega
  cases c.PacketOrderCache <;> simp [this]

/-- With the slot at the start index and the slot before it both empty, a flush of a
non-empty cache replays nothing. -/
theorem flush_of_start_empty (fuel : Nat) (cv : NetCVars) (c : UNetConnection)
    (C : List (Option Packet)) (hC : c.PacketOrderCache = some C)
    (hfl : c.bFlushingPacketOrderCache = false)
    (hstart : cacheAt C c.PacketOrderCacheStartIdx = none)
    (hend : cacheAt C (GetPreviousIndex C.length c.PacketOrderCacheStartIdx) = none) :
    FlushPacketOrderCache (fuel + 1) cv c false = some c := by
  unfold FlushPacketOrderCache
  by_cases h : c.PacketOrderCacheCount > 0
  · simp only [hC, h, if_true, hend, Option.isSome_none, Bool.or_false, flushLoop, hstart,
      Bool.not_false]
    cases c
    simp only at hfl hC
    simp [hfl, hC]
  · simp [hC, h]

/-- One iteration of the flush loop on a populated slot: the packet is replayed (processed,
since the cache is not active while flushing), the slot is emptied, the count decremented and
the start index advanced. -/
theorem flushLoop_replay (cv : NetCVars) (b : Bool) (fuel : Nat) (c : UNetConnection)
    (C : List (Option Packet)) (p : Packet)
    (hC : c.PacketOrderCache = some C) (hcount : 0 < c.PacketOrderCacheCount)
    (hint : c.InternalAck = false) (hfl : c.bFlushingPacketOrderCache = true)
    (hslot : cacheAt C c.PacketOrderCacheStartIdx = some p)
    (hdelta : 0 < p.Seq - c.InPacketId) :
    flushLoop cv b (fuel + 1) c =
      flushLoop cv b fuel { c with
        InPacketsLost := c.InPacketsLost + (p.Seq - c.InPacketId - 1),
        InTotalPacketsLost := c.InTotalPacketsLost + (p.Seq - c.InPacketId - 1),
        InPacketId := c.InPacketId + (p.Seq - c.InPacketId),
        Processed := c.Processed ++ [p],
        PacketOrderCache := some (cacheSet C c.PacketOrderCacheStartIdx none),
        PacketOrderCacheCount := c.PacketOrderCacheCount - 1,
        PacketOrderCacheStartIdx := GetNextIndex C.length c.PacketOrderCacheStartIdx } := by
  rw [flushLoop]
  simp only [gt_iff_lt, hcount, if_true, hC, hslot]
  rw [ReceivedPacket_process cv c p hint hdelta (Or.inl hfl)]
  simp [hC]

/-! ## Packet order cache: boundary of the caching window -/

/-- C10, counterexample: MaxMissingPackets = 3, cache allocated (capacity 8) and empty,
InPacketId = 0.  The packet with sequence 4 has sequence delta 4 = MaxMissingPackets + 1; it
is cached (3 missing packets is within the window): the count becomes 1, the packet sits in
slot 3, nothing is counted as lost, InPacketId stays 0 and nothing is processed. -/
theorem delta_one_past_window_is_cached :
    GetSequenceDelta (exampleConn 8 0) ⟨4, 0⟩ = (exampleCVars 3 8).PacketOrderMaxMissingPackets + 1
    ∧ ReceivedPacket (exampleCVars 3 8) (exampleConn 8 0) ⟨4, 0⟩ =
      { exampleConn 8 0 with
        PacketOrderCache := some [none, none, none, some ⟨4, 0⟩, none, none, none, none],
        PacketOrderCacheCount := 1 }
    ∧ (ReceivedPacket (exampleCVars 3 8) (exampleConn 8 0) ⟨4, 0⟩).InPacketsLost = 0
    ∧ (ReceivedPacket (exampleCVars 3 8) (exampleConn 8 0) ⟨4, 0⟩).InPacketId = 0
    ∧ (ReceivedPacket (exampleCVars 3 8) (exampleConn 8 0) ⟨4, 0⟩).Processed = [] := by
  decide

/-- C10, amended: with the cache allocated and empty, not being flushed, and
MaxMissingPackets at least 1, a packet p1 whose number of missing predecessors (sequence
delta - 1) equals MaxMissingPackets is cached (count 1, stored at that offset from the start
index, clamped to the last slot; nothing processed, InPacketId unchanged), and a packet p2
whose number of missing predecessors is MaxMissingPackets + 1 is not cached but treated as
loss: the missing predecessors are counted as lost, InPacketId advances by the full delta
and the packet is processed. -/
theorem window_boundary (cv : NetCVars) (c : UNetConnection) (cap : Nat) (p1 p2 : Packet)
    (hint : c.InternalAck = false) (hfl : c.bFlushingPacketOrderCache = false)
    (hcache : c.PacketOrderCache = some (List.replicate cap none))
    (hcount : c.PacketOrderCacheCount = 0) (hstart : c.PacketOrderCacheStartIdx < cap)
    (hmax : 1 ≤ cv.PacketOrderMaxMissingPackets)
    (h1 : GetSequenceDelta c p1 - 1 = cv.PacketOrderMaxMissingPackets)
    (h2 : GetSequenceDelta c p2 - 1 = cv.PacketOrderMaxMissingPackets + 1) :
    ReceivedPacket cv c p1 =
        { c with
          PacketOrderCache := some (cacheSet (List.replicate cap none)
            (c.PacketOrderCacheStartIdx + min cv.PacketOrderMaxMissingPackets.toNat (cap - 1))
            (some p1)),
          PacketOrderCacheCount := 1 }
    ∧ ReceivedPacket cv c p2 =
        { c with
          InPacketsLost := c.InPacketsLost + (cv.PacketOrderMaxMissingPackets + 1),
          InTotalPacketsLost := c.InTotalPacketsLost + (cv.PacketOrderMaxMissingPackets + 1),
          InPacketId := c.InPacketId + (cv.PacketOrderMaxMissingPackets + 2),
          Processed := c.Processed ++ [p2] } := by
  unfold GetSequenceDelta at h1 h2
  constructor
  · rw [ReceivedPacket_cache cv c p1 (List.replicate cap none)
      (min cv.PacketOrderMaxMissingPackets.toNat (cap - 1)) hint hfl hcache
      (by simpa using hstart) (by omega) (Or.inr ⟨hcount, by omega, by omega⟩)
      (by simp only [List.length_replicate]; omega) (cacheAt_replicate _ _)]
    simp [hcount]
  · rw [ReceivedPacket_process cv c p2 hint (by omega) (Or.inr (Or.inr ⟨hcount, Or.inr (by omega)⟩))]
    have e1 : p2.Seq - c.InPacketId - 1 = cv.PacketOrderMaxMissingPackets + 1 := h2
    have e2 : p2.Seq - c.InPacketId = cv.PacketOrderMaxMissingPackets + 2 := by omega
    rw [e1, e2]

/-- Witness of amended C10: window 3, capacity 8, InPacketId 0; sequence 4 (3 missing) is
cached, sequence 5 (4 missing) is treated as loss. -/
theorem window_boundary_witness :
    ReceivedPacket (exampleCVars 3 8) (exampleConn 8 0) ⟨4, 0⟩ =
        { exampleConn 8 0 with
          PacketOrderCache := some [none, none, none, some ⟨4, 0⟩, none, none, none, none],
          PacketOrderCacheCount := 1 }
    ∧ ReceivedPacket (exampleCVars 3 8) (exampleConn 8 0) ⟨5, 1⟩ =
        { exampleConn 8 0 with
          InPacketsLost := 4, InTotalPacketsLost := 4, InPacketId := 5,
          Processed := [⟨5, 1⟩] } := by
  have h := window_boundary (exampleCVars 3 8) (exampleConn 8 0) 8 ⟨4, 0⟩ ⟨5, 1⟩ rfl rfl rfl rfl
    (by decide) (by decide) (by decide) (by decide)
  refine ⟨h.1.trans (by decide), h.2.trans (by decide)⟩

/-! ## Packet order cache: Scenario B -/

theorem mod_of_lt_two_mul (cap x : Nat) (hx : x < 2 * cap) :
    x % cap = if x < cap then x else x - cap := by
  by_cases h : x < cap
  · simp [h, Nat.mod_eq_of_lt h]
  · have h1 : cap ≤ x := by omega
    rw [if_neg h, Nat.mod_eq_sub_mod h1, Nat.mod_eq_of_lt (by omega)]

theorem eq_replicate_of_cacheAt (C : List (Option Packet)) (h : ∀ i, cacheAt C i = none) :
    C = List.replicate C.length none := by
  rw [List.eq_replicate_iff]
  refine ⟨rfl, ?_⟩
  intro b hb
  obtain ⟨i, hi, rfl⟩ := List.getElem_of_mem hb
  have := h i
  simpa [cacheAt, Nat.mod_eq_of_lt hi, List.getD_eq_getElem?_getD, List.getElem?_eq_getElem hi]
    using this

/-- The third arrival of Scenario B: with packet n+2 cached one slot after the start index
and InPacketId = n, the arrival of packet n+1 replays n+1 and then n+2 and empties the
cache. -/
theorem scenario_B_replay (cv : NetCVars) (c2 : UNetConnection) (cap f : Nat) (n : Int)
    (d1 d2 s : Nat) (hcap : 4 ≤ cap)
    (hint2 : c2.InternalAck = false) (hfl2 : c2.bFlushingPacketOrderCache = false)
    (hcache2 : c2.PacketOrderCache = some (cacheSet (List.replicate cap none) (s + 1)
      (some ⟨n + 2, d2⟩)))
    (hcount2 : c2.PacketOrderCacheCount = 1) (hstart2 : c2.PacketOrderCacheStartIdx = s)
    (hin2 : c2.InPacketId = n) (hs : s < cap) :
    ReceivedRawPacket (f + 3) cv c2 ⟨n + 1, d1⟩ =
      some { c2 with
        InPacketId := n + 2,
        Processed := c2.Processed ++ [⟨n + 1, d1⟩, ⟨n + 2, d2⟩],
        PacketOrderCache := some (List.replicate cap none),
        PacketOrderCacheCount := 0,
        PacketOrderCacheStartIdx := (s + 2) % cap } := by
  have hlen : (List.replicate cap (none : Option Packet)).length = cap := by simp
  -- the cache before the arrival, and after packet n+1 has been stored at the start index
  obtain ⟨C2, hC2⟩ : ∃ C2, C2 = cacheSet (List.replicate cap none) (s + 1)
      (some (⟨n + 2, d2⟩ : Packet)) := ⟨_, rfl⟩
  have hlen2 : C2.length = cap := by rw [hC2, length_cacheSet, hlen]
  have h2at : ∀ j, j < cap → cacheAt C2 (s + j) = if 1 = j then some ⟨n + 2, d2⟩ else none := by
    intro j hj
    rw [hC2, cacheAt_cacheSet_offset _ _ _ _ _ (by rw [hlen]; omega) (by rw [hlen]; omega),
      cacheAt_replicate]
  obtain ⟨C3, hC3⟩ : ∃ C3, C3 = cacheSet C2 (s + 0) (some (⟨n + 1, d1⟩ : Packet)) := ⟨_, rfl⟩
  have hlen3 : C3.length = cap := by rw [hC3, length_cacheSet, hlen2]
  have h3at : ∀ j, j < cap → cacheAt C3 (s + j) =
      if 0 = j then some ⟨n + 1, d1⟩ else if 1 = j then some ⟨n + 2, d2⟩ else none := by
    intro j hj
    rw [hC3, cacheAt_cacheSet_offset _ _ _ _ _ (by rw [hlen2]; omega) (by rw [hlen2]; omega),
      h2at j hj]
  rw [← hC2] at hcache2
  unfold ReceivedRawPacket
  rw [ReceivedPacket_cache cv c2 _ C2 0 hint2 hfl2 hcache2 (by rw [hlen2, hstart2]; exact hs)
    (by simp only [hin2]; omega) (Or.inl (by omega))
    (by simp only [hlen2, hin2]; omega)
    (by rw [hstart2, h2at 0 (by omega)]; simp)]
  rw [hstart2, ← hC3]
  unfold FlushPacketOrderCache
  have hend : cacheAt C3 (GetPreviousIndex C3.length s) = none := by
    rw [cacheAt_previous _ _ (by omega), hlen3, h3at _ (by omega), if_neg (by omega),
      if_neg (by omega)]
  simp only [hcount2, hstart2, hend, Option.isSome_none, Bool.or_false]
  rw [if_pos (by omega)]
  -- first iteration: packet n+1
  rw [flushLoop_replay cv false (f + 2) _ C3 ⟨n + 1, d1⟩]
  rotate_left
  · rfl
  · simp only; omega
  · exact hint2
  · rfl
  · simpa using h3at 0 (by omega)
  · simp only [hin2]; omega
  obtain ⟨C4, hC4⟩ : ∃ C4, C4 = cacheSet C3 s none := ⟨_, rfl⟩
  have hlen4 : C4.length = cap := by rw [hC4, length_cacheSet, hlen3]
  have h4at : ∀ j, j < cap → cacheAt C4 (s + j) =
      if 0 = j then none else if 1 = j then some ⟨n + 2, d2⟩ else none := by
    intro j hj
    have := cacheAt_cacheSet_offset C3 s 0 j none (by omega) (by omega)
    rw [Nat.add_zero] at this
    rw [hC4, this, h3at j hj]
    split <;> rfl
  simp only [← hC4]
  -- second iteration: packet n+2
  rw [flushLoop_replay cv false (f + 1) _ C4 ⟨n + 2, d2⟩]
  rotate_left
  · rfl
  · simp only; omega
  · exact hint2
  · rfl
  · have := cacheAt_next C4 s 0
    rw [Nat.zero_add, Nat.add_zero, hlen4] at this
    simp only [hlen3]
    rw [this, h4at 1 (by omega)]; simp
  · simp only [hin2]; omega
  -- the loop ends: the count is 0
  rw [flushLoop, if_neg (by simp only; omega)]
  simp only [hlen3, hlen4, hin2]
  have hnext : GetNextIndex cap (GetNextIndex cap s) = (s + 2) % cap := by
    simp only [GetNextIndex]
    rw [Nat.add_mod, Nat.mod_mod, ← Nat.add_mod]
  have hempty : cacheSet C4 (GetNextIndex cap s) none = List.replicate cap none := by
    have h5len : (cacheSet C4 (GetNextIndex cap s) none).length = cap := by
      rw [length_cacheSet, hlen4]
    have hrep := eq_replicate_of_cacheAt (cacheSet C4 (GetNextIndex cap s) none)
    rw [h5len] at hrep
    apply hrep
    intro i
    have hi : i % cap < cap := Nat.mod_lt _ (by omega)
    obtain ⟨j, hj, hij⟩ : ∃ j, j < cap ∧ (s + j) % cap = i % cap := by
      by_cases h : s ≤ i % cap
      · exact ⟨i % cap - s, by omega, by
          rw [show s + (i % cap - s) = i % cap by omega, Nat.mod_mod]⟩
      · exact ⟨i % cap + cap - s, by omega, by
          rw [show s + (i % cap + cap - s) = i % cap + cap by omega, Nat.add_mod_right,
            Nat.mod_mod]⟩
    have e1 : cacheAt (cacheSet C4 (GetNextIndex cap s) none) i =
        cacheAt (cacheSet C4 (GetNextIndex cap s) none) (s + j) :=
      cacheAt_congr _ _ _ (by rw [length_cacheSet, hlen4, hij])
    have e2 : cacheSet C4 (GetNextIndex cap s) none = cacheSet C4 (s + 1) none := by
      simp only [cacheSet, GetNextIndex, hlen4, Nat.mod_mod]
    rw [e1, e2, cacheAt_cacheSet_offset _ _ _ _ _ (by omega) (by omega), h4at j hj]
    by_cases h1 : 1 = j
    · simp [h1]
    · simp [h1]
  rw [hnext, hempty]
  simp only [Option.some.injEq, UNetConnection.mk.injEq, hfl2, List.append_assoc,
    List.singleton_append, and_true, true_and]
  refine ⟨?_, ?_, ?_, ?_⟩ <;> omega

/-- C9 (Scenario B): cache allocated and empty, capacity at least 4, MaxMissingPackets at
least 1, InPacketId = n - 1.  Packet n is processed at once.  Packet n+2 is then stored in the
cache (slot after the start index), not processed, InPacketId still n.  The arrival of n+1
then makes n+1 and n+2 processed in that order; afterwards the cache is empty again, the
count is 0 and InPacketId = n+2. -/
theorem scenario_B (cv : NetCVars) (c : UNetConnection) (cap fuel : Nat) (n : Int)
    (d0 d1 d2 : Nat)
    (hcap : 4 ≤ cap) (hmax : 1 ≤ cv.PacketOrderMaxMissingPackets)
    (hint : c.InternalAck = false) (hfl : c.bFlushingPacketOrderCache = false)
    (hcache : c.PacketOrderCache = some (List.replicate cap none))
    (hcount : c.PacketOrderCacheCount = 0) (hstart : c.PacketOrderCacheStartIdx < cap)
    (hin : c.InPacketId = n - 1) (hfuel : 3 ≤ fuel) :
    ReceivedRawPacket fuel cv c ⟨n, d0⟩ =
        some { c with InPacketId := n, Processed := c.Processed ++ [⟨n, d0⟩] }
    ∧ ReceivedRawPacket fuel cv
          { c with InPacketId := n, Processed := c.Processed ++ [⟨n, d0⟩] } ⟨n + 2, d2⟩ =
        some { c with
          InPacketId := n, Processed := c.Processed ++ [⟨n, d0⟩],
          PacketOrderCache := some (cacheSet (List.replicate cap none)
            (c.PacketOrderCacheStartIdx + 1) (some ⟨n + 2, d2⟩)),
          PacketOrderCacheCount := 1 }
    ∧ ReceivedRawPacket fuel cv
          { c with
            InPacketId := n, Processed := c.Processed ++ [⟨n, d0⟩],
            PacketOrderCache := some (cacheSet (List.replicate cap none)
              (c.PacketOrderCacheStartIdx + 1) (some ⟨n + 2, d2⟩)),
            PacketOrderCacheCount := 1 } ⟨n + 1, d1⟩ =
        some { c with
          InPacketId := n + 2,
          Processed := c.Processed ++ [⟨n, d0⟩, ⟨n + 1, d1⟩, ⟨n + 2, d2⟩],
          PacketOrderCache := some (List.replicate cap none),
          PacketOrderCacheCount := 0,
          PacketOrderCacheStartIdx := (c.PacketOrderCacheStartIdx + 2) % cap } := by
  obtain ⟨f, rfl⟩ : ∃ f, fuel = f + 3 := ⟨fuel - 3, by omega⟩
  have hlen : (List.replicate cap (none : Option Packet)).length = cap := by simp
  have hs1 : (c.PacketOrderCacheStartIdx + 1) % cap =
      if c.PacketOrderCacheStartIdx + 1 < cap then c.PacketOrderCacheStartIdx + 1
      else c.PacketOrderCacheStartIdx + 1 - cap := mod_of_lt_two_mul _ _ (by omega)
  have hs2 : (c.PacketOrderCacheStartIdx + 2) % cap =
      if c.PacketOrderCacheStartIdx + 2 < cap then c.PacketOrderCacheStartIdx + 2
      else c.PacketOrderCacheStartIdx + 2 - cap := mod_of_lt_two_mul _ _ (by omega)
  have hsp : (c.PacketOrderCacheStartIdx + cap - 1) % cap =
      if c.PacketOrderCacheStartIdx + cap - 1 < cap then c.PacketOrderCacheStartIdx + cap - 1
      else c.PacketOrderCacheStartIdx + cap - 1 - cap := mod_of_lt_two_mul _ _ (by omega)
  have hs0 : c.PacketOrderCacheStartIdx % cap = c.PacketOrderCacheStartIdx :=
    Nat.mod_eq_of_lt hstart
  refine ⟨?_, ?_, ?_⟩
  · unfold ReceivedRawPacket
    rw [ReceivedPacket_process cv c _ hint (by simp only [hin]; omega)
      (Or.inr (Or.inr ⟨hcount, Or.inl (by simp only [hin]; omega)⟩))]
    rw [flush_of_count_zero _ _ _ _ (by simp [hcount])]
    simp only [hin]
    congr 2 <;> omega
  · have key : ∀ c1 : UNetConnection, c1.InternalAck = false →
        c1.bFlushingPacketOrderCache = false →
        c1.PacketOrderCache = some (List.replicate cap none) → c1.PacketOrderCacheCount = 0 →
        c1.PacketOrderCacheStartIdx = c.PacketOrderCacheStartIdx → c1.InPacketId = n →
        ReceivedRawPacket (f + 3) cv c1 ⟨n + 2, d2⟩ =
          some { c1 with
            PacketOrderCache := some (cacheSet (List.replicate cap none)
              (c.PacketOrderCacheStartIdx + 1) (some ⟨n + 2, d2⟩)),
            PacketOrderCacheCount := 1 } := by
      intro c1 hint1 hfl1 hcache1 hcount1 hstart1 hin1
      unfold ReceivedRawPacket
      rw [ReceivedPacket_cache cv c1 _ (List.replicate cap none) 1 hint1 hfl1 hcache1
        (by rw [hlen, hstart1]; exact hstart) (by simp only [hin1]; omega)
        (Or.inr ⟨hcount1, by simp only [hin1]; omega, by simp only [hin1]; omega⟩)
        (by simp only [hlen, hin1]; omega) (cacheAt_replicate _ _)]
      simp only [hcount1, zero_add, hstart1]
      refine flush_of_start_empty (f + 2) cv _ _ rfl hfl1 ?_ ?_
      · simp only [cacheAt_cacheSet _ _ _ _ (show 0 < (List.replicate cap
          (none : Option Packet)).length by rw [hlen]; omega), hlen, cacheAt_replicate, hstart1]
        rw [if_neg]
        rw [hs1, hs0]; split <;> omega
      · simp only [cacheAt_cacheSet _ _ _ _ (show 0 < (List.replicate cap
          (none : Option Packet)).length by rw [hlen]; omega), hlen, cacheAt_replicate, hstart1,
          GetPreviousIndex, length_cacheSet]
        rw [if_neg]
        rw [hs1, Nat.mod_mod, hsp]; split <;> split <;> omega
    exact key _ hint hfl hcache hcount rfl rfl
  · have h3 := scenario_B_replay cv { c with
        InPacketId := n, Processed := c.Processed ++ [⟨n, d0⟩],
        PacketOrderCache := some (cacheSet (List.replicate cap none)
          (c.PacketOrderCacheStartIdx + 1) (some ⟨n + 2, d2⟩)),
        PacketOrderCacheCount := 1 } cap f n d1 d2 c.PacketOrderCacheStartIdx hcap hint hfl rfl rfl
      rfl rfl hstart
    simpa using h3

/-- Witness of C9: sequence numbers 10, 12, 11 with capacity 4 and window 3, InPacketId 9. -/
theorem scenario_B_witness :
    ReceivedRawPacket 3 (exampleCVars 3 4) (exampleConn 4 9) ⟨10, 0⟩ =
        some { exampleConn 4 9 with InPacketId := 10, Processed := [⟨10, 0⟩] }
    ∧ ReceivedRawPacket 3 (exampleCVars 3 4)
          { exampleConn 4 9 with InPacketId := 10, Processed := [⟨10, 0⟩] } ⟨12, 2⟩ =
        some { exampleConn 4 9 with
          InPacketId := 10, Processed := [⟨10, 0⟩],
          PacketOrderCache := some [none, some ⟨12, 2⟩, none, none],
          PacketOrderCacheCount := 1 }
    ∧ ReceivedRawPacket 3 (exampleCVars 3 4)
          { exampleConn 4 9 with
            InPacketId := 10, Processed := [⟨10, 0⟩],
            PacketOrderCache := some [none, some ⟨12, 2⟩, none, none],
            PacketOrderCacheCount := 1 } ⟨11, 1⟩ =
        some { exampleConn 4 9 with
          InPacketId := 12, Processed := [⟨10, 0⟩, ⟨11, 1⟩, ⟨12, 2⟩],
          PacketOrderCache := some [none, none, none, none],
          PacketOrderCacheCount := 0, PacketOrderCacheStartIdx := 2 } := by
  have h := scenario_B (exampleCVars 3 4) (exampleConn 4 9) 4 3 10 0 1 2 (by decide) (by decide)
    rfl rfl rfl rfl (by decide) (by decide) (by decide)
  exact ⟨h.1, h.2.1, h.2.2⟩

/-! ## Packet order cache: the populated slots -/

theorem reduceOption_cons_toList (a : Option Packet) (l : List (Option Packet)) :
    (a :: l).reduceOption = a.toList ++ l.reduceOption := by
  cases a <;> simp [List.reduceOption_cons_of_none, List.reduceOption_cons_of_some]

theorem reduceOption_set_perm (l : List (Option Packet)) (i : Nat) (y : Option Packet)
    (hi : i < l.length) :
    ((l[i]).toList ++ (l.set i y).reduceOption).Perm (y.toList ++ l.reduceOption) := by
  induction l generalizing i with
  | nil => simp at hi
  | cons a l ih =>
    cases i with
    | zero =>
      simp only [List.getElem_cons_zero, List.set_cons_zero, reduceOption_cons_toList]
      rw [← List.append_assoc, ← List.append_assoc]
      exact List.Perm.append_right _ List.perm_append_comm
    | succ k =>
      have hk : k < l.length := by simpa using hi
      simp only [List.getElem_cons_succ, List.set_cons_succ, reduceOption_cons_toList]
      have h := ih k hk
      calc (l[k]).toList ++ (a.toList ++ (l.set k y).reduceOption)
          _ = ((l[k]).toList ++ a.toList) ++ (l.set k y).reduceOption := by
            rw [List.append_assoc]
          _ |>.Perm ((a.toList ++ (l[k]).toList) ++ (l.set k y).reduceOption) :=
            List.Perm.append_right _ List.perm_append_comm
          _ = a.toList ++ ((l[k]).toList ++ (l.set k y).reduceOption) := by
            rw [List.append_assoc]
          _ |>.Perm (a.toList ++ (y.toList ++ l.reduceOption)) := List.Perm.append_left _ h
          _ = (a.toList ++ y.toList) ++ l.reduceOption := by rw [List.append_assoc]
          _ |>.Perm ((y.toList ++ a.toList) ++ l.reduceOption) :=
            List.Perm.append_right _ List.perm_append_comm
          _ = y.toList ++ (a.toList ++ l.reduceOption) := by rw [List.append_assoc]

theorem cacheAt_eq_getElem (C : List (Option Packet)) (a : Nat) (hC : 0 < C.length) :
    cacheAt C a = C.get ⟨a % C.length, Nat.mod_lt _ hC⟩ := by
  simp [cacheAt, List.getD_eq_getElem?_getD, List.getElem?_eq_getElem (Nat.mod_lt a hC)]

theorem reduceOption_cacheSet (C : List (Option Packet)) (a : Nat) (y : Option Packet)
    (hC : 0 < C.length) :
    ((cacheAt C a).toList ++ (cacheSet C a y).reduceOption).Perm
      (y.toList ++ C.reduceOption) := by
  rw [cacheAt_eq_getElem C a hC, List.get_eq_getElem]
  exact reduceOption_set_perm C _ y (Nat.mod_lt _ hC)

theorem mem_reduceOption_of_cacheAt (C : List (Option Packet)) (a : Nat) (q : Packet)
    (h : cacheAt C a = some q) : q ∈ C.reduceOption := by
  rw [List.reduceOption_mem_iff]
  by_cases hC : 0 < C.length
  · rw [cacheAt_eq_getElem C a hC] at h
    rw [← h]
    exact List.get_mem _ _ _
  · have : C = [] := List.length_eq_zero.1 (by omega)
    subst this
    simp [cacheAt] at h

theorem cacheAt_of_mem_reduceOption (C : List (Option Packet)) (s : Nat) (q : Packet)
    (hs : s < C.length) (h : q ∈ C.reduceOption) :
    ∃ j, j < C.length ∧ cacheAt C (s + j) = some q := by
  rw [List.reduceOption_mem_iff] at h
  obtain ⟨i, hi, hq⟩ := List.getElem_of_mem h
  have hC : 0 < C.length := by omega
  by_cases hsi : s ≤ i
  · refine ⟨i - s, by omega, ?_⟩
    rw [cacheAt_eq_getElem C _ hC, List.get_eq_getElem]
    have e : (s + (i - s)) % C.length = i := by
      rw [show s + (i - s) = i by omega, Nat.mod_eq_of_lt hi]
    simp only [e]
    exact hq
  · refine ⟨i + C.length - s, by omega, ?_⟩
    rw [cacheAt_eq_getElem C _ hC, List.get_eq_getElem]
    have e : (s + (i + C.length - s)) % C.length = i := by
      rw [show s + (i + C.length - s) = i + C.length by omega, Nat.add_mod_right,
        Nat.mod_eq_of_lt hi]
    simp only [e]
    exact hq

theorem cacheAt_none_of_reduceOption_nil (C : List (Option Packet)) (a : Nat)
    (h : C.reduceOption = []) : cacheAt C a = none := by
  cases hq : cacheAt C a with
  | none => rfl
  | some q =>
    have := mem_reduceOption_of_cacheAt C a q hq
    rw [h] at this
    simp at this

theorem consecutive_succ (a : Int) (k : Nat) :
    consecutive a (k + 1) = a :: consecutive (a + 1) k := by
  simp only [consecutive]
  rw [List.range_succ_eq_map]
  simp only [List.map_cons, List.map_map, Nat.cast_zero, add_zero, List.cons.injEq, true_and]
  apply List.map_congr_left
  intro i _
  simp only [Function.comp_apply, Nat.succ_eq_add_one, Nat.cast_add, Nat.cast_one]
  omega

theorem consecutive_append_one (a : Int) (k : Nat) :
    consecutive a (k + 1) = consecutive a k ++ [a + k] := by
  simp [consecutive, List.range_succ]

theorem mem_consecutive (a x : Int) (k : Nat) :
    x ∈ consecutive a k ↔ a ≤ x ∧ x < a + k := by
  simp only [consecutive, List.mem_map, List.mem_range]
  constructor
  · rintro ⟨i, hi, rfl⟩
    omega
  · rintro ⟨h1, h2⟩
    exact ⟨(x - a).toNat, by omega, by omega⟩

theorem length_consecutive (a : Int) (k : Nat) : (consecutive a k).length = k := by
  simp [consecutive]

theorem nodup_consecutive (a : Int) (k : Nat) : (consecutive a k).Nodup := by
  unfold consecutive
  apply List.Nodup.map _ (List.nodup_range k)
  intro i j h
  simp only at h
  omega

theorem reduceOption_replicate_none (cap : Nat) :
    (List.replicate cap (none : Option Packet)).reduceOption = [] := by
  induction cap with
  | zero => rfl
  | succ k ih => simp [List.replicate_succ, List.reduceOption_cons_of_none, ih]


/-! ## Packet order cache: the invariant is kept -/

theorem CacheInv.count_nonneg {W : Int} {cap : Nat} {c : UNetConnection}
    {C : List (Option Packet)} (h : CacheInv W cap c C) : 0 ≤ c.PacketOrderCacheCount := by
  rw [h.count]; omega

/-- Storing a new packet at a free offset k within the window keeps the invariant. -/
theorem CacheInv.store {W : Int} {cap : Nat} {c : UNetConnection} {C : List (Option Packet)}
    (h : CacheInv W cap c C) (p : Packet) (k : Nat) (hk : k < cap) (hkW : (k : Int) ≤ W)
    (hseq : p.Seq = c.InPacketId + 1 + k)
    (hfree : cacheAt C (c.PacketOrderCacheStartIdx + k) = none) :
    CacheInv W cap
      { c with
        PacketOrderCache := some (cacheSet C (c.PacketOrderCacheStartIdx + k) (some p)),
        PacketOrderCacheCount := c.PacketOrderCacheCount + 1 }
      (cacheSet C (c.PacketOrderCacheStartIdx + k) (some p)) := by
  have hC : 0 < C.length := by rw [h.len]; omega
  refine ⟨rfl, by rw [length_cacheSet, h.len], h.start, h.internal, ?_, ?_⟩
  · have hp := (reduceOption_cacheSet C (c.PacketOrderCacheStartIdx + k) (some p) hC).length_eq
    rw [hfree] at hp
    simp only [Option.toList, List.nil_append, List.length_append, List.length_singleton] at hp
    simp only [h.count, hp]
    omega
  · intro i q hi hq
    simp only at hq ⊢
    rw [cacheAt_cacheSet_offset _ _ _ _ _ (by rw [h.len]; exact hk) (by rw [h.len]; exact hi)]
      at hq
    by_cases hki : k = i
    · rw [if_pos hki] at hq
      cases hq
      subst hki
      exact ⟨hseq, hkW⟩
    · rw [if_neg hki] at hq
      exact h.aligned i q hi hq

/-- The flush loop, started on a state that satisfies the invariant, ends: it replays the
populated slots from the start index up to the first empty slot, in sequence order. -/
theorem flushLoop_spec (cv : NetCVars) (W : Int) (cap : Nat) :
    ∀ (fuel : Nat) (c : UNetConnection) (C : List (Option Packet)),
      CacheInv W cap c C → c.bFlushingPacketOrderCache = true →
      c.PacketOrderCacheCount < fuel →
      ∃ c1 C1 proc,
        flushLoop cv false fuel c = some c1
        ∧ CacheInv W cap c1 C1
        ∧ c1.bFlushingPacketOrderCache = true
        ∧ cacheAt C1 (c1.PacketOrderCacheStartIdx + 0) = none
        ∧ c1.Processed = c.Processed ++ proc
        ∧ proc.map Packet.Seq = consecutive (c.InPacketId + 1) proc.length
        ∧ c1.InPacketId = c.InPacketId + proc.length
        ∧ (proc ++ C1.reduceOption).Perm C.reduceOption := by
  intro fuel
  induction fuel with
  | zero =>
    intro c C h _ hfuel
    have := h.count_nonneg
    omega
  | succ fuel ih =>
    intro c C h hfl hfuel
    by_cases hcount : c.PacketOrderCacheCount > 0
    · have hC : 0 < C.length := by rw [h.len]; have := h.start; omega
      cases hslot : cacheAt C c.PacketOrderCacheStartIdx with
      | none =>
        refine ⟨c, C, [], ?_, h, hfl, by simpa using hslot, by simp, by simp [consecutive],
          by simp, by simp⟩
        rw [flushLoop]
        simp [hcount, h.cache, hslot]
      | some p =>
        have hp := h.aligned 0 p (by have := h.start; omega) (by simpa using hslot)
        have hseq : p.Seq = c.InPacketId + 1 := by simpa using hp.1
        rw [flushLoop_replay cv false fuel c C p h.cache hcount h.internal hfl hslot
          (by omega)]
        have hperm := reduceOption_cacheSet C c.PacketOrderCacheStartIdx none hC
        rw [hslot] at hperm
        simp only [Option.toList, List.nil_append, List.singleton_append] at hperm
        have hinv : CacheInv W cap
            { c with
              InPacketsLost := c.InPacketsLost + (p.Seq - c.InPacketId - 1),
              InTotalPacketsLost := c.InTotalPacketsLost + (p.Seq - c.InPacketId - 1),
              InPacketId := c.InPacketId + (p.Seq - c.InPacketId),
              Processed := c.Processed ++ [p],
              PacketOrderCache := some (cacheSet C c.PacketOrderCacheStartIdx none),
              PacketOrderCacheCount := c.PacketOrderCacheCount - 1,
              PacketOrderCacheStartIdx := GetNextIndex C.length c.PacketOrderCacheStartIdx }
            (cacheSet C c.PacketOrderCacheStartIdx none) := by
          refine ⟨rfl, by rw [length_cacheSet, h.len], ?_, h.internal, ?_, ?_⟩
          · simp only [h.len]
            exact GetNextIndex_lt _ _ (by rw [← h.len]; exact hC)
          · have := hperm.length_eq
            simp only [List.length_cons] at this
            simp only [h.count]
            omega
          · intro i q hi hq
            simp only at hq ⊢
            have hlen1 : (cacheSet C c.PacketOrderCacheStartIdx none).length = C.length :=
              length_cacheSet _ _ _
            rw [← hlen1, cacheAt_next] at hq
            have hset : cacheSet C c.PacketOrderCacheStartIdx none =
                cacheSet C (c.PacketOrderCacheStartIdx + 0) none := by simp
            by_cases hi1 : i + 1 < cap
            · rw [hset, cacheAt_cacheSet_offset _ _ _ _ _ (by omega) (by rw [h.len]; exact hi1),
                if_neg (by omega)] at hq
              have := h.aligned (i + 1) q hi1 hq
              constructor
              · have := this.1
                push_cast at this
                omega
              · have := this.2
                push_cast at this
                omega
            · have hcap : i + 1 = C.length := by rw [h.len]; omega
              rw [hcap, ← hlen1, cacheAt_wrap, hset,
                cacheAt_cacheSet_offset _ _ _ _ _ (by omega) (by omega), if_pos rfl] at hq
              cases hq
        obtain ⟨c1, C1, proc, hrun, hinv1, hfl1, hhead, hproc, hseqs, hin, hperm1⟩ :=
          ih _ _ hinv hfl (by simp only; omega)
        refine ⟨c1, C1, p :: proc, hrun, hinv1, hfl1, hhead, ?_, ?_, ?_, ?_⟩
        · rw [hproc]; simp
        · simp only [List.map_cons, List.length_cons, consecutive_succ, hseqs]
          rw [hseq]
          congr 2
          omega
        · rw [hin]; simp only [List.length_cons]; push_cast; omega
        · exact (List.Perm.cons p hperm1).trans hperm
    · refine ⟨c, C, [], ?_, h, hfl, ?_, by simp, by simp [consecutive], by simp, by simp⟩
      · rw [flushLoop]; simp [hcount]
      · apply cacheAt_none_of_reduceOption_nil
        have := h.count
        have h0 : C.reduceOption.length = 0 := by omega
        exact List.length_eq_zero.1 h0

/-- With the slot at the start index empty, every cached packet is ahead of the expected
sequence, within the window. -/
theorem CacheInv.cached_ahead {W : Int} {cap : Nat} {c : UNetConnection}
    {C : List (Option Packet)} (h : CacheInv W cap c C)
    (hhead : cacheAt C (c.PacketOrderCacheStartIdx + 0) = none)
    (q : Packet) (hq : q ∈ C.reduceOption) :
    c.InPacketId + 1 < q.Seq ∧ q.Seq ≤ c.InPacketId + 1 + W := by
  obtain ⟨j, hj, hat⟩ := cacheAt_of_mem_reduceOption C c.PacketOrderCacheStartIdx q
    (by rw [h.len]; exact h.start) hq
  rw [h.len] at hj
  have ha := h.aligned j q hj hat
  have hj0 : j ≠ 0 := by
    intro e
    subst e
    rw [hhead] at hat
    cases hat
  omega

theorem CacheInv.of_fields {W : Int} {cap : Nat} {c c1 : UNetConnection}
    {C : List (Option Packet)} (h : CacheInv W cap c C)
    (h1 : c1.PacketOrderCache = c.PacketOrderCache)
    (h2 : c1.PacketOrderCacheStartIdx = c.PacketOrderCacheStartIdx)
    (h3 : c1.InternalAck = c.InternalAck)
    (h4 : c1.PacketOrderCacheCount = c.PacketOrderCacheCount)
    (h5 : c1.InPacketId = c.InPacketId) : CacheInv W cap c1 C :=
  ⟨h1.trans h.cache, h.len, h2 ▸ h.start, h3.trans h.internal, h4.trans h.count, by
    intro i p hi hp
    rw [h2] at hp
    rw [h5]
    exact h.aligned i p hi hp⟩

/-- One arrival: a new packet that is ahead of InPacketId by at most the window plus one is
either processed at once or stored and the cache flushed up to the first gap; the invariant
is kept and the packets processed are the next ones in sequence order. -/
theorem receivedRaw_step (cv : NetCVars) (cap fuel : Nat) (c : UNetConnection)
    (C : List (Option Packet)) (p : Packet)
    (hW : cv.PacketOrderMaxMissingPackets + 1 < cap)
    (h : CacheInv cv.PacketOrderMaxMissingPackets cap c C)
    (hfl : c.bFlushingPacketOrderCache = false)
    (hhead : cacheAt C (c.PacketOrderCacheStartIdx + 0) = none)
    (hdelta : c.InPacketId < p.Seq)
    (hwin : p.Seq - (c.InPacketId + 1) ≤ cv.PacketOrderMaxMissingPackets)
    (hnew : ∀ q ∈ C.reduceOption, q.Seq ≠ p.Seq)
    (hfuel : c.PacketOrderCacheCount + 1 < fuel) :
    ∃ c1 C1 proc,
      ReceivedRawPacket fuel cv c p = some c1
      ∧ CacheInv cv.PacketOrderMaxMissingPackets cap c1 C1
      ∧ c1.bFlushingPacketOrderCache = false
      ∧ cacheAt C1 (c1.PacketOrderCacheStartIdx + 0) = none
      ∧ c1.Processed = c.Processed ++ proc
      ∧ proc.map Packet.Seq = consecutive (c.InPacketId + 1) proc.length
      ∧ c1.InPacketId = c.InPacketId + proc.length
      ∧ (proc ++ C1.reduceOption).Perm (p :: C.reduceOption) := by
  have hcap : 0 < cap := by have := h.start; omega
  have hC : 0 < C.length := by rw [h.len]; exact hcap
  by_cases hA : c.PacketOrderCacheCount = 0 ∧ p.Seq = c.InPacketId + 1
  · -- the next packet in sequence, with nothing cached: processed at once
    obtain ⟨h0, hseq⟩ := hA
    have hnil : C.reduceOption = [] := by
      have := h.count
      exact List.length_eq_zero.1 (by omega)
    refine ⟨{ c with
        InPacketsLost := c.InPacketsLost + (p.Seq - c.InPacketId - 1),
        InTotalPacketsLost := c.InTotalPacketsLost + (p.Seq - c.InPacketId - 1),
        InPacketId := c.InPacketId + (p.Seq - c.InPacketId),
        Processed := c.Processed ++ [p] }, C, [p], ?_, ?_, hfl, hhead, rfl, ?_, ?_, ?_⟩
    · unfold ReceivedRawPacket
      rw [ReceivedPacket_process cv c p h.internal (by omega)
        (Or.inr (Or.inr ⟨h0, Or.inl (by omega)⟩))]
      exact flush_of_count_zero _ _ _ _ (by simp only; omega)
    · refine ⟨h.cache, h.len, h.start, h.internal, h.count, ?_⟩
      intro i q _ hq
      rw [cacheAt_none_of_reduceOption_nil C _ hnil] at hq
      cases hq
    · simp [consecutive, hseq, List.range_succ]
    · simp only [List.length_singleton]; push_cast; omega
    · simp
  · -- otherwise the packet is stored at its offset and the cache flushed up to the first gap
    obtain ⟨k, hk⟩ : ∃ k : Nat, (k : Int) = p.Seq - c.InPacketId - 1 :=
      ⟨(p.Seq - c.InPacketId - 1).toNat, by omega⟩
    have hkcap : k + 1 < cap := by omega
    have hfree : cacheAt C (c.PacketOrderCacheStartIdx + k) = none := by
      cases hq : cacheAt C (c.PacketOrderCacheStartIdx + k) with
      | none => rfl
      | some q =>
        exfalso
        have ha := h.aligned k q (by omega) hq
        exact hnew q (mem_reduceOption_of_cacheAt C _ q hq) (by omega)
    have hyes : 0 < c.PacketOrderCacheCount
        ∨ (c.PacketOrderCacheCount = 0 ∧ 0 < p.Seq - c.InPacketId - 1
            ∧ p.Seq - c.InPacketId - 1 ≤ cv.PacketOrderMaxMissingPackets) := by
      have := h.count_nonneg
      by_cases h0 : c.PacketOrderCacheCount = 0
      · exact Or.inr ⟨h0, by omega, by omega⟩
      · exact Or.inl (by omega)
    have hstore := h.store p k (by omega) (by omega) (by omega) hfree
    have hperm0 := reduceOption_cacheSet C (c.PacketOrderCacheStartIdx + k) (some p) hC
    rw [hfree] at hperm0
    simp only [Option.toList, List.nil_append, List.singleton_append] at hperm0
    have hend : cacheAt (cacheSet C (c.PacketOrderCacheStartIdx + k) (some p))
        (GetPreviousIndex (cacheSet C (c.PacketOrderCacheStartIdx + k) (some p)).length
          c.PacketOrderCacheStartIdx) = none := by
      rw [cacheAt_previous _ _ (by rw [length_cacheSet]; exact hC)]
      cases hq : cacheAt (cacheSet C (c.PacketOrderCacheStartIdx + k) (some p))
          (c.PacketOrderCacheStartIdx
            + ((cacheSet C (c.PacketOrderCacheStartIdx + k) (some p)).length - 1)) with
      | none => rfl
      | some q =>
        exfalso
        rw [hstore.len] at hq
        have ha := hstore.aligned (cap - 1) q (by omega) hq
        have := ha.2
        omega
    obtain ⟨c2, C2, proc, hrun, hinv2, -, hhead2, hproc, hseqs, hin, hperm2⟩ :=
      flushLoop_spec cv cv.PacketOrderMaxMissingPackets cap fuel
        { c with
          PacketOrderCache := some (cacheSet C (c.PacketOrderCacheStartIdx + k) (some p)),
          PacketOrderCacheCount := c.PacketOrderCacheCount + 1,
          bFlushingPacketOrderCache := true } _
        (hstore.of_fields rfl rfl rfl rfl rfl) rfl (by simp only; omega)
    refine ⟨{ c2 with bFlushingPacketOrderCache := false }, C2, proc, ?_,
      hinv2.of_fields rfl rfl rfl rfl rfl, rfl, hhead2, hproc, hseqs, hin,
      hperm2.trans hperm0⟩
    unfold ReceivedRawPacket
    rw [ReceivedPacket_cache cv c p C k h.internal hfl h.cache (by rw [h.len]; exact h.start)
      (by omega) hyes (by rw [h.len]; omega) hfree]
    unfold FlushPacketOrderCache
    have hpos : c.PacketOrderCacheCount + 1 > 0 := by have := h.count_nonneg; omega
    simp only [hpos, if_true, hend, Option.isSome_none, Bool.or_false, hrun]

theorem nextExpected_eq (seen : List Int) :
    ∀ (fuel : Nat) (a e : Int), a ≤ e → e - a ≤ fuel →
      (∀ x, a ≤ x → x < e → x ∈ seen) → e ∉ seen → nextExpected seen fuel a = e := by
  intro fuel
  induction fuel with
  | zero =>
    intro a e h1 h2 _ _
    simp only [nextExpected]
    simp only [Nat.cast_zero] at h2
    omega
  | succ fuel ih =>
    intro a e h1 h2 h3 h4
    simp only [nextExpected]
    by_cases ha : a ∈ seen
    · rw [if_pos ha]
      have hne : a ≠ e := fun e' => h4 (e' ▸ ha)
      apply ih
      · omega
      · push_cast at h2; omega
      · intro x hx1 hx2
        exact h3 x (by omega) hx2
      · exact h4
    · rw [if_neg ha]
      by_contra hne
      exact ha (h3 a (le_refl a) (by omega))

theorem consecutive_add (a : Int) (m k : Nat) :
    consecutive a (m + k) = consecutive a m ++ consecutive (a + m) k := by
  induction k with
  | zero => simp [consecutive]
  | succ k ih =>
    rw [← Nat.add_assoc, consecutive_append_one, ih, consecutive_append_one,
      List.append_assoc]
    congr 3
    push_cast
    omega

/-! ## Packet order cache: delivery in sequence order -/

/-- Arrivals one after the other: the invariant is kept, and the packets processed so far
are the first ones of the run, in sequence order. -/
theorem receiveAll_spec (cv : NetCVars) (cap fuel : Nat) (first : Int) (P0 : List Packet)
    (hW : cv.PacketOrderMaxMissingPackets + 1 < cap) :
    ∀ (arr : List Packet) (c : UNetConnection) (C : List (Option Packet))
      (seen done : List Packet),
      CacheInv cv.PacketOrderMaxMissingPackets cap c C →
      c.bFlushingPacketOrderCache = false →
      cacheAt C (c.PacketOrderCacheStartIdx + 0) = none →
      c.Processed = P0 ++ done →
      done.map Packet.Seq = consecutive first done.length →
      c.InPacketId + 1 = first + done.length →
      (done ++ C.reduceOption).Perm seen →
      ((seen ++ arr).map Packet.Seq).Nodup →
      (∀ p ∈ arr, first ≤ p.Seq) →
      withinWindow cv.PacketOrderMaxMissingPackets first (seen.map Packet.Seq)
        (arr.map Packet.Seq) = true →
      seen.length + arr.length < fuel →
      ∃ c1 C1 done1,
        receiveAll fuel cv c arr = some c1
        ∧ CacheInv cv.PacketOrderMaxMissingPackets cap c1 C1
        ∧ cacheAt C1 (c1.PacketOrderCacheStartIdx + 0) = none
        ∧ c1.Processed = P0 ++ done1
        ∧ done1.map Packet.Seq = consecutive first done1.length
        ∧ c1.InPacketId + 1 = first + done1.length
        ∧ (done1 ++ C1.reduceOption).Perm (seen ++ arr) := by
  intro arr
  induction arr with
  | nil =>
    intro c C seen done h _ hhead hproc hseqs hin hperm _ _ _ _
    exact ⟨c, C, done, rfl, h, hhead, hproc, hseqs, hin, by simpa using hperm⟩
  | cons p rest ih =>
    intro c C seen done h hfl hhead hproc hseqs hin hperm hnodup hfirst hwin hfuel
    simp only [List.map_cons, withinWindow, Bool.and_eq_true, decide_eq_true_eq] at hwin
    obtain ⟨hwin1, hwin2⟩ := hwin
    have hpnew : p.Seq ∉ seen.map Packet.Seq := by
      rw [List.map_append, List.map_cons] at hnodup
      have := (List.nodup_append.1 hnodup).2.2
      intro hmem
      exact this hmem (List.mem_cons_self _ _)
    have hseen : ∀ x, x ∈ seen.map Packet.Seq ↔
        x ∈ done.map Packet.Seq ∨ x ∈ C.reduceOption.map Packet.Seq := by
      intro x
      rw [← List.mem_append, ← List.map_append]
      exact (hperm.map Packet.Seq).mem_iff.symm
    have hlen : done.length + C.reduceOption.length = seen.length := by
      have := hperm.length_eq
      simpa using this
    have hexp : nextExpected (seen.map Packet.Seq) (seen.map Packet.Seq).length first =
        c.InPacketId + 1 := by
      apply nextExpected_eq
      · omega
      · simp only [List.length_map]; omega
      · intro x hx1 hx2
        rw [hseen, hseqs, mem_consecutive]
        exact Or.inl ⟨hx1, by omega⟩
      · rw [hseen, hseqs, mem_consecutive]
        rintro (hx | hx)
        · omega
        · obtain ⟨q, hq, hqs⟩ := List.mem_map.1 hx
          have := (h.cached_ahead hhead q hq).1
          omega
    rw [hexp] at hwin1
    have hdelta : c.InPacketId < p.Seq := by
      have hnd : p.Seq ∉ done.map Packet.Seq := fun hm => hpnew ((hseen _).2 (Or.inl hm))
      rw [hseqs, mem_consecutive] at hnd
      have := hfirst p (List.mem_cons_self _ _)
      omega
    have hnew : ∀ q ∈ C.reduceOption, q.Seq ≠ p.Seq := by
      intro q hq e
      exact hpnew ((hseen _).2 (Or.inr (List.mem_map.2 ⟨q, hq, e⟩)))
    obtain ⟨c1, C1, proc, hrun, hinv1, hfl1, hhead1, hproc1, hseqs1, hin1, hperm1⟩ :=
      receivedRaw_step cv cap fuel c C p hW h hfl hhead hdelta hwin1 hnew (by
        rw [h.count]
        simp only [List.length_cons] at hfuel
        omega)
    obtain ⟨c2, C2, done2, hrun2, hinv2, hhead2, hproc2, hseqs2, hin2, hperm2⟩ :=
      ih c1 C1 (seen ++ [p]) (done ++ proc) hinv1 hfl1 hhead1
        (by rw [hproc1, hproc, List.append_assoc])
        (by
          rw [List.map_append, List.length_append, consecutive_add, hseqs, hseqs1]
          rw [hin])
        (by rw [hin1, List.length_append]; push_cast; omega)
        (by
          rw [List.append_assoc]
          refine (List.Perm.append_left done hperm1).trans ?_
          refine List.perm_middle.trans ?_
          exact (List.Perm.cons p hperm).trans (List.perm_append_singleton p seen).symm)
        (by simpa [List.append_assoc] using hnodup)
        (fun q hq => hfirst q (List.mem_cons_of_mem _ hq))
        (by simpa using hwin2)
        (by simp only [List.length_append, List.length_cons, List.length_nil] at hfuel ⊢; omega)
    refine ⟨c2, C2, done2, ?_, hinv2, hhead2, hproc2, hseqs2, hin2, by
      simpa [List.append_assoc] using hperm2⟩
    simp only [receiveAll, hrun, hrun2]

/-- C8, counterexample: capacity 4 and MaxMissingPackets 3, InPacketId 0, the run 1, 2, 3, 4
arriving in the order 4, 1, 2, 3.  No packet is further ahead of the expected sequence than
the window (4 is 3 ahead of 1).  Packet 4 lands in the last slot of the cache, which forces
the whole cache to be flushed at once: 4 is processed, its three predecessors are counted as
lost, and 1, 2, 3 are then dropped as out of order. -/
theorem reorder_fails_at_last_slot :
    withinWindow (exampleCVars 3 4).PacketOrderMaxMissingPackets 1 [] [4, 1, 2, 3] = true
    ∧ List.Perm [4, 1, 2, 3] (consecutive ((exampleConn 4 0).InPacketId + 1) 4)
    ∧ receiveAll 5 (exampleCVars 3 4) (exampleConn 4 0) [⟨4, 0⟩, ⟨1, 1⟩, ⟨2, 2⟩, ⟨3, 3⟩] =
      some { exampleConn 4 0 with
        InPacketId := 4, InPacketsLost := 3, InTotalPacketsLost := 3,
        TotalOutOfOrderPackets := 4, Processed := [⟨4, 0⟩] }
    ∧ (receiveAll 5 (exampleCVars 3 4) (exampleConn 4 0)
        [⟨4, 0⟩, ⟨1, 1⟩, ⟨2, 2⟩, ⟨3, 3⟩]).map (fun c => c.Processed.map Packet.Seq) ≠
      some [1, 2, 3, 4] := by
  decide

/-- C8, amended: with the cache allocated and empty and a capacity of more than
MaxMissingPackets + 1 slots, for every arrival order of a run of packets with consecutive
sequence numbers (starting after InPacketId) in which no packet arrives further ahead of the
expected sequence than MaxMissingPackets, all arrivals are handled (the flush loops end), the
packets are handed to bunch processing in increasing sequence order, each exactly once, and
afterwards the cache is empty and InPacketId is the last sequence number of the run. -/
theorem reorder_delivers_in_sequence (cv : NetCVars) (c : UNetConnection) (cap fuel : Nat)
    (arr : List Packet)
    (hcap : cv.PacketOrderMaxMissingPackets + 1 < cap)
    (hint : c.InternalAck = false) (hfl : c.bFlushingPacketOrderCache = false)
    (hcache : c.PacketOrderCache = some (List.replicate cap none))
    (hcount : c.PacketOrderCacheCount = 0) (hstart : c.PacketOrderCacheStartIdx < cap)
    (hrun : (arr.map Packet.Seq).Perm (consecutive (c.InPacketId + 1) arr.length))
    (hwin : withinWindow cv.PacketOrderMaxMissingPackets (c.InPacketId + 1) []
      (arr.map Packet.Seq) = true)
    (hfuel : arr.length < fuel) :
    ∃ c1 done,
      receiveAll fuel cv c arr = some c1
      ∧ c1.Processed = c.Processed ++ done
      ∧ done.map Packet.Seq = consecutive (c.InPacketId + 1) arr.length
      ∧ done.Perm arr
      ∧ c1.InPacketId = c.InPacketId + arr.length
      ∧ c1.PacketOrderCache = some (List.replicate cap none)
      ∧ c1.PacketOrderCacheCount = 0 := by
  have hinv : CacheInv cv.PacketOrderMaxMissingPackets cap c (List.replicate cap none) := by
    refine ⟨hcache, by simp, hstart, hint, by simp [hcount, reduceOption_replicate_none], ?_⟩
    intro i p _ hp
    rw [cacheAt_replicate] at hp
    cases hp
  have hnodup : (arr.map Packet.Seq).Nodup := hrun.nodup_iff.2 (nodup_consecutive _ _)
  have hmem : ∀ p ∈ arr, c.InPacketId + 1 ≤ p.Seq ∧ p.Seq < c.InPacketId + 1 + arr.length := by
    intro p hp
    have := hrun.mem_iff.1 (List.mem_map_of_mem Packet.Seq hp)
    exact (mem_consecutive _ _ _).1 this
  obtain ⟨c1, C1, done, hrun1, hinv1, hhead1, hproc1, hseqs1, hin1, hperm1⟩ :=
    receiveAll_spec cv cap fuel (c.InPacketId + 1) c.Processed hcap arr c
      (List.replicate cap none) [] [] hinv hfl (cacheAt_replicate _ _) (by simp)
      (by simp [consecutive]) (by simp) (by simp [reduceOption_replicate_none])
      (by simpa using hnodup) (fun p hp => (hmem p hp).1) (by simpa using hwin)
      (by simpa using hfuel)
  simp only [List.nil_append] at hperm1
  -- nothing is left in the cache: a cached packet would be ahead of a sequence number of
  -- the run that has not arrived
  have hnil : C1.reduceOption = [] := by
    rw [List.eq_nil_iff_forall_not_mem]
    intro q hq
    have hqa := (hinv1.cached_ahead hhead1 q hq).1
    have hqarr : q ∈ arr := hperm1.mem_iff.1 (List.mem_append_right _ hq)
    have hqr := (hmem q hqarr).2
    have hexp : c1.InPacketId + 1 ∈ arr.map Packet.Seq := by
      rw [hrun.mem_iff, mem_consecutive]
      omega
    obtain ⟨r, hr, hrs⟩ := List.mem_map.1 hexp
    rcases List.mem_append.1 (hperm1.mem_iff.2 hr) with hrd | hrc
    · have : r.Seq ∈ done.map Packet.Seq := List.mem_map_of_mem _ hrd
      rw [hseqs1, mem_consecutive] at this
      omega
    · have := (hinv1.cached_ahead hhead1 r hrc).1
      omega
  rw [hnil, List.append_nil] at hperm1
  have hlen : done.length = arr.length := hperm1.length_eq
  refine ⟨c1, done, hrun1, hproc1, by rw [hseqs1, hlen], hperm1, by rw [← hlen]; omega, ?_, ?_⟩
  · rw [hinv1.cache, ← hinv1.len]
    congr 1
    apply eq_replicate_of_cacheAt
    intro i
    exact cacheAt_none_of_reduceOption_nil _ _ hnil
  · rw [hinv1.count, hnil]; rfl

/-- Witness of amended C8: capacity 8, window 3, InPacketId 9; the run 10..15 arrives in the
order 10, 12, 14, 11, 13, 15 and is processed in the order 10, 11, 12, 13, 14, 15. -/
theorem reorder_delivers_in_sequence_witness :
    ∃ c1,
      receiveAll 7 (exampleCVars 3 8) (exampleConn 8 9)
        [⟨10, 0⟩, ⟨12, 2⟩, ⟨14, 4⟩, ⟨11, 1⟩, ⟨13, 3⟩, ⟨15, 5⟩] = some c1
      ∧ c1.Processed.map Packet.Seq = [10, 11, 12, 13, 14, 15]
      ∧ c1.PacketOrderCacheCount = 0 := by
  obtain ⟨c1, done, h1, h2, h3, -, -, -, h7⟩ :=
    reorder_delivers_in_sequence (exampleCVars 3 8) (exampleConn 8 9) 8 7
      [⟨10, 0⟩, ⟨12, 2⟩, ⟨14, 4⟩, ⟨11, 1⟩, ⟨13, 3⟩, ⟨15, 5⟩]
      (by decide) rfl rfl rfl rfl (by decide) (by decide) (by decide) (by decide)
  refine ⟨c1, h1, ?_, h7⟩
  rw [h2]
  simp only [exampleConn, List.nil_append, h3]
  decide

/-! ## Packet order cache: which packets are cached -/

theorem takesCacheBranch_iff (cv : NetCVars) (c : UNetConnection) (p : Packet) :
    takesCacheBranch cv c p = true ↔
      c.InternalAck = false ∧ c.bFlushingPacketOrderCache = false ∧
      c.PacketOrderCache.isSome = true ∧ 0 < p.Seq - c.InPacketId ∧
      (0 < c.PacketOrderCacheCount ∨ (c.PacketOrderCacheCount = 0 ∧
        0 < p.Seq - c.InPacketId - 1 ∧
        p.Seq - c.InPacketId - 1 ≤ cv.PacketOrderMaxMissingPackets)) := by
  unfold takesCacheBranch GetSequenceDelta
  cases hi : c.InternalAck <;> cases hf : c.bFlushingPacketOrderCache <;>
    cases hc : c.PacketOrderCache.isSome <;>
    simp only [Bool.not_false, Bool.not_true, Bool.true_and, Bool.false_and, Bool.and_true,
      Bool.and_false, Bool.or_false, Bool.false_or, Bool.and_eq_true, Bool.or_eq_true,
      decide_eq_true_eq, Bool.false_eq_true, Bool.true_eq_false, false_and, and_false,
      true_and, and_true, if_false, false_or, or_false, gt_iff_lt, iff_self]
  constructor
  · rintro ⟨hd, h | ⟨⟨h0, h1⟩, h2⟩⟩
    · exact ⟨hd, Or.inl h⟩
    · rw [if_pos h0] at h2
      exact ⟨hd, Or.inr ⟨h0, h1, h2⟩⟩
  · rintro ⟨hd, h | ⟨h0, h1, h2⟩⟩
    · exact ⟨hd, Or.inl h⟩
    · refine ⟨hd, Or.inr ⟨⟨h0, h1⟩, ?_⟩⟩
      rw [if_pos h0]; exact h2

/-- Every outcome of the sequence part of `ReceivedPacket`. -/
theorem ReceivedPacket_cases (cv : NetCVars) (c : UNetConnection) (p : Packet) :
    (c.InternalAck = true ∧ ReceivedPacket cv c p =
        { c with InPacketId := c.InPacketId + 1, Processed := c.Processed ++ [p] })
    ∨ (takesCacheBranch cv c p = true ∧ ∃ C i, c.PacketOrderCache = some C ∧
        cacheAt C i = none ∧ ReceivedPacket cv c p =
          { c with PacketOrderCache := some (cacheSet C i (some p)),
                   PacketOrderCacheCount := c.PacketOrderCacheCount + 1 })
    ∨ (takesCacheBranch cv c p = true ∧ ReceivedPacket cv c p =
          { c with TotalOutOfOrderPackets := c.TotalOutOfOrderPackets + 1 })
    ∨ (c.InternalAck = false ∧ takesCacheBranch cv c p = false ∧ 0 < p.Seq - c.InPacketId ∧
        ReceivedPacket cv c p =
          { c with
            InPacketsLost := c.InPacketsLost + (p.Seq - c.InPacketId - 1),
            InTotalPacketsLost := c.InTotalPacketsLost + (p.Seq - c.InPacketId - 1),
            InPacketId := c.InPacketId + (p.Seq - c.InPacketId),
            Processed := c.Processed ++ [p] })
    ∨ (c.InternalAck = false ∧ takesCacheBranch cv c p = false ∧ p.Seq - c.InPacketId ≤ 0 ∧
        (ReceivedPacket cv c p =
            { c with TotalOutOfOrderPackets := c.TotalOutOfOrderPackets + 1 }
          ∨ (c.PacketOrderCache = none ∧ cv.DoPacketOrderCorrection ≠ 0 ∧
              cv.PacketOrderCorrectionEnableThreshold ≤ c.TotalOutOfOrderPackets + 1 ∧
              ReceivedPacket cv c p =
                { c with
                  TotalOutOfOrderPackets := c.TotalOutOfOrderPackets + 1,
                  PacketOrderCache := some (List.replicate
                    (RoundUpToPowerOfTwo cv.PacketOrderMaxCachedPackets) none) }))) := by
  cases hi : c.InternalAck with
  | true =>
    left
    refine ⟨rfl, ?_⟩
    unfold ReceivedPacket
    simp [hi]
  | false =>
    right
    by_cases hd : 0 < p.Seq - c.InPacketId
    · by_cases ht : takesCacheBranch cv c p = true
      · have ht' := ht
        unfold takesCacheBranch at ht'
        simp only [hi, Bool.not_false, Bool.true_and, GetSequenceDelta, gt_iff_lt, hd,
          decide_True] at ht'
        unfold ReceivedPacket
        simp only [hi, Bool.false_eq_true, if_false, GetSequenceDelta, gt_iff_lt, hd, if_true,
          ht']
        cases hC : c.PacketOrderCache with
        | none =>
          rw [takesCacheBranch_iff] at ht
          simp [hC] at ht
        | some C =>
          simp only []
          split
          · next hslot =>
            left
            exact ⟨ht, C, _, rfl, hslot, rfl⟩
          · right; left
            exact ⟨ht, rfl⟩
      · right; right; left
        have htf : takesCacheBranch cv c p = false := by simpa using ht
        refine ⟨rfl, htf, hd, ?_⟩
        have ht' := htf
        unfold takesCacheBranch at ht'
        simp only [hi, Bool.not_false, Bool.true_and, GetSequenceDelta, gt_iff_lt, hd,
          decide_True] at ht'
        unfold ReceivedPacket
        simp only [hi, Bool.false_eq_true, if_false, GetSequenceDelta, gt_iff_lt, hd, if_true,
          ht']
    · right; right; right
      have htf : takesCacheBranch cv c p = false := by
        cases h : takesCacheBranch cv c p with
        | false => rfl
        | true => rw [takesCacheBranch_iff] at h; exact absurd h.2.2.2.1 hd
      refine ⟨rfl, htf, by omega, ?_⟩
      unfold ReceivedPacket
      simp only [hi, Bool.false_eq_true, if_false, GetSequenceDelta, gt_iff_lt, hd]
      by_cases h1 : c.PacketOrderCache.isNone = true ∧ cv.DoPacketOrderCorrection ≠ 0
      · by_cases h2 : c.TotalOutOfOrderPackets + 1 ≥ cv.PacketOrderCorrectionEnableThreshold
        · right
          refine ⟨by simpa using h1.1, h1.2, h2, ?_⟩
          simp [h1, h2]
        · left
          simp [h1, h2]
      · left
        simp only [h1, if_false]

theorem cachedPackets_eq_of_cache_eq (c1 c2 : UNetConnection)
    (h : c1.PacketOrderCache = c2.PacketOrderCache) : cachedPackets c1 = cachedPackets c2 := by
  simp [cachedPackets, h]

/-- C11, counterexample: while the cache already holds a packet, a packet whose sequence delta
is 100 is cached although the window is 3; it lands in the last slot. -/
theorem cached_beyond_window_while_filling :
    GetSequenceDelta fillingConn ⟨100, 7⟩ = 100 ∧
    (exampleCVars 3 8).PacketOrderMaxMissingPackets = 3 ∧
    ReceivedPacket (exampleCVars 3 8) fillingConn ⟨100, 7⟩ =
      { fillingConn with
        PacketOrderCache :=
          some [none, some ⟨2, 20⟩, none, none, none, none, none, some ⟨100, 7⟩],
        PacketOrderCacheCount := 2 } := by
  decide

/-- C11, amended: `ReceivedPacket` changes the cached packets or their count only if the
connection is not InternalAck, the cache is allocated and not being flushed, the sequence
delta is positive, and either the cache already holds packets (then any positive delta is
cached) or the cache is empty and the number of missing packets, delta - 1, is at least 1 and
at most the window; the packet is then put into an empty slot and the count grows by one.
Every other packet leaves the cached packets and the count as they are. -/
theorem receivedPacket_caches_only_when (cv : NetCVars) (c : UNetConnection) (p : Packet)
    (h : cachedPackets (ReceivedPacket cv c p) ≠ cachedPackets c
      ∨ (ReceivedPacket cv c p).PacketOrderCacheCount ≠ c.PacketOrderCacheCount) :
    c.InternalAck = false ∧ c.bFlushingPacketOrderCache = false ∧
    0 < GetSequenceDelta c p ∧
    (0 < c.PacketOrderCacheCount ∨ (c.PacketOrderCacheCount = 0 ∧
      1 ≤ GetSequenceDelta c p - 1 ∧
      GetSequenceDelta c p - 1 ≤ cv.PacketOrderMaxMissingPackets)) ∧
    ∃ C i, c.PacketOrderCache = some C ∧ cacheAt C i = none ∧
      ReceivedPacket cv c p =
        { c with PacketOrderCache := some (cacheSet C i (some p)),
                 PacketOrderCacheCount := c.PacketOrderCacheCount + 1 } := by
  rcases ReceivedPacket_cases cv c p with ⟨_, e⟩ | ⟨ht, C, i, hC, hslot, e⟩ | ⟨_, e⟩ |
    ⟨_, _, _, e⟩ | ⟨_, _, _, e | ⟨hn, _, _, e⟩⟩
  · exfalso
    rw [e] at h
    rcases h with h | h
    · exact h (cachedPackets_eq_of_cache_eq _ _ rfl)
    · exact h rfl
  · rw [takesCacheBranch_iff] at ht
    obtain ⟨h1, h2, _, h4, h5⟩ := ht
    refine ⟨h1, h2, h4, ?_, C, i, hC, hslot, e⟩
    rcases h5 with h5 | ⟨h5, h6, h7⟩
    · exact Or.inl h5
    · exact Or.inr ⟨h5, by unfold GetSequenceDelta; omega, h7⟩
  · exfalso
    rw [e] at h
    rcases h with h | h
    · exact h (cachedPackets_eq_of_cache_eq _ _ rfl)
    · exact h rfl
  · exfalso
    rw [e] at h
    rcases h with h | h
    · exact h (cachedPackets_eq_of_cache_eq _ _ rfl)
    · exact h rfl
  · exfalso
    rw [e] at h
    rcases h with h | h
    · exact h (cachedPackets_eq_of_cache_eq _ _ rfl)
    · exact h rfl
  · exfalso
    rw [e] at h
    rcases h with h | h
    · apply h
      simp [cachedPackets, hn, reduceOption_replicate_none]
    · exact h rfl

theorem receivedPacket_caches_only_when_witness :
    (fillingConn.InternalAck = false ∧ fillingConn.bFlushingPacketOrderCache = false ∧
    0 < GetSequenceDelta fillingConn ⟨100, 7⟩ ∧
    (0 < fillingConn.PacketOrderCacheCount ∨ (fillingConn.PacketOrderCacheCount = 0 ∧
      1 ≤ GetSequenceDelta fillingConn ⟨100, 7⟩ - 1 ∧
      GetSequenceDelta fillingConn ⟨100, 7⟩ - 1
        ≤ (exampleCVars 3 8).PacketOrderMaxMissingPackets)) ∧
    ∃ C i, fillingConn.PacketOrderCache = some C ∧ cacheAt C i = none ∧
      ReceivedPacket (exampleCVars 3 8) fillingConn ⟨100, 7⟩ =
        { fillingConn with
          PacketOrderCache := some (cacheSet C i (some ⟨100, 7⟩)),
          PacketOrderCacheCount := fillingConn.PacketOrderCacheCount + 1 }) :=
  receivedPacket_caches_only_when (exampleCVars 3 8) fillingConn ⟨100, 7⟩
    (Or.inr (by decide))

/-! ## Packet order cache: replay while flushing -/

theorem withCacheState_self (c : UNetConnection) (C : List (Option Packet))
    (h : c.PacketOrderCache = some C) :
    withCacheState c C c.PacketOrderCacheStartIdx c.PacketOrderCacheCount = c := by
  cases c
  simp only at h
  simp [withCacheState, h]

theorem withCacheState_withCacheState (c : UNetConnection) (C1 C2 : List (Option Packet))
    (s1 s2 : Nat) (n1 n2 : Int) :
    withCacheState (withCacheState c C1 s1 n1) C2 s2 n2 = withCacheState c C2 s2 n2 := rfl

/-- While the cache is being flushed, `ReceivedPacket` leaves the cache fields alone. -/
theorem ReceivedPacket_flushing_fields (cv : NetCVars) (c : UNetConnection) (p : Packet)
    (C : List (Option Packet)) (hfl : c.bFlushingPacketOrderCache = true)
    (hC : c.PacketOrderCache = some C) :
    (ReceivedPacket cv c p).PacketOrderCache = some C ∧
    (ReceivedPacket cv c p).PacketOrderCacheStartIdx = c.PacketOrderCacheStartIdx ∧
    (ReceivedPacket cv c p).PacketOrderCacheCount = c.PacketOrderCacheCount ∧
    (ReceivedPacket cv c p).bFlushingPacketOrderCache = true := by
  rcases ReceivedPacket_cases cv c p with ⟨_, e⟩ | ⟨ht, _⟩ | ⟨ht, _⟩ |
    ⟨_, _, _, e⟩ | ⟨_, _, _, e | ⟨hn, _, _, e⟩⟩
  · rw [e]; exact ⟨hC, rfl, rfl, hfl⟩
  · rw [takesCacheBranch_iff] at ht
    rw [hfl] at ht
    exact absurd ht.2.1 (by decide)
  · rw [takesCacheBranch_iff] at ht
    rw [hfl] at ht
    exact absurd ht.2.1 (by decide)
  · rw [e]; exact ⟨hC, rfl, rfl, hfl⟩
  · rw [e]; exact ⟨hC, rfl, rfl, hfl⟩
  · rw [hC] at hn; exact absurd hn (by simp)

/-- While the cache is being flushed, `ReceivedPacket` commutes with a change of the cache
fields. -/
theorem ReceivedPacket_withCacheState (cv : NetCVars) (c : UNetConnection) (p : Packet)
    (C1 : List (Option Packet)) (s1 : Nat) (n1 : Int)
    (hfl : c.bFlushingPacketOrderCache = true) (hsome : c.PacketOrderCache.isSome = true) :
    ReceivedPacket cv (withCacheState c C1 s1 n1) p =
      withCacheState (ReceivedPacket cv c p) C1 s1 n1 := by
  unfold ReceivedPacket withCacheState
  simp only [hfl, Bool.not_true, Bool.false_and, GetSequenceDelta, Bool.false_or,
    Bool.false_eq_true, if_false, Option.isNone_some, false_and]
  have hnone : c.PacketOrderCache.isNone = false := by
    cases h : c.PacketOrderCache with
    | none => rw [h] at hsome; exact absurd hsome (by decide)
    | some _ => rfl
  simp only [hnone, Bool.false_eq_true, false_and, if_false]
  split_ifs <;> rfl

theorem replayAll_withCacheState (cv : NetCVars) (l : List Packet) :
    ∀ (c : UNetConnection) (C1 : List (Option Packet)) (s1 : Nat) (n1 : Int),
      c.bFlushingPacketOrderCache = true → c.PacketOrderCache.isSome = true →
      replayAll cv (withCacheState c C1 s1 n1) l =
        withCacheState (replayAll cv c l) C1 s1 n1 := by
  induction l with
  | nil => intros; rfl
  | cons p l ih =>
    intro c C1 s1 n1 hfl hsome
    simp only [replayAll, List.foldl_cons]
    rw [ReceivedPacket_withCacheState cv c p C1 s1 n1 hfl hsome]
    obtain ⟨C, hC⟩ := Option.isSome_iff_exists.1 hsome
    obtain ⟨h1, _, _, h4⟩ := ReceivedPacket_flushing_fields cv c p C hfl hC
    exact ih (ReceivedPacket cv c p) C1 s1 n1 h4 (by rw [h1]; rfl)

/-- One iteration of the flush loop on a populated slot. -/
theorem flushLoop_some_step (cv : NetCVars) (b : Bool) (fuel : Nat) (c : UNetConnection)
    (C : List (Option Packet)) (p : Packet)
    (hC : c.PacketOrderCache = some C) (hcount : 0 < c.PacketOrderCacheCount)
    (hfl : c.bFlushingPacketOrderCache = true)
    (hslot : cacheAt C c.PacketOrderCacheStartIdx = some p) :
    flushLoop cv b (fuel + 1) c =
      flushLoop cv b fuel (withCacheState (ReceivedPacket cv c p)
        (cacheSet C c.PacketOrderCacheStartIdx none)
        (GetNextIndex C.length c.PacketOrderCacheStartIdx) (c.PacketOrderCacheCount - 1)) := by
  obtain ⟨h1, h2, h3, _⟩ := ReceivedPacket_flushing_fields cv c p C hfl hC
  rw [flushLoop]
  simp only [hC, hcount, gt_iff_lt, if_true, hslot, h1, h2, h3, Option.map_some']
  rfl

/-- One iteration of the flush loop on an empty slot when the whole cache is flushed. -/
theorem flushLoop_none_step (cv : NetCVars) (fuel : Nat) (c : UNetConnection)
    (C : List (Option Packet))
    (hC : c.PacketOrderCache = some C) (hcount : 0 < c.PacketOrderCacheCount)
    (hslot : cacheAt C c.PacketOrderCacheStartIdx = none) :
    flushLoop cv true (fuel + 1) c =
      flushLoop cv true fuel (withCacheState c C
        (GetNextIndex C.length c.PacketOrderCacheStartIdx) c.PacketOrderCacheCount) := by
  rw [flushLoop]
  simp only [hC, hcount, gt_iff_lt, if_true, hslot, Bool.not_true, Bool.false_eq_true,
    if_false]
  congr 1

/-! ## Packet order cache: runs of slots -/

theorem populatedRun_congr (C : List (Option Packet)) (k : Nat) :
    ∀ a b, a % C.length = b % C.length → populatedRun C a k = populatedRun C b k := by
  induction k with
  | zero => intros; rfl
  | succ k ih =>
    intro a b h
    have h1 : (a + 1) % C.length = (b + 1) % C.length := by
      rw [Nat.add_mod a, Nat.add_mod b, h]
    simp only [populatedRun, cacheAt_congr C a b h, ih _ _ h1]

theorem slotsInOrder_congr (C : List (Option Packet)) (k : Nat) :
    ∀ a b, a % C.length = b % C.length → slotsInOrder C a k = slotsInOrder C b k := by
  induction k with
  | zero => intros; rfl
  | succ k ih =>
    intro a b h
    have h1 : (a + 1) % C.length = (b + 1) % C.length := by
      rw [Nat.add_mod a, Nat.add_mod b, h]
    simp only [slotsInOrder, cacheAt_congr C a b h, ih _ _ h1]

theorem cacheSet_congr (C : List (Option Packet)) (a b : Nat) (v : Option Packet)
    (h : a % C.length = b % C.length) : cacheSet C a v = cacheSet C b v := by
  simp [cacheSet, h]

theorem clearSlots_congr (k : Nat) :
    ∀ (C : List (Option Packet)) a b, a % C.length = b % C.length →
      clearSlots C a k = clearSlots C b k := by
  induction k with
  | zero => intros; rfl
  | succ k ih =>
    intro C a b h
    have h1 : (a + 1) % C.length = (b + 1) % C.length := by
      rw [Nat.add_mod a, Nat.add_mod b, h]
    simp only [clearSlots, cacheSet_congr C a b none h]
    exact ih _ _ _ (by rw [length_cacheSet]; exact h1)

theorem length_clearSlots (k : Nat) :
    ∀ (C : List (Option Packet)) s, (clearSlots C s k).length = C.length := by
  induction k with
  | zero => intros; rfl
  | succ k ih =>
    intro C s
    simp only [clearSlots]
    rw [ih, length_cacheSet]

theorem cacheAt_cacheSet_other (C : List (Option Packet)) (s d : Nat) (v : Option Packet)
    (hd : d + 1 < C.length) :
    cacheAt (cacheSet C s v) (s + (d + 1)) = cacheAt C (s + (d + 1)) := by
  have h := cacheAt_cacheSet_offset C s 0 (d + 1) v (by omega) hd
  simp only [Nat.add_zero] at h
  rw [h, if_neg (by omega)]

theorem populatedRun_cacheSet (C : List (Option Packet)) (s : Nat) (v : Option Packet) :
    ∀ k d, d + k < C.length →
      populatedRun (cacheSet C s v) (s + (d + 1)) k = populatedRun C (s + (d + 1)) k := by
  intro k
  induction k with
  | zero => intros; rfl
  | succ k ih =>
    intro d h
    simp only [populatedRun]
    rw [cacheAt_cacheSet_other C s d v (by omega)]
    have e : s + (d + 1) + 1 = s + (d + 1 + 1) := by omega
    rw [e, ih (d + 1) (by omega)]

theorem slotsInOrder_cacheSet (C : List (Option Packet)) (s : Nat) (v : Option Packet) :
    ∀ k d, d + k < C.length →
      slotsInOrder (cacheSet C s v) (s + (d + 1)) k = slotsInOrder C (s + (d + 1)) k := by
  intro k
  induction k with
  | zero => intros; rfl
  | succ k ih =>
    intro d h
    simp only [slotsInOrder]
    rw [cacheAt_cacheSet_other C s d v (by omega)]
    have e : s + (d + 1) + 1 = s + (d + 1 + 1) := by omega
    rw [e, ih (d + 1) (by omega)]

theorem set_getElem_same (l : List (Option Packet)) (i : Nat) (h : i < l.length) :
    l.set i l[i] = l := by
  apply List.ext_getElem (by simp)
  intro n h1 h2
  rw [List.getElem_set]
  split
  · next e => subst e; rfl
  · rfl

theorem cacheSet_self (C : List (Option Packet)) (s : Nat) (hC : 0 < C.length) :
    cacheSet C s (cacheAt C s) = C := by
  rw [cacheAt_eq_getElem C s hC, List.get_eq_getElem]
  unfold cacheSet
  exact set_getElem_same C _ (Nat.mod_lt _ hC)

/-- Slots of the cleared range are empty, the others keep their contents. -/
theorem cacheAt_clearSlots (k : Nat) :
    ∀ (C : List (Option Packet)) (s i : Nat), k ≤ C.length → i < C.length →
      cacheAt (clearSlots C s k) (s + i) = if i < k then none else cacheAt C (s + i) := by
  induction k with
  | zero => intros; rfl
  | succ k ih =>
    intro C s i hk hi
    simp only [clearSlots]
    cases i with
    | zero =>
      have h := ih (cacheSet C s none) (s + 1) (C.length - 1)
        (by rw [length_cacheSet]; omega) (by rw [length_cacheSet]; omega)
      have e : cacheAt (clearSlots (cacheSet C s none) (s + 1) k) (s + 1 + (C.length - 1)) =
          cacheAt (clearSlots (cacheSet C s none) (s + 1) k) (s + 0) := by
        apply cacheAt_congr
        rw [length_clearSlots, length_cacheSet]
        have : s + 1 + (C.length - 1) = s + 0 + C.length := by omega
        rw [this, Nat.add_mod_right]
      rw [← e, h]
      have h2 : ¬ (C.length - 1 < k) := by omega
      rw [if_neg h2, if_pos (by omega)]
      have e2 : cacheAt (cacheSet C s none) (s + 1 + (C.length - 1)) =
          cacheAt (cacheSet C s none) s := by
        apply cacheAt_congr
        rw [length_cacheSet]
        have : s + 1 + (C.length - 1) = s + C.length := by omega
        rw [this, Nat.add_mod_right]
      rw [e2, cacheAt_cacheSet _ _ _ _ (by omega), if_pos rfl]
    | succ j =>
      have h := ih (cacheSet C s none) (s + 1) j
        (by rw [length_cacheSet]; omega) (by rw [length_cacheSet]; omega)
      have e : s + (j + 1) = s + 1 + j := by omega
      rw [e, h, ← e, cacheAt_cacheSet_other C s j none hi]
      by_cases hj : j < k
      · rw [if_pos hj, if_pos (by omega)]
      · rw [if_neg hj, if_neg (by omega)]

/-! ## Packet order cache: counting the populated slots -/

theorem populatedRun_length_le (C : List (Option Packet)) (k : Nat) :
    ∀ s j, j < k → cacheAt C (s + j) = none → (populatedRun C s k).length ≤ j := by
  induction k with
  | zero => intro s j h; omega
  | succ k ih =>
    intro s j hj hnone
    simp only [populatedRun]
    cases hslot : cacheAt C s with
    | none => simp
    | some p =>
      cases j with
      | zero => rw [Nat.add_zero, hslot] at hnone; exact absurd hnone (by simp)
      | succ i =>
        have e : s + (i + 1) = s + 1 + i := by omega
        rw [e] at hnone
        have := ih (s + 1) i (by omega) hnone
        simp only [List.length_cons]
        omega

theorem populatedRun_length_le_slots (C : List (Option Packet)) (k : Nat) :
    ∀ s, (populatedRun C s k).length ≤ (slotsInOrder C s k).length := by
  induction k with
  | zero => intro s; simp [populatedRun]
  | succ k ih =>
    intro s
    simp only [populatedRun, slotsInOrder]
    cases cacheAt C s with
    | none => simp
    | some p => simp only [List.length_cons]; have := ih (s + 1); omega

theorem slotsInOrder_pos (C : List (Option Packet)) (k : Nat) :
    ∀ s j, j < k → (cacheAt C (s + j)).isSome = true → 0 < (slotsInOrder C s k).length := by
  induction k with
  | zero => intro s j h; omega
  | succ k ih =>
    intro s j hj hsome
    simp only [slotsInOrder]
    cases hslot : cacheAt C s with
    | some p => simp
    | none =>
      cases j with
      | zero => rw [Nat.add_zero, hslot] at hsome; exact absurd hsome (by simp)
      | succ i =>
        have e : s + (i + 1) = s + 1 + i := by omega
        rw [e] at hsome
        exact ih (s + 1) i (by omega) hsome

theorem slotsInOrder_ext (C D : List (Option Packet)) (k : Nat) :
    ∀ s, (∀ j, j < k → cacheAt D (s + j) = cacheAt C (s + j)) →
      slotsInOrder D s k = slotsInOrder C s k := by
  induction k with
  | zero => intros; rfl
  | succ k ih =>
    intro s h
    have h0 := h 0 (by omega)
    rw [Nat.add_zero] at h0
    have h1 : slotsInOrder D (s + 1) k = slotsInOrder C (s + 1) k := by
      apply ih
      intro j hj
      have := h (j + 1) (by omega)
      have e : s + (j + 1) = s + 1 + j := by omega
      rw [e] at this
      exact this
    simp only [slotsInOrder, h0, h1]

theorem slotsInOrder_succ_last (C : List (Option Packet)) (k : Nat) :
    ∀ s, slotsInOrder C s (k + 1) = slotsInOrder C s k ++ (cacheAt C (s + k)).toList := by
  induction k with
  | zero =>
    intro s
    simp only [slotsInOrder, Nat.add_zero]
    cases cacheAt C s <;> rfl
  | succ k ih =>
    intro s
    have e : s + (k + 1) = s + 1 + k := by omega
    rw [slotsInOrder, ih (s + 1), e]
    conv_rhs => rw [slotsInOrder]
    cases cacheAt C s <;> rfl

/-- The packets met in k slots and the packets left after these slots are reset make up the
populated slots of the cache. -/
theorem slotsInOrder_length_add (k : Nat) :
    ∀ (C : List (Option Packet)) (s : Nat), k ≤ C.length → 0 < C.length →
      (slotsInOrder C s k).length + (clearSlots C s k).reduceOption.length
        = C.reduceOption.length := by
  induction k with
  | zero => intro C s _ _; simp [slotsInOrder, clearSlots]
  | succ k ih =>
    intro C s hk hC
    have h1 := ih (cacheSet C s none) (s + 1) (by rw [length_cacheSet]; omega)
      (by rw [length_cacheSet]; exact hC)
    have h2 : slotsInOrder (cacheSet C s none) (s + 1) k = slotsInOrder C (s + 1) k :=
      slotsInOrder_cacheSet C s none k 0 (by omega)
    rw [h2] at h1
    have h3 := (reduceOption_cacheSet C s none hC).length_eq
    simp only [List.length_append, Option.toList_none, List.length_nil, Nat.zero_add] at h3
    simp only [slotsInOrder, clearSlots]
    cases hslot : cacheAt C s with
    | none =>
      rw [hslot] at h3
      simp only [Option.toList_none, List.length_nil, Nat.zero_add] at h3
      simp only []
      omega
    | some p =>
      rw [hslot] at h3
      simp only [Option.toList_some, List.length_singleton] at h3
      simp only [List.length_cons]
      omega

theorem clearSlots_all (C : List (Option Packet)) (s : Nat) (hs : s < C.length) :
    clearSlots C s C.length = List.replicate C.length none := by
  have h : ∀ i, cacheAt (clearSlots C s C.length) i = none := by
    intro i
    have e : cacheAt (clearSlots C s C.length) i =
        cacheAt (clearSlots C s C.length) (s + (i + (C.length - s)) % C.length) := by
      apply cacheAt_congr
      rw [length_clearSlots, Nat.add_mod_mod]
      have : s + (i + (C.length - s)) = i + C.length := by omega
      rw [this, Nat.add_mod_right]
    rw [e, cacheAt_clearSlots _ _ _ _ (le_refl _) (Nat.mod_lt _ (by omega)),
      if_pos (Nat.mod_lt _ (by omega))]
  have := eq_replicate_of_cacheAt _ h
  rw [length_clearSlots] at this
  exact this

theorem slotsInOrder_length_all (C : List (Option Packet)) (s : Nat) (hs : s < C.length) :
    (slotsInOrder C s C.length).length = C.reduceOption.length := by
  have h := slotsInOrder_length_add C.length C s (le_refl _) (by omega)
  rw [clearSlots_all C s hs, reduceOption_replicate_none] at h
  simpa using h

/-! ## Packet order cache: the two kinds of flush -/

/-- The flush loop that stops at the first empty slot replays the run of populated slots at
the start index, resets these slots, and moves the start index past them. -/
theorem flushLoop_run (cv : NetCVars) :
    ∀ (k fuel : Nat) (c : UNetConnection) (C : List (Option Packet)),
      c.PacketOrderCache = some C → c.bFlushingPacketOrderCache = true →
      c.PacketOrderCacheStartIdx < C.length → k ≤ C.length →
      (populatedRun C c.PacketOrderCacheStartIdx k).length < k →
      ((populatedRun C c.PacketOrderCacheStartIdx k).length : Int) ≤ c.PacketOrderCacheCount →
      (populatedRun C c.PacketOrderCacheStartIdx k).length < fuel →
      flushLoop cv false fuel c =
        some (withCacheState (replayAll cv c (populatedRun C c.PacketOrderCacheStartIdx k))
          (clearSlots C c.PacketOrderCacheStartIdx
            (populatedRun C c.PacketOrderCacheStartIdx k).length)
          ((c.PacketOrderCacheStartIdx
            + (populatedRun C c.PacketOrderCacheStartIdx k).length) % C.length)
          (c.PacketOrderCacheCount
            - ((populatedRun C c.PacketOrderCacheStartIdx k).length : Int))) := by
  intro k
  induction k with
  | zero => intro fuel c C _ _ _ _ h; simp [populatedRun] at h
  | succ k ih =>
    intro fuel c C hC hfl hstart hk hlt hle hfuel
    obtain ⟨f, rfl⟩ : ∃ f, fuel = f + 1 := ⟨fuel - 1, by omega⟩
    cases hslot : cacheAt C c.PacketOrderCacheStartIdx with
    | none =>
      have hrun : populatedRun C c.PacketOrderCacheStartIdx (k + 1) = [] := by
        simp only [populatedRun, hslot]
      rw [hrun]
      simp only [replayAll, List.foldl_nil, List.length_nil, clearSlots, Nat.add_zero,
        Nat.mod_eq_of_lt hstart, Nat.cast_zero, sub_zero]
      rw [withCacheState_self c C hC, flushLoop]
      simp only [hC, hslot, Bool.not_false, if_true]
      split <;> rfl
    | some p =>
      have hrun : populatedRun C c.PacketOrderCacheStartIdx (k + 1) =
          p :: populatedRun C (c.PacketOrderCacheStartIdx + 1) k := by
        simp only [populatedRun, hslot]
      rw [hrun] at hlt hle hfuel ⊢
      simp only [List.length_cons, Nat.cast_add, Nat.cast_one] at hlt hle hfuel ⊢
      obtain ⟨g1, g2, g3, g4⟩ := ReceivedPacket_flushing_fields cv c p C hfl hC
      rw [flushLoop_some_step cv false f c C p hC (by omega) hfl hslot]
      have hrun2 : populatedRun (cacheSet C c.PacketOrderCacheStartIdx none)
          (GetNextIndex C.length c.PacketOrderCacheStartIdx) k =
          populatedRun C (c.PacketOrderCacheStartIdx + 1) k := by
        rw [populatedRun_congr _ k (GetNextIndex C.length c.PacketOrderCacheStartIdx)
          (c.PacketOrderCacheStartIdx + (0 + 1))
          (by rw [length_cacheSet]; simp [GetNextIndex])]
        exact populatedRun_cacheSet C _ none k 0 (by omega)
      have h := ih f (withCacheState (ReceivedPacket cv c p)
        (cacheSet C c.PacketOrderCacheStartIdx none)
        (GetNextIndex C.length c.PacketOrderCacheStartIdx) (c.PacketOrderCacheCount - 1))
        (cacheSet C c.PacketOrderCacheStartIdx none) rfl g4
        (by rw [length_cacheSet]; exact GetNextIndex_lt _ _ (by omega))
        (by rw [length_cacheSet]; omega)
        (by
          show (populatedRun (cacheSet C c.PacketOrderCacheStartIdx none)
            (GetNextIndex C.length c.PacketOrderCacheStartIdx) k).length < k
          rw [hrun2]; omega)
        (by
          show ((populatedRun (cacheSet C c.PacketOrderCacheStartIdx none)
            (GetNextIndex C.length c.PacketOrderCacheStartIdx) k).length : Int)
              ≤ c.PacketOrderCacheCount - 1
          rw [hrun2]; omega)
        (by
          show (populatedRun (cacheSet C c.PacketOrderCacheStartIdx none)
            (GetNextIndex C.length c.PacketOrderCacheStartIdx) k).length < f
          rw [hrun2]; omega)
      rw [h]
      have e1 : (withCacheState (ReceivedPacket cv c p)
          (cacheSet C c.PacketOrderCacheStartIdx none)
          (GetNextIndex C.length c.PacketOrderCacheStartIdx)
          (c.PacketOrderCacheCount - 1)).PacketOrderCacheStartIdx =
          GetNextIndex C.length c.PacketOrderCacheStartIdx := rfl
      have e2 : (withCacheState (ReceivedPacket cv c p)
          (cacheSet C c.PacketOrderCacheStartIdx none)
          (GetNextIndex C.length c.PacketOrderCacheStartIdx)
          (c.PacketOrderCacheCount - 1)).PacketOrderCacheCount =
          c.PacketOrderCacheCount - 1 := rfl
      rw [e1, e2, hrun2, replayAll_withCacheState cv _ _ _ _ _ g4 (by rw [g1]; rfl),
        withCacheState_withCacheState, length_cacheSet]
      have e3 : clearSlots (cacheSet C c.PacketOrderCacheStartIdx none)
          (GetNextIndex C.length c.PacketOrderCacheStartIdx)
          (populatedRun C (c.PacketOrderCacheStartIdx + 1) k).length =
          clearSlots C c.PacketOrderCacheStartIdx
            ((populatedRun C (c.PacketOrderCacheStartIdx + 1) k).length + 1) := by
        rw [clearSlots]
        apply clearSlots_congr
        rw [length_cacheSet]
        simp [GetNextIndex]
      have e4 : (GetNextIndex C.length c.PacketOrderCacheStartIdx
          + (populatedRun C (c.PacketOrderCacheStartIdx + 1) k).length) % C.length =
          (c.PacketOrderCacheStartIdx
            + ((populatedRun C (c.PacketOrderCacheStartIdx + 1) k).length + 1)) % C.length := by
        simp only [GetNextIndex]
        rw [Nat.mod_add_mod]
        congr 1
        omega
      have e5 : c.PacketOrderCacheCount - 1
          - ((populatedRun C (c.PacketOrderCacheStartIdx + 1) k).length : Int) =
          c.PacketOrderCacheCount
            - (((populatedRun C (c.PacketOrderCacheStartIdx + 1) k).length : Int) + 1) := by
        omega
      rw [e3, e4, e5]
      rfl

/-- The flush loop that does not stop at empty slots, on a range of k slots whose last slot
is populated and which holds all the cached packets: every packet of the range is replayed in
slot order, the range is reset, the count ends at zero and the start index just past the
range. -/
theorem flushLoop_whole (cv : NetCVars) :
    ∀ (k fuel : Nat) (c : UNetConnection) (C : List (Option Packet)),
      c.PacketOrderCache = some C → c.bFlushingPacketOrderCache = true →
      c.PacketOrderCacheStartIdx < C.length → k ≤ C.length →
      c.PacketOrderCacheCount = ((slotsInOrder C c.PacketOrderCacheStartIdx k).length : Int) →
      (0 < k → (cacheAt C (c.PacketOrderCacheStartIdx + (k - 1))).isSome = true) →
      k < fuel →
      flushLoop cv true fuel c =
        some (withCacheState (replayAll cv c (slotsInOrder C c.PacketOrderCacheStartIdx k))
          (clearSlots C c.PacketOrderCacheStartIdx k)
          ((c.PacketOrderCacheStartIdx + k) % C.length) 0) := by
  intro k
  induction k with
  | zero =>
    intro fuel c C hC hfl hstart _ hcount _ hfuel
    obtain ⟨f, rfl⟩ : ∃ f, fuel = f + 1 := ⟨fuel - 1, by omega⟩
    simp only [slotsInOrder, List.length_nil, Nat.cast_zero] at hcount
    simp only [slotsInOrder, replayAll, List.foldl_nil, clearSlots, Nat.add_zero,
      Nat.mod_eq_of_lt hstart]
    rw [← hcount, withCacheState_self c C hC, flushLoop]
    simp [hcount]
  | succ k ih =>
    intro fuel c C hC hfl hstart hk hcount hlast hfuel
    obtain ⟨f, rfl⟩ : ∃ f, fuel = f + 1 := ⟨fuel - 1, by omega⟩
    have hlast1 := hlast (by omega)
    simp only [Nat.add_sub_cancel] at hlast1
    cases hslot : cacheAt C c.PacketOrderCacheStartIdx with
    | none =>
      have hkpos : 0 < k := by
        rcases Nat.eq_zero_or_pos k with h0 | h0
        · subst h0
          rw [Nat.add_zero, hslot] at hlast1
          exact absurd hlast1 (by simp)
        · exact h0
      have hrun : slotsInOrder C c.PacketOrderCacheStartIdx (k + 1) =
          slotsInOrder C (c.PacketOrderCacheStartIdx + 1) k := by
        simp only [slotsInOrder, hslot]
      rw [hrun] at hcount ⊢
      have hpos : 0 < (slotsInOrder C (c.PacketOrderCacheStartIdx + 1) k).length := by
        apply slotsInOrder_pos C k _ (k - 1) (by omega)
        have e : c.PacketOrderCacheStartIdx + 1 + (k - 1) = c.PacketOrderCacheStartIdx + k := by
          omega
        rw [e]; exact hlast1
      rw [flushLoop_none_step cv f c C hC (by omega) hslot]
      have hrun2 : slotsInOrder C (GetNextIndex C.length c.PacketOrderCacheStartIdx) k =
          slotsInOrder C (c.PacketOrderCacheStartIdx + 1) k :=
        slotsInOrder_congr _ k _ _ (by simp [GetNextIndex])
      have h := ih f (withCacheState c C (GetNextIndex C.length c.PacketOrderCacheStartIdx)
        c.PacketOrderCacheCount) C rfl hfl (GetNextIndex_lt _ _ (by omega)) (by omega)
        (by
          show c.PacketOrderCacheCount = ((slotsInOrder C
            (GetNextIndex C.length c.PacketOrderCacheStartIdx) k).length : Int)
          rw [hrun2]; exact hcount)
        (by
          intro _
          show (cacheAt C (GetNextIndex C.length c.PacketOrderCacheStartIdx + (k - 1))).isSome
            = true
          rw [cacheAt_next]
          have e : k - 1 + 1 = k := by omega
          rw [e]; exact hlast1)
        (by omega)
      rw [h]
      have e1 : (withCacheState c C (GetNextIndex C.length c.PacketOrderCacheStartIdx)
          c.PacketOrderCacheCount).PacketOrderCacheStartIdx =
          GetNextIndex C.length c.PacketOrderCacheStartIdx := rfl
      rw [e1, hrun2, replayAll_withCacheState cv _ _ _ _ _ hfl (by rw [hC]; rfl),
        withCacheState_withCacheState]
      have e3 : clearSlots C (GetNextIndex C.length c.PacketOrderCacheStartIdx) k =
          clearSlots C c.PacketOrderCacheStartIdx (k + 1) := by
        rw [clearSlots]
        have := cacheSet_self C c.PacketOrderCacheStartIdx (by omega)
        rw [hslot] at this
        rw [this]
        apply clearSlots_congr
        simp [GetNextIndex]
      have e4 : (GetNextIndex C.length c.PacketOrderCacheStartIdx + k) % C.length =
          (c.PacketOrderCacheStartIdx + (k + 1)) % C.length := by
        simp only [GetNextIndex]
        rw [Nat.mod_add_mod]
        congr 1
        omega
      rw [e3, e4]
    | some p =>
      have hrun : slotsInOrder C c.PacketOrderCacheStartIdx (k + 1) =
          p :: slotsInOrder C (c.PacketOrderCacheStartIdx + 1) k := by
        simp only [slotsInOrder, hslot]
      rw [hrun] at hcount ⊢
      simp only [List.length_cons, Nat.cast_add, Nat.cast_one] at hcount
      obtain ⟨g1, g2, g3, g4⟩ := ReceivedPacket_flushing_fields cv c p C hfl hC
      rw [flushLoop_some_step cv true f c C p hC (by omega) hfl hslot]
      have hrun2 : slotsInOrder (cacheSet C c.PacketOrderCacheStartIdx none)
          (GetNextIndex C.length c.PacketOrderCacheStartIdx) k =
          slotsInOrder C (c.PacketOrderCacheStartIdx + 1) k := by
        rw [slotsInOrder_congr _ k (GetNextIndex C.length c.PacketOrderCacheStartIdx)
          (c.PacketOrderCacheStartIdx + (0 + 1))
          (by rw [length_cacheSet]; simp [GetNextIndex])]
        exact slotsInOrder_cacheSet C _ none k 0 (by omega)
      have h := ih f (withCacheState (ReceivedPacket cv c p)
        (cacheSet C c.PacketOrderCacheStartIdx none)
        (GetNextIndex C.length c.PacketOrderCacheStartIdx) (c.PacketOrderCacheCount - 1))
        (cacheSet C c.PacketOrderCacheStartIdx none) rfl g4
        (by rw [length_cacheSet]; exact GetNextIndex_lt _ _ (by omega))
        (by rw [length_cacheSet]; omega)
        (by
          show c.PacketOrderCacheCount - 1 =
            ((slotsInOrder (cacheSet C c.PacketOrderCacheStartIdx none)
              (GetNextIndex C.length c.PacketOrderCacheStartIdx) k).length : Int)
          rw [hrun2]; omega)
        (by
          intro hk0
          show (cacheAt (cacheSet C c.PacketOrderCacheStartIdx none)
            (GetNextIndex C.length c.PacketOrderCacheStartIdx + (k - 1))).isSome = true
          have e0 := cacheAt_next (cacheSet C c.PacketOrderCacheStartIdx none)
            c.PacketOrderCacheStartIdx (k - 1)
          rw [length_cacheSet] at e0
          rw [e0, cacheAt_cacheSet_other C _ (k - 1) none (by omega)]
          have e : k - 1 + 1 = k := by omega
          rw [e]; exact hlast1)
        (by omega)
      rw [h]
      have e1 : (withCacheState (ReceivedPacket cv c p)
          (cacheSet C c.PacketOrderCacheStartIdx none)
          (GetNextIndex C.length c.PacketOrderCacheStartIdx)
          (c.PacketOrderCacheCount - 1)).PacketOrderCacheStartIdx =
          GetNextIndex C.length c.PacketOrderCacheStartIdx := rfl
      rw [e1, hrun2, replayAll_withCacheState cv _ _ _ _ _ g4 (by rw [g1]; rfl),
        withCacheState_withCacheState, length_cacheSet]
      have e3 : clearSlots (cacheSet C c.PacketOrderCacheStartIdx none)
          (GetNextIndex C.length c.PacketOrderCacheStartIdx) k =
          clearSlots C c.PacketOrderCacheStartIdx (k + 1) := by
        rw [clearSlots]
        apply clearSlots_congr
        rw [length_cacheSet]
        simp [GetNextIndex]
      have e4 : (GetNextIndex C.length c.PacketOrderCacheStartIdx + k) % C.length =
          (c.PacketOrderCacheStartIdx + (k + 1)) % C.length := by
        simp only [GetNextIndex]
        rw [Nat.mod_add_mod]
        congr 1
        omega
      rw [e3, e4]
      rfl

/-- A flush of a cache that holds packets: the loop runs with the flushing flag set, and does
not stop at empty slots when asked to or when the slot before the start index is populated. -/
theorem FlushPacketOrderCache_eq (fuel : Nat) (cv : NetCVars) (c : UNetConnection)
    (C : List (Option Packet)) (b : Bool)
    (hC : c.PacketOrderCache = some C) (hpos : 0 < c.PacketOrderCacheCount) :
    FlushPacketOrderCache fuel cv c b =
      (flushLoop cv
        (b || (cacheAt C (GetPreviousIndex C.length c.PacketOrderCacheStartIdx)).isSome) fuel
        { c with bFlushingPacketOrderCache := true }).map
        (fun c2 => { c2 with bFlushingPacketOrderCache := false }) := by
  unfold FlushPacketOrderCache
  cases c
  simp only at hC hpos
  subst hC
  simp only [hpos, gt_iff_lt, if_true]
  split <;> simp_all

theorem populatedRun_getElem (C : List (Option Packet)) (k : Nat) :
    ∀ s i, i < (populatedRun C s k).length →
      cacheAt C (s + i) = (populatedRun C s k)[i]? := by
  induction k with
  | zero => intro s i h; simp [populatedRun] at h
  | succ k ih =>
    intro s i h
    simp only [populatedRun] at h ⊢
    cases hslot : cacheAt C s with
    | none => rw [hslot] at h; simp at h
    | some p =>
      rw [hslot] at h
      simp only [List.length_cons] at h
      cases i with
      | zero => simp [hslot]
      | succ j =>
        have e : s + (j + 1) = s + 1 + j := by omega
        rw [e, ih (s + 1) j (by omega)]
        simp

theorem populatedRun_stop (C : List (Option Packet)) (k : Nat) :
    ∀ s, (populatedRun C s k).length < k →
      cacheAt C (s + (populatedRun C s k).length) = none := by
  induction k with
  | zero => intro s h; simp [populatedRun] at h
  | succ k ih =>
    intro s h
    simp only [populatedRun] at h ⊢
    cases hslot : cacheAt C s with
    | none => simp [hslot]
    | some p =>
      rw [hslot] at h
      simp only [List.length_cons] at h ⊢
      have e : s + ((populatedRun C (s + 1) k).length + 1)
          = s + 1 + (populatedRun C (s + 1) k).length := by omega
      rw [e]
      exact ih (s + 1) (by omega)

/-- C12: in a cache state whose count is positive (and is the number of populated slots) and
whose tail slot, the one before the start index, is empty, FlushPacketOrderCache(false)
replays exactly the run of populated slots that begins at the start index, in slot order,
with the flushing flag set; the run ends at the first empty slot; the start index advances by
the length of the run modulo the capacity, the count decreases by that length, the slots of
the run are reset and every other slot keeps its contents. -/
theorem flush_replays_populated_run (cv : NetCVars) (c : UNetConnection)
    (C : List (Option Packet)) (fuel : Nat)
    (hC : c.PacketOrderCache = some C) (hstart : c.PacketOrderCacheStartIdx < C.length)
    (hpos : 0 < c.PacketOrderCacheCount)
    (hcount : c.PacketOrderCacheCount = (C.reduceOption.length : Int))
    (htail : cacheAt C (GetPreviousIndex C.length c.PacketOrderCacheStartIdx) = none)
    (hfuel : C.length ≤ fuel) :
    FlushPacketOrderCache fuel cv c false =
      some { withCacheState
          (replayAll cv { c with bFlushingPacketOrderCache := true }
            (populatedRun C c.PacketOrderCacheStartIdx C.length))
          (clearSlots C c.PacketOrderCacheStartIdx
            (populatedRun C c.PacketOrderCacheStartIdx C.length).length)
          ((c.PacketOrderCacheStartIdx
            + (populatedRun C c.PacketOrderCacheStartIdx C.length).length) % C.length)
          (c.PacketOrderCacheCount
            - ((populatedRun C c.PacketOrderCacheStartIdx C.length).length : Int))
        with bFlushingPacketOrderCache := false }
    ∧ (populatedRun C c.PacketOrderCacheStartIdx C.length).length < C.length
    ∧ cacheAt C (c.PacketOrderCacheStartIdx
        + (populatedRun C c.PacketOrderCacheStartIdx C.length).length) = none
    ∧ (∀ i, i < (populatedRun C c.PacketOrderCacheStartIdx C.length).length →
        cacheAt C (c.PacketOrderCacheStartIdx + i)
          = (populatedRun C c.PacketOrderCacheStartIdx C.length)[i]?)
    ∧ (∀ i, i < C.length →
        cacheAt (clearSlots C c.PacketOrderCacheStartIdx
            (populatedRun C c.PacketOrderCacheStartIdx C.length).length)
          (c.PacketOrderCacheStartIdx + i)
        = if i < (populatedRun C c.PacketOrderCacheStartIdx C.length).length then none
          else cacheAt C (c.PacketOrderCacheStartIdx + i)) := by
  have hcap : 0 < C.length := by omega
  have htail2 : cacheAt C (c.PacketOrderCacheStartIdx + (C.length - 1)) = none := by
    rw [← cacheAt_previous C _ hcap]; exact htail
  have hlen : (populatedRun C c.PacketOrderCacheStartIdx C.length).length ≤ C.length - 1 :=
    populatedRun_length_le C C.length _ (C.length - 1) (by omega) htail2
  have hlt : (populatedRun C c.PacketOrderCacheStartIdx C.length).length < C.length := by
    omega
  have hle : ((populatedRun C c.PacketOrderCacheStartIdx C.length).length : Int)
      ≤ c.PacketOrderCacheCount := by
    have h1 := populatedRun_length_le_slots C C.length c.PacketOrderCacheStartIdx
    have h2 := slotsInOrder_length_all C c.PacketOrderCacheStartIdx hstart
    rw [hcount]
    omega
  refine ⟨?_, hlt, populatedRun_stop C _ _ hlt, populatedRun_getElem C _ _, ?_⟩
  · have hloop : flushLoop cv false fuel { c with bFlushingPacketOrderCache := true } =
        some (withCacheState
          (replayAll cv { c with bFlushingPacketOrderCache := true }
            (populatedRun C c.PacketOrderCacheStartIdx C.length))
          (clearSlots C c.PacketOrderCacheStartIdx
            (populatedRun C c.PacketOrderCacheStartIdx C.length).length)
          ((c.PacketOrderCacheStartIdx
            + (populatedRun C c.PacketOrderCacheStartIdx C.length).length) % C.length)
          (c.PacketOrderCacheCount
            - ((populatedRun C c.PacketOrderCacheStartIdx C.length).length : Int))) :=
      flushLoop_run cv C.length fuel
        { c with bFlushingPacketOrderCache := true } C hC rfl hstart (le_refl _) hlt hle
        (Nat.lt_of_lt_of_le hlt hfuel)
    rw [FlushPacketOrderCache_eq fuel cv c C false hC hpos, htail, Option.isSome_none,
      Bool.or_false, hloop]
    rfl
  · intro i hi
    exact cacheAt_clearSlots _ C _ i (by omega) hi

theorem flush_replays_populated_run_witness :
    FlushPacketOrderCache 8 (exampleCVars 3 8) runConn false =
      some { runConn with
        InPacketId := 13,
        Processed := [⟨11, 1⟩, ⟨12, 2⟩, ⟨13, 3⟩],
        PacketOrderCache :=
          some [none, none, some ⟨15, 5⟩, none, none, none, none, none],
        PacketOrderCacheStartIdx := 1,
        PacketOrderCacheCount := 1 } :=
  (flush_replays_populated_run (exampleCVars 3 8) runConn
    [some ⟨13, 3⟩, none, some ⟨15, 5⟩, none, none, none, some ⟨11, 1⟩, some ⟨12, 2⟩] 8
    rfl (by decide) (by decide) (by decide) (by decide) (by decide)).1.trans (by decide)

/-- C13: a packet that is cached with linear index (sequence delta - 1) at least
capacity - 1 is stored in the last slot, the one before the start index; the flush that
follows, although called with bFlushWholeCache = false, replays every cached packet in slot
order from the start index, empty slots skipped and the new packet last, and leaves the count
at 0, all slots empty and the start index where it was. -/
theorem clamped_packet_forces_whole_flush (cv : NetCVars) (c : UNetConnection)
    (C : List (Option Packet)) (p : Packet) (fuel : Nat)
    (hint : c.InternalAck = false) (hfl : c.bFlushingPacketOrderCache = false)
    (hC : c.PacketOrderCache = some C) (hstart : c.PacketOrderCacheStartIdx < C.length)
    (hcount : c.PacketOrderCacheCount = (C.reduceOption.length : Int))
    (hcached : 0 < c.PacketOrderCacheCount
      ∨ (c.PacketOrderCacheCount = 0 ∧ 0 < GetSequenceDelta c p - 1
          ∧ GetSequenceDelta c p - 1 ≤ cv.PacketOrderMaxMissingPackets))
    (hfar : (C.length : Int) - 1 ≤ GetSequenceDelta c p - 1)
    (hfree : cacheAt C (GetPreviousIndex C.length c.PacketOrderCacheStartIdx) = none)
    (hfuel : C.length < fuel) :
    ReceivedPacket cv c p =
      { c with
        PacketOrderCache :=
          some (cacheSet C (GetPreviousIndex C.length c.PacketOrderCacheStartIdx) (some p)),
        PacketOrderCacheCount := c.PacketOrderCacheCount + 1 }
    ∧ FlushPacketOrderCache fuel cv (ReceivedPacket cv c p) false =
      some { withCacheState
          (replayAll cv { c with bFlushingPacketOrderCache := true }
            (slotsInOrder C c.PacketOrderCacheStartIdx (C.length - 1) ++ [p]))
          (List.replicate C.length none) c.PacketOrderCacheStartIdx 0
        with bFlushingPacketOrderCache := false } := by
  obtain ⟨m, hm⟩ : ∃ m, C.length = m + 1 := ⟨C.length - 1, by omega⟩
  have hcap : 0 < C.length := by omega
  unfold GetSequenceDelta at hcached hfar
  have hfree2 : cacheAt C (c.PacketOrderCacheStartIdx + m) = none := by
    have := cacheAt_previous C c.PacketOrderCacheStartIdx hcap
    rw [hm, Nat.add_sub_cancel] at this
    rw [← this, ← hm]; exact hfree
  have hset : cacheSet C (GetPreviousIndex C.length c.PacketOrderCacheStartIdx) (some p) =
      cacheSet C (c.PacketOrderCacheStartIdx + m) (some p) := by
    apply cacheSet_congr
    simp only [GetPreviousIndex, Nat.mod_mod]
    congr 1
    omega
  have hrp := ReceivedPacket_cache cv c p C m hint hfl hC hstart (by omega) hcached
    (by rw [hm]; push_cast; omega) hfree2
  rw [hset]
  refine ⟨hrp, ?_⟩
  rw [hrp]
  have hlen1 : (cacheSet C (c.PacketOrderCacheStartIdx + m) (some p)).length = C.length :=
    length_cacheSet _ _ _
  have hlast : cacheAt (cacheSet C (c.PacketOrderCacheStartIdx + m) (some p))
      (c.PacketOrderCacheStartIdx + m) = some p := by
    rw [cacheAt_cacheSet _ _ _ _ hcap, if_pos rfl]
  have hslots : slotsInOrder (cacheSet C (c.PacketOrderCacheStartIdx + m) (some p))
      c.PacketOrderCacheStartIdx C.length =
      slotsInOrder C c.PacketOrderCacheStartIdx (C.length - 1) ++ [p] := by
    rw [hm, Nat.add_sub_cancel, slotsInOrder_succ_last, hlast]
    congr 1
    apply slotsInOrder_ext
    intro j hj
    rw [cacheAt_cacheSet_offset C _ m j (some p) (by omega) (by omega), if_neg (by omega)]
  have hred : ((cacheSet C (c.PacketOrderCacheStartIdx + m) (some p)).reduceOption.length : Int)
      = c.PacketOrderCacheCount + 1 := by
    have := (reduceOption_cacheSet C (c.PacketOrderCacheStartIdx + m) (some p) hcap).length_eq
    rw [hfree2] at this
    simp only [Option.toList_none, List.nil_append, Option.toList_some, List.singleton_append,
      List.length_cons] at this
    rw [hcount]
    omega
  have hloop := flushLoop_whole cv C.length fuel
    { c with
      PacketOrderCache := some (cacheSet C (c.PacketOrderCacheStartIdx + m) (some p)),
      PacketOrderCacheCount := c.PacketOrderCacheCount + 1,
      bFlushingPacketOrderCache := true }
    (cacheSet C (c.PacketOrderCacheStartIdx + m) (some p)) rfl rfl
    (by rw [hlen1]; exact hstart) (by rw [hlen1])
    (by
      show c.PacketOrderCacheCount + 1 =
        ((slotsInOrder (cacheSet C (c.PacketOrderCacheStartIdx + m) (some p))
          c.PacketOrderCacheStartIdx C.length).length : Int)
      have := slotsInOrder_length_all (cacheSet C (c.PacketOrderCacheStartIdx + m) (some p))
        c.PacketOrderCacheStartIdx (by rw [hlen1]; exact hstart)
      rw [hlen1] at this
      rw [this, hred])
    (by
      intro _
      show (cacheAt (cacheSet C (c.PacketOrderCacheStartIdx + m) (some p))
        (c.PacketOrderCacheStartIdx + (C.length - 1))).isSome = true
      rw [hm, Nat.add_sub_cancel, hlast]; rfl)
    hfuel
  have hend : cacheAt (cacheSet C (c.PacketOrderCacheStartIdx + m) (some p))
      (GetPreviousIndex (cacheSet C (c.PacketOrderCacheStartIdx + m) (some p)).length
        c.PacketOrderCacheStartIdx) = some p := by
    rw [cacheAt_previous _ _ (by rw [hlen1]; exact hcap), hlen1, hm, Nat.add_sub_cancel, hlast]
  have hpos : 0 < c.PacketOrderCacheCount + 1 := by
    rw [hcount]; omega
  rw [FlushPacketOrderCache_eq fuel cv _ _ false rfl hpos, hend, Option.isSome_some,
    Bool.or_true, hloop]
  have e1 : clearSlots (cacheSet C (c.PacketOrderCacheStartIdx + m) (some p))
      c.PacketOrderCacheStartIdx C.length = List.replicate C.length none := by
    have := clearSlots_all (cacheSet C (c.PacketOrderCacheStartIdx + m) (some p))
      c.PacketOrderCacheStartIdx (by rw [hlen1]; exact hstart)
    rw [hlen1] at this
    exact this
  have e2 : (c.PacketOrderCacheStartIdx + C.length) % C.length = c.PacketOrderCacheStartIdx := by
    rw [Nat.add_mod_right, Nat.mod_eq_of_lt hstart]
  have e3 : ({ c with
      PacketOrderCache := some (cacheSet C (c.PacketOrderCacheStartIdx + m) (some p)),
      PacketOrderCacheCount := c.PacketOrderCacheCount + 1,
      bFlushingPacketOrderCache := true } : UNetConnection) =
      withCacheState { c with bFlushingPacketOrderCache := true }
        (cacheSet C (c.PacketOrderCacheStartIdx + m) (some p)) c.PacketOrderCacheStartIdx
        (c.PacketOrderCacheCount + 1) := rfl
  simp only [hlen1, e1, e2, hslots]
  rw [e3, replayAll_withCacheState cv _ _ _ _ _ rfl (by simp [hC]),
    withCacheState_withCacheState]
  rfl

theorem clamped_packet_forces_whole_flush_witness :
    ReceivedPacket (exampleCVars 3 8) runConn ⟨30, 9⟩ =
      { runConn with
        PacketOrderCache :=
          some [some ⟨13, 3⟩, none, some ⟨15, 5⟩, none, none, some ⟨30, 9⟩,
            some ⟨11, 1⟩, some ⟨12, 2⟩],
        PacketOrderCacheCount := 5 }
    ∧ FlushPacketOrderCache 9 (exampleCVars 3 8)
        (ReceivedPacket (exampleCVars 3 8) runConn ⟨30, 9⟩) false =
      some { runConn with
        InPacketId := 30,
        InPacketsLost := 15,
        InTotalPacketsLost := 15,
        Processed := [⟨11, 1⟩, ⟨12, 2⟩, ⟨13, 3⟩, ⟨15, 5⟩, ⟨30, 9⟩],
        PacketOrderCache := some (List.replicate 8 none),
        PacketOrderCacheStartIdx := 6,
        PacketOrderCacheCount := 0 } :=
  have h := clamped_packet_forces_whole_flush (exampleCVars 3 8) runConn
    [some ⟨13, 3⟩, none, some ⟨15, 5⟩, none, none, none, some ⟨11, 1⟩, some ⟨12, 2⟩]
    ⟨30, 9⟩ 9 rfl rfl rfl (by decide) (by decide) (by decide) (by decide) (by decide)
    (by decide)
  ⟨h.1.trans (by decide), h.2.trans (by decide)⟩

/-! ## Packet order cache: activation -/

theorem ActivationInv.received (cv : NetCVars) (c : UNetConnection) (n : Int) (p : Packet)
    (h : ActivationInv cv c n) :
    ActivationInv cv (ReceivedPacket cv c p)
      (if c.InternalAck = false ∧ GetSequenceDelta c p ≤ 0 then n + 1 else n) := by
  obtain ⟨hn, hs⟩ := h
  unfold GetSequenceDelta
  rcases ReceivedPacket_cases cv c p with ⟨hi, e⟩ | ⟨ht, C, i, hC, _, e⟩ | ⟨ht, e⟩ |
    ⟨hi, _, hd, e⟩ | ⟨hi, _, hd, e | ⟨hnone, hdo, hthr, e⟩⟩
  · rw [e, if_neg (by simp [hi])]
    exact ⟨hn, hs⟩
  · rw [takesCacheBranch_iff] at ht
    rw [e, if_neg (by intro hh; omega)]
    refine ⟨fun hh => by simp at hh, ?_⟩
    intro C1 hC1
    simp only [Option.some.injEq] at hC1
    subst hC1
    obtain ⟨h1, h2, h3, k, hk⟩ := hs C hC
    exact ⟨h1, h2, h3, k, by rw [length_cacheSet]; exact hk⟩
  · rw [takesCacheBranch_iff] at ht
    rw [e, if_neg (by intro hh; omega)]
    obtain ⟨_, _, hsome, _, _⟩ := ht
    refine ⟨fun hh => ?_, ?_⟩
    · simp only at hh; rw [hh] at hsome; exact absurd hsome (by decide)
    · intro C hC
      obtain ⟨h1, h2, h3, hk⟩ := hs C hC
      exact ⟨h1, h2, by simp only; omega, hk⟩
  · rw [e, if_neg (by intro hh; omega)]
    exact ⟨hn, hs⟩
  · rw [e, if_pos ⟨hi, hd⟩]
    refine ⟨fun hh => ?_, ?_⟩
    · obtain ⟨h1, h2⟩ := hn hh
      exact ⟨by simp only; omega, h2⟩
    · intro C hC
      obtain ⟨h1, h2, h3, hk⟩ := hs C hC
      exact ⟨h1, by omega, by simp only; omega, hk⟩
  · rw [e, if_pos ⟨hi, hd⟩]
    obtain ⟨h1, h2⟩ := hn hnone
    refine ⟨fun hh => by simp at hh, ?_⟩
    intro C hC
    simp only [Option.some.injEq] at hC
    subst hC
    refine ⟨hdo, by omega, by simp only; omega, Nat.clog 2 cv.PacketOrderMaxCachedPackets.toNat, ?_⟩
    simp [RoundUpToPowerOfTwo]

/-- A replayed packet does not count as observed: with the cache set, the relation is kept
with the same n. -/
theorem ActivationInv.replayed (cv : NetCVars) (c : UNetConnection) (n : Int) (p : Packet)
    (hsome : c.PacketOrderCache.isSome = true) (h : ActivationInv cv c n) :
    ActivationInv cv (ReceivedPacket cv c p) n
      ∧ (ReceivedPacket cv c p).PacketOrderCache.isSome = true := by
  have h1 := ActivationInv.received cv c n p h
  obtain ⟨C, hC⟩ := Option.isSome_iff_exists.1 hsome
  have hmono : ∃ C1, (ReceivedPacket cv c p).PacketOrderCache = some C1 := by
    rcases ReceivedPacket_cases cv c p with ⟨_, e⟩ | ⟨_, C2, i, _, _, e⟩ | ⟨_, e⟩ |
      ⟨_, _, _, e⟩ | ⟨_, _, _, e | ⟨_, _, _, e⟩⟩ <;> rw [e] <;> simp [hC]
  obtain ⟨C1, hC1⟩ := hmono
  refine ⟨⟨fun hh => by rw [hC1] at hh; exact absurd hh (by simp), ?_⟩, by rw [hC1]; rfl⟩
  intro C2 hC2
  obtain ⟨a1, a2, a3, a4⟩ := h1.2 C2 hC2
  obtain ⟨b1, b2, b3, b4⟩ := h.2 C hC
  refine ⟨a1, b2, ?_, a4⟩
  have hle : c.TotalOutOfOrderPackets ≤ (ReceivedPacket cv c p).TotalOutOfOrderPackets := by
    rcases ReceivedPacket_cases cv c p with ⟨_, e⟩ | ⟨_, C2, i, _, _, e⟩ | ⟨_, e⟩ |
      ⟨_, _, _, e⟩ | ⟨_, _, _, e | ⟨_, _, _, e⟩⟩ <;> rw [e] <;> simp
  omega

theorem ActivationInv.loop (cv : NetCVars) (b : Bool) (n : Int) :
    ∀ (fuel : Nat) (c c1 : UNetConnection), ActivationInv cv c n →
      flushLoop cv b fuel c = some c1 → ActivationInv cv c1 n := by
  intro fuel
  induction fuel with
  | zero => intro c c1 _ h; simp [flushLoop] at h
  | succ f ih =>
    intro c c1 hinv h
    rw [flushLoop] at h
    by_cases hpos : c.PacketOrderCacheCount > 0
    · simp only [hpos, if_true] at h
      cases hC : c.PacketOrderCache with
      | none =>
        rw [hC] at h
        simp only [Option.some.injEq] at h
        subst h
        exact hinv
      | some C =>
        rw [hC] at h
        simp only at h
        cases hslot : cacheAt C c.PacketOrderCacheStartIdx with
        | some p =>
          rw [hslot] at h
          simp only at h
          refine ih _ _ ?_ h
          obtain ⟨h1, h2⟩ := ActivationInv.replayed cv c n p (by rw [hC]; rfl) hinv
          obtain ⟨C1, hC1⟩ := Option.isSome_iff_exists.1 h2
          constructor
          · intro hh
            simp [hC1] at hh
          · intro C2 hC2
            simp only [hC1, Option.map_some', Option.some.injEq] at hC2
            subst hC2
            obtain ⟨a1, a2, a3, k, hk⟩ := h1.2 C1 hC1
            exact ⟨a1, a2, a3, k, by rw [length_cacheSet]; exact hk⟩
        | none =>
          rw [hslot] at h
          simp only at h
          cases b with
          | false =>
            simp only [Bool.not_false, if_true, Option.some.injEq] at h
            subst h
            exact hinv
          | true =>
            simp only [Bool.not_true, Bool.false_eq_true, if_false] at h
            refine ih _ _ ⟨fun hh => by simp at hh, fun C2 hC2 => ?_⟩ h
            simp only [Option.some.injEq] at hC2
            subst hC2
            exact hinv.2 C hC
    · simp only [hpos, if_false, Option.some.injEq] at h
      subst h
      exact hinv

theorem ActivationInv.flush (fuel : Nat) (cv : NetCVars) (b : Bool) (n : Int)
    (c c1 : UNetConnection) (hinv : ActivationInv cv c n)
    (h : FlushPacketOrderCache fuel cv c b = some c1) : ActivationInv cv c1 n := by
  unfold FlushPacketOrderCache at h
  cases hC : c.PacketOrderCache with
  | none =>
    rw [hC] at h
    simp only [Option.some.injEq] at h
    subst h
    exact hinv
  | some C =>
    rw [hC] at h
    simp only at h
    by_cases hpos : c.PacketOrderCacheCount > 0
    · simp only [hpos, if_true] at h
      split at h
      · exact absurd h (by simp)
      · next c2 hloop =>
        simp only [Option.some.injEq] at h
        subst h
        have h2 := ActivationInv.loop cv _ n fuel _ c2
          ⟨fun hh => by simp at hh, fun C2 hC2 => by
            simp only [Option.some.injEq] at hC2
            subst hC2
            exact hinv.2 C hC⟩ hloop
        exact ⟨h2.1, h2.2⟩
    · simp only [hpos, if_false, Option.some.injEq] at h
      subst h
      exact hinv

theorem ActivationInv.events (fuel : Nat) (cv : NetCVars) (events : List CacheEvent) :
    ∀ (s s1 : UNetConnection × Int), ActivationInv cv s.1 s.2 →
      observeEvents fuel cv s events = some s1 → ActivationInv cv s1.1 s1.2 := by
  induction events with
  | nil =>
    intro s s1 hinv h
    simp only [observeEvents, Option.some.injEq] at h
    subst h
    exact hinv
  | cons e rest ih =>
    intro s s1 hinv h
    simp only [observeEvents] at h
    cases hstep : observeEvent fuel cv s e with
    | none => rw [hstep] at h; exact absurd h (by simp)
    | some s2 =>
      rw [hstep] at h
      simp only at h
      refine ih s2 s1 ?_ h
      cases e with
      | received p =>
        simp only [observeEvent, Option.some.injEq] at hstep
        subst hstep
        exact ActivationInv.received cv s.1 s.2 p hinv
      | flush b =>
        simp only [observeEvent] at hstep
        cases hf : FlushPacketOrderCache fuel cv s.1 b with
        | none => rw [hf] at hstep; exact absurd hstep (by simp)
        | some c2 =>
          rw [hf] at hstep
          simp only [Option.some.injEq] at hstep
          subst hstep
          exact ActivationInv.flush fuel cv b s.2 s.1 c2 hinv hf

/-- C14: in every state reached from a new connection by receiving packets and flushing, with
n the number of out-of-order (delta at most 0) packets observed so far: if the cache is
allocated then order correction is enabled and both TotalOutOfOrderPackets and n have reached
PacketOrderCorrectionEnableThreshold; an allocated cache has a power of two as capacity; and
as long as n is below the threshold no packet is cached. -/
theorem cache_activation_needs_threshold (fuel : Nat) (cv : NetCVars) (InternalAck : Bool)
    (events : List CacheEvent) (c : UNetConnection) (n : Int)
    (h : observeEvents fuel cv (newConnection InternalAck, 0) events = some (c, n)) :
    (c.PacketOrderCache.isSome = true →
      cv.DoPacketOrderCorrection ≠ 0 ∧
      cv.PacketOrderCorrectionEnableThreshold ≤ c.TotalOutOfOrderPackets ∧
      cv.PacketOrderCorrectionEnableThreshold ≤ n) ∧
    (∀ C, c.PacketOrderCache = some C → ∃ k : Nat, C.length = 2 ^ k) ∧
    (n < cv.PacketOrderCorrectionEnableThreshold →
      c.PacketOrderCache = none ∧ cachedPackets c = [] ∧ c.PacketOrderCacheCount = 0) := by
  have hinv : ActivationInv cv c n :=
    ActivationInv.events fuel cv events (newConnection InternalAck, 0) (c, n)
      ⟨fun _ => ⟨rfl, rfl⟩, fun C hC => by simp [newConnection] at hC⟩ h
  refine ⟨?_, ?_, ?_⟩
  · intro hsome
    obtain ⟨C, hC⟩ := Option.isSome_iff_exists.1 hsome
    obtain ⟨h1, h2, h3, _⟩ := hinv.2 C hC
    exact ⟨h1, by omega, h2⟩
  · intro C hC
    exact (hinv.2 C hC).2.2.2
  · intro hlt
    cases hC : c.PacketOrderCache with
    | none =>
      refine ⟨rfl, by simp [cachedPackets, hC], (hinv.1 hC).2⟩
    | some C =>
      have := (hinv.2 C hC).2.1
      omega

theorem cache_activation_needs_threshold_witness :
    ((some [none, none, some (⟨2, 5⟩ : Packet), none, none, none, none, none]).isSome = true →
      (exampleCVars 3 8).DoPacketOrderCorrection ≠ 0 ∧
      (exampleCVars 3 8).PacketOrderCorrectionEnableThreshold ≤ (1 : Int) ∧
      (exampleCVars 3 8).PacketOrderCorrectionEnableThreshold ≤ (1 : Int)) ∧
    (∀ C, some [none, none, some (⟨2, 5⟩ : Packet), none, none, none, none, none] = some C →
      ∃ k : Nat, C.length = 2 ^ k) ∧
    ((1 : Int) < (exampleCVars 3 8).PacketOrderCorrectionEnableThreshold →
      some [none, none, some (⟨2, 5⟩ : Packet), none, none, none, none, none] = none ∧
      cachedPackets { newConnection false with
        TotalOutOfOrderPackets := 1,
        PacketOrderCache := some [none, none, some ⟨2, 5⟩, none, none, none, none, none],
        PacketOrderCacheCount := 1 } = [] ∧ (1 : Int) = 0) :=
  cache_activation_needs_threshold 9 (exampleCVars 3 8) false
    [.received ⟨-1, 0⟩, .flush false, .received ⟨2, 5⟩, .flush false]
    { newConnection false with
      TotalOutOfOrderPackets := 1,
      PacketOrderCache := some [none, none, some ⟨2, 5⟩, none, none, none, none, none],
      PacketOrderCacheCount := 1 } 1
    (by
      have e0 : RoundUpToPowerOfTwo 8 = 8 := by
        show 2 ^ Nat.clog 2 (2 ^ 3) = 8
        rw [Nat.clog_pow 2 3 (by decide)]
        rfl
      have e1 : ReceivedPacket (exampleCVars 3 8) (newConnection false) ⟨-1, 0⟩ =
          { newConnection false with
            TotalOutOfOrderPackets := 1,
            PacketOrderCache := some (List.replicate 8 none) } := by
        rw [← e0]
        simp [ReceivedPacket, newConnection, exampleCVars, GetSequenceDelta]
      show observeEvents 9 (exampleCVars 3 8)
        (ReceivedPacket (exampleCVars 3 8) (newConnection false) ⟨-1, 0⟩,
          if (newConnection false).InternalAck = false
            ∧ GetSequenceDelta (newConnection false) ⟨-1, 0⟩ ≤ 0 then (0 : Int) + 1 else 0)
        [.flush false, .received ⟨2, 5⟩, .flush false] = _
      rw [e1]
      decide)

/-! ## Raw packets: the bit size of the reader -/

theorem trimLoop_shift (fuel : Nat) :
    ∀ (b : Nat) (s : Int),
      trimLoop fuel b s = (trimLoop fuel b 0).map (fun r => (r.1, s + r.2)) := by
  induction fuel with
  | zero => intros; rfl
  | succ f ih =>
    intro b s
    simp only [trimLoop]
    split
    · rw [ih _ (s - 1), ih _ (0 - 1)]
      cases trimLoop f (b * 2 % 256) 0 with
      | none => rfl
      | some r =>
        simp only [Option.map_some', Option.some.injEq, Prod.mk.injEq, true_and]
        omega
    · simp

set_option maxRecDepth 100000 in
theorem trimLoop_byte : ∀ b, b < 256 → b ≠ 0 →
    ∃ k : Nat, k < 8 ∧ 2 ^ k ≤ b ∧ b < 2 ^ (k + 1) ∧
      (trimLoop 8 b 0).map Prod.snd = some ((k : Int) - 7) := by
  decide

theorem log2_of_bounds (b k : Nat) (h1 : 2 ^ k ≤ b) (h2 : b < 2 ^ (k + 1)) :
    Nat.log2 b = k := by
  have hb : b ≠ 0 := by
    have : 0 < 2 ^ k := Nat.two_pow_pos k
    omega
  have a1 : k ≤ Nat.log2 b := (Nat.le_log2 hb).2 h1
  have a2 : Nat.log2 b < k + 1 := (Nat.log2_lt hb).2 h2
  omega

theorem lastByteOf_lt (Data : List Nat) : lastByteOf Data < 256 :=
  Nat.mod_lt _ (by decide)

/-- For a packet with a last byte that is not 0 the loop ends within 8 evaluations of its
condition, and the bit size is the number of bits before the highest set bit of the last
byte. -/
theorem ReaderBitSize_eq (Data : List Nat) (h : lastByteOf Data ≠ 0) :
    ReaderBitSize 8 Data
      = some (8 * ((Data.length : Int) - 1) + (Nat.log2 (lastByteOf Data) : Int)) := by
  obtain ⟨k, _, h1, h2, h3⟩ := trimLoop_byte (lastByteOf Data) (lastByteOf_lt Data) h
  rw [log2_of_bounds _ k h1 h2]
  unfold ReaderBitSize
  simp only []
  rw [trimLoop_shift]
  cases hr : trimLoop 8 (lastByteOf Data) 0 with
  | none => rw [hr] at h3; simp at h3
  | some r =>
    rw [hr] at h3
    simp only [Option.map_some', Option.some.injEq] at h3
    simp only [Option.map_some', h3, Option.some.injEq]
    omega

/-- C15: a raw packet that reaches the size check of ReceivedRawPacket is rejected (the
connection is closed with a Malformed_Packet security violation and ReceivedPacket is not
called) if and only if its byte count is zero or its last byte is zero; the check always
comes to a result, and every other packet is handed to ReceivedPacket with a positive bit
size or, when it holds the termination bit only, is left alone. -/
theorem rawPacket_rejected_iff (Data : List Nat) :
    (∃ o, ReceivedRawPacketData 8 Data = some o) ∧
    (ReceivedRawPacketData 8 Data = some (.closed .Malformed_Packet)
      ↔ (Data.length = 0 ∨ lastByteOf Data = 0)) ∧
    (¬ (Data.length = 0 ∨ lastByteOf Data = 0) →
      ∃ BitSize : Int, ReaderBitSize 8 Data = some BitSize ∧
        ((0 < BitSize ∧ ReceivedRawPacketData 8 Data = some (.received BitSize))
          ∨ (BitSize = 0 ∧ ReceivedRawPacketData 8 Data = some (.nothing BitSize)))) := by
  unfold ReceivedRawPacketData
  by_cases hlen : Data.length = 0
  · have : ¬ ((Data.length : Int) > 0) := by omega
    simp [this, hlen]
  · have hpos : (Data.length : Int) > 0 := by omega
    by_cases hb : lastByteOf Data = 0
    · simp [hpos, hb]
    · have hsize := ReaderBitSize_eq Data hb
      have hnn : (0 : Int) ≤ 8 * ((Data.length : Int) - 1) + (Nat.log2 (lastByteOf Data) : Int) := by
        omega
      simp only [hpos, if_true, hb, ne_eq, not_false_eq_true, hsize, hlen, or_self]
      by_cases hz : 8 * ((Data.length : Int) - 1) + (Nat.log2 (lastByteOf Data) : Int) > 0
      · simp [hz]
      · have hz0 : 8 * ((Data.length : Int) - 1) + (Nat.log2 (lastByteOf Data) : Int) = 0 := by
          omega
        simp [hz0]

theorem rawPacket_rejected_iff_witness :
    ReceivedRawPacketData 8 [5, 0] = some (.closed .Malformed_Packet) :=
  (rawPacket_rejected_iff [5, 0]).2.1.2 (Or.inr (by decide))

theorem length_packBitsAux (n : Nat) : ∀ bits, (packBitsAux n bits).length = n := by
  induction n with
  | zero => intro bits; rfl
  | succ n ih => intro bits; simp [packBitsAux, ih]

theorem packBitsAux_getD (k : Nat) :
    ∀ bits, (packBitsAux (k + 1) bits).getD k 0 = byteOfBits ((bits.drop (8 * k)).take 8) := by
  induction k with
  | zero => intro bits; simp [packBitsAux]
  | succ k ih =>
    intro bits
    rw [packBitsAux, List.getD_cons_succ, ih, List.drop_drop]
    congr 3
    omega

theorem byteOfBits_lt (l : List Bool) : byteOfBits l < 2 ^ l.length := by
  induction l with
  | nil => simp [byteOfBits]
  | cons b l ih =>
    simp only [byteOfBits, List.length_cons, Nat.pow_succ]
    split <;> omega

theorem byteOfBits_append_true (l : List Bool) :
    byteOfBits (l ++ [true]) = byteOfBits l + 2 ^ l.length := by
  induction l with
  | nil => simp [byteOfBits]
  | cons b l ih =>
    show (if b = true then 1 else 0) + 2 * byteOfBits (l ++ [true])
      = byteOfBits (b :: l) + 2 ^ (b :: l).length
    rw [ih]
    simp only [byteOfBits, List.length_cons, Nat.pow_succ]
    omega

/-- The last byte of a body followed by the termination bit: the termination bit is its
highest set bit, at index length mod 8. -/
theorem lastByteOf_withTerminationBit (body : List Bool) :
    (withTerminationBit body).length = body.length / 8 + 1 ∧
    2 ^ (body.length % 8) ≤ lastByteOf (withTerminationBit body) ∧
    lastByteOf (withTerminationBit body) < 2 ^ (body.length % 8 + 1) := by
  have hcount : (body ++ [true]).length = body.length + 1 := by simp
  have hbytes : ((body ++ [true]).length + 7) / 8 = body.length / 8 + 1 := by
    rw [hcount]; omega
  have hlen : (withTerminationBit body).length = body.length / 8 + 1 := by
    unfold withTerminationBit packBits
    rw [length_packBitsAux, hbytes]
  have hdrop : (body ++ [true]).drop (8 * (body.length / 8))
      = body.drop (8 * (body.length / 8)) ++ [true] :=
    List.drop_append_of_le_length (by omega)
  have hdl : (body.drop (8 * (body.length / 8))).length = body.length % 8 := by
    rw [List.length_drop]; omega
  have hm : body.length % 8 < 8 := Nat.mod_lt _ (by decide)
  have hval : (withTerminationBit body).getD ((withTerminationBit body).length - 1) 0
      = byteOfBits (body.drop (8 * (body.length / 8))) + 2 ^ (body.length % 8) := by
    rw [hlen, Nat.add_sub_cancel]
    unfold withTerminationBit packBits
    rw [hbytes, packBitsAux_getD, hdrop, List.take_of_length_le (by simp [hdl]; omega),
      byteOfBits_append_true, hdl]
  have hlt := byteOfBits_lt (body.drop (8 * (body.length / 8)))
  rw [hdl] at hlt
  have hpow : 2 ^ (body.length % 8 + 1) ≤ 256 := by
    have : (256 : Nat) = 2 ^ 8 := by norm_num
    rw [this]
    exact Nat.pow_le_pow_right (by decide) (by omega)
  have hsmall : byteOfBits (body.drop (8 * (body.length / 8))) + 2 ^ (body.length % 8) < 256 := by
    rw [Nat.pow_succ] at hpow
    omega
  refine ⟨hlen, ?_, ?_⟩
  · unfold lastByteOf
    rw [hval, Nat.mod_eq_of_lt hsmall]
    omega
  · unfold lastByteOf
    rw [hval, Nat.mod_eq_of_lt hsmall, Nat.pow_succ]
    omega

/-- C16: the bytes made of an n-bit body (least significant bit first), the termination bit 1
and zero padding give a reader of exactly n bits; for any packet whose last byte is not 0 the
bit size is 8 * (Count - 1) plus the index of the highest set bit of the last byte; and the
trimming loop ends with at most 7 decrements of the bit size, one per iteration. -/
theorem termination_bit_round_trip (body : List Bool) (Data : List Nat)
    (hlast : lastByteOf Data ≠ 0) :
    ReaderBitSize 8 (withTerminationBit body) = some (body.length : Int) ∧
    ReaderBitSize 8 Data
      = some (8 * ((Data.length : Int) - 1) + (Nat.log2 (lastByteOf Data) : Int)) ∧
    (∃ BitSize : Int, ReaderBitSize 8 Data = some BitSize ∧
      (Data.length : Int) * 8 - 1 - BitSize ≤ 7 ∧ 0 ≤ (Data.length : Int) * 8 - 1 - BitSize) := by
  refine ⟨?_, ReaderBitSize_eq Data hlast, ?_⟩
  · obtain ⟨h1, h2, h3⟩ := lastByteOf_withTerminationBit body
    have hne : lastByteOf (withTerminationBit body) ≠ 0 := by
      have : 0 < 2 ^ (body.length % 8) := Nat.two_pow_pos _
      omega
    rw [ReaderBitSize_eq _ hne, log2_of_bounds _ _ h2 h3, h1]
    congr 1
    push_cast
    omega
  · refine ⟨_, ReaderBitSize_eq Data hlast, ?_, ?_⟩
    · omega
    · have hlt : Nat.log2 (lastByteOf Data) < 8 :=
        (Nat.log2_lt hlast).2 (lastByteOf_lt Data)
      omega

theorem termination_bit_round_trip_witness :
    ReaderBitSize 8 (withTerminationBit [true, false, true])
      = some (([true, false, true] : List Bool).length : Int) ∧
    ReaderBitSize 8 [255, 11]
      = some (8 * ((([255, 11] : List Nat).length : Int) - 1)
          + (Nat.log2 (lastByteOf [255, 11]) : Int)) ∧
    (∃ BitSize : Int, ReaderBitSize 8 [255, 11] = some BitSize ∧
      (([255, 11] : List Nat).length : Int) * 8 - 1 - BitSize ≤ 7 ∧
      0 ≤ (([255, 11] : List Nat).length : Int) * 8 - 1 - BitSize) :=
  termination_bit_round_trip [true, false, true] [255, 11] (by decide)

/-! ## Packet processing: stale packets -/

/-- C17: on a connection that is not InternalAck, a packet whose header is read and whose
sequence delta is at most 0 is dropped: ReceivedPacket returns with the log of events as it
was (no notification, no bunch dispatched, neither AckSeq nor NakSeq), with InPacketId,
HasDirtyAcks, the processed packets, the cached packets, the loss counters, the connection
state and the tables unchanged, and with TotalOutOfOrderPackets increased by exactly one. -/
theorem stale_packet_is_dropped (fuel : Nat) (env : NetEnv) (cv : NetCVars)
    (c : UNetConnectionFull) (Reader : FInPacket)
    (hint : c.InternalAck = false) (herr : Reader.bReaderError = false)
    (hhdr : Reader.bHeaderOk = true)
    (hdelta : GetSequenceDelta c.toUNetConnection Reader.toPacket ≤ 0) :
    ∃ c1, ReceivedPacketFull fuel env cv c Reader = some (.Done c1) ∧
      c1.Log = c.Log ∧ c1.InPacketId = c.InPacketId ∧ c1.HasDirtyAcks = c.HasDirtyAcks ∧
      c1.TotalOutOfOrderPackets = c.TotalOutOfOrderPackets + 1 ∧
      c1.Processed = c.Processed ∧ cachedPackets c1.toUNetConnection = cachedPackets c.toUNetConnection ∧
      c1.PacketOrderCacheCount = c.PacketOrderCacheCount ∧
      c1.InPacketsLost = c.InPacketsLost ∧ c1.InTotalPacketsLost = c.InTotalPacketsLost ∧
      c1.State = c.State ∧ c1.Channels = c.Channels ∧ c1.InReliable = c.InReliable ∧
      c1.LastNotifiedPacketId = c.LastNotifiedPacketId := by
  have hnot : ¬ (GetSequenceDelta c.toUNetConnection Reader.toPacket > 0) := by omega
  refine ⟨{ c with
    toUNetConnection := ReceivedPacket cv c.toUNetConnection Reader.toPacket }, ?_, rfl, ?_⟩
  · unfold ReceivedPacketFull
    simp [herr, hint, hhdr, hnot]
  · unfold GetSequenceDelta at hdelta
    rcases ReceivedPacket_cases cv c.toUNetConnection Reader.toPacket with
      ⟨hi, _⟩ | ⟨ht, _⟩ | ⟨ht, _⟩ | ⟨_, _, hd, _⟩ | ⟨_, _, _, e | ⟨hn, _, _, e⟩⟩
    · rw [hint] at hi; exact absurd hi (by decide)
    · rw [takesCacheBranch_iff] at ht; omega
    · rw [takesCacheBranch_iff] at ht; omega
    · omega
    · rw [e]
      exact ⟨rfl, rfl, rfl, rfl, cachedPackets_eq_of_cache_eq _ _ rfl, rfl, rfl, rfl, rfl,
        rfl, rfl, rfl⟩
    · rw [e]
      refine ⟨rfl, rfl, rfl, rfl, ?_, rfl, rfl, rfl, rfl, rfl, rfl, rfl⟩
      simp [cachedPackets, hn, reduceOption_replicate_none]

theorem stale_packet_is_dropped_witness :
    ∃ c1, ReceivedPacketFull 1 exampleEnv (exampleCVars 3 8) (exampleConnFull 4)
        ⟨false, true, 10, 0, [(1, true)], true, [.bit false]⟩ = some (.Done c1) ∧
      c1.Log = (exampleConnFull 4).Log ∧ c1.InPacketId = (exampleConnFull 4).InPacketId ∧
      c1.HasDirtyAcks = (exampleConnFull 4).HasDirtyAcks ∧
      c1.TotalOutOfOrderPackets = (exampleConnFull 4).TotalOutOfOrderPackets + 1 ∧
      c1.Processed = (exampleConnFull 4).Processed ∧
      cachedPackets c1.toUNetConnection = cachedPackets (exampleConnFull 4).toUNetConnection ∧
      c1.PacketOrderCacheCount = (exampleConnFull 4).PacketOrderCacheCount ∧
      c1.InPacketsLost = (exampleConnFull 4).InPacketsLost ∧
      c1.InTotalPacketsLost = (exampleConnFull 4).InTotalPacketsLost ∧
      c1.State = (exampleConnFull 4).State ∧ c1.Channels = (exampleConnFull 4).Channels ∧
      c1.InReliable = (exampleConnFull 4).InReliable ∧
      c1.LastNotifiedPacketId = (exampleConnFull 4).LastNotifiedPacketId :=
  stale_packet_is_dropped 1 exampleEnv (exampleCVars 3 8) (exampleConnFull 4)
    ⟨false, true, 10, 0, [(1, true)], true, [.bit false]⟩ rfl rfl rfl (by decide)

/-! ## Packet processing: the events of one packet -/

theorem StepsTo.refl (c : UNetConnectionFull) : StepsTo c c [] :=
  ⟨rfl, by simp, by simp, Or.inl rfl⟩

theorem StepsTo.trans {c c1 c2 : UNetConnectionFull} {e1 e2 : List NetEvent}
    (h1 : StepsTo c c1 e1) (h2 : StepsTo c1 c2 e2) : StepsTo c c2 (e1 ++ e2) := by
  refine ⟨h2.order.trans h1.order, ?_, ?_, ?_⟩
  · rw [h2.log, h1.log, List.append_assoc]
  · intro e he
    rcases List.mem_append.1 he with h | h
    · exact h1.noAck e h
    · exact h2.noAck e h
  · rcases h1.dirty with a | a
    · rcases h2.dirty with b | b
      · exact Or.inl (b.trans a)
      · exact Or.inr (List.mem_append.2 (Or.inr b))
    · exact Or.inr (List.mem_append.2 (Or.inl a))

theorem StepsTo.logEvent (c : UNetConnectionFull) (e : NetEvent) (h : isAckSeq e = false) :
    StepsTo c (c.logEvent e) [e] :=
  ⟨rfl, rfl, by simpa using h, Or.inl rfl⟩

theorem StepsTo.flushNet (env : NetEnv) (c : UNetConnectionFull) :
    StepsTo c (FlushNetAcks env c) [.FlushNet] :=
  ⟨rfl, rfl, by simp [isAckSeq], Or.inr (by simp)⟩

theorem Close_state (env : NetEnv) (c : UNetConnectionFull) :
    (Close env c).State = .USOCK_Closed := by
  unfold Close
  by_cases h : c.State = .USOCK_Closed
  · simp [h]
  · simp only [ne_eq, h, not_false_eq_true, if_true]
    split <;> rfl

theorem Close_steps (env : NetEnv) (c : UNetConnectionFull) :
    ∃ ev, StepsTo c (Close env c) ev ∧ ev.any skipsAck = false := by
  unfold Close
  by_cases h : c.State = .USOCK_Closed
  · exact ⟨[], by simpa [h] using StepsTo.refl c, rfl⟩
  · simp only [ne_eq, h, not_false_eq_true, if_true]
    by_cases hf : env.bCloseFlushes = true
    · refine ⟨[NetEvent.Close, NetEvent.FlushNet], ?_, rfl⟩
      simp only [hf, if_true]
      exact ⟨rfl, by simp [FlushNetAcks, UNetConnectionFull.logEvent], by simp [isAckSeq],
        Or.inr (by simp)⟩
    · refine ⟨[NetEvent.Close], ?_, rfl⟩
      simp only [hf, Bool.false_eq_true, if_false]
      exact ⟨rfl, rfl, by simp [isAckSeq], Or.inl rfl⟩

theorem CloseSecurityViolation_state (env : NetEnv) (c : UNetConnectionFull)
    (Event : ESecurityEvent) :
    (CloseSecurityViolation env c Event).State = .USOCK_Closed :=
  Close_state env _

theorem CloseSecurityViolation_steps (env : NetEnv) (c : UNetConnectionFull)
    (Event : ESecurityEvent) :
    ∃ ev, StepsTo c (CloseSecurityViolation env c Event) ev ∧ ev.any skipsAck = false := by
  obtain ⟨ev, h1, h2⟩ := Close_steps env (c.logEvent (.SecurityViolation Event))
  refine ⟨[NetEvent.SecurityViolation Event] ++ ev,
    (StepsTo.logEvent c (.SecurityViolation Event) rfl).trans h1, ?_⟩
  simp [List.any_append, h2, skipsAck]

theorem DispatchBunch_steps (env : NetEnv) (c : UNetConnectionFull) (Bunch : FInBunch)
    (b : Bool) (R : List Nat) :
    ∃ c1 b1 ev, DispatchBunch env c Bunch b R = .Next c1 b1 R ∧ StepsTo c c1 ev ∧
      b1 = (b || ev.any skipsAck) := by
  simp only [DispatchBunch]
  by_cases h : (!env.bHasServerConnection) = true ∧ (env.ReceivedRawBunch Bunch).2 = true
  · obtain ⟨ev, h1, h2⟩ := Close_steps env
      ((c.logEvent (.ReceivedRawBunch Bunch (env.ReceivedRawBunch Bunch).1)).logEvent
        (.CorruptedBunch Bunch.ChIndex))
    rw [if_pos h]
    refine ⟨_, true, [NetEvent.ReceivedRawBunch Bunch (env.ReceivedRawBunch Bunch).1]
      ++ ([NetEvent.CorruptedBunch Bunch.ChIndex] ++ ev), rfl,
      (StepsTo.logEvent c (.ReceivedRawBunch Bunch (env.ReceivedRawBunch Bunch).1) rfl).trans
        ((StepsTo.logEvent _ (.CorruptedBunch Bunch.ChIndex) rfl).trans h1), ?_⟩
    simp [List.any_append, skipsAck]
  · rw [if_neg h]
    refine ⟨_, (b || (env.ReceivedRawBunch Bunch).1),
      [NetEvent.ReceivedRawBunch Bunch (env.ReceivedRawBunch Bunch).1], rfl,
      StepsTo.logEvent c (.ReceivedRawBunch Bunch (env.ReceivedRawBunch Bunch).1) rfl, ?_⟩
    simp [skipsAck]

theorem StepsTo.createChannel (c : UNetConnectionFull) (ChName : FName) (ChIndex : Nat) :
    StepsTo c (CreateChannelByName c ChName ChIndex) [NetEvent.CreateChannel ChName ChIndex] :=
  ⟨rfl, rfl, by simp [isAckSeq], Or.inl rfl⟩

theorem DispatchBunch_sound (env : NetEnv) (c c0 : UNetConnectionFull) (Bunch : FInBunch)
    (b : Bool) (R : List Nat) (ev0 : List NetEvent) (h0 : StepsTo c0 c ev0)
    (hq : ev0.any skipsAck = false) :
    (DispatchBunch env c Bunch b R).Sound c0 b := by
  obtain ⟨c1, b1, ev, e, hs, hb⟩ := DispatchBunch_steps env c Bunch b R
  rw [e]
  refine ⟨ev0 ++ ev, h0.trans hs, ?_⟩
  rw [hb, List.any_append, hq, Bool.false_or]

theorem OpenChannelForBunch_sound (env : NetEnv) (c : UNetConnectionFull) (Bunch : FInBunch)
    (b : Bool) (R : List Nat) :
    (OpenChannelForBunch env c Bunch b R).Sound c b := by
  unfold OpenChannelForBunch
  by_cases h1 : R.contains Bunch.ChIndex = true
  · rw [if_pos h1]; exact ⟨[], StepsTo.refl c, by simp⟩
  rw [if_neg h1]
  by_cases h2 : env.IsKnownChannelName Bunch.ChName = false
  · rw [if_pos h2]; exact CloseSecurityViolation_state _ _ _
  rw [if_neg h2]
  by_cases h3 : env.bIsServer = true ∧ env.bClientOpen Bunch.ChName = false
  · rw [if_pos h3]; exact ⟨[], StepsTo.refl c, by simp⟩
  rw [if_neg h3]
  by_cases h4 : c.InternalAck = true ∧ env.bIgnoredActorBunch Bunch = true
  · rw [if_pos h4]; exact ⟨[], StepsTo.refl c, by simp⟩
  rw [if_neg h4]
  by_cases h5 : env.NotifyAcceptingChannel Bunch.ChIndex Bunch.ChName = false
  · rw [if_pos h5]
    refine ⟨[NetEvent.CreateChannel Bunch.ChName Bunch.ChIndex,
      NetEvent.ChannelRefused Bunch.ChIndex, NetEvent.FlushNet], ?_, by simp [skipsAck]⟩
    by_cases h6 : Bunch.ChIndex = 0
    · rw [if_pos h6]
      exact ⟨rfl, by simp [FlushNetAcks, UNetConnectionFull.logEvent, CreateChannelByName],
        by simp [isAckSeq], Or.inr (by simp)⟩
    · rw [if_neg h6]
      exact ⟨rfl, by simp [FlushNetAcks, UNetConnectionFull.logEvent, CreateChannelByName],
        by simp [isAckSeq], Or.inr (by simp)⟩
  · rw [if_neg h5]
    exact DispatchBunch_sound env _ c Bunch b R
      [NetEvent.CreateChannel Bunch.ChName Bunch.ChIndex]
      (StepsTo.createChannel c _ _) rfl

theorem HandleBunch_sound (env : NetEnv) (c : UNetConnectionFull) (Bunch : FInBunch)
    (Channel : Option FName) (b : Bool) (R : List Nat) :
    (HandleBunch env c Bunch Channel b R).Sound c b := by
  unfold HandleBunch
  dsimp only
  by_cases h1 : (c.Channels.getD Bunch.ChIndex none).isNone = true
      ∧ decide (Bunch.ChIndex ≠ 0 ∨ Bunch.ChName ≠ env.NAME_Control) = true
      ∧ (c.Channels.getD 0 none).isNone = true
  · rw [if_pos h1]; exact Close_state _ _
  rw [if_neg h1]
  by_cases h2 : (c.Channels.getD Bunch.ChIndex none).isNone = true
      ∧ decide (Bunch.ChIndex ≠ 0 ∨ Bunch.ChName ≠ env.NAME_Control) = true
      ∧ env.bLoggingIn = true
  · rw [if_pos h2]; exact CloseSecurityViolation_state _ _ _
  rw [if_neg h2]
  by_cases h3 : Bunch.ChIndex = 0 ∧ (c.Channels.getD 0 none).isNone = true
      ∧ Bunch.bClose = true ∧ Bunch.ChName = env.NAME_Control
  · rw [if_pos h3]; exact Close_state _ _
  rw [if_neg h3]
  by_cases h4 : c.InternalAck = true ∧ Channel.isSome = true
      ∧ env.bIgnoredOpenedChannel Bunch = true
  · rw [if_pos h4]; exact ⟨[], StepsTo.refl c, by simp⟩
  rw [if_neg h4]
  by_cases h5 : Bunch.bReliable = true ∧ Bunch.ChSequence ≤ c.InReliable.getD Bunch.ChIndex 0
  · rw [if_pos h5]; exact ⟨[], StepsTo.refl c, by simp⟩
  rw [if_neg h5]
  by_cases h6 : Channel.isNone = true ∧ Bunch.bReliable = false
      ∧ (Bunch.bOpen && (Bunch.bClose || Bunch.bPartial)) = false
  · rw [if_pos h6]
    exact ⟨[NetEvent.NotProcessed Bunch.ChIndex],
      StepsTo.logEvent c (.NotProcessed Bunch.ChIndex) rfl, by simp [skipsAck]⟩
  rw [if_neg h6]
  by_cases h7 : Channel.isNone = true
  · rw [if_pos h7]; exact OpenChannelForBunch_sound env c Bunch b R
  · rw [if_neg h7]; exact DispatchBunch_sound env c c Bunch b R [] (StepsTo.refl c) rfl

theorem ReadBunchTail_sound (env : NetEnv) (c : UNetConnectionFull) (Bunch : FInBunch)
    (Reader : FBitReader) : (ReadBunchTail env c Bunch Reader).Sound := by
  unfold ReadBunchTail
  dsimp only
  split
  · trivial
  split
  · exact CloseSecurityViolation_state _ _ _
  split
  · trivial
  split
  · exact Close_state _ _
  split
  · exact CloseSecurityViolation_state _ _ _
  split
  · exact CloseSecurityViolation_state _ _ _
  · trivial

theorem ReadBunchIndex_sound (env : NetEnv) (c : UNetConnectionFull) (Bunch : FInBunch)
    (Reader : FBitReader) : (ReadBunchIndex env c Bunch Reader).Sound := by
  unfold ReadBunchIndex
  dsimp only
  split
  · exact ReadBunchTail_sound _ _ _ _
  split
  · exact CloseSecurityViolation_state _ _ _
  · exact ReadBunchTail_sound _ _ _ _

theorem ReadBunch_sound (env : NetEnv) (c : UNetConnectionFull) (Reader : FBitReader) :
    (ReadBunch env c Reader).Sound :=
  ReadBunchIndex_sound _ _ _ _

theorem BunchLoop_sound (env : NetEnv) :
    ∀ (fuel : Nat) (c : UNetConnectionFull) (Reader : FBitReader) (b : Bool) (R : List Nat)
      (r : LoopResult), BunchLoop env fuel c Reader b R = some r → r.Sound c b := by
  intro fuel
  induction fuel with
  | zero => intro c Reader b R r h; simp [BunchLoop] at h
  | succ f ih =>
    intro c Reader b R r h
    rw [BunchLoop] at h
    by_cases hgo : (!Reader.AtEnd) = true ∧ c.State ≠ .USOCK_Closed
    · rw [if_pos hgo] at h
      dsimp only at h
      have hp := ReadBunch_sound env c
        (if c.InternalAck = true ∧ env.bBeforeAcksInHeader = true then Reader.ReadBit.2
          else Reader)
      cases hparse : ReadBunch env c
        (if c.InternalAck = true ∧ env.bBeforeAcksInHeader = true then Reader.ReadBit.2
          else Reader) with
      | Closed c1 =>
        rw [hparse] at h hp
        simp only [Option.some.injEq] at h
        subst h
        exact hp
      | IndexOutOfRange =>
        rw [hparse] at h
        simp only [Option.some.injEq] at h
        subst h
        trivial
      | Parsed Bunch Reader2 Channel =>
        rw [hparse] at h
        dsimp only at h
        have hh := HandleBunch_sound env c Bunch Channel b R
        cases hhandle : HandleBunch env c Bunch Channel b R with
        | Return c1 =>
          rw [hhandle] at h hh
          simp only [Option.some.injEq] at h
          subst h
          exact hh
        | Next c1 b1 R1 =>
          rw [hhandle] at h hh
          dsimp only at h
          obtain ⟨ev, hs, hb⟩ := hh
          have hr := ih c1 Reader2 b1 R1 r h
          cases r with
          | Return c2 => exact hr
          | IndexOutOfRange => trivial
          | Finished c2 b2 =>
            obtain ⟨ev2, hs2, hb2⟩ := hr
            refine ⟨ev ++ ev2, hs.trans hs2, ?_⟩
            rw [hb2, hb, List.any_append, Bool.or_assoc]
    · rw [if_neg hgo] at h
      simp only [Option.some.injEq] at h
      subst h
      exact ⟨[], StepsTo.refl c, by simp⟩

/-! ## Packet processing: the bunch loop ends -/

theorem FBitReader.After.same (r : FBitReader) : r.After r := ⟨le_refl _, id⟩

theorem FBitReader.After.chain {r3 r2 r1 : FBitReader} (h1 : r3.After r2) (h2 : r2.After r1) :
    r3.After r1 := ⟨le_trans h1.1 h2.1, fun h => h2.2 (h1.2 h)⟩

theorem FBitReader.failed_after (r : FBitReader) : FBitReader.failed.After r :=
  ⟨Nat.zero_le _, fun h => absurd h (by simp [FBitReader.failed])⟩

theorem FBitReader.ReadBit_after (r : FBitReader) : r.ReadBit.2.After r := by
  unfold FBitReader.ReadBit
  split
  · exact FBitReader.After.same r
  · split
    · exact ⟨by simp_all, fun h => by simp_all⟩
    · exact FBitReader.failed_after r

/-- A bit read that leaves the reader without error has consumed a field. -/
theorem FBitReader.ReadBit_lt (r : FBitReader) (h : r.ReadBit.2.bError = false) :
    r.ReadBit.2.Fields.length < r.Fields.length := by
  unfold FBitReader.ReadBit at h ⊢
  split at h
  · next he => simp only at h; rw [he] at h; exact absurd h (by decide)
  · split at h
    · next hne _ _ _ heq =>
      rw [heq, if_neg hne]
      simp
    · simp [FBitReader.failed] at h

theorem FBitReader.ReadInt_after (r : FBitReader) (Max : Nat) : (r.ReadInt Max).2.After r := by
  unfold FBitReader.ReadInt
  split
  · exact FBitReader.After.same r
  · split
    · split
      · exact ⟨by simp_all, fun h => by simp_all⟩
      · exact FBitReader.failed_after r
    · exact FBitReader.failed_after r

theorem FBitReader.SerializeIntPacked_after (r : FBitReader) :
    r.SerializeIntPacked.2.After r := by
  unfold FBitReader.SerializeIntPacked
  split
  · exact FBitReader.After.same r
  · split
    · split
      · exact ⟨by simp_all, fun h => by simp_all⟩
      · exact FBitReader.failed_after r
    · exact FBitReader.failed_after r

theorem FBitReader.StaticSerializeName_after (r : FBitReader) (d : FName) :
    (r.StaticSerializeName d).2.After r := by
  unfold FBitReader.StaticSerializeName
  split
  · exact FBitReader.After.same r
  · split
    · exact ⟨by simp_all, fun h => by simp_all⟩
    · exact FBitReader.failed_after r

theorem takeBits_length (n : Nat) :
    ∀ (fields : List StreamField) (bits : List Bool) (rest : List StreamField),
      takeBits n fields = some (bits, rest) → rest.length ≤ fields.length := by
  induction n with
  | zero =>
    intro fields bits rest h
    simp only [takeBits, Option.some.injEq, Prod.mk.injEq] at h
    rw [h.2]
  | succ n ih =>
    intro fields bits rest h
    cases fields with
    | nil => simp [takeBits] at h
    | cons f fields =>
      cases f with
      | bit b =>
        simp only [takeBits] at h
        cases hrec : takeBits n fields with
        | none => rw [hrec] at h; simp at h
        | some x =>
          rw [hrec] at h
          simp only [Option.some.injEq, Prod.mk.injEq] at h
          have := ih fields x.1 x.2 (by rw [hrec])
          rw [← h.2]
          simp only [List.length_cons]
          omega
      | int v m => simp [takeBits] at h
      | packed v => simp [takeBits] at h
      | name n => simp [takeBits] at h

theorem FBitReader.ReadBits_after (r : FBitReader) (n : Nat) : (r.ReadBits n).2.After r := by
  unfold FBitReader.ReadBits
  split
  · exact FBitReader.After.same r
  · split
    · next bits rest heq =>
      exact ⟨takeBits_length n _ _ _ heq, fun h => by simp_all⟩
    · exact FBitReader.failed_after r

theorem FBitReader.condReadBit_after (r : FBitReader) (b : Bool) :
    (if b = true then r.ReadBit else (false, r)).2.After r := by
  split
  · exact FBitReader.ReadBit_after r
  · exact FBitReader.After.same r

theorem ReadCloseReason_after (env : NetEnv) (bClose : Bool) (r : FBitReader) :
    (ReadCloseReason env bClose r).2.After r := by
  unfold ReadCloseReason
  split
  · exact FBitReader.condReadBit_after r bClose
  · dsimp only
    split
    · exact FBitReader.ReadInt_after r _
    · exact FBitReader.After.same r

theorem ReadChSequence_after (env : NetEnv) (c : UNetConnectionFull) (bReliable bPartial : Bool)
    (ChIndex : Nat) (r : FBitReader) (x : Int × FBitReader)
    (h : ReadChSequence env c bReliable bPartial ChIndex r = some x) : x.2.After r := by
  unfold ReadChSequence at h
  split at h
  · split at h
    · exact absurd h (by simp)
    · split at h
      · simp only [Option.some.injEq] at h
        rw [← h]
        exact FBitReader.After.same r
      · simp only [Option.some.injEq] at h
        rw [← h]
        exact FBitReader.ReadInt_after r _
  · split at h <;>
    · simp only [Option.some.injEq] at h
      rw [← h]
      exact FBitReader.After.same r

theorem ReadChName_after (env : NetEnv) (bReliable bOpen : Bool) (r : FBitReader)
    (x : FName × FBitReader) (h : ReadChName env bReliable bOpen r = some x) :
    x.2.After r := by
  unfold ReadChName at h
  split at h
  · simp only [Option.some.injEq] at h
    rw [← h]
    dsimp only
    split
    · exact FBitReader.ReadInt_after r _
    · exact FBitReader.After.same r
  · split at h
    · dsimp only at h
      split at h
      · exact absurd h (by simp)
      · simp only [Option.some.injEq] at h
        rw [← h]
        exact FBitReader.StaticSerializeName_after r _
    · simp only [Option.some.injEq] at h
      rw [← h]
      exact FBitReader.After.same r

/-- A bunch is read only from a reader that is left without error, and the reader left is a
later state of the reader given. -/
theorem ReadBunchTail_parsed (env : NetEnv) (c : UNetConnectionFull) (Bunch Bunch1 : FInBunch)
    (r r1 : FBitReader) (Channel : Option FName)
    (h : ReadBunchTail env c Bunch r = .Parsed Bunch1 r1 Channel) :
    r1.bError = false ∧ r1.After r := by
  unfold ReadBunchTail at h
  dsimp only at h
  split at h
  · exact absurd h (by simp)
  next xSequence hseq =>
  split at h
  · exact absurd h (by simp)
  next xName hname =>
  split at h
  · exact absurd h (by simp)
  split at h
  · exact absurd h (by simp)
  split at h
  · exact absurd h (by simp)
  split at h
  · exact absurd h (by simp)
  next herr =>
  simp only [ParseResult.Parsed.injEq] at h
  obtain ⟨_, hr, _⟩ := h
  rw [← hr]
  refine ⟨by simpa using herr, ?_⟩
  refine (FBitReader.ReadBits_after _ _).chain ?_
  refine (FBitReader.ReadInt_after _ _).chain ?_
  refine (ReadChName_after env _ _ _ xName hname).chain ?_
  refine (FBitReader.condReadBit_after _ _).chain ?_
  refine (FBitReader.condReadBit_after _ _).chain ?_
  refine (ReadChSequence_after env c _ _ _ _ xSequence hseq).chain ?_
  refine (FBitReader.ReadBit_after _).chain ?_
  refine (FBitReader.ReadBit_after _).chain ?_
  exact FBitReader.ReadBit_after _

theorem ReadBunchIndex_parsed (env : NetEnv) (c : UNetConnectionFull) (Bunch Bunch1 : FInBunch)
    (r r1 : FBitReader) (Channel : Option FName)
    (h : ReadBunchIndex env c Bunch r = .Parsed Bunch1 r1 Channel) :
    r1.bError = false ∧ r1.After r := by
  unfold ReadBunchIndex at h
  split at h
  · obtain ⟨h1, h2⟩ := ReadBunchTail_parsed env c _ _ _ _ _ h
    exact ⟨h1, h2.chain (FBitReader.ReadInt_after _ _)⟩
  · dsimp only at h
    split at h
    · exact absurd h (by simp)
    · obtain ⟨h1, h2⟩ := ReadBunchTail_parsed env c _ _ _ _ _ h
      exact ⟨h1, h2.chain (FBitReader.SerializeIntPacked_after _)⟩

/-- A bunch that is read takes at least one field from the reader. -/
theorem ReadBunch_parsed (env : NetEnv) (c : UNetConnectionFull) (Bunch1 : FInBunch)
    (r r1 : FBitReader) (Channel : Option FName)
    (h : ReadBunch env c r = .Parsed Bunch1 r1 Channel) :
    r1.bError = false ∧ r1.Fields.length < r.Fields.length := by
  unfold ReadBunch at h
  obtain ⟨h1, h2⟩ := ReadBunchIndex_parsed env c _ _ _ _ _ h
  have hchain : r1.After r.ReadBit.2 := by
    refine h2.chain ?_
    refine (FBitReader.ReadBit_after _).chain ?_
    refine (FBitReader.ReadBit_after _).chain ?_
    refine (ReadCloseReason_after env _ _).chain ?_
    refine (FBitReader.condReadBit_after _ _).chain ?_
    exact FBitReader.condReadBit_after _ _
  exact ⟨h1, Nat.lt_of_le_of_lt hchain.1 (FBitReader.ReadBit_lt r (hchain.2 h1))⟩

/-- With more iterations allowed than the reader holds fields, the bunch loop comes to an
end. -/
theorem BunchLoop_total (env : NetEnv) :
    ∀ (fuel : Nat) (c : UNetConnectionFull) (r : FBitReader) (b : Bool) (R : List Nat),
      r.Fields.length < fuel → ∃ res, BunchLoop env fuel c r b R = some res := by
  intro fuel
  induction fuel with
  | zero => intro c r b R h; omega
  | succ f ih =>
    intro c r b R hf
    rw [BunchLoop]
    split
    · dsimp only
      split
      · exact ⟨_, rfl⟩
      · exact ⟨_, rfl⟩
      · next Bunch r2 Channel hparse =>
        have hlt := (ReadBunch_parsed env c Bunch _ r2 Channel hparse).2
        have hle : (if c.InternalAck = true ∧ env.bBeforeAcksInHeader = true then r.ReadBit.2
            else r).Fields.length ≤ r.Fields.length := by
          split
          · exact (FBitReader.ReadBit_after r).1
          · exact le_refl _
        split
        · exact ⟨_, rfl⟩
        · exact ih _ _ _ _ (by omega)
    · exact ⟨_, rfl⟩

/-! ## Packet processing: the ack of a packet -/

theorem HandlePacketNotification_steps (env : NetEnv) (c : UNetConnectionFull)
    (n : Int × Bool) :
    ∃ ev, StepsTo c (HandlePacketNotification env c n) ev ∧ ev.any skipsAck = false := by
  have h0 : StepsTo c { c with LastNotifiedPacketId := c.LastNotifiedPacketId + 1 } [] :=
    ⟨rfl, by simp, by simp, Or.inl rfl⟩
  unfold HandlePacketNotification
  dsimp only
  split
  · obtain ⟨ev, h1, h2⟩ := CloseSecurityViolation_steps env
      { c with LastNotifiedPacketId := c.LastNotifiedPacketId + 1 } .Malformed_Packet
    exact ⟨[] ++ ev, h0.trans h1, by simpa using h2⟩
  split
  · exact ⟨[] ++ [NetEvent.ReceivedAck (c.LastNotifiedPacketId + 1)],
      h0.trans (StepsTo.logEvent _ (.ReceivedAck (c.LastNotifiedPacketId + 1)) rfl),
      by simp [skipsAck]⟩
  · exact ⟨[] ++ [NetEvent.ReceivedNak (c.LastNotifiedPacketId + 1)],
      h0.trans (StepsTo.logEvent _ (.ReceivedNak (c.LastNotifiedPacketId + 1)) rfl),
      by simp [skipsAck]⟩

theorem notifications_steps (env : NetEnv) (l : List (Int × Bool)) :
    ∀ c : UNetConnectionFull,
      ∃ ev, StepsTo c (l.foldl (HandlePacketNotification env) c) ev
        ∧ ev.any skipsAck = false := by
  induction l with
  | nil => intro c; exact ⟨[], StepsTo.refl c, rfl⟩
  | cons n l ih =>
    intro c
    obtain ⟨ev1, h1, q1⟩ := HandlePacketNotification_steps env c n
    obtain ⟨ev2, h2, q2⟩ := ih (HandlePacketNotification env c n)
    exact ⟨ev1 ++ ev2, h1.trans h2, by simp [List.any_append, q1, q2]⟩

theorem FlushIfTooManyAcks_spec (env : NetEnv) (c : UNetConnectionFull) :
    ∃ ev, (FlushIfTooManyAcks env c).Log = c.Log ++ ev ∧
      (∀ e, e ∈ ev → e = NetEvent.FlushNet) ∧
      (FlushIfTooManyAcks env c).toUNetConnection = c.toUNetConnection ∧
      (FlushIfTooManyAcks env c).State = c.State ∧
      (NetEvent.FlushNet ∉ ev → (FlushIfTooManyAcks env c).HasDirtyAcks = c.HasDirtyAcks) := by
  unfold FlushIfTooManyAcks
  dsimp only
  split
  · split
    · exact ⟨[NetEvent.FlushNet, NetEvent.FlushNet],
        by simp [FlushNetAcks, UNetConnectionFull.logEvent], by simp, rfl, rfl, by simp⟩
    · exact ⟨[NetEvent.FlushNet],
        by simp [FlushNetAcks, UNetConnectionFull.logEvent], by simp, rfl, rfl, by simp⟩
  · exact ⟨[], by simp, by simp, rfl, rfl, fun _ => rfl⟩

theorem filter_isAckSeq_of_noAck (ev : List NetEvent) (h : ∀ e, e ∈ ev → isAckSeq e = false) :
    ev.filter isAckSeq = [] := by
  rw [List.filter_eq_nil_iff]
  intro e he
  simp [h e he]

/-- The ack of an accepted packet, for a call of `ReceivedPacket` that has not returned
before "Acknowledge the packet". -/
theorem ack_recorded_once (fuel : Nat) (env : NetEnv) (cv : NetCVars)
    (c c1 : UNetConnectionFull) (Reader : FInPacket)
    (hint : c.InternalAck = false) (herr : Reader.bReaderError = false)
    (hhdr : Reader.bHeaderOk = true)
    (hdelta : 0 < GetSequenceDelta c.toUNetConnection Reader.toPacket)
    (hnot : takesCacheBranch cv c.toUNetConnection Reader.toPacket = false)
    (hres : ReceivedPacketFull fuel env cv c Reader = some (.Done c1))
    (hviol : endsInViolation fuel env cv c Reader = false) :
    c1.InPacketId = Reader.Seq ∧
    (∃ (s : UNetConnectionFull) (bSkipAck : Bool),
      c1 = FlushIfTooManyAcks env
        { s.logEvent (if bSkipAck then .NakSeq Reader.Seq else .AckSeq Reader.Seq) with
          HasDirtyAcks := (s.HasDirtyAcks + 1) % 4294967296 }) ∧
    ∃ ev, c1.Log = c.Log ++ ev ∧ countAcks ev = 1 ∧
      (NetEvent.NakSeq Reader.Seq ∈ ev ↔ ev.any skipsAck = true) ∧
      (NetEvent.AckSeq Reader.Seq ∈ ev ↔ ev.any skipsAck = false) ∧
      (NetEvent.FlushNet ∉ ev → c1.HasDirtyAcks = (c.HasDirtyAcks + 1) % 4294967296) := by
  -- the packet order fields after the sequence decision
  have hseq : (ReceivedPacket cv c.toUNetConnection Reader.toPacket).InPacketId = Reader.Seq
      ∧ (ReceivedPacket cv c.toUNetConnection Reader.toPacket).InternalAck = false := by
    unfold GetSequenceDelta at hdelta
    rcases ReceivedPacket_cases cv c.toUNetConnection Reader.toPacket with
      ⟨hi, _⟩ | ⟨ht, _⟩ | ⟨ht, _⟩ | ⟨_, _, _, e⟩ | ⟨_, _, hd, _⟩
    · rw [hint] at hi; exact absurd hi (by decide)
    · rw [hnot] at ht; exact absurd ht (by decide)
    · rw [hnot] at ht; exact absurd ht (by decide)
    · rw [e]
      refine ⟨?_, hint⟩
      show c.InPacketId + (Reader.toPacket.Seq - c.InPacketId) = Reader.Seq
      simp only [FInPacket.toPacket]
      omega
    · omega
  obtain ⟨hid, hia⟩ := hseq
  unfold ReceivedPacketFull at hres
  simp only [herr, hint, hhdr, Bool.false_eq_true, if_false, Bool.not_true, hdelta,
    gt_iff_lt, if_true, hnot] at hres
  obtain ⟨evN, hN, qN⟩ := notifications_steps env Reader.Notifications
    { c with toUNetConnection := ReceivedPacket cv c.toUNetConnection Reader.toPacket }
  by_cases hinfo : Reader.bPacketInfoOk = true
  · simp only [hinfo, Bool.not_true, Bool.false_eq_true, if_false] at hres
    unfold ProcessBunches at hres
    cases hloop : BunchLoop env fuel
        (List.foldl (HandlePacketNotification env)
          { c with toUNetConnection := ReceivedPacket cv c.toUNetConnection Reader.toPacket }
          Reader.Notifications) ⟨Reader.Bunches, false⟩ false [] with
    | none => rw [hloop] at hres; exact absurd hres (by simp)
    | some r =>
      rw [hloop] at hres
      have hsound := BunchLoop_sound env fuel _ _ _ _ r hloop
      cases r with
      | Return c2 =>
        unfold endsInViolation afterNotifications at hviol
        rw [hloop] at hviol
        simp at hviol
      | IndexOutOfRange => exact absurd hres (by simp)
      | Finished s b =>
        simp only [Option.some.injEq, PacketResult.Done.injEq] at hres
        obtain ⟨evL, hL, hb⟩ := hsound
        simp only [Bool.false_or] at hb
        have hT := hN.trans hL
        have hsi : s.InternalAck = false := by
          have := congrArg UNetConnection.InternalAck hT.order
          exact this.trans hia
        have hsid : s.InPacketId = Reader.Seq := by
          have := congrArg UNetConnection.InPacketId hT.order
          exact this.trans hid
        obtain ⟨evF, f1, f2, f3, f4, f5⟩ := FlushIfTooManyAcks_spec env
          { s.logEvent (if b = true then NetEvent.NakSeq s.InPacketId
              else NetEvent.AckSeq s.InPacketId) with
            HasDirtyAcks := ((s.logEvent (if b = true then NetEvent.NakSeq s.InPacketId
              else NetEvent.AckSeq s.InPacketId)).HasDirtyAcks + 1) % 4294967296 }
        unfold AcknowledgePacket at hres
        simp only [hsi, Bool.not_false, if_true] at hres
        rw [hres] at f1 f3 f4 f5
        have hlogc : ({ c with
            toUNetConnection := ReceivedPacket cv c.toUNetConnection Reader.toPacket } :
            UNetConnectionFull).Log = c.Log := rfl
        have hdirtyc : ({ c with
            toUNetConnection := ReceivedPacket cv c.toUNetConnection Reader.toPacket } :
            UNetConnectionFull).HasDirtyAcks = c.HasDirtyAcks := rfl
        have hnoF : ∀ e, e ∈ evF → isAckSeq e = false ∧ skipsAck e = false := by
          intro e he
          rw [f2 e he]
          exact ⟨rfl, rfl⟩
        refine ⟨?_, ⟨s, b, ?_⟩, (evN ++ evL) ++ ([if b = true then NetEvent.NakSeq Reader.Seq
          else NetEvent.AckSeq Reader.Seq] ++ evF), ?_, ?_, ?_, ?_, ?_⟩
        · have := congrArg UNetConnection.InPacketId f3
          exact this.trans hsid
        · rw [← hsid]
          exact hres.symm
        · rw [f1]
          simp only [UNetConnectionFull.logEvent, hT.log, hlogc, hsid, List.append_assoc]
        · unfold countAcks
          rw [List.filter_append (evN ++ evL) _, filter_isAckSeq_of_noAck _ hT.noAck,
            List.filter_append _ evF, filter_isAckSeq_of_noAck evF (fun e he => (hnoF e he).1)]
          cases b <;> simp [isAckSeq]
        · have hanyF : evF.any skipsAck = false := by
            rw [List.any_eq_false]
            intro e he
            simp [(hnoF e he).2]
          rw [List.any_append, List.any_append, List.any_append, qN, ← hb, hanyF]
          constructor
          · intro hmem
            rcases List.mem_append.1 hmem with h | h
            · exact absurd (hT.noAck _ h) (by simp [isAckSeq])
            · rcases List.mem_append.1 h with h | h
              · cases b with
                | true => simp [skipsAck]
                | false => simp at h
              · exact absurd (hnoF _ h).1 (by simp [isAckSeq])
          · intro hb1
            cases b with
            | true => simp
            | false => simp [skipsAck] at hb1
        · have hanyF : evF.any skipsAck = false := by
            rw [List.any_eq_false]
            intro e he
            simp [(hnoF e he).2]
          rw [List.any_append, List.any_append, List.any_append, qN, ← hb, hanyF]
          constructor
          · intro hmem
            rcases List.mem_append.1 hmem with h | h
            · exact absurd (hT.noAck _ h) (by simp [isAckSeq])
            · rcases List.mem_append.1 h with h | h
              · cases b with
                | true => simp at h
                | false => simp [skipsAck]
              · exact absurd (hnoF _ h).1 (by simp [isAckSeq])
          · intro hb1
            cases b with
            | true => simp [skipsAck] at hb1
            | false => simp
        · intro hflush
          have hfN : NetEvent.FlushNet ∉ evN ++ evL := fun h =>
            hflush (List.mem_append.2 (Or.inl h))
          have hfF : NetEvent.FlushNet ∉ evF := fun h =>
            hflush (List.mem_append.2 (Or.inr (List.mem_append.2 (Or.inr h))))
          have hsd : s.HasDirtyAcks = c.HasDirtyAcks := by
            rcases hT.dirty with h | h
            · exact h.trans hdirtyc
            · exact absurd h hfN
          rw [f5 hfF]
          show (s.HasDirtyAcks + 1) % 4294967296 = _
          rw [hsd]
  · unfold endsInViolation at hviol
    simp [hinfo] at hviol

/-- A call of `ReceivedPacket` that ends in a protocol violation leaves the connection
closed. -/
theorem violation_closes (fuel : Nat) (env : NetEnv) (cv : NetCVars)
    (c c1 : UNetConnectionFull) (Reader : FInPacket)
    (hint : c.InternalAck = false) (herr : Reader.bReaderError = false)
    (hhdr : Reader.bHeaderOk = true)
    (hdelta : 0 < GetSequenceDelta c.toUNetConnection Reader.toPacket)
    (hnot : takesCacheBranch cv c.toUNetConnection Reader.toPacket = false)
    (hres : ReceivedPacketFull fuel env cv c Reader = some (.Done c1))
    (hviol : endsInViolation fuel env cv c Reader = true) :
    c1.State = .USOCK_Closed := by
  unfold ReceivedPacketFull at hres
  simp only [herr, hint, hhdr, Bool.false_eq_true, if_false, Bool.not_true, hdelta,
    gt_iff_lt, if_true, hnot] at hres
  by_cases hinfo : Reader.bPacketInfoOk = true
  · simp only [hinfo, Bool.not_true, Bool.false_eq_true, if_false] at hres
    unfold ProcessBunches at hres
    cases hloop : BunchLoop env fuel
        (List.foldl (HandlePacketNotification env)
          { c with toUNetConnection := ReceivedPacket cv c.toUNetConnection Reader.toPacket }
          Reader.Notifications) ⟨Reader.Bunches, false⟩ false [] with
    | none => rw [hloop] at hres; exact absurd hres (by simp)
    | some r =>
      rw [hloop] at hres
      have hsound := BunchLoop_sound env fuel _ _ _ _ r hloop
      cases r with
      | Return c2 =>
        simp only [Option.some.injEq, PacketResult.Done.injEq] at hres
        subst hres
        exact hsound
      | IndexOutOfRange => exact absurd hres (by simp)
      | Finished s b =>
        unfold endsInViolation afterNotifications at hviol
        rw [hloop] at hviol
        simp [hinfo] at hviol
  · simp only [hinfo, Bool.not_false, if_true, Option.some.injEq,
      PacketResult.Done.injEq] at hres
    subst hres
    exact CloseSecurityViolation_state _ _ _

theorem ProcessBunches_total (fuel : Nat) (env : NetEnv) (c : UNetConnectionFull)
    (Reader : FInPacket) (hfuel : Reader.Bunches.length < fuel) :
    ∃ r, ProcessBunches fuel env c Reader = some r := by
  obtain ⟨res, h⟩ := BunchLoop_total env fuel c ⟨Reader.Bunches, false⟩ false [] hfuel
  unfold ProcessBunches
  rw [h]
  cases res <;> exact ⟨_, rfl⟩

/-- With more iterations allowed than the packet holds fields, `ReceivedPacket` returns. -/
theorem ReceivedPacketFull_total (fuel : Nat) (env : NetEnv) (cv : NetCVars)
    (c : UNetConnectionFull) (Reader : FInPacket) (hfuel : Reader.Bunches.length < fuel) :
    ∃ r, ReceivedPacketFull fuel env cv c Reader = some r := by
  unfold ReceivedPacketFull
  split
  · exact ⟨_, rfl⟩
  split
  · exact ProcessBunches_total fuel env _ Reader hfuel
  split
  · exact ⟨_, rfl⟩
  dsimp only
  split
  · split
    · exact ⟨_, rfl⟩
    · split
      · exact ⟨_, rfl⟩
      · exact ProcessBunches_total fuel env _ Reader hfuel
  · exact ⟨_, rfl⟩

/-- C18: on a connection that is not InternalAck, `ReceivedPacket` returns for every accepted
packet (positive delta, not cached).  When the processing ends in a protocol violation
(`ReceivedPacket` returns where `ReadPacketInfo` fails or from inside the bunch loop), the
connection is closed.  In every other case, whatever the state of the connection before and
after the packet (closed already, closed by a refused channel 0, closed for a corrupted
bunch), the packet has made exactly one call of `AckSeq` or `NakSeq`, for the sequence of
the packet, which is now `InPacketId`: `NakSeq` if and only if one of the events of the
packet marks a rejected bunch (`bSkipAck`), `AckSeq` otherwise.  The call is followed by one
increment of `HasDirtyAcks` (and by the flush when too many acks are pending); unless
`FlushNet` was called while the packet was processed, `HasDirtyAcks` is one more than before
the packet. -/
theorem ack_or_nak_exactly_once (fuel : Nat) (env : NetEnv) (cv : NetCVars)
    (c : UNetConnectionFull) (Reader : FInPacket)
    (hint : c.InternalAck = false) (herr : Reader.bReaderError = false)
    (hhdr : Reader.bHeaderOk = true)
    (hdelta : 0 < GetSequenceDelta c.toUNetConnection Reader.toPacket)
    (hnot : takesCacheBranch cv c.toUNetConnection Reader.toPacket = false)
    (hfuel : Reader.Bunches.length < fuel) :
    ∃ r, ReceivedPacketFull fuel env cv c Reader = some r ∧
      ∀ c1, r = .Done c1 →
        (endsInViolation fuel env cv c Reader = true → c1.State = .USOCK_Closed)
        ∧ (endsInViolation fuel env cv c Reader = false →
          c1.InPacketId = Reader.Seq ∧
          (∃ (s : UNetConnectionFull) (bSkipAck : Bool),
            c1 = FlushIfTooManyAcks env
              { s.logEvent (if bSkipAck then .NakSeq Reader.Seq else .AckSeq Reader.Seq) with
                HasDirtyAcks := (s.HasDirtyAcks + 1) % 4294967296 }) ∧
          ∃ ev, c1.Log = c.Log ++ ev ∧ countAcks ev = 1 ∧
            (NetEvent.NakSeq Reader.Seq ∈ ev ↔ ev.any skipsAck = true) ∧
            (NetEvent.AckSeq Reader.Seq ∈ ev ↔ ev.any skipsAck = false) ∧
            (NetEvent.FlushNet ∉ ev →
              c1.HasDirtyAcks = (c.HasDirtyAcks + 1) % 4294967296)) := by
  obtain ⟨r, hr⟩ := ReceivedPacketFull_total fuel env cv c Reader hfuel
  refine ⟨r, hr, ?_⟩
  intro c1 hc1
  rw [hc1] at hr
  exact ⟨violation_closes fuel env cv c c1 Reader hint herr hhdr hdelta hnot hr,
    ack_recorded_once fuel env cv c c1 Reader hint herr hhdr hdelta hnot hr⟩

/-- C18, on an example: a client sends the example packet and the channel reports its
bunch as corrupted; the connection is closed, the loop is left, and the packet is answered
with one `NakSeq` for its sequence 11. -/
theorem ack_or_nak_exactly_once_witness :
    ∃ c1, ReceivedPacketFull 12 corruptingEnv (exampleCVars 3 8) (exampleConnFull 4)
        examplePacket = some (.Done c1)
      ∧ c1.State = .USOCK_Closed
      ∧ endsInViolation 12 corruptingEnv (exampleCVars 3 8) (exampleConnFull 4) examplePacket
          = false
      ∧ c1.InPacketId = 11
      ∧ ∃ ev, c1.Log = (exampleConnFull 4).Log ++ ev ∧ countAcks ev = 1 ∧
          (NetEvent.NakSeq 11 ∈ ev ↔ ev.any skipsAck = true) ∧
          (NetEvent.AckSeq 11 ∈ ev ↔ ev.any skipsAck = false) := by
  obtain ⟨r, hr, h⟩ := ack_or_nak_exactly_once 12 corruptingEnv (exampleCVars 3 8)
    (exampleConnFull 4) examplePacket rfl rfl rfl (by decide) (by decide) (by decide)
  have hv : endsInViolation 12 corruptingEnv (exampleCVars 3 8) (exampleConnFull 4)
      examplePacket = false := by decide
  refine ⟨_, rfl, by decide, hv, ?_⟩
  obtain ⟨h1, _, ev, h3, h4, h5, h6, _⟩ := (h _ (Option.some.inj (hr.symm.trans rfl))).2 hv
  exact ⟨h1, ev, h3, h4, h5, h6⟩

/-- The example packet on the example connection: the notification is dispatched, the bunch
is handed to channel 1, and the packet is acknowledged once. -/
theorem examplePacket_run :
    ReceivedPacketFull 12 exampleEnv (exampleCVars 3 8) (exampleConnFull 4) examplePacket
      = some (.Done
        { exampleConnFull 4 with
          InPacketId := 11,
          Processed := [⟨11, 0⟩],
          HasDirtyAcks := 1,
          LastNotifiedPacketId := 1,
          Log := [.ReceivedAck 1,
            .ReceivedRawBunch
              { PacketId := 11, bOpen := false, bClose := false, bDormant := false,
                CloseReason := 0, bIsReplicationPaused := false, bReliable := false,
                ChIndex := 1, bHasPackageMapExports := false,
                bHasMustBeMappedGUIDs := false, bPartial := false, ChSequence := 0,
                bPartialInitial := false, bPartialFinal := false, ChName := 0,
                Data := [true, false, true] } false,
            .AckSeq 11] }) := by
  decide

/-! ## Packet processing: the channel index -/

theorem ReadBunchTail_in_range (env : NetEnv) (c : UNetConnectionFull) (Bunch : FInBunch)
    (Reader : FBitReader) (h1 : Bunch.ChIndex < c.Channels.length)
    (h2 : Bunch.ChIndex < c.InReliable.length) :
    ReadBunchTail env c Bunch Reader ≠ .IndexOutOfRange := by
  have e1 : c.Channels[Bunch.ChIndex]? = some (c.Channels.get ⟨Bunch.ChIndex, h1⟩) :=
    List.getElem?_eq_getElem h1
  have e2 : c.InReliable[Bunch.ChIndex]? = some (c.InReliable.get ⟨Bunch.ChIndex, h2⟩) :=
    List.getElem?_eq_getElem h2
  unfold ReadBunchTail ReadChSequence
  dsimp only
  rw [e1, e2]
  dsimp only
  split
  · next h =>
    split at h <;> try split at h
    all_goals simp at h
  split
  · simp
  split
  · simp
  split
  · simp
  split
  · simp
  · simp

/-- On the current protocol version, with tables of `MaxChannelSize` entries, the bunch
header parse indexes no table outside its bounds, and a channel index that is not below
`MaxChannelSize` closes the connection with a Malformed_Packet violation before a table is
indexed. -/
theorem ReadBunchIndex_checked (env : NetEnv) (c : UNetConnectionFull) (Bunch : FInBunch)
    (Reader : FBitReader) (hver : env.bBeforeMaxChannels = false)
    (h1 : c.Channels.length = c.MaxChannelSize) (h2 : c.InReliable.length = c.MaxChannelSize) :
    ReadBunchIndex env c Bunch Reader ≠ .IndexOutOfRange ∧
    (Reader.SerializeIntPacked.1 ≥ c.MaxChannelSize →
      ReadBunchIndex env c Bunch Reader
        = .Closed (CloseSecurityViolation env c .Malformed_Packet)) := by
  unfold ReadBunchIndex
  simp only [hver, Bool.false_eq_true, if_false]
  by_cases h : Reader.SerializeIntPacked.1 ≥ c.MaxChannelSize
  · simp [h]
  · simp only [h, if_false, false_implies, and_true]
    exact ReadBunchTail_in_range env c _ _ (by simp only [h1]; omega) (by simp only [h2]; omega)

/-- C19, failing input: a connection that runs a protocol version from before the
customisation of the number of channels, with MaxChannelSize 100 and tables of 100 entries,
receives a bunch with channel index 5000.  The parse does not close the connection: it
indexes `Channels` (for an unreliable bunch) or `InReliable` (for a reliable bunch) at 5000,
outside the bounds of the tables; so does `ReceivedPacket` for a packet that holds the
bunch. -/
theorem legacy_channel_index_unchecked :
    (exampleConnFull 100).MaxChannelSize = 100 ∧
    (exampleConnFull 100).Channels.length = 100 ∧
    (exampleConnFull 100).InReliable.length = 100 ∧
    ReadBunch legacyEnv (exampleConnFull 100) ⟨legacyBunchFields false, false⟩
      = .IndexOutOfRange ∧
    ReadBunch legacyEnv (exampleConnFull 100) ⟨legacyBunchFields true, false⟩
      = .IndexOutOfRange ∧
    ReceivedPacketFull 2 legacyEnv (exampleCVars 3 8) (exampleConnFull 100)
      ⟨false, true, 11, 0, [], true, legacyBunchFields false⟩ = some .IndexOutOfRange := by
  decide

/-! ## Packet processing: framing of a bunch -/

theorem takeBits_map_bit (bits : List Bool) (rest : List StreamField) :
    takeBits bits.length (bits.map StreamField.bit ++ rest) = some (bits, rest) := by
  induction bits with
  | nil => rfl
  | cons b bits ih => simp [takeBits, ih]

/-- C20, counterexample: a reliable bunch on channel 1 with three payload bits, written by
SendRawBunch on a connection that is not InternalAck, is not read back by a connection whose
channel 1 has another name than the bunch: the parse closes the connection before it reads
the payload. -/
theorem framing_fails_on_name_mismatch :
    mismatchedBunch.ChIndex < (exampleConnFull 100).MaxChannelSize ∧
    mismatchedBunch.Data.length < exampleEnv.MaxPacket * 8 ∧
    (exampleConnFull 100).InternalAck = false ∧
    ReadBunch exampleEnv (exampleConnFull 100)
        ⟨SendRawBunch exampleEnv false mismatchedBunch, false⟩
      = .Closed (Close exampleEnv (exampleConnFull 100)) := by
  decide

/-- C20, amended: on the current protocol version and a connection that is not InternalAck,
with tables of MaxChannelSize entries, a bunch with channel index below MaxChannelSize, a
payload shorter than MaxPacket * 8 bits and a close reason below its bound, whose name (when
the bunch carries one: reliable or open) is the name of the channel the receiver has at that
index (if it has one), is read back from the fields SendRawBunch writes: the parse consumes
exactly these fields and yields the same channel index, reliable, partial, open and close
flags, the partial markers of a partial bunch, the name when one is carried, and the same
payload bits. -/
theorem bunch_framing_round_trip (env : NetEnv) (c : UNetConnectionFull) (b : FOutBunch)
    (rest : List StreamField)
    (hv1 : env.bBeforeCloseReason = false) (hv2 : env.bBeforeMaxChannels = false)
    (hv3 : env.bBeforeChannelNames = false) (hint : c.InternalAck = false)
    (hidx : b.ChIndex < c.MaxChannelSize) (hmax : c.MaxChannelSize ≤ 2147483647)
    (hch : c.Channels.length = c.MaxChannelSize)
    (hin : c.InReliable.length = c.MaxChannelSize)
    (hdata : b.Data.length < env.MaxPacket * 8)
    (hreason : b.bClose = true → b.CloseReason < env.CloseReasonMAX)
    (hseq : 0 < env.MAX_CHSEQUENCE)
    (hname : ∀ n, c.Channels[b.ChIndex]? = some (some n) →
      (b.bReliable || b.bOpen) = true → b.ChName = env.NAME_None ∨ n = b.ChName) :
    ∃ Bunch Channel,
      ReadBunch env c ⟨SendRawBunch env false b ++ rest, false⟩
        = .Parsed Bunch ⟨rest, false⟩ Channel ∧
      Bunch.ChIndex = b.ChIndex ∧ Bunch.bReliable = b.bReliable ∧
      Bunch.bPartial = b.bPartial ∧
      Bunch.bPartialInitial = (b.bPartial && b.bPartialInitial) ∧
      Bunch.bPartialFinal = (b.bPartial && b.bPartialFinal) ∧
      Bunch.bOpen = b.bOpen ∧ Bunch.bClose = b.bClose ∧
      Bunch.bIsReplicationPaused = b.bIsReplicationPaused ∧
      Bunch.bHasPackageMapExports = b.bHasPackageMapExports ∧
      Bunch.bHasMustBeMappedGUIDs = b.bHasMustBeMappedGUIDs ∧
      Bunch.CloseReason = (if b.bClose then b.CloseReason else env.Destroyed) ∧
      Bunch.ChName = (if b.bReliable || b.bOpen then b.ChName else env.NAME_None) ∧
      Bunch.Data = b.Data ∧ c.Channels[b.ChIndex]? = some Channel := by
  have h1 : b.ChIndex < c.Channels.length := by omega
  have h2 : b.ChIndex < c.InReliable.length := by omega
  have e1 : c.Channels[b.ChIndex]? = some (c.Channels.get ⟨b.ChIndex, h1⟩) :=
    List.getElem?_eq_getElem h1
  have e2 : c.InReliable[b.ChIndex]? = some (c.InReliable.get ⟨b.ChIndex, h2⟩) :=
    List.getElem?_eq_getElem h2
  have hmod : b.Data.length % (env.MaxPacket * 8) = b.Data.length := Nat.mod_eq_of_lt hdata
  have hseqlt : b.ChSequence % env.MAX_CHSEQUENCE < env.MAX_CHSEQUENCE := Nat.mod_lt _ hseq
  have hpk : b.ChIndex < 4294967296 := by omega
  have hnot : ¬ (c.MaxChannelSize ≤ b.ChIndex) := by omega
  obtain ⟨bOpen, bClose, CloseReason, bPaused, bReliable, ChIndex, bExports, bGUIDs, bPartial,
    ChSequence, bInitial, bFinal, ChName, Data⟩ := b
  simp only at h1 h2 e1 e2 hmod hseqlt hpk hnot hreason hname hdata hidx
  have hname2 : ∀ n, c.Channels.get ⟨ChIndex, h1⟩ = some n →
      (bReliable || bOpen) = true → ChName = env.NAME_None ∨ n = ChName := by
    intro n hn
    exact hname n (by rw [e1, hn])
  have hmatch : (bReliable || bOpen) = true → c.Channels[ChIndex].isSome = true →
      ¬ ChName = env.NAME_None → c.Channels[ChIndex] = some ChName := by
    intro hcarry hs hne
    obtain ⟨n, hn⟩ := Option.isSome_iff_exists.1 hs
    rcases hname2 n (by rw [List.get_eq_getElem]; exact hn) hcarry with h | h
    · exact absurd h hne
    · rw [hn, h]
  refine ⟨
    { PacketId := c.InPacketId,
      bOpen := bOpen,
      bClose := bClose,
      bDormant := decide ((if bClose then CloseReason else env.Destroyed) = env.Dormancy),
      CloseReason := if bClose then CloseReason else env.Destroyed,
      bIsReplicationPaused := bPaused,
      bReliable := bReliable,
      ChIndex := ChIndex,
      bHasPackageMapExports := bExports,
      bHasMustBeMappedGUIDs := bGUIDs,
      bPartial := bPartial,
      ChSequence := if bReliable then env.MakeRelative (ChSequence % env.MAX_CHSEQUENCE) (c.InReliable.get ⟨ChIndex, h2⟩) env.MAX_CHSEQUENCE else if bPartial then c.InPacketId else 0,
      bPartialInitial := bPartial && bInitial,
      bPartialFinal := bPartial && bFinal,
      ChName := if bReliable || bOpen then ChName else env.NAME_None,
      Data := Data },
    c.Channels.get ⟨ChIndex, h1⟩, ?_, rfl, rfl, rfl, rfl, rfl, rfl, rfl, rfl, rfl, rfl, rfl,
    rfl, rfl, e1⟩
  cases bOpen <;> cases bClose <;> cases bReliable <;> cases bPartial <;>
    simp [SendRawBunch, ReadBunch, ReadBunchIndex, ReadBunchTail, ReadCloseReason,
      ReadChSequence, ReadChName, FBitReader.ReadBit, FBitReader.ReadInt,
      FBitReader.SerializeIntPacked, FBitReader.StaticSerializeName, FBitReader.ReadBits,
      hv1, hv2, hv3, hint, e1, e2, hmod, hseqlt, hpk, hnot, hreason, hdata, takeBits_map_bit]
  all_goals exact hmatch (by decide)

theorem bunch_framing_round_trip_witness :
    ∃ Bunch Channel,
      ReadBunch exampleEnv (exampleConnFull 100)
          ⟨SendRawBunch exampleEnv false { mismatchedBunch with ChName := 7 }
            ++ [.bit true], false⟩
        = .Parsed Bunch ⟨[.bit true], false⟩ Channel ∧
      Bunch.ChIndex = 1 ∧ Bunch.bReliable = true ∧
      Bunch.bPartial = false ∧
      Bunch.bPartialInitial = (false && false) ∧
      Bunch.bPartialFinal = (false && false) ∧
      Bunch.bOpen = false ∧ Bunch.bClose = false ∧
      Bunch.bIsReplicationPaused = false ∧
      Bunch.bHasPackageMapExports = false ∧
      Bunch.bHasMustBeMappedGUIDs = false ∧
      Bunch.CloseReason = (if false then 0 else exampleEnv.Destroyed) ∧
      Bunch.ChName = (if (true || false) then 7 else exampleEnv.NAME_None) ∧
      Bunch.Data = [true, false, true] ∧
      (exampleConnFull 100).Channels[1]? = some Channel :=
  bunch_framing_round_trip exampleEnv (exampleConnFull 100)
    { mismatchedBunch with ChName := 7 } [.bit true] rfl rfl rfl rfl (by decide) (by decide)
    (by decide) (by decide) (by decide) (by decide) (by decide)
    (by
      intro n hn _
      right
      have h : (exampleConnFull 100).Channels[1]? = some (some 7) := by decide
      have e : some (some n) = some (some 7) := hn.symm.trans h
      simpa using e)

/-! ## Send path and lifecycle: basic lemmas -/

@[simp] theorem Outcome.bind_ok {α β : Type} (a : α) (f : α → Outcome β) :
    (Outcome.ok a).bind f = f a := rfl

@[simp] theorem Outcome.bind_fault {α β : Type} (e : Fault) (f : α → Outcome β) :
    (Outcome.fault e : Outcome α).bind f = .fault e := rfl

@[simp] theorem Outcome.bind_outOfFuel {α β : Type} (f : α → Outcome β) :
    (Outcome.outOfFuel : Outcome α).bind f = .outOfFuel := rfl

/-- A call followed by the rest of a function returns only when the call returns. -/
theorem Outcome.bind_eq_ok {α β : Type} (x : Outcome α) (f : α → Outcome β) (b : β)
    (h : x.bind f = .ok b) : ∃ a, x = .ok a ∧ f a = .ok b := by
  cases x with
  | ok a => exact ⟨a, rfl, h⟩
  | fault e => simp at h
  | outOfFuel => simp at h

/-! ## C26: `IsNetReady` -/

/-- C26: `IsNetReady(false)` returns true exactly when `QueuedBits` plus the number of bits in
the send buffer is at most 0, and leaves the connection (so `QueuedBits`) unchanged;
`IsNetReady(true)` sets `QueuedBits` to minus the number of bits in the send buffer, changes
nothing else, and returns true. -/
theorem isNetReady_reports_saturation (c : UNetConnectionState) :
    ((c.IsNetReady false).1 = true ↔ c.QueuedBits + (c.SendBufferNumBits : Int) ≤ 0)
    ∧ (c.IsNetReady false).2 = c
    ∧ (c.IsNetReady true).2 = { c with QueuedBits := -(c.SendBufferNumBits : Int) }
    ∧ (c.IsNetReady true).1 = true := by
  refine ⟨?_, rfl, rfl, ?_⟩
  · simp [UNetConnectionState.IsNetReady]
  · simp [UNetConnectionState.IsNetReady]

/-! ## C29: `InitSequence` -/

theorem and32_mask_bounds (a M : Int) (hM : 0 < M) (hM2 : M ≤ 2147483648) :
    0 ≤ and32 a (M - 1) ∧ and32 a (M - 1) < M := by
  have hmask : toUInt32 (M - 1) = (M - 1).toNat := by
    unfold toUInt32
    rw [Int.emod_eq_of_lt (by omega) (by omega)]
  have hle : toUInt32 a &&& toUInt32 (M - 1) ≤ (M - 1).toNat := by
    rw [hmask]; exact Nat.and_le_right
  unfold and32 toInt32
  have hlt : toUInt32 a &&& toUInt32 (M - 1) < 2147483648 := by omega
  rw [if_pos hlt]
  constructor
  · exact Int.natCast_nonneg _
  · have : ((toUInt32 a &&& toUInt32 (M - 1) : Nat) : Int) ≤ ((M - 1).toNat : Int) := by
      exact_mod_cast hle
    rw [Int.toNat_of_nonneg (by omega)] at this
    omega

/-- The first `InitSequence` on a connection whose sequence is not set, with sequence
randomization on: `OutPacketId = OutAckPacketId + 1 = LastNotifiedPacketId + 1`,
`InPacketId = IncomingSequence - 1`, and every entry of the reliable sequence tables lies in
`[0, MAX_CHSEQUENCE)`.  When the incoming sequence is not 0, a later `InitSequence` on a client
changes nothing. -/
theorem InitSequence_first (env : ConnEnv) (c : UNetConnectionState)
    (IncomingSequence OutgoingSequence : Int)
    (hnew : c.InPacketId = -1) (hrand : env.RandomizeSequence > 0)
    (hM : 0 < env.MAX_CHSEQUENCE) (hM2 : env.MAX_CHSEQUENCE ≤ 2147483648) :
    ∃ c1, c.InitSequence env IncomingSequence OutgoingSequence = .ok c1
      ∧ c1.OutPacketId = c1.OutAckPacketId + 1
      ∧ c1.OutPacketId = c1.LastNotifiedPacketId + 1
      ∧ c1.InPacketId = IncomingSequence - 1
      ∧ (∀ x ∈ c1.InReliable, 0 ≤ x ∧ x < env.MAX_CHSEQUENCE)
      ∧ (∀ x ∈ c1.OutReliable, 0 ≤ x ∧ x < env.MAX_CHSEQUENCE)
      ∧ (IncomingSequence ≠ 0 → env.bHasServerConnection = true →
          ∀ a b, c1.InitSequence env a b = .ok c1) := by
  unfold UNetConnectionState.InitSequence
  rw [if_neg (by simp [hnew]), if_pos ⟨hnew, hrand⟩]
  refine ⟨_, rfl, by simp, by simp, rfl, ?_, ?_, ?_⟩
  · intro x hx
    rw [List.eq_of_mem_replicate hx]
    exact and32_mask_bounds _ _ hM hM2
  · intro x hx
    rw [List.eq_of_mem_replicate hx]
    exact and32_mask_bounds _ _ hM hM2
  · intro hne hserver a b
    have h1 : ¬(IncomingSequence - 1 = -1) := by omega
    simp only [hserver, or_true, not_true_eq_false, if_false, h1, false_and]

/-- C29 (defect of the code): `InitSequence` takes `InPacketId == -1` for "not set yet", and an
incoming sequence of 0 leaves `InPacketId` at -1.  On a client with sequence randomization on,
after `InitSequence(0, 100)` a second call `InitSequence(50, 7)` is not ignored: it sets the
packet ids and the reliable sequence tables again. -/
theorem initSequence_zero_is_not_ignored :
    ∃ c1 c2, newClientState.InitSequence clientConnEnv 0 100 = .ok c1
      ∧ c1.InitSequence clientConnEnv 50 7 = .ok c2
      ∧ (c1.InPacketId, c1.OutPacketId, c1.OutAckPacketId, c1.LastNotifiedPacketId)
          = (-1, 100, 99, 99)
      ∧ (c1.InReliable, c1.OutReliable) = ([0, 0], [100, 100])
      ∧ (c2.InPacketId, c2.OutPacketId, c2.OutAckPacketId, c2.LastNotifiedPacketId)
          = (49, 7, 6, 6)
      ∧ (c2.InReliable, c2.OutReliable) = ([50, 50], [7, 7]) :=
  ⟨_, _, rfl, rfl, by decide, by decide, by decide, by decide⟩

/-! ## C27: `CreateChannelByName` without a channel index -/

/-- The search loop ends at the first empty slot, or behind the last slot. -/
theorem channelSearch_spec (l : List (Option FName)) :
    ∀ i, i ≤ channelSearch l i ∧ channelSearch l i ≤ i + l.length
      ∧ (∀ j, j < channelSearch l i - i → (l.getD j none).isSome = true)
      ∧ (channelSearch l i < i + l.length → l.getD (channelSearch l i - i) none = none) := by
  induction l with
  | nil => intro i; simp [channelSearch]
  | cons Slot rest ih =>
    intro i
    unfold channelSearch
    by_cases h : Slot.isNone = true
    · rw [if_pos h]
      refine ⟨le_refl _, by simp, by simp, ?_⟩
      intro _
      simp only [Nat.sub_self, List.getD_cons_zero]
      cases Slot with
      | none => rfl
      | some x => simp at h
    · rw [if_neg h]
      obtain ⟨h1, h2, h3, h4⟩ := ih (i + 1)
      refine ⟨by omega, by simp only [List.length_cons]; omega, ?_, ?_⟩
      · intro j hj
        cases j with
        | zero =>
          simp only [List.getD_cons_zero]
          cases Slot with
          | none => simp at h
          | some x => rfl
        | succ j =>
          simp only [List.getD_cons_succ]
          exact h3 j (by omega)
      · intro hlt
        have e : channelSearch rest (i + 1) - i = (channelSearch rest (i + 1) - (i + 1)) + 1 := by
          omega
        rw [e, List.getD_cons_succ]
        exact h4 (by simp only [List.length_cons] at hlt; omega)

theorem getD_drop_none (l : List (Option FName)) (k j : Nat) :
    (l.drop k).getD j none = l.getD (k + j) none := by
  simp [List.getD_eq_getElem?_getD, List.getElem?_drop]

/-- C27: `CreateChannelByName` for a known channel name and no channel index (`INDEX_NONE`),
with the first candidate (1, or the static channel index of the name) inside the channel
table or just behind it.  Either the channel is created at the lowest free index from the
first candidate on, which is 0 only when 0 is the static index, and nothing else changes in
the channel table; or every slot from the first candidate on is occupied, the function
returns `NULL`, no channel is created, and the channel table, the open channels and the
connection state are unchanged. -/
theorem createChannel_takes_first_free_slot (env : ConnEnv) (c : UNetConnectionState)
    (ChName : FName) (hknown : env.IsKnownChannelName ChName = true)
    (hlow : 0 ≤ FirstChannel env ChName)
    (hhigh : FirstChannel env ChName ≤ c.Channels.length) :
    (∃ (i : Nat) (c1 : UNetConnectionState),
        c.CreateChannelByName env ChName INDEX_NONE = .ok (some i, c1)
        ∧ FirstChannel env ChName ≤ i ∧ i < c.Channels.length
        ∧ c.Channels.getD i none = none
        ∧ (∀ j : Nat, FirstChannel env ChName ≤ j → j < i →
            (c.Channels.getD j none).isSome = true)
        ∧ (i = 0 → env.StaticChannelIndex ChName = 0)
        ∧ c1.Channels = c.Channels.set i (some ChName)
        ∧ c1.State = c.State)
    ∨ (∃ c1, c.CreateChannelByName env ChName INDEX_NONE = .ok (none, c1)
        ∧ (∀ j : Nat, FirstChannel env ChName ≤ j → j < c.Channels.length →
            (c.Channels.getD j none).isSome = true)
        ∧ c1.Channels = c.Channels ∧ c1.OpenChannels = c.OpenChannels
        ∧ c1.State = c.State
        ∧ (∀ n i, ConnEvent.CreateChannel n i ∉ c1.Log.drop c.Log.length)) := by
  obtain ⟨F, hF⟩ : ∃ F : Nat, FirstChannel env ChName = (F : Int) :=
    ⟨(FirstChannel env ChName).toNat, (Int.toNat_of_nonneg hlow).symm⟩
  have hFle : F ≤ c.Channels.length := by rw [hF] at hhigh; exact_mod_cast hhigh
  obtain ⟨h1, h2, h3, h4⟩ := channelSearch_spec (c.Channels.drop F) F
  rw [List.length_drop] at h2 h4
  generalize hr : channelSearch (c.Channels.drop F) F = r at h1 h2 h3 h4
  have hr2 : r ≤ c.Channels.length := by omega
  have hocc : ∀ j : Nat, F ≤ j → j < r → (c.Channels.getD j none).isSome = true := by
    intro j hj1 hj2
    have := h3 (j - F) (by omega)
    rw [getD_drop_none] at this
    rwa [show F + (j - F) = j by omega] at this
  unfold UNetConnectionState.CreateChannelByName
  rw [if_neg (by simp [hknown]), if_neg (by omega)]
  simp only [if_true, hF, Int.toNat_ofNat, hr]
  by_cases hfull : r = c.Channels.length
  · right
    rw [if_pos ⟨trivial, by exact_mod_cast hfull⟩]
    refine ⟨_, rfl, ?_, ?_, ?_, ?_, ?_⟩
    · intro j hj1 hj2
      exact hocc j (by exact_mod_cast hj1) (by omega)
    · split <;> rfl
    · split <;> rfl
    · split <;> rfl
    · intro n i
      split
      · simp
      · simp [UNetConnectionState.logEvent]
  · left
    have hlt : r < c.Channels.length := by omega
    have hfree : c.Channels.getD r none = none := by
      have := h4 (by omega)
      rw [getD_drop_none] at this
      rwa [show F + (r - F) = r by omega] at this
    rw [if_neg (by intro h; exact hfull (by exact_mod_cast h.2)),
      if_neg (by simp only [not_not]; exact_mod_cast hlt), if_neg (by omega),
      if_neg (by rw [hfree]; simp)]
    refine ⟨r, _, rfl, by exact_mod_cast h1, hlt, hfree, ?_, ?_, rfl, rfl⟩
    · intro j hj1 hj2
      exact hocc j (by exact_mod_cast hj1) hj2
    · intro h0
      have hF0 : F = 0 := by omega
      rw [hF0] at hF
      unfold FirstChannel at hF
      split at hF
      · exact_mod_cast hF
      · omega

/-- C27, on an example: with the control channel at index 0 and the slots 1 and 2 taken, a
channel without static index goes to slot 3. -/
theorem createChannel_takes_first_free_slot_witness :
    (∃ (i : Nat) (c1 : UNetConnectionState),
        ({ exampleState with Channels := [some 0, some 5, some 5, none] }
          ).CreateChannelByName exampleConnEnv 7 INDEX_NONE = .ok (some i, c1)
        ∧ FirstChannel exampleConnEnv 7 ≤ i ∧ i < 4
        ∧ ([some 0, some 5, some 5, none] : List (Option FName)).getD i none = none
        ∧ (∀ j : Nat, FirstChannel exampleConnEnv 7 ≤ j → j < i →
            (([some 0, some 5, some 5, none] : List (Option FName)).getD j none).isSome = true)
        ∧ (i = 0 → exampleConnEnv.StaticChannelIndex 7 = 0)
        ∧ c1.Channels = ([some 0, some 5, some 5, none] : List (Option FName)).set i (some 7)
        ∧ c1.State = .USOCK_Open)
    ∨ (∃ c1, ({ exampleState with Channels := [some 0, some 5, some 5, none] }
          ).CreateChannelByName exampleConnEnv 7 INDEX_NONE = .ok (none, c1)
        ∧ (∀ j : Nat, FirstChannel exampleConnEnv 7 ≤ j → j < 4 →
            (([some 0, some 5, some 5, none] : List (Option FName)).getD j none).isSome = true)
        ∧ c1.Channels = [some 0, some 5, some 5, none] ∧ c1.OpenChannels = [0]
        ∧ c1.State = .USOCK_Open
        ∧ (∀ n i, ConnEvent.CreateChannel n i ∉ c1.Log.drop 0)) :=
  createChannel_takes_first_free_slot exampleConnEnv
    { exampleState with Channels := [some 0, some 5, some 5, none] } 7 rfl (by decide)
    (by decide)

/-! ## Send path: the ways through `FlushNet`, `WriteBitsToSendBuffer` and `Close` -/

theorem hasPendingData_timeSensitive (env : ConnEnv) (c : UNetConnectionState) (b : Bool) :
    ({ c with TimeSensitive := b }).hasPendingData env = c.hasPendingData env := rfl

/-- The unfolding of `FlushNet`. -/
theorem FlushNet_succ (fuel : Nat) (env : ConnEnv) (c : UNetConnectionState) :
    c.FlushNet (fuel + 1) env =
      if c.bHasDriver = false then .fault .NoDriver
      else if c.hasPendingData env then
        if sendsBeforeHandshake env then
          (UNetConnectionState.Close fuel env { c with TimeSensitive := false }).bind
            UNetConnectionState.InitSendBuffer
        else if c.SendBufferNumBits = 0 then
          (UNetConnectionState.WriteBitsToSendBuffer fuel env { c with TimeSensitive := false }
            0 0).bind (fun x => x.2.FlushNetSend env true)
        else UNetConnectionState.FlushNetSend env { c with TimeSensitive := false } false
      else .ok { c with TimeSensitive := false } := by
  rw [UNetConnectionState.FlushNet]
  rfl

/-- Nothing to send: `FlushNet` resets `TimeSensitive` and returns. -/
theorem FlushNet_idle (fuel : Nat) (env : ConnEnv) (c : UNetConnectionState)
    (hdriver : c.bHasDriver = true) (hidle : c.hasPendingData env = false) :
    c.FlushNet (fuel + 1) env = .ok { c with TimeSensitive := false } := by
  rw [FlushNet_succ, if_neg (by simp [hdriver]), if_neg (by simp [hidle])]

/-- A send before the handshake is complete: `FlushNet` closes the connection and resets the
send buffer. -/
theorem FlushNet_handshake (fuel : Nat) (env : ConnEnv) (c : UNetConnectionState)
    (hdriver : c.bHasDriver = true) (hdata : c.hasPendingData env = true)
    (hshake : sendsBeforeHandshake env = true) :
    c.FlushNet (fuel + 1) env =
      (UNetConnectionState.Close fuel env { c with TimeSensitive := false }).bind
        UNetConnectionState.InitSendBuffer := by
  rw [FlushNet_succ, if_neg (by simp [hdriver]), if_pos hdata, if_pos hshake]

/-- Bits in the send buffer: `FlushNet` sends them. -/
theorem FlushNet_send (fuel : Nat) (env : ConnEnv) (c : UNetConnectionState)
    (hdriver : c.bHasDriver = true) (hshake : sendsBeforeHandshake env = false)
    (hbits : c.SendBufferNumBits ≠ 0) :
    c.FlushNet (fuel + 1) env =
      UNetConnectionState.FlushNetSend env { c with TimeSensitive := false } false := by
  have hdata : c.hasPendingData env = true := by
    simp [UNetConnectionState.hasPendingData, hbits]
  rw [FlushNet_succ, if_neg (by simp [hdriver]), if_pos hdata, if_neg (by simp [hshake]),
    if_neg hbits]

/-- Acks or a keep-alive to send with an empty send buffer: `FlushNet` has the packet header
written and sends it. -/
theorem FlushNet_keepAlive (fuel : Nat) (env : ConnEnv) (c : UNetConnectionState)
    (hdriver : c.bHasDriver = true) (hdata : c.hasPendingData env = true)
    (hshake : sendsBeforeHandshake env = false) (hbits : c.SendBufferNumBits = 0) :
    c.FlushNet (fuel + 1) env =
      (UNetConnectionState.WriteBitsToSendBuffer fuel env { c with TimeSensitive := false }
        0 0).bind (fun x => x.2.FlushNetSend env true) := by
  rw [FlushNet_succ, if_neg (by simp [hdriver]), if_pos hdata, if_neg (by simp [hshake]),
    if_pos hbits]

/-- What `FlushNetSend` returns. -/
theorem FlushNetSend_eq (env : ConnEnv) (c : UNetConnectionState) (bIsKeepAlive : Bool)
    (hmax : 0 < c.MaxPacket) :
    c.FlushNetSend env bIsKeepAlive = .ok { c.Transmit env bIsKeepAlive with
      SendBufferNumBits := 0,
      SendBufferMaxBits := c.MaxPacket * 8 - c.MaxPacketHandlerBits } := by
  unfold UNetConnectionState.FlushNetSend UNetConnectionState.InitSendBuffer
  have h : 0 < (c.Transmit env bIsKeepAlive).MaxPacket := hmax
  rw [if_pos h]
  rfl

/-- The events of a send. -/
theorem Transmit_log (env : ConnEnv) (c : UNetConnectionState) (bIsKeepAlive : Bool) :
    ∃ ev, (c.Transmit env bIsKeepAlive).Log = c.Log ++ ev
      ∧ ∀ e ∈ ev, (∃ n b, e = .LowLevelSend c.OutPacketId n b)
          ∨ e = .CommitAndIncrementOutSeq := by
  refine ⟨_, rfl, ?_⟩
  intro e he
  simp only [List.mem_append] at he
  rcases he with he | he
  · split at he
    · simp only [List.mem_singleton] at he
      exact Or.inl ⟨_, _, he⟩
    · simp at he
  · split at he
    · simp only [List.mem_singleton] at he
      exact Or.inr he
    · simp at he

/-- What `InitSendBuffer` returns. -/
theorem InitSendBuffer_eq_ok (c c1 : UNetConnectionState) (h : c.InitSendBuffer = .ok c1) :
    0 < c.MaxPacket ∧ c1 = { c with
      SendBufferNumBits := 0,
      SendBufferMaxBits := c.MaxPacket * 8 - c.MaxPacketHandlerBits } := by
  unfold UNetConnectionState.InitSendBuffer at h
  by_cases hmax : c.MaxPacket > 0
  · rw [if_pos hmax] at h
    exact ⟨hmax, (Outcome.ok.inj h).symm⟩
  · rw [if_neg hmax] at h
    simp at h

/-- A send that returns. -/
theorem FlushNetSend_eq_ok (env : ConnEnv) (c c1 : UNetConnectionState) (bIsKeepAlive : Bool)
    (h : c.FlushNetSend env bIsKeepAlive = .ok c1) :
    0 < c.MaxPacket ∧ c1 = { c.Transmit env bIsKeepAlive with
      SendBufferNumBits := 0,
      SendBufferMaxBits := c.MaxPacket * 8 - c.MaxPacketHandlerBits } :=
  InitSendBuffer_eq_ok _ _ h

/-- The unfolding of `WriteBitsToSendBuffer`. -/
theorem WriteBitsToSendBuffer_succ (fuel : Nat) (env : ConnEnv) (c : UNetConnectionState)
    (SizeInBits ExtraSizeInBits : Nat) :
    c.WriteBitsToSendBuffer (fuel + 1) env SizeInBits ExtraSizeInBits =
      (c.GetFreeSendBufferBits env).bind fun Free =>
      (if ((SizeInBits + ExtraSizeInBits : Nat) : Int) > Free then
          UNetConnectionState.FlushNet fuel env c
        else .ok c).bind fun c1 =>
      ((c1.Written env (SizeInBits + ExtraSizeInBits)).GetFreeSendBufferBits env).bind
        fun Free2 =>
      (if Free2 = 0 ∨ env.ForceNetFlush ≠ 0 then
          UNetConnectionState.FlushNet fuel env (c1.Written env (SizeInBits + ExtraSizeInBits))
        else .ok (c1.Written env (SizeInBits + ExtraSizeInBits))).bind fun c4 =>
      .ok ((c1.Written env (SizeInBits + ExtraSizeInBits)).OutPacketId, c4) := by
  rw [UNetConnectionState.WriteBitsToSendBuffer]

/-- `Close` on a connection without driver or closed already. -/
theorem Close_closed (fuel : Nat) (env : ConnEnv) (c : UNetConnectionState)
    (h : c.bHasDriver = false ∨ c.State = .USOCK_Closed) :
    c.Close (fuel + 1) env =
      .ok { c with LogCallLastTime := 0, LogCallCount := 0, LogSustainedCount := 0 } := by
  rw [UNetConnectionState.Close]
  rw [if_neg]
  rcases h with h | h
  · simp [h]
  · simp [h]

/-- `Close` on a connection with a driver that is not closed. -/
theorem Close_open (fuel : Nat) (env : ConnEnv) (c : UNetConnectionState)
    (Channel0 : Option FName) (rest : List (Option FName))
    (hdriver : c.bHasDriver = true) (hstate : c.State ≠ .USOCK_Closed)
    (hchannels : c.Channels = Channel0 :: rest) :
    c.Close (fuel + 1) env =
      (if ((c.CloseStart Channel0).bHandlerValid = false ∨ env.bHandlerFullyInitialized)
            ∧ env.bHasReceivedClientPacket then
          UNetConnectionState.FlushNet fuel env ((c.CloseStart Channel0).logEvent .CloseFlush)
        else .ok (c.CloseStart Channel0)).bind fun c2 => .ok (c2.CloseEnd env) := by
  rw [UNetConnectionState.Close]
  rw [if_pos ⟨hdriver, hstate⟩]
  simp only [hchannels]

/-! ## Send path: induction over the calls -/

/-- A relation between the connection before and after a call holds for `FlushNet`,
`WriteBitsToSendBuffer` and `Close` when it is reflexive and transitive and holds for each
of their steps. -/
theorem send_induction (env : ConnEnv)
    (R : UNetConnectionState → UNetConnectionState → Prop)
    (hrefl : ∀ c, R c c) (htrans : ∀ a b c, R a b → R b c → R a c)
    (hflag : ∀ c, R c { c with TimeSensitive := false })
    (hsend : ∀ c b, 0 < c.MaxPacket →
      R c { c.Transmit env b with
        SendBufferNumBits := 0,
        SendBufferMaxBits := c.MaxPacket * 8 - c.MaxPacketHandlerBits })
    (hinit : ∀ c, 0 < c.MaxPacket →
      R c { c with
        SendBufferNumBits := 0,
        SendBufferMaxBits := c.MaxPacket * 8 - c.MaxPacketHandlerBits })
    (hwrite : ∀ c n, R c (c.Written env n))
    (hreset : ∀ c, R c { c with LogCallLastTime := 0, LogCallCount := 0, LogSustainedCount := 0 })
    (hclose : ∀ c Channel0 c2, c.bHasDriver = true → c.State ≠ .USOCK_Closed →
      (c2 = c.CloseStart Channel0 ∨ R ((c.CloseStart Channel0).logEvent .CloseFlush) c2) →
      R c (c2.CloseEnd env)) :
    ∀ fuel, (∀ c c1, c.FlushNet fuel env = .ok c1 → R c c1)
      ∧ (∀ c s e x, c.WriteBitsToSendBuffer fuel env s e = .ok x → R c x.2)
      ∧ (∀ c c1, c.Close fuel env = .ok c1 → R c c1) := by
  intro fuel
  induction fuel with
  | zero =>
    refine ⟨?_, ?_, ?_⟩
    · intro c c1 h; rw [UNetConnectionState.FlushNet] at h; simp at h
    · intro c s e x h; rw [UNetConnectionState.WriteBitsToSendBuffer] at h; simp at h
    · intro c c1 h; rw [UNetConnectionState.Close] at h; simp at h
  | succ fuel ih =>
    obtain ⟨ihF, ihW, ihC⟩ := ih
    refine ⟨?_, ?_, ?_⟩
    · intro c c1 h
      rw [FlushNet_succ] at h
      by_cases hd : c.bHasDriver = false
      · rw [if_pos hd] at h; simp at h
      rw [if_neg hd] at h
      by_cases hp : c.hasPendingData env = true
      · rw [if_pos hp] at h
        by_cases hs : sendsBeforeHandshake env = true
        · rw [if_pos hs] at h
          obtain ⟨c2, h2, h3⟩ := Outcome.bind_eq_ok _ _ _ h
          obtain ⟨hm, e⟩ := InitSendBuffer_eq_ok _ _ h3
          rw [e]
          exact htrans _ _ _ (hflag c) (htrans _ _ _ (ihC _ _ h2) (hinit _ hm))
        · rw [if_neg hs] at h
          by_cases hb : c.SendBufferNumBits = 0
          · rw [if_pos hb] at h
            obtain ⟨x, h2, h3⟩ := Outcome.bind_eq_ok _ _ _ h
            obtain ⟨hm, e⟩ := FlushNetSend_eq_ok _ _ _ _ h3
            rw [e]
            exact htrans _ _ _ (hflag c) (htrans _ _ _ (ihW _ _ _ _ h2) (hsend _ _ hm))
          · rw [if_neg hb] at h
            obtain ⟨hm, e⟩ := FlushNetSend_eq_ok _ _ _ _ h
            rw [e]
            exact htrans _ _ _ (hflag c) (hsend _ _ hm)
      · rw [if_neg hp] at h
        rw [← Outcome.ok.inj h]
        exact hflag c
    · intro c s e x h
      rw [WriteBitsToSendBuffer_succ] at h
      obtain ⟨Free, _, h⟩ := Outcome.bind_eq_ok _ _ _ h
      obtain ⟨c1, h1, h⟩ := Outcome.bind_eq_ok _ _ _ h
      obtain ⟨Free2, _, h⟩ := Outcome.bind_eq_ok _ _ _ h
      obtain ⟨c4, h4, h⟩ := Outcome.bind_eq_ok _ _ _ h
      rw [← Outcome.ok.inj h]
      have r1 : R c c1 := by
        split at h1
        · exact ihF _ _ h1
        · rw [← Outcome.ok.inj h1]; exact hrefl c
      have r4 : R (c1.Written env (s + e)) c4 := by
        split at h4
        · exact ihF _ _ h4
        · rw [← Outcome.ok.inj h4]; exact hrefl _
      exact htrans _ _ _ r1 (htrans _ _ _ (hwrite c1 (s + e)) r4)
    · intro c c1 h
      by_cases hg : c.bHasDriver = true ∧ c.State ≠ .USOCK_Closed
      · cases hch : c.Channels with
        | nil =>
          rw [UNetConnectionState.Close, if_pos hg] at h
          simp [hch] at h
        | cons Channel0 rest =>
          rw [Close_open fuel env c Channel0 rest hg.1 hg.2 hch] at h
          obtain ⟨c2, h2, h⟩ := Outcome.bind_eq_ok _ _ _ h
          rw [← Outcome.ok.inj h]
          refine hclose c Channel0 c2 hg.1 hg.2 ?_
          split at h2
          · exact Or.inr (ihF _ _ h2)
          · exact Or.inl (Outcome.ok.inj h2).symm
      · rw [Close_closed fuel env c (by
          by_cases hd : c.bHasDriver = true
          · right; by_contra hs; exact hg ⟨hd, hs⟩
          · left; simpa using hd)] at h
        rw [← Outcome.ok.inj h]
        exact hreset c

/-- A closed connection stays closed through `FlushNet`, `WriteBitsToSendBuffer` and `Close`,
which add only events of sends to its log. -/
theorem staysClosed (env : ConnEnv) (fuel : Nat) :
    (∀ c c1, c.FlushNet fuel env = .ok c1 → StaysClosed c c1)
      ∧ (∀ c s e x, c.WriteBitsToSendBuffer fuel env s e = .ok x → StaysClosed c x.2)
      ∧ (∀ c c1, c.Close fuel env = .ok c1 → StaysClosed c c1) := by
  refine send_induction env StaysClosed ?_ ?_ ?_ ?_ ?_ ?_ ?_ ?_ fuel
  · intro c h; exact ⟨h, [], by simp, by simp⟩
  · intro a b c hab hbc h
    obtain ⟨h1, ev1, e1, p1⟩ := hab h
    obtain ⟨h2, ev2, e2, p2⟩ := hbc h1
    refine ⟨h2, ev1 ++ ev2, by rw [e2, e1, List.append_assoc], ?_⟩
    intro e he
    rcases List.mem_append.1 he with he | he
    · exact p1 e he
    · exact p2 e he
  · intro c h; exact ⟨h, [], by simp, by simp⟩
  · intro c b _ h
    obtain ⟨ev, e1, p⟩ := Transmit_log env c b
    refine ⟨h, ev, e1, ?_⟩
    intro e he
    rcases p e he with ⟨n, b, rfl⟩ | rfl <;> rfl
  · intro c _ h; exact ⟨h, [], by simp, by simp⟩
  · intro c n h
    refine ⟨?_, [], ?_, by simp⟩
    · unfold UNetConnectionState.Written UNetConnectionState.WritePacketHeaders
      split <;> exact h
    · unfold UNetConnectionState.Written UNetConnectionState.WritePacketHeaders
      split <;> simp
  · intro c h; exact ⟨h, [], by simp, by simp⟩
  · intro c Channel0 c2 _ hs _ h; exact absurd h hs

/-! ## Send path: the calls return -/

theorem GetFreeSendBufferBits_ok (env : ConnEnv) (c : UNetConnectionState)
    (h : 0 ≤ c.SendBufferMaxBits - ((c.SendBufferNumBits : Int)
      + (if c.SendBufferNumBits > 0 then env.MAX_PACKET_TRAILER_BITS
          else env.MAX_PACKET_HEADER_BITS + env.MAX_PACKET_TRAILER_BITS))) :
    c.GetFreeSendBufferBits env = .ok (c.SendBufferMaxBits - ((c.SendBufferNumBits : Int)
      + (if c.SendBufferNumBits > 0 then env.MAX_PACKET_TRAILER_BITS
          else env.MAX_PACKET_HEADER_BITS + env.MAX_PACKET_TRAILER_BITS))) := by
  unfold UNetConnectionState.GetFreeSendBufferBits
  simp only
  rw [if_pos h]

theorem PacketInfoBits_pos (env : ConnEnv) : 0 < PacketInfoBits env := by
  unfold PacketInfoBits; omega

/-- The send buffer after the packet header is written on an empty buffer. -/
theorem WritePacketHeaders_empty (env : ConnEnv) (c : UNetConnectionState)
    (hbits : c.SendBufferNumBits = 0) (hint : c.InternalAck = false) :
    c.WritePacketHeaders env = { c with
      SendBufferNumBits := env.PacketHeaderBits + PacketInfoBits env,
      AllowMerge := false } := by
  unfold UNetConnectionState.WritePacketHeaders
  rw [if_pos ⟨hbits, hint⟩]

theorem WritePacketHeaders_same (env : ConnEnv) (c : UNetConnectionState)
    (h : c.SendBufferNumBits ≠ 0 ∨ c.InternalAck = true) :
    c.WritePacketHeaders env = c := by
  unfold UNetConnectionState.WritePacketHeaders
  rw [if_neg]
  rintro ⟨h1, h2⟩
  rcases h with h | h
  · exact h h1
  · rw [h] at h2; exact absurd h2 (by decide)

/-- `Sendable` looks at the driver, the packet size, the send buffer maximum, the pending acks
with `InternalAck`, and the channel table. -/
theorem Sendable.congr {env : ConnEnv} {c : UNetConnectionState} (h : Sendable env c)
    (c1 : UNetConnectionState)
    (h1 : c1.bHasDriver = c.bHasDriver) (h2 : c1.MaxPacket = c.MaxPacket)
    (h3 : c1.MaxPacketHandlerBits = c.MaxPacketHandlerBits)
    (h4 : c1.SendBufferMaxBits = c.SendBufferMaxBits)
    (h6 : c1.InternalAck = true → c1.HasDirtyAcks = 0)
    (h7 : c1.Channels = c.Channels) : Sendable env c1 :=
  { driver := by rw [h1]; exact h.driver
    maxPacket := by rw [h2]; exact h.maxPacket
    sized := by rw [h4, h2, h3]; exact h.sized
    room := by rw [h4]; exact h.room
    header := h.header
    acks := h6
    channels := by rw [h7]; exact h.channels }

/-- `FlushNet`, `WriteBitsToSendBuffer` and `Close` keep `Sendable`. -/
theorem sendable_kept (env : ConnEnv) (fuel : Nat) :
    (∀ c c1, c.FlushNet fuel env = .ok c1 → Sendable env c → Sendable env c1)
      ∧ (∀ c s e x, c.WriteBitsToSendBuffer fuel env s e = .ok x →
          Sendable env c → Sendable env x.2)
      ∧ (∀ c c1, c.Close fuel env = .ok c1 → Sendable env c → Sendable env c1) := by
  refine send_induction env (fun c c1 => Sendable env c → Sendable env c1)
    ?_ ?_ ?_ ?_ ?_ ?_ ?_ ?_ fuel
  · intro c h; exact h
  · intro a b c hab hbc h; exact hbc (hab h)
  · intro c h; exact h.congr _ rfl rfl rfl rfl h.acks rfl
  · intro c b _ h
    refine h.congr _ rfl rfl rfl h.sized.symm ?_ rfl
    intro hint
    have hint2 : c.InternalAck = true := hint
    show (if c.InternalAck = false ∧ env.bWroteHeader = true then 0 else c.HasDirtyAcks) = 0
    rw [if_neg (by rw [hint2]; simp)]
    exact h.acks hint2
  · intro c _ h; exact h.congr _ rfl rfl rfl h.sized.symm h.acks rfl
  · intro c n h
    unfold UNetConnectionState.Written UNetConnectionState.WritePacketHeaders
    split
    · exact h.congr _ rfl rfl rfl rfl h.acks rfl
    · exact h.congr _ rfl rfl rfl rfl h.acks rfl
  · intro c h; exact h.congr _ rfl rfl rfl rfl h.acks rfl
  · intro c Channel0 c2 _ _ h2 h
    have hstart : Sendable env (c.CloseStart Channel0) := by
      unfold UNetConnectionState.CloseStart
      split
      · exact h.congr _ rfl rfl rfl rfl h.acks rfl
      · exact h.congr _ rfl rfl rfl rfl h.acks rfl
    have h3 : Sendable env c2 := by
      rcases h2 with h2 | h2
      · rw [h2]; exact hstart
      · exact h2 (hstart.congr _ rfl rfl rfl rfl hstart.acks rfl)
    unfold UNetConnectionState.CloseEnd
    split
    · exact h3.congr _ rfl rfl rfl rfl h3.acks rfl
    · exact h3.congr _ rfl rfl rfl rfl h3.acks rfl

/-- `FlushNet` with bits in the send buffer, after the handshake: the packet is sent. -/
theorem FlushNet_send_eq (fuel : Nat) (env : ConnEnv) (c : UNetConnectionState)
    (hdriver : c.bHasDriver = true) (hmax : 0 < c.MaxPacket)
    (hshake : sendsBeforeHandshake env = false) (hbits : c.SendBufferNumBits ≠ 0) :
    c.FlushNet (fuel + 1) env =
      .ok { UNetConnectionState.Transmit env { c with TimeSensitive := false } false with
        SendBufferNumBits := 0,
        SendBufferMaxBits := c.MaxPacket * 8 - c.MaxPacketHandlerBits } := by
  rw [FlushNet_send fuel env c hdriver hshake hbits]
  exact FlushNetSend_eq env _ false hmax

theorem GetFreeSendBufferBits_empty (env : ConnEnv) (c : UNetConnectionState)
    (hbits : c.SendBufferNumBits = 0)
    (hroom : env.MAX_PACKET_HEADER_BITS + env.MAX_PACKET_TRAILER_BITS ≤ c.SendBufferMaxBits) :
    c.GetFreeSendBufferBits env = .ok (c.SendBufferMaxBits
      - (env.MAX_PACKET_HEADER_BITS + env.MAX_PACKET_TRAILER_BITS)) := by
  rw [GetFreeSendBufferBits_ok env c (by rw [hbits, if_neg (by omega)]; push_cast; omega)]
  rw [hbits, if_neg (by omega)]
  push_cast
  rw [zero_add]

theorem GetFreeSendBufferBits_used (env : ConnEnv) (c : UNetConnectionState)
    (hbits : 0 < c.SendBufferNumBits)
    (hroom : (c.SendBufferNumBits : Int) + env.MAX_PACKET_TRAILER_BITS ≤ c.SendBufferMaxBits) :
    c.GetFreeSendBufferBits env = .ok (c.SendBufferMaxBits
      - ((c.SendBufferNumBits : Int) + env.MAX_PACKET_TRAILER_BITS)) := by
  rw [GetFreeSendBufferBits_ok env c (by rw [if_pos hbits]; omega)]
  rw [if_pos hbits]

/-- The write of the packet header alone (`WriteBitsToSendBuffer( NULL, 0 )`) on an empty
send buffer returns. -/
theorem WriteBitsToSendBuffer_header_returns (fuel : Nat) (env : ConnEnv)
    (c : UNetConnectionState) (hs : Sendable env c)
    (hshake : sendsBeforeHandshake env = false)
    (hbits : c.SendBufferNumBits = 0) (hint : c.InternalAck = false) :
    ∃ x, c.WriteBitsToSendBuffer (fuel + 2) env 0 0 = .ok x := by
  have hroom := hs.room
  have hheader := hs.header
  have hpos := PacketInfoBits_pos env
  have hw : c.Written env (0 + 0) = { c with
      SendBufferNumBits := env.PacketHeaderBits + PacketInfoBits env,
      AllowMerge := false } := by
    unfold UNetConnectionState.Written
    rw [WritePacketHeaders_empty env c hbits hint]
    rfl
  have hF2 := GetFreeSendBufferBits_used env (c.Written env (0 + 0))
      (by rw [hw]; show 0 < env.PacketHeaderBits + PacketInfoBits env; omega)
      (by
        rw [hw]
        show ((env.PacketHeaderBits + PacketInfoBits env : Nat) : Int)
          + env.MAX_PACKET_TRAILER_BITS ≤ c.SendBufferMaxBits
        omega)
  rw [WriteBitsToSendBuffer_succ, GetFreeSendBufferBits_empty env c hbits hroom,
    Outcome.bind_ok, if_neg (by push_cast; omega), Outcome.bind_ok, hF2, Outcome.bind_ok]
  split
  · rw [FlushNet_send_eq fuel env _ (by rw [hw]; exact hs.driver)
      (by rw [hw]; exact hs.maxPacket) hshake
      (by rw [hw]; show env.PacketHeaderBits + PacketInfoBits env ≠ 0; omega)]
    exact ⟨_, rfl⟩
  · exact ⟨_, rfl⟩

/-- `FlushNet` returns on a `Sendable` connection. -/
theorem FlushNet_returns (fuel : Nat) (env : ConnEnv) (c : UNetConnectionState)
    (hs : Sendable env c) : ∃ c1, c.FlushNet (fuel + 3) env = .ok c1 := by
  by_cases hp : c.hasPendingData env = true
  · by_cases hshake : sendsBeforeHandshake env = true
    · rw [FlushNet_handshake _ env c hs.driver hp hshake]
      have hrec : env.bHasReceivedClientPacket = false := by
        unfold sendsBeforeHandshake at hshake
        simp only [Bool.and_eq_true, Bool.not_eq_true'] at hshake
        exact hshake.1
      by_cases hst : c.State = .USOCK_Closed
      · rw [Close_closed (fuel + 1) env { c with TimeSensitive := false } (Or.inr hst),
          Outcome.bind_ok]
        unfold UNetConnectionState.InitSendBuffer
        rw [if_pos hs.maxPacket]
        exact ⟨_, rfl⟩
      · obtain ⟨Channel0, rest, hch⟩ := List.exists_cons_of_ne_nil hs.channels
        rw [Close_open (fuel + 1) env { c with TimeSensitive := false } Channel0 rest
            hs.driver hst hch,
          if_neg (by rw [hrec]; simp), Outcome.bind_ok, Outcome.bind_ok]
        unfold UNetConnectionState.InitSendBuffer
        rw [if_pos (by
          unfold UNetConnectionState.CloseEnd UNetConnectionState.CloseStart
          split <;> split <;> exact hs.maxPacket)]
        exact ⟨_, rfl⟩
    · have hshake2 : sendsBeforeHandshake env = false := by simpa using hshake
      by_cases hb : c.SendBufferNumBits = 0
      · rw [FlushNet_keepAlive _ env c hs.driver hp hshake2 hb]
        have hint : c.InternalAck = false := by
          by_contra hne
          have hint : c.InternalAck = true := by simpa using hne
          have hd := hs.acks hint
          unfold UNetConnectionState.hasPendingData at hp
          simp [hb, hd, hint] at hp
        have hs0 : Sendable env { c with TimeSensitive := false } :=
          hs.congr _ rfl rfl rfl rfl hs.acks rfl
        obtain ⟨x, hx⟩ := WriteBitsToSendBuffer_header_returns fuel env _ hs0 hshake2 hb hint
        rw [hx, Outcome.bind_ok]
        have hsx := (sendable_kept env (fuel + 2)).2.1 _ _ _ _ hx hs0
        rw [FlushNetSend_eq env _ true hsx.maxPacket]
        exact ⟨_, rfl⟩
      · rw [FlushNet_send_eq _ env c hs.driver hs.maxPacket hshake2 hb]
        exact ⟨_, rfl⟩
  · rw [FlushNet_idle _ env c hs.driver (by simpa using hp)]
    exact ⟨_, rfl⟩

/-- `Close` returns on a connection that is closed or has no driver, and on a `Sendable`
connection. -/
theorem Close_returns (fuel : Nat) (env : ConnEnv) (c : UNetConnectionState)
    (hs : c.bHasDriver = false ∨ c.State = .USOCK_Closed ∨ Sendable env c) :
    ∃ c1, c.Close (fuel + 4) env = .ok c1 := by
  by_cases hg : c.bHasDriver = false ∨ c.State = .USOCK_Closed
  · rw [Close_closed _ env c hg]
    exact ⟨_, rfl⟩
  · have hd : c.bHasDriver = true := by
      by_contra h; exact hg (Or.inl (by simpa using h))
    have hst : c.State ≠ .USOCK_Closed := fun h => hg (Or.inr h)
    have hs : Sendable env c := by
      rcases hs with h | h | h
      · rw [h] at hd; exact absurd hd (by decide)
      · exact absurd h hst
      · exact h
    obtain ⟨Channel0, rest, hch⟩ := List.exists_cons_of_ne_nil hs.channels
    rw [Close_open _ env c Channel0 rest hd hst hch]
    have hstart : Sendable env ((c.CloseStart Channel0).logEvent .CloseFlush) := by
      unfold UNetConnectionState.CloseStart
      split
      · exact hs.congr _ rfl rfl rfl rfl hs.acks rfl
      · exact hs.congr _ rfl rfl rfl rfl hs.acks rfl
    split
    · obtain ⟨c2, h2⟩ := FlushNet_returns fuel env _ hstart
      rw [h2]
      exact ⟨_, rfl⟩
    · exact ⟨_, rfl⟩

/-! ## C21: `FlushNet` -/

/-- `WritePacketHeaders` changes the number of bits in the send buffer and `AllowMerge`. -/
theorem WritePacketHeaders_cases (env : ConnEnv) (c : UNetConnectionState) :
    c.WritePacketHeaders env = c ∨ c.WritePacketHeaders env = { c with
      SendBufferNumBits := env.PacketHeaderBits + PacketInfoBits env,
      AllowMerge := false } := by
  unfold UNetConnectionState.WritePacketHeaders
  split
  · exact Or.inr rfl
  · exact Or.inl rfl

/-- The writes of `WriteBitsToSendBuffer` change the number of bits in the send buffer and
`AllowMerge`, and nothing else. -/
theorem Written_fields (env : ConnEnv) (c : UNetConnectionState) (n : Nat) :
    (c.Written env n).OutPacketId = c.OutPacketId
    ∧ (c.Written env n).ChannelRecord = c.ChannelRecord
    ∧ (c.Written env n).MaxPacket = c.MaxPacket
    ∧ (c.Written env n).MaxPacketHandlerBits = c.MaxPacketHandlerBits
    ∧ (c.Written env n).SendBufferMaxBits = c.SendBufferMaxBits
    ∧ (c.Written env n).bHasDriver = c.bHasDriver
    ∧ (c.Written env n).InternalAck = c.InternalAck
    ∧ (c.Written env n).LastNotifiedPacketId = c.LastNotifiedPacketId
    ∧ (c.Written env n).State = c.State
    ∧ (c.Written env n).Log = c.Log
    ∧ (c.Written env n).SendBufferNumBits = (c.WritePacketHeaders env).SendBufferNumBits + n := by
  unfold UNetConnectionState.Written
  rcases WritePacketHeaders_cases env c with e | e <;> rw [e] <;>
    exact ⟨rfl, rfl, rfl, rfl, rfl, rfl, rfl, rfl, rfl, rfl, rfl⟩

theorem WritePacketHeaders_numBits_eq (env : ConnEnv) (c : UNetConnectionState) :
    (c.WritePacketHeaders env).SendBufferNumBits =
      if c.SendBufferNumBits = 0 ∧ c.InternalAck = false then
        env.PacketHeaderBits + PacketInfoBits env
      else c.SendBufferNumBits := by
  unfold UNetConnectionState.WritePacketHeaders
  split <;> rfl

theorem count_eq_zero_of_send_events (ev : List ConnEvent) (e : ConnEvent)
    (he : isSendEvent e = false) (h : ∀ x ∈ ev, isSendEvent x = true) : ev.count e = 0 := by
  rw [List.count_eq_zero]
  intro hmem
  rw [h e hmem] at he
  exact absurd he (by decide)

theorem CloseEnd_reset (env : ConnEnv) (c : UNetConnectionState) :
    { c.CloseEnd env with LogCallLastTime := 0, LogCallCount := 0, LogSustainedCount := 0 }
      = c.CloseEnd env := by
  unfold UNetConnectionState.CloseEnd
  split <;> rfl

/-- C23: `Close` on a connection that is closed, or has no driver, or on which sends return.
It returns; a second `Close` returns the same connection, log included, so it does nothing
more; and the first call closes channel 0, calls `FlushNet` and commits the analytics at most
once each. -/
theorem close_is_idempotent (fuel : Nat) (env : ConnEnv) (c : UNetConnectionState)
    (hs : c.bHasDriver = false ∨ c.State = .USOCK_Closed ∨ Sendable env c) :
    ∃ c1, c.Close (fuel + 4) env = .ok c1 ∧ c1.Close (fuel + 4) env = .ok c1
      ∧ ∃ ev, c1.Log = c.Log ++ ev ∧ ev.count .ChannelClose ≤ 1
        ∧ ev.count .CloseFlush ≤ 1 ∧ ev.count .CommitAnalytics ≤ 1 := by
  by_cases hg : c.bHasDriver = false ∨ c.State = .USOCK_Closed
  · refine ⟨_, Close_closed _ env c hg, ?_, [], by simp, by simp, by simp, by simp⟩
    exact Close_closed (fuel + 3) env
      { c with LogCallLastTime := 0, LogCallCount := 0, LogSustainedCount := 0 } hg
  · have hd : c.bHasDriver = true := by
      by_contra h; exact hg (Or.inl (by simpa using h))
    have hst : c.State ≠ .USOCK_Closed := fun h => hg (Or.inr h)
    have hs : Sendable env c := by
      rcases hs with h | h | h
      · rw [h] at hd; exact absurd hd (by decide)
      · exact absurd h hst
      · exact h
    obtain ⟨Channel0, rest, hch⟩ := List.exists_cons_of_ne_nil hs.channels
    have hstartLog : ∃ ev0, (c.CloseStart Channel0).Log = c.Log ++ ev0
        ∧ ev0.count .ChannelClose ≤ 1 ∧ ev0.count .CloseFlush = 0
        ∧ ev0.count .CommitAnalytics = 0 := by
      unfold UNetConnectionState.CloseStart
      split
      · exact ⟨[.ChannelClose], rfl, by decide, by decide, by decide⟩
      · exact ⟨[], by simp, by simp, by simp, by simp⟩
    have hstartState : (c.CloseStart Channel0).State = .USOCK_Closed := by
      unfold UNetConnectionState.CloseStart; split <;> rfl
    obtain ⟨ev0, hlog0, hc0, hf0, ha0⟩ := hstartLog
    -- the call of FlushNet
    obtain ⟨c2, h2, h2s, ev2, hlog2, hc2, hf2, ha2⟩ : ∃ c2,
        (if ((c.CloseStart Channel0).bHandlerValid = false ∨ env.bHandlerFullyInitialized)
              ∧ env.bHasReceivedClientPacket then
            UNetConnectionState.FlushNet (fuel + 3) env
              ((c.CloseStart Channel0).logEvent .CloseFlush)
          else .ok (c.CloseStart Channel0)) = .ok c2
        ∧ c2.State = .USOCK_Closed
        ∧ ∃ ev2, c2.Log = (c.CloseStart Channel0).Log ++ ev2
          ∧ ev2.count .ChannelClose = 0 ∧ ev2.count .CloseFlush ≤ 1
          ∧ ev2.count .CommitAnalytics = 0 := by
      split
      · have hstart : Sendable env ((c.CloseStart Channel0).logEvent .CloseFlush) := by
          unfold UNetConnectionState.CloseStart
          split
          · exact hs.congr _ rfl rfl rfl rfl hs.acks rfl
          · exact hs.congr _ rfl rfl rfl rfl hs.acks rfl
        obtain ⟨c2, h2⟩ := FlushNet_returns fuel env _ hstart
        obtain ⟨h2s, ev, hev, hsend⟩ := (staysClosed env (fuel + 3)).1 _ _ h2 hstartState
        refine ⟨c2, h2, h2s, .CloseFlush :: ev, ?_, ?_, ?_, ?_⟩
        · rw [hev]
          show ((c.CloseStart Channel0).Log ++ [.CloseFlush]) ++ ev = _
          simp
        · rw [List.count_cons_of_ne (by decide),
            count_eq_zero_of_send_events ev _ (by decide) hsend]
        · rw [List.count_cons_self, count_eq_zero_of_send_events ev _ (by decide) hsend]
        · rw [List.count_cons_of_ne (by decide),
            count_eq_zero_of_send_events ev _ (by decide) hsend]
      · exact ⟨_, rfl, hstartState, [], by simp, by simp, by simp, by simp⟩
    have hend : ∃ ev3, (c2.CloseEnd env).Log = c2.Log ++ ev3
        ∧ ev3.count .ChannelClose = 0 ∧ ev3.count .CloseFlush = 0
        ∧ ev3.count .CommitAnalytics ≤ 1 := by
      unfold UNetConnectionState.CloseEnd
      split
      · exact ⟨[.CommitAnalytics], rfl, by decide, by decide, by decide⟩
      · exact ⟨[], by simp, by simp, by simp, by simp⟩
    obtain ⟨ev3, hlog3, hc3, hf3, ha3⟩ := hend
    have hendState : (c2.CloseEnd env).State = .USOCK_Closed := by
      unfold UNetConnectionState.CloseEnd; split <;> exact h2s
    refine ⟨c2.CloseEnd env, ?_, ?_, ev0 ++ ev2 ++ ev3, ?_, ?_, ?_, ?_⟩
    · rw [Close_open _ env c Channel0 rest hd hst hch, h2, Outcome.bind_ok]
    · rw [Close_closed (fuel + 3) env (c2.CloseEnd env) (Or.inr hendState), CloseEnd_reset]
    · rw [hlog3, hlog2, hlog0]; simp
    · simp only [List.count_append]; omega
    · simp only [List.count_append]; omega
    · simp only [List.count_append]; omega

/-- C23, on an example: an open connection with 100 bits in the send buffer is closed; the
first `Close` closes channel 0, flushes and commits the analytics, the second changes
nothing. -/
theorem close_is_idempotent_witness :
    ∃ c1, ({ exampleState with SendBufferNumBits := 100 }).Close 4 exampleConnEnv = .ok c1
      ∧ c1.Close 4 exampleConnEnv = .ok c1
      ∧ ∃ ev, c1.Log = ([] : List ConnEvent) ++ ev ∧ ev.count .ChannelClose ≤ 1
        ∧ ev.count .CloseFlush ≤ 1 ∧ ev.count .CommitAnalytics ≤ 1 :=
  close_is_idempotent 0 exampleConnEnv { exampleState with SendBufferNumBits := 100 }
    (Or.inr (Or.inr ⟨rfl, by decide, by decide, by decide, by decide,
      fun h => absurd h (by decide), by decide⟩))

/-! ## `Tick` and `CleanUp` on a closed connection -/

theorem TickEnd_state (env : ConnEnv) (c : UNetConnectionState) :
    (c.TickEnd env).State = c.State := by
  unfold UNetConnectionState.TickEnd
  split <;> rfl

theorem TickFlush_closed (fuel : Nat) (env : ConnEnv) (c c1 : UNetConnectionState)
    (hc : c.State = .USOCK_Closed) (h : c.TickFlush fuel env = .ok c1) :
    c1.State = .USOCK_Closed := by
  unfold UNetConnectionState.TickFlush at h
  obtain ⟨c2, h2, h⟩ := Outcome.bind_eq_ok _ _ _ h
  rw [← Outcome.ok.inj h, TickEnd_state]
  split at h2
  · exact ((staysClosed env fuel).1 _ _ h2 hc).1
  · rw [← Outcome.ok.inj h2]; exact hc

theorem TickChannels_state (env : ConnEnv) (c : UNetConnectionState) :
    (c.TickChannels env).State = c.State := by
  unfold UNetConnectionState.TickChannels
  split <;> rfl

theorem TickTimeout_closed (fuel : Nat) (env : ConnEnv) (c c1 : UNetConnectionState)
    (hc : c.State = .USOCK_Closed) (h : c.TickTimeout fuel env = .ok c1) :
    c1.State = .USOCK_Closed := by
  unfold UNetConnectionState.TickTimeout at h
  obtain ⟨Timeout, _, h⟩ := Outcome.bind_eq_ok _ _ _ h
  dsimp only at h
  split at h
  · obtain ⟨c3, h3, h⟩ := Outcome.bind_eq_ok _ _ _ h
    refine TickFlush_closed fuel env c3 c1 ?_ h
    refine ((staysClosed env fuel).2.2 _ _ h3 ?_).1
    split <;> exact hc
  · split at h
    · simp at h
    · split at h
      · refine TickFlush_closed fuel env _ c1 ?_ h
        split
        · rfl
        · rw [TickChannels_state]; exact hc
      · simp at h

theorem TickInternalAck_state (env : ConnEnv) (c : UNetConnectionState) :
    (c.TickInternalAck env).State = c.State := rfl

theorem TickTimes_state (env : ConnEnv) (c : UNetConnectionState) :
    (c.TickTimes env).State = c.State := by
  unfold UNetConnectionState.TickTimes
  dsimp only
  split <;> rfl

theorem TickBody_closed (fuel : Nat) (env : ConnEnv) (c c1 : UNetConnectionState)
    (hc : c.State = .USOCK_Closed) (h : c.TickBody fuel env = .ok c1) :
    c1.State = .USOCK_Closed := by
  have hc4 : (if c.InternalAck = true
      then UNetConnectionState.TickInternalAck env { c with LastTime := env.Seconds }
      else { c with LastTime := env.Seconds }).State = .USOCK_Closed := by
    split <;> exact hc
  have key : ∀ c4 : UNetConnectionState, c4.State = .USOCK_Closed →
      (if c4.bConnectionPendingCloseDueToSocketSendFailure then
        (UNetConnectionState.Close fuel env c4).bind fun c5 =>
          .ok { c5 with bConnectionPendingCloseDueToSocketSendFailure := false }
       else c4.TickTimeout fuel env) = .ok c1 → c1.State = .USOCK_Closed := by
    intro c4 h4 h
    split at h
    · obtain ⟨c5, h5, h⟩ := Outcome.bind_eq_ok _ _ _ h
      rw [← Outcome.ok.inj h]
      exact ((staysClosed env fuel).2.2 _ _ h5 h4).1
    · exact TickTimeout_closed fuel env _ c1 h4 h
  exact key _ hc4 h

theorem Tick_closed (fuel : Nat) (env : ConnEnv) (c c1 : UNetConnectionState)
    (hc : c.State = .USOCK_Closed) (h : c.Tick fuel env = .ok c1) :
    c1.State = .USOCK_Closed := by
  unfold UNetConnectionState.Tick at h
  by_cases hd : c.bHasDriver = false
  · rw [if_pos hd] at h; simp at h
  · rw [if_neg hd] at h
    dsimp only at h
    have h2 := TickTimes_state env c
    by_cases hskip : skipsTick env (c.TickTimes env).InternalAck (c.TickTimes env).FrameTime
    · rw [if_pos hskip] at h
      rw [← Outcome.ok.inj h, h2]; exact hc
    · rw [if_neg hskip] at h
      exact TickBody_closed fuel env _ c1 (h2.trans hc) h

theorem CleanUp_closed (fuel : Nat) (env : ConnEnv) (c : UNetConnectionState)
    (hc : c.State = .USOCK_Closed) :
    ∃ c1, c.CleanUp (fuel + 1) env = .ok c1 ∧ c1.State = .USOCK_Closed := by
  unfold UNetConnectionState.CleanUp
  rw [Close_closed fuel env (c.logEvent .ChildrenCleanUp) (Or.inr hc), Outcome.bind_ok]
  refine ⟨_, rfl, ?_⟩
  dsimp only
  split <;> exact hc

/-! ## C25: the connection timeout in `Tick` -/

/-- The calls of the send path and `Close` report no connection timeout. -/
theorem send_reports_no_timeout (env : ConnEnv) (fuel : Nat) :
    (∀ c c1 : UNetConnectionState, c.FlushNet fuel env = .ok c1 →
        ∃ ev, c1.Log = c.Log ++ ev ∧ ev.count .ConnectionTimeout = 0)
      ∧ (∀ (c : UNetConnectionState) (s e : Nat) (x : Int × UNetConnectionState),
        c.WriteBitsToSendBuffer fuel env s e = .ok x →
        ∃ ev, x.2.Log = c.Log ++ ev ∧ ev.count .ConnectionTimeout = 0)
      ∧ (∀ c c1 : UNetConnectionState, c.Close fuel env = .ok c1 →
        ∃ ev, c1.Log = c.Log ++ ev ∧ ev.count .ConnectionTimeout = 0) := by
  refine send_induction env
    (fun c c1 => ∃ ev, c1.Log = c.Log ++ ev ∧ ev.count .ConnectionTimeout = 0)
    ?_ ?_ ?_ ?_ ?_ ?_ ?_ ?_ fuel
  · intro c; exact ⟨[], by simp, by simp⟩
  · rintro a b c ⟨ev1, e1, p1⟩ ⟨ev2, e2, p2⟩
    exact ⟨ev1 ++ ev2, by rw [e2, e1, List.append_assoc], by
      rw [List.count_append, p1, p2]⟩
  · intro c; exact ⟨[], by simp, by simp⟩
  · intro c b _
    obtain ⟨ev, e1, p⟩ := Transmit_log env c b
    refine ⟨ev, e1, ?_⟩
    rw [List.count_eq_zero]
    intro he
    rcases p _ he with ⟨n, b, h⟩ | h <;> exact absurd h (by simp)
  · intro c _; exact ⟨[], by simp, by simp⟩
  · intro c n
    refine ⟨[], ?_, by simp⟩
    unfold UNetConnectionState.Written UNetConnectionState.WritePacketHeaders
    split <;> simp
  · intro c; exact ⟨[], by simp, by simp⟩
  · intro c Channel0 c2 _ _ h
    have hstart : ∃ ev, (c.CloseStart Channel0).Log = c.Log ++ ev
        ∧ ev.count .ConnectionTimeout = 0 := by
      unfold UNetConnectionState.CloseStart
      split
      · exact ⟨[.ChannelClose], rfl, by decide⟩
      · exact ⟨[], by simp, by simp⟩
    obtain ⟨ev0, e0, p0⟩ := hstart
    have h2 : ∃ ev, c2.Log = c.Log ++ ev ∧ ev.count .ConnectionTimeout = 0 := by
      rcases h with h | ⟨ev, e1, p1⟩
      · rw [h]; exact ⟨ev0, e0, p0⟩
      · refine ⟨ev0 ++ (.CloseFlush :: ev), ?_, ?_⟩
        · rw [e1]
          show ((c.CloseStart Channel0).Log ++ [.CloseFlush]) ++ ev = _
          rw [e0]; simp
        · rw [List.count_append, p0, List.count_cons_of_ne (by decide), p1]
    obtain ⟨ev2, e2, p2⟩ := h2
    unfold UNetConnectionState.CloseEnd
    split
    · refine ⟨ev2 ++ [.CommitAnalytics], ?_, ?_⟩
      · show c2.Log ++ [.CommitAnalytics] = _
        rw [e2]; simp
      · rw [List.count_append, p2]; decide
    · exact ⟨ev2, e2, p2⟩

/-- `Close` on a connection with a driver leaves it closed. -/
theorem Close_ends_closed (fuel : Nat) (env : ConnEnv) (c c1 : UNetConnectionState)
    (hd : c.bHasDriver = true) (h : c.Close fuel env = .ok c1) :
    c1.State = .USOCK_Closed := by
  by_cases hst : c.State = .USOCK_Closed
  · exact ((staysClosed env fuel).2.2 c c1 h hst).1
  · cases fuel with
    | zero => rw [UNetConnectionState.Close] at h; simp at h
    | succ fuel =>
      rcases hch : c.Channels with _ | ⟨Channel0, rest⟩
      · rw [UNetConnectionState.Close, if_pos ⟨hd, hst⟩] at h
        simp only [hch] at h
        simp at h
      · rw [Close_open fuel env c Channel0 rest hd hst hch] at h
        obtain ⟨c2, h2, h⟩ := Outcome.bind_eq_ok _ _ _ h
        have hstart : (c.CloseStart Channel0).State = .USOCK_Closed := by
          unfold UNetConnectionState.CloseStart; split <;> rfl
        have h2s : c2.State = .USOCK_Closed := by
          split at h2
          · exact ((staysClosed env fuel).1 _ _ h2 hstart).1
          · rw [← Outcome.ok.inj h2]; exact hstart
        rw [← Outcome.ok.inj h]
        unfold UNetConnectionState.CloseEnd
        split <;> exact h2s

/-- `GetTimeoutValue` reads the driver, the state and the pending-destroy flag. -/
theorem GetTimeoutValue_congr (env : ConnEnv) (c c1 : UNetConnectionState)
    (h1 : c1.bHasDriver = c.bHasDriver) (h2 : c1.State = c.State)
    (h3 : c1.bPendingDestroy = c.bPendingDestroy) :
    c1.GetTimeoutValue env = c.GetTimeoutValue env := by
  unfold UNetConnectionState.GetTimeoutValue
  rw [h1, h2, h3]

/-- The block "Flush" and the end of `Tick` on a closed connection on which sends return. -/
theorem TickFlush_returns (fuel : Nat) (env : ConnEnv) (c : UNetConnectionState)
    (hs : Sendable env c) :
    ∃ c1, c.TickFlush (fuel + 3) env = .ok c1
      ∧ (c.State = .USOCK_Closed → c1.State = .USOCK_Closed)
      ∧ ∃ ev, c1.Log = c.Log ++ ev ∧ ev.count .ConnectionTimeout = 0 := by
  unfold UNetConnectionState.TickFlush
  have hflush : ∃ c2, (if (c.TimeSensitive ∨ env.Time - c.LastSendTime > env.KeepAliveTime)
        ∧ (c.bHandlerValid = false ∨ env.bHandlerFullyInitialized)
        ∧ env.bHasReceivedClientPacket then
      UNetConnectionState.FlushNet (fuel + 3) env c
    else .ok c) = .ok c2 ∧ (c.State = .USOCK_Closed → c2.State = .USOCK_Closed)
      ∧ ∃ ev, c2.Log = c.Log ++ ev ∧ ev.count .ConnectionTimeout = 0 := by
    split
    · obtain ⟨c2, h2⟩ := FlushNet_returns fuel env c hs
      exact ⟨c2, h2, fun h => ((staysClosed env _).1 _ _ h2 h).1,
        (send_reports_no_timeout env _).1 _ _ h2⟩
    · exact ⟨c, rfl, id, [], by simp, by simp⟩
  obtain ⟨c2, h2, hst, ev, e1, p1⟩ := hflush
  rw [h2, Outcome.bind_ok]
  refine ⟨_, rfl, fun h => by rw [TickEnd_state]; exact hst h, ?_⟩
  unfold UNetConnectionState.TickEnd
  dsimp only
  split
  · refine ⟨ev ++ [.HandlerTick], ?_, ?_⟩
    · show c2.Log ++ [.HandlerTick] = _
      rw [e1]; simp
    · rw [List.count_append, p1]; decide
  · exact ⟨ev, e1, p1⟩

/-- The block "Handle timeouts" when the timeout is exceeded. -/
theorem TickTimeout_late (fuel : Nat) (env : ConnEnv) (c : UNetConnectionState) (Timeout : Int)
    (hs : Sendable env c) (hpd : c.bPendingDestroy = false)
    (hT : c.GetTimeoutValue env = .ok Timeout)
    (hlate : env.Seconds - c.LastReceiveRealtime > Timeout) :
    ∃ c1, c.TickTimeout (fuel + 4) env = .ok c1 ∧ c1.State = .USOCK_Closed
      ∧ ∃ ev, c1.Log = c.Log ++ ev ∧ ev.count .ConnectionTimeout = 1 := by
  unfold UNetConnectionState.TickTimeout
  dsimp only
  rw [GetTimeoutValue_congr env c { c with LastTickTime := env.Time } rfl rfl rfl, hT,
    Outcome.bind_ok, if_pos hlate, if_pos hpd]
  have hs2 : Sendable env
      (UNetConnectionState.logEvent { c with LastTickTime := env.Time } .ConnectionTimeout) :=
    hs.congr _ rfl rfl rfl rfl hs.acks rfl
  obtain ⟨c3, h3⟩ := Close_returns fuel env _ (Or.inr (Or.inr hs2))
  rw [h3, Outcome.bind_ok]
  have h3s := Close_ends_closed _ env _ c3 hs2.driver h3
  obtain ⟨ev3, e3, p3⟩ := (send_reports_no_timeout env _).2.2 _ _ h3
  obtain ⟨c4, h4, h4s, ev4, e4, p4⟩ :=
    TickFlush_returns (fuel + 1) env c3 ((sendable_kept env _).2.2 _ _ h3 hs2)
  refine ⟨c4, h4, h4s h3s, .ConnectionTimeout :: (ev3 ++ ev4), ?_, ?_⟩
  · rw [e4, e3]
    show ((c.Log ++ [.ConnectionTimeout]) ++ ev3) ++ ev4 = _
    simp
  · rw [List.count_cons_self, List.count_append, p3, p4]

/-- The part of `Tick` after the net tick rate test when the timeout is exceeded. -/
theorem TickBody_late (fuel : Nat) (env : ConnEnv) (c : UNetConnectionState) (Timeout : Int)
    (hs : Sendable env c) (hint : c.InternalAck = false)
    (hpend : c.bConnectionPendingCloseDueToSocketSendFailure = false)
    (hpd : c.bPendingDestroy = false)
    (hT : c.GetTimeoutValue env = .ok Timeout)
    (hlate : env.Seconds - c.LastReceiveRealtime > Timeout) :
    ∃ c1, c.TickBody (fuel + 4) env = .ok c1 ∧ c1.State = .USOCK_Closed
      ∧ ∃ ev, c1.Log = c.Log ++ ev ∧ ev.count .ConnectionTimeout = 1 := by
  unfold UNetConnectionState.TickBody
  dsimp only
  rw [if_neg (show ¬ (c.InternalAck = true) by rw [hint]; decide)]
  dsimp only
  rw [if_neg (show ¬ (c.bConnectionPendingCloseDueToSocketSendFailure = true) by
    rw [hpend]; decide)]
  exact TickTimeout_late fuel env { c with LastTime := env.Seconds } Timeout
    (hs.congr _ rfl rfl rfl rfl hs.acks rfl) hpd
    (by rw [GetTimeoutValue_congr env c { c with LastTime := env.Seconds } rfl rfl rfl]
        exact hT) hlate

/-- C25 (as amended): a `Tick` of a connection that is not pending destroy and has received
no packet for longer than `GetTimeoutValue()`.  When the tick is not the first one
(`LastTime` is set), is not skipped by the net tick rate, the connection is not InternalAck,
no close is pending after a socket send failure and sends return, `Tick` returns, the
connection is closed, and the tick reports the connection timeout exactly once. -/
theorem tick_reports_timeout (fuel : Nat) (env : ConnEnv) (c : UNetConnectionState)
    (Timeout : Int) (hs : Sendable env c) (hfirst : c.LastTime ≠ 0)
    (hint : c.InternalAck = false)
    (hskip : skipsTick env false (env.Seconds - c.LastTime) = false)
    (hpend : c.bConnectionPendingCloseDueToSocketSendFailure = false)
    (hpd : c.bPendingDestroy = false)
    (hT : c.GetTimeoutValue env = .ok Timeout)
    (hlate : env.Seconds - c.LastReceiveRealtime > Timeout) :
    ∃ c1, c.Tick (fuel + 4) env = .ok c1 ∧ c1.State = .USOCK_Closed
      ∧ ∃ ev, c1.Log = c.Log ++ ev ∧ ev.count .ConnectionTimeout = 1 := by
  have ht : c.TickTimes env = { c with FrameTime := env.Seconds - c.LastTime } := by
    unfold UNetConnectionState.TickTimes
    rw [if_neg hfirst]
  have hsk : skipsTick env (c.TickTimes env).InternalAck (c.TickTimes env).FrameTime
      = false := by
    rw [ht]
    show skipsTick env c.InternalAck (env.Seconds - c.LastTime) = false
    rw [hint]; exact hskip
  unfold UNetConnectionState.Tick
  rw [if_neg (show ¬ (c.bHasDriver = false) by rw [hs.driver]; decide)]
  dsimp only
  rw [if_neg (show ¬ (skipsTick env (c.TickTimes env).InternalAck
    (c.TickTimes env).FrameTime = true) by rw [hsk]; decide), ht]
  exact TickBody_late fuel env { c with FrameTime := env.Seconds - c.LastTime } Timeout
    (hs.congr _ rfl rfl rfl rfl hs.acks rfl) hint hpend hpd
    (by rw [GetTimeoutValue_congr env c
          { c with FrameTime := env.Seconds - c.LastTime } rfl rfl rfl]
        exact hT) hlate

/-- C25 (as amended), on an example: the last packet was received 100 seconds ago, the
timeout is 60 seconds. -/
theorem tick_reports_timeout_witness :
    ∃ c1, silentState.Tick 4 exampleConnEnv = .ok c1
      ∧ c1.State = .USOCK_Closed
      ∧ ∃ ev, c1.Log = ([] : List ConnEvent) ++ ev ∧ ev.count .ConnectionTimeout = 1 :=
  tick_reports_timeout 0 exampleConnEnv silentState 60
    ⟨rfl, by decide, by decide, by decide, by decide, fun h => absurd h (by decide),
      by decide⟩
    (by decide) rfl (by decide) rfl rfl rfl (by decide)

/-- C25 as stated fails: nothing in `Tick` remembers that the timeout was reported.  The
last packet was received 100 seconds ago and the timeout is 60 seconds; the first `Tick`
closes the connection and reports the timeout; a second `Tick` one second later, the
connection still not pending destroy and still without a packet received, reports it
again. -/
theorem second_tick_reports_timeout_again :
    silentState.Tick 4 exampleConnEnv = .ok timedOutState
    ∧ timedOutState.State = .USOCK_Closed ∧ timedOutState.bPendingDestroy = false
    ∧ timedOutState.Log.count .ConnectionTimeout = 1
    ∧ ∃ c2, timedOutState.Tick 4 { exampleConnEnv with Seconds := 1001 } = .ok c2
      ∧ c2.LastReceiveRealtime = 900 ∧ c2.bPendingDestroy = false
      ∧ c2.Log.count .ConnectionTimeout = 2 :=
  ⟨by decide, by decide, by decide, by decide, _, rfl, by decide, by decide, by decide⟩

/-! ## C24: a closed connection stays closed -/

/-! ### `ReceivedPacket` on a closed connection -/

theorem HandlePacketNotification_closed (env : NetEnv) (c : UNetConnectionFull)
    (n : Int × Bool) (hc : c.State = .USOCK_Closed) :
    (HandlePacketNotification env c n).State = .USOCK_Closed := by
  unfold HandlePacketNotification
  dsimp only
  split
  · exact CloseSecurityViolation_state env _ _
  · split <;> exact hc

theorem notifications_closed (env : NetEnv) (l : List (Int × Bool)) :
    ∀ c : UNetConnectionFull, c.State = .USOCK_Closed →
      (l.foldl (HandlePacketNotification env) c).State = .USOCK_Closed := by
  induction l with
  | nil => intro c hc; exact hc
  | cons n l ih =>
    intro c hc
    exact ih _ (HandlePacketNotification_closed env c n hc)

theorem AcknowledgePacket_state (env : NetEnv) (c : UNetConnectionFull) (bSkipAck : Bool) :
    (AcknowledgePacket env c bSkipAck).State = c.State := by
  unfold AcknowledgePacket
  split
  · obtain ⟨_, _, _, _, h, _⟩ := FlushIfTooManyAcks_spec env
      { c.logEvent (if bSkipAck then .NakSeq c.InPacketId else .AckSeq c.InPacketId) with
        HasDirtyAcks :=
          ((c.logEvent (if bSkipAck then .NakSeq c.InPacketId
            else .AckSeq c.InPacketId)).HasDirtyAcks + 1) % 4294967296 }
    exact h
  · rfl

theorem ProcessBunches_closed (fuel : Nat) (env : NetEnv) (c : UNetConnectionFull)
    (Reader : FInPacket) (hc : c.State = .USOCK_Closed) :
    ∃ c1, ProcessBunches (fuel + 1) env c Reader = some (.Done c1)
      ∧ c1.State = .USOCK_Closed := by
  unfold ProcessBunches
  have hloop : BunchLoop env (fuel + 1) c ⟨Reader.Bunches, false⟩ false []
      = some (.Finished c false) := by
    rw [BunchLoop, if_neg (by simp [hc])]
  rw [hloop]
  exact ⟨_, rfl, by rw [AcknowledgePacket_state]; exact hc⟩

theorem ReceivedPacketFull_closed (fuel : Nat) (env : NetEnv) (cv : NetCVars)
    (c : UNetConnectionFull) (Reader : FInPacket) (hc : c.State = .USOCK_Closed) :
    ∃ c1, ReceivedPacketFull (fuel + 1) env cv c Reader = some (.Done c1)
      ∧ c1.State = .USOCK_Closed := by
  unfold ReceivedPacketFull
  split
  · exact ⟨c, rfl, hc⟩
  · split
    · exact ProcessBunches_closed fuel env _ Reader hc
    · split
      · exact ⟨_, rfl, CloseSecurityViolation_state env _ _⟩
      · dsimp only
        split
        · split
          · exact ⟨_, rfl, hc⟩
          · split
            · exact ⟨_, rfl, CloseSecurityViolation_state env _ _⟩
            · exact ProcessBunches_closed fuel env _ Reader (notifications_closed env _ _ hc)
        · exact ⟨_, rfl, hc⟩

/-- C24 (as amended): once `State` is `USOCK_Closed` it is `USOCK_Closed` after `Close` and
`CleanUp`, which return, after `Tick` and `FlushNet` whenever they return (`FlushNet` returns
on a connection on which sends return), and after `ReceivedPacket`, which returns. -/
theorem closed_stays_closed (fuel : Nat) (env : ConnEnv) (nenv : NetEnv) (cv : NetCVars)
    (c : UNetConnectionState) (cf : UNetConnectionFull) (Reader : FInPacket)
    (hc : c.State = .USOCK_Closed) (hcf : cf.State = .USOCK_Closed) :
    (∃ c1, c.Close (fuel + 1) env = .ok c1 ∧ c1.State = .USOCK_Closed)
    ∧ (∃ c1, c.CleanUp (fuel + 1) env = .ok c1 ∧ c1.State = .USOCK_Closed)
    ∧ (∀ c1, c.Tick fuel env = .ok c1 → c1.State = .USOCK_Closed)
    ∧ (∀ c1, c.FlushNet fuel env = .ok c1 → c1.State = .USOCK_Closed)
    ∧ (Sendable env c → ∃ c1, c.FlushNet (fuel + 3) env = .ok c1 ∧ c1.State = .USOCK_Closed)
    ∧ (∃ c1, ReceivedPacketFull (fuel + 1) nenv cv cf Reader = some (.Done c1)
        ∧ c1.State = .USOCK_Closed) := by
  refine ⟨⟨_, Close_closed fuel env c (Or.inr hc), hc⟩, CleanUp_closed fuel env c hc,
    fun c1 h => Tick_closed fuel env c c1 hc h,
    fun c1 h => ((staysClosed env fuel).1 _ _ h hc).1, ?_,
    ReceivedPacketFull_closed fuel nenv cv cf Reader hcf⟩
  intro hs
  obtain ⟨c1, h1⟩ := FlushNet_returns fuel env c hs
  exact ⟨c1, h1, ((staysClosed env (fuel + 3)).1 _ _ h1 hc).1⟩

/-- C24 as stated fails: `HandleClientPlayer` sets `State` to `USOCK_Open` whatever it was; a
closed connection is open afterwards. -/
theorem handleClientPlayer_reopens_closed_connection :
    ({ exampleState with State := .USOCK_Closed }).State = .USOCK_Closed
    ∧ ∃ c1, ({ exampleState with State := .USOCK_Closed }).HandleClientPlayer exampleConnEnv
          = .ok c1
        ∧ c1.State = .USOCK_Open :=
  ⟨rfl, _, rfl, rfl⟩

/-- C24 (as amended), on an example: a closed connection on which `Tick` returns, and a
closed connection receiving the example packet. -/
theorem closed_stays_closed_witness :
    (∃ c1, ({ exampleState with State := .USOCK_Closed }).Tick 3 exampleConnEnv = .ok c1
      ∧ c1.State = .USOCK_Closed)
    ∧ (∃ c1, ReceivedPacketFull 1 exampleEnv (exampleCVars 3 8)
          { exampleConnFull 4 with State := .USOCK_Closed } examplePacket = some (.Done c1)
        ∧ c1.State = .USOCK_Closed) :=
  have h := closed_stays_closed 3 exampleConnEnv exampleEnv (exampleCVars 3 8)
    { exampleState with State := .USOCK_Closed }
    { exampleConnFull 4 with State := .USOCK_Closed } examplePacket rfl rfl
  ⟨⟨_, rfl, h.2.2.1 _ rfl⟩, h.2.2.2.2.2⟩

/-! ## C30: the count of the packet order cache -/

theorem numberBlocks_append (a b : List (List Nat)) :
    ∀ first : Int, numberBlocks first (a ++ b)
      = numberBlocks first a ++ numberBlocks (first + (a.length : Int)) b := by
  induction a with
  | nil => intro first; simp [numberBlocks]
  | cons x a ih =>
    intro first
    have e : first + 1 + (a.length : Int) = first + ((x :: a).length : Int) := by
      rw [List.length_cons]
      push_cast
      ring
    show (first, x) :: numberBlocks (first + 1) (a ++ b)
      = (first, x) :: numberBlocks (first + 1) a ++ numberBlocks (first + ((x :: a).length : Int)) b
    rw [ih, e]
    rfl

/-- A new packet at the end of the record. -/
theorem recordOf_numberBlocks_snoc (first : Int) (bs : List (List Nat)) (cs : List Nat) :
    recordOf (numberBlocks first (bs ++ [cs]))
      = recordOf (numberBlocks first bs)
        ++ PacketEntry (first + (bs.length : Int))
          :: cs.map (fun c => (⟨c, false⟩ : FChannelRecordEntry)) := by
  rw [numberBlocks_append, recordOf_append]
  simp only [numberBlocks]
  rw [recordOf_single]

/-- A channel entry at the end of the record joins the last packet. -/
theorem recordOf_numberBlocks_last (first : Int) (bs : List (List Nat)) (v : Nat)
    (hbs : bs ≠ []) :
    ∃ bs1 : List (List Nat), bs1.length = bs.length
      ∧ recordOf (numberBlocks first bs1)
        = recordOf (numberBlocks first bs) ++ [(⟨v, false⟩ : FChannelRecordEntry)] := by
  obtain ⟨init, last, rfl⟩ : ∃ init last, bs = init ++ [last] :=
    ⟨bs.dropLast, bs.getLast hbs, (List.dropLast_append_getLast hbs).symm⟩
  refine ⟨init ++ [last ++ [v]], by simp, ?_⟩
  rw [recordOf_numberBlocks_snoc, recordOf_numberBlocks_snoc]
  simp

theorem RecInv_congr (c c1 : UNetConnectionState)
    (h1 : c1.ChannelRecord = c.ChannelRecord) (h2 : c1.OutPacketId = c.OutPacketId)
    (h3 : c1.LastNotifiedPacketId = c.LastNotifiedPacketId) (h : RecInv c) : RecInv c1 := by
  unfold RecInv at *
  rw [h1, h2, h3]
  exact h

/-- The marker of a flush: `PushPacketId` for `OutPacketId`, then `++OutPacketId`. -/
theorem RecInv_transmit (c c1 : UNetConnectionState)
    (h1 : c1.ChannelRecord = PushPacketId c.ChannelRecord c.OutPacketId)
    (h2 : c1.OutPacketId = c.OutPacketId + 1)
    (h3 : c1.LastNotifiedPacketId = c.LastNotifiedPacketId) (h : RecInv c) : RecInv c1 := by
  obtain ⟨hlt, bs, hq, hcase⟩ := h
  unfold RecInv
  rw [h1, h2, h3]
  refine ⟨by omega, ?_⟩
  unfold PushPacketId
  rcases hcase with ⟨hlen, hne⟩ | ⟨hlen, heq⟩
  · rw [if_pos (Ne.symm hne)]
    refine ⟨bs ++ [[]], ?_, Or.inl ⟨?_, ?_⟩⟩
    · show c.ChannelRecord.ChannelRecord ++ [PacketEntry c.OutPacketId] = _
      rw [recordOf_numberBlocks_snoc, hq, hlen]
      rfl
    · simp only [List.length_append, List.length_singleton]
      push_cast
      omega
    · show c.OutPacketId ≠ c.OutPacketId + 1
      omega
  · rw [if_neg (by rw [heq]; simp)]
    refine ⟨bs, hq, Or.inl ⟨by omega, by rw [heq]; omega⟩⟩

/-- The entry of a bunch: `PushChannelRecord` for the packet id returned by the write, which
is `OutPacketId`, or the id of the packet flushed last by the write. -/
theorem RecInv_push (c c1 : UNetConnectionState) (P ChIndex : Int)
    (h1 : c1.ChannelRecord = PushChannelRecord c.ChannelRecord P ChIndex)
    (h2 : c1.OutPacketId = c.OutPacketId)
    (h3 : c1.LastNotifiedPacketId = c.LastNotifiedPacketId)
    (hP : P = c.OutPacketId
      ∨ (P + 1 = c.OutPacketId ∧ c.ChannelRecord.LastPacketId = P
          ∧ c.LastNotifiedPacketId < P))
    (h : RecInv c) : RecInv c1 := by
  obtain ⟨hlt, bs, hq, hcase⟩ := h
  unfold RecInv
  rw [h1, h2, h3]
  refine ⟨hlt, ?_⟩
  unfold PushChannelRecord PushPacketId
  rcases hP with rfl | ⟨hP1, hlast, hLP⟩
  · rcases hcase with ⟨hlen, hne⟩ | ⟨hlen, heq⟩
    · rw [if_pos (Ne.symm hne)]
      refine ⟨bs ++ [[toUInt32 ChIndex]], ?_, Or.inr ⟨?_, rfl⟩⟩
      · show (c.ChannelRecord.ChannelRecord ++ [PacketEntry c.OutPacketId])
          ++ [ChannelEntry ChIndex] = _
        rw [recordOf_numberBlocks_snoc, hq, hlen]
        simp [ChannelEntry]
      · simp only [List.length_append, List.length_singleton]
        push_cast
        omega
    · rw [if_neg (by rw [heq]; simp)]
      have hbs : bs ≠ [] := by
        intro h0
        rw [h0] at hlen
        simp at hlen
        omega
      obtain ⟨bs1, hl1, hr1⟩ := recordOf_numberBlocks_last
        (c.LastNotifiedPacketId + 1) bs (toUInt32 ChIndex) hbs
      refine ⟨bs1, ?_, Or.inr ⟨by rw [hl1]; exact hlen, heq⟩⟩
      show c.ChannelRecord.ChannelRecord ++ [ChannelEntry ChIndex] = _
      rw [hr1, hq]
      rfl
  · rw [if_neg (by rw [hlast]; simp)]
    rcases hcase with ⟨hlen, hne⟩ | ⟨hlen, heq⟩
    · have hbs : bs ≠ [] := by
        intro h0
        rw [h0] at hlen
        simp at hlen
        omega
      obtain ⟨bs1, hl1, hr1⟩ := recordOf_numberBlocks_last
        (c.LastNotifiedPacketId + 1) bs (toUInt32 ChIndex) hbs
      refine ⟨bs1, ?_, Or.inl ⟨by rw [hl1]; exact hlen, hne⟩⟩
      show c.ChannelRecord.ChannelRecord ++ [ChannelEntry ChIndex] = _
      rw [hr1, hq]
      rfl
    · omega

/-- The consume of a notification: the marker of the next packet id to notify is at the
front of the record, and the consume leaves the record of the packets after it. -/
theorem RecInv_consume (c : UNetConnectionState) (h : RecInv c)
    (hflushed : c.LastNotifiedPacketId + 1 < c.OutPacketId) :
    c.ChannelRecord.ChannelRecord.head? = some (PacketEntry (c.LastNotifiedPacketId + 1))
    ∧ ∃ x, ConsumeChannelRecordsForPacket c.ChannelRecord (c.LastNotifiedPacketId + 1) = some x
      ∧ ∀ c1 : UNetConnectionState, c1.ChannelRecord = x.2 →
          c1.OutPacketId = c.OutPacketId →
          c1.LastNotifiedPacketId = c.LastNotifiedPacketId + 1 → RecInv c1 := by
  obtain ⟨hlt, bs, hq, hcase⟩ := h
  cases bs with
  | nil =>
    simp at hcase
    omega
  | cons b rest =>
    have hq2 : c.ChannelRecord = ⟨PacketEntry (c.LastNotifiedPacketId + 1)
        :: (b.map (fun v => (⟨v, false⟩ : FChannelRecordEntry))
          ++ recordOf (numberBlocks (c.LastNotifiedPacketId + 1 + 1) rest)),
        c.ChannelRecord.LastPacketId⟩ := by
      have : c.ChannelRecord = ⟨c.ChannelRecord.ChannelRecord, c.ChannelRecord.LastPacketId⟩ :=
        rfl
      rw [this, hq]
      simp only [numberBlocks, recordOf_cons]
    refine ⟨by rw [hq]; simp [numberBlocks, recordOf_cons], ?_⟩
    rw [hq2, consume_marker_front, fromNextMarker_packet _ _ (recordOf_head _)]
    refine ⟨_, rfl, ?_⟩
    intro c1 e1 e2 e3
    unfold RecInv
    rw [e1, e2, e3]
    refine ⟨hflushed, rest, rfl, ?_⟩
    simp only [List.length_cons] at hcase
    push_cast at hcase
    rcases hcase with ⟨hlen, hne⟩ | ⟨hlen, heq⟩
    · exact Or.inl ⟨by omega, hne⟩
    · exact Or.inr ⟨by omega, heq⟩

/-! ### The send path keeps the invariant of the record -/

theorem CloseStart_fields (c : UNetConnectionState) (Channel0 : Option FName) :
    (c.CloseStart Channel0).InternalAck = c.InternalAck
    ∧ (c.CloseStart Channel0).LastNotifiedPacketId = c.LastNotifiedPacketId
    ∧ (c.CloseStart Channel0).OutPacketId = c.OutPacketId
    ∧ (c.CloseStart Channel0).ChannelRecord = c.ChannelRecord := by
  unfold UNetConnectionState.CloseStart
  split <;> exact ⟨rfl, rfl, rfl, rfl⟩

theorem CloseEnd_fields (env : ConnEnv) (c : UNetConnectionState) :
    (c.CloseEnd env).InternalAck = c.InternalAck
    ∧ (c.CloseEnd env).LastNotifiedPacketId = c.LastNotifiedPacketId
    ∧ (c.CloseEnd env).OutPacketId = c.OutPacketId
    ∧ (c.CloseEnd env).ChannelRecord = c.ChannelRecord := by
  unfold UNetConnectionState.CloseEnd
  split <;> exact ⟨rfl, rfl, rfl, rfl⟩

/-- The calls of the send path and `Close` leave `InternalAck` and `LastNotifiedPacketId`
alone, do not decrease `OutPacketId`, and keep the invariant of the record. -/
theorem send_keeps_record (env : ConnEnv) (fuel : Nat) :
    (∀ c c1 : UNetConnectionState, c.FlushNet fuel env = .ok c1 →
        c1.InternalAck = c.InternalAck ∧ c1.LastNotifiedPacketId = c.LastNotifiedPacketId
          ∧ c.OutPacketId ≤ c1.OutPacketId ∧ (RecInv c → RecInv c1))
      ∧ (∀ (c : UNetConnectionState) (s e : Nat) (x : Int × UNetConnectionState),
        c.WriteBitsToSendBuffer fuel env s e = .ok x →
        x.2.InternalAck = c.InternalAck ∧ x.2.LastNotifiedPacketId = c.LastNotifiedPacketId
          ∧ c.OutPacketId ≤ x.2.OutPacketId ∧ (RecInv c → RecInv x.2))
      ∧ (∀ c c1 : UNetConnectionState, c.Close fuel env = .ok c1 →
        c1.InternalAck = c.InternalAck ∧ c1.LastNotifiedPacketId = c.LastNotifiedPacketId
          ∧ c.OutPacketId ≤ c1.OutPacketId ∧ (RecInv c → RecInv c1)) := by
  refine send_induction env
    (fun c c1 => c1.InternalAck = c.InternalAck
      ∧ c1.LastNotifiedPacketId = c.LastNotifiedPacketId
      ∧ c.OutPacketId ≤ c1.OutPacketId ∧ (RecInv c → RecInv c1))
    ?_ ?_ ?_ ?_ ?_ ?_ ?_ ?_ fuel
  · intro c; exact ⟨rfl, rfl, le_refl _, id⟩
  · rintro a b c ⟨a1, a2, a3, a4⟩ ⟨b1, b2, b3, b4⟩
    exact ⟨b1.trans a1, b2.trans a2, le_trans a3 b3, fun h => b4 (a4 h)⟩
  · intro c; exact ⟨rfl, rfl, le_refl _, RecInv_congr c _ rfl rfl rfl⟩
  · intro c b _
    refine ⟨rfl, rfl, ?_, RecInv_transmit c _ rfl rfl rfl⟩
    show c.OutPacketId ≤ c.OutPacketId + 1
    omega
  · intro c _; exact ⟨rfl, rfl, le_refl _, RecInv_congr c _ rfl rfl rfl⟩
  · intro c n
    obtain ⟨h1, h2, _, _, _, _, h7, h8, _⟩ := Written_fields env c n
    exact ⟨h7, h8, le_of_eq h1.symm, RecInv_congr c _ h2 h1 h8⟩
  · intro c; exact ⟨rfl, rfl, le_refl _, RecInv_congr c _ rfl rfl rfl⟩
  · intro c Channel0 c2 _ _ h
    obtain ⟨s1, s2, s3, s4⟩ := CloseStart_fields c Channel0
    obtain ⟨e1, e2, e3, e4⟩ := CloseEnd_fields env c2
    have h2 : c2.InternalAck = c.InternalAck
        ∧ c2.LastNotifiedPacketId = c.LastNotifiedPacketId
        ∧ c.OutPacketId ≤ c2.OutPacketId ∧ (RecInv c → RecInv c2) := by
      rcases h with h | ⟨a1, a2, a3, a4⟩
      · rw [h]
        exact ⟨s1, s2, le_of_eq s3.symm, RecInv_congr c _ s4 s3 s2⟩
      · refine ⟨a1.trans s1, a2.trans s2, ?_, fun hi => a4 ?_⟩
        · exact le_trans (le_of_eq s3.symm) a3
        · exact RecInv_congr c _ s4 s3 s2 hi
    obtain ⟨a1, a2, a3, a4⟩ := h2
    exact ⟨e1.trans a1, e2.trans a2, le_trans a3 (le_of_eq e3.symm),
      fun hi => RecInv_congr c2 _ e4 e3 e2 (a4 hi)⟩

/-- `Close` before the handshake is complete sends nothing. -/
theorem Close_before_handshake (fuel : Nat) (env : ConnEnv) (c c1 : UNetConnectionState)
    (hshake : env.bHasReceivedClientPacket = false) (h : c.Close fuel env = .ok c1) :
    c1.InternalAck = c.InternalAck ∧ c1.LastNotifiedPacketId = c.LastNotifiedPacketId
      ∧ c1.OutPacketId = c.OutPacketId ∧ c1.ChannelRecord = c.ChannelRecord := by
  cases fuel with
  | zero => rw [UNetConnectionState.Close] at h; simp at h
  | succ fuel =>
    by_cases hg : c.bHasDriver = true ∧ c.State ≠ .USOCK_Closed
    · rcases hch : c.Channels with _ | ⟨Channel0, rest⟩
      · rw [UNetConnectionState.Close, if_pos hg] at h
        simp only [hch] at h
        simp at h
      · rw [Close_open fuel env c Channel0 rest hg.1 hg.2 hch,
          if_neg (by rw [hshake]; simp), Outcome.bind_ok] at h
        rw [← Outcome.ok.inj h]
        obtain ⟨s1, s2, s3, s4⟩ := CloseStart_fields c Channel0
        obtain ⟨e1, e2, e3, e4⟩ := CloseEnd_fields env (c.CloseStart Channel0)
        exact ⟨e1.trans s1, e2.trans s2, e3.trans s3, e4.trans s4⟩
    · have hg2 : c.bHasDriver = false ∨ c.State = .USOCK_Closed := by
        by_cases hd : c.bHasDriver = true
        · right; by_contra hs; exact hg ⟨hd, hs⟩
        · left; simpa using hd
      rw [Close_closed fuel env c hg2] at h
      rw [← Outcome.ok.inj h]
      exact ⟨rfl, rfl, rfl, rfl⟩

/-- `FlushNet` with bits in the send buffer sends one packet, or none before the handshake
is complete. -/
theorem FlushNet_nonempty (fuel : Nat) (env : ConnEnv) (c c1 : UNetConnectionState)
    (hbits : c.SendBufferNumBits ≠ 0) (h : c.FlushNet fuel env = .ok c1) :
    (c1.OutPacketId = c.OutPacketId ∧ c1.ChannelRecord = c.ChannelRecord)
      ∨ (c1.OutPacketId = c.OutPacketId + 1
          ∧ c1.ChannelRecord = PushPacketId c.ChannelRecord c.OutPacketId) := by
  cases fuel with
  | zero => rw [UNetConnectionState.FlushNet] at h; simp at h
  | succ fuel =>
    rw [FlushNet_succ] at h
    by_cases hd : c.bHasDriver = false
    · rw [if_pos hd] at h; simp at h
    · have hdata : c.hasPendingData env = true := by
        unfold UNetConnectionState.hasPendingData
        simp [hbits]
      rw [if_neg hd, if_pos hdata] at h
      by_cases hshake : sendsBeforeHandshake env = true
      · rw [if_pos hshake] at h
        obtain ⟨c2, h2, h⟩ := Outcome.bind_eq_ok _ _ _ h
        have hrecv : env.bHasReceivedClientPacket = false := by
          unfold sendsBeforeHandshake at hshake
          cases hr : env.bHasReceivedClientPacket with
          | false => rfl
          | true => rw [hr] at hshake; simp at hshake
        obtain ⟨_, _, a3, a4⟩ := Close_before_handshake fuel env _ c2 hrecv h2
        rw [(InitSendBuffer_eq_ok _ _ h).2]
        exact Or.inl ⟨a3, a4⟩
      · rw [if_neg hshake, if_neg hbits] at h
        rw [(FlushNetSend_eq_ok _ _ _ _ h).2]
        exact Or.inr ⟨rfl, rfl⟩

theorem PushPacketId_last (r : FWrittenChannelsRecord) (PacketId : Int) :
    (PushPacketId r PacketId).LastPacketId = PacketId := by
  unfold PushPacketId
  by_cases h : PacketId ≠ r.LastPacketId
  · rw [if_pos h]
  · rw [if_neg h]
    exact (not_not.1 h).symm

/-- The packet id `WriteBitsToSendBuffer` returns on a connection that is not InternalAck:
`OutPacketId` on return, or the id of the packet the write flushed last. -/
theorem WriteBitsToSendBuffer_record (fuel : Nat) (env : ConnEnv) (c : UNetConnectionState)
    (s e : Nat) (x : Int × UNetConnectionState) (hint : c.InternalAck = false)
    (h : c.WriteBitsToSendBuffer fuel env s e = .ok x) :
    x.2.InternalAck = false ∧ x.2.LastNotifiedPacketId = c.LastNotifiedPacketId
      ∧ c.OutPacketId ≤ x.1 ∧ (RecInv c → RecInv x.2)
      ∧ (x.1 = x.2.OutPacketId
        ∨ (x.1 + 1 = x.2.OutPacketId ∧ x.2.ChannelRecord.LastPacketId = x.1)) := by
  cases fuel with
  | zero => rw [UNetConnectionState.WriteBitsToSendBuffer] at h; simp at h
  | succ fuel =>
    rw [WriteBitsToSendBuffer_succ] at h
    obtain ⟨Free, _, h⟩ := Outcome.bind_eq_ok _ _ _ h
    obtain ⟨c1, h1, h⟩ := Outcome.bind_eq_ok _ _ _ h
    obtain ⟨Free2, _, h⟩ := Outcome.bind_eq_ok _ _ _ h
    obtain ⟨c4, h4, h⟩ := Outcome.bind_eq_ok _ _ _ h
    rw [← Outcome.ok.inj h]
    have r1 : c1.InternalAck = c.InternalAck
        ∧ c1.LastNotifiedPacketId = c.LastNotifiedPacketId
        ∧ c.OutPacketId ≤ c1.OutPacketId ∧ (RecInv c → RecInv c1) := by
      split at h1
      · exact (send_keeps_record env fuel).1 _ _ h1
      · rw [← Outcome.ok.inj h1]; exact ⟨rfl, rfl, le_refl _, id⟩
    obtain ⟨a1, a2, a3, a4⟩ := r1
    obtain ⟨w1, w2, _, _, _, _, w7, w8, _, _, w11⟩ := Written_fields env c1 (s + e)
    have hbits : (c1.Written env (s + e)).SendBufferNumBits ≠ 0 := by
      rw [w11, WritePacketHeaders_numBits_eq]
      have := PacketInfoBits_pos env
      split
      · omega
      · next hn =>
        have : c1.SendBufferNumBits ≠ 0 := fun h0 => hn ⟨h0, a1.trans hint⟩
        omega
    have hinv3 : RecInv c → RecInv (c1.Written env (s + e)) :=
      fun hi => RecInv_congr c1 _ w2 w1 w8 (a4 hi)
    show c4.InternalAck = false ∧ c4.LastNotifiedPacketId = c.LastNotifiedPacketId
      ∧ c.OutPacketId ≤ (c1.Written env (s + e)).OutPacketId ∧ (RecInv c → RecInv c4)
      ∧ ((c1.Written env (s + e)).OutPacketId = c4.OutPacketId
        ∨ ((c1.Written env (s + e)).OutPacketId + 1 = c4.OutPacketId
            ∧ c4.ChannelRecord.LastPacketId = (c1.Written env (s + e)).OutPacketId))
    split at h4
    · obtain ⟨b1, b2, _, b4⟩ := (send_keeps_record env fuel).1 _ _ h4
      refine ⟨b1.trans (w7.trans (a1.trans hint)), b2.trans (w8.trans a2), by omega,
        fun hi => b4 (hinv3 hi), ?_⟩
      rcases FlushNet_nonempty fuel env _ c4 hbits h4 with ⟨f1, _⟩ | ⟨f1, f2⟩
      · exact Or.inl f1.symm
      · exact Or.inr ⟨f1.symm, by rw [f2, PushPacketId_last]⟩
    · rw [← Outcome.ok.inj h4]
      exact ⟨w7.trans (a1.trans hint), w8.trans a2, by omega, hinv3, Or.inl rfl⟩

/-- `SendRawBunch` keeps the invariant of the record. -/
theorem SendRawBunch_record (fuel : Nat) (env : ConnEnv) (c : UNetConnectionState)
    (Bunch : FOutBunch) (InAllowMerge : Bool) (x : Int × UNetConnectionState)
    (hint : c.InternalAck = false) (hinv : RecInv c)
    (h : c.SendRawBunch fuel env Bunch InAllowMerge = .ok x) :
    x.2.InternalAck = false ∧ x.2.LastNotifiedPacketId = c.LastNotifiedPacketId
      ∧ c.OutPacketId ≤ x.2.OutPacketId ∧ RecInv x.2 := by
  unfold UNetConnectionState.SendRawBunch at h
  by_cases hd : c.bHasDriver = false
  · rw [if_pos hd] at h; simp at h
  · rw [if_neg hd] at h
    obtain ⟨y, hy, h⟩ := Outcome.bind_eq_ok _ _ _ h
    obtain ⟨a1, a2, a3, a4, a5⟩ := WriteBitsToSendBuffer_record fuel env
      { c with TimeSensitive := true, AllowMerge := InAllowMerge } _ _ y hint hy
    have hinv1 : RecInv y.2 := a4 (RecInv_congr c _ rfl rfl rfl hinv)
    have hle : c.OutPacketId ≤ y.2.OutPacketId := by
      have : c.OutPacketId ≤ y.1 := a3
      rcases a5 with e | ⟨e, _⟩ <;> omega
    have hpush : RecInv { y.2 with
        ChannelRecord := PushChannelRecord y.2.ChannelRecord y.1 Bunch.ChIndex } := by
      refine RecInv_push y.2 _ y.1 Bunch.ChIndex rfl rfl rfl ?_ hinv1
      rcases a5 with e | ⟨e1, e2⟩
      · exact Or.inl e
      · refine Or.inr ⟨e1, e2, ?_⟩
        have h1 : c.LastNotifiedPacketId < c.OutPacketId := hinv.1
        have h2 : c.OutPacketId ≤ y.1 := a3
        rw [a2]
        show c.LastNotifiedPacketId < y.1
        omega
    rw [← Outcome.ok.inj h]
    dsimp only
    split
    · exact ⟨a1, a2, hle, RecInv_congr _ _ rfl rfl rfl hpush⟩
    · exact ⟨a1, a2, hle, hpush⟩

/-- A notification for a flushed packet with the sequence number of the next packet id
consumes the front of the record. -/
theorem HandlePacketNotification_record (fuel : Nat) (env : ConnEnv)
    (c : UNetConnectionState) (AckedSequence : Int) (bDelivered : Bool) (hinv : RecInv c)
    (hflushed : c.LastNotifiedPacketId + 1 < c.OutPacketId)
    (hseq : AckedSequence = env.SequenceNumberT (c.LastNotifiedPacketId + 1)) :
    ∃ c1, c.HandlePacketNotification fuel env AckedSequence bDelivered = .ok c1
      ∧ c1.LastNotifiedPacketId = c.LastNotifiedPacketId + 1
      ∧ c1.OutPacketId = c.OutPacketId
      ∧ c1.InternalAck = c.InternalAck
      ∧ c.ChannelRecord.ChannelRecord.head? = some (PacketEntry (c.LastNotifiedPacketId + 1))
      ∧ RecInv c1 := by
  obtain ⟨hhead, x, hx, hnext⟩ := RecInv_consume c hinv hflushed
  unfold UNetConnectionState.HandlePacketNotification
  dsimp only
  rw [if_neg (not_not.2 hseq.symm)]
  cases bDelivered with
  | true =>
    rw [if_pos rfl]
    unfold UNetConnectionState.ReceivedAck
    dsimp only [UNetConnectionState.logEvent]
    rw [hx]
    exact ⟨_, rfl, rfl, rfl, rfl, hhead, hnext _ rfl rfl rfl⟩
  | false =>
    rw [if_neg (by decide)]
    unfold UNetConnectionState.ReceivedNak
    dsimp only [UNetConnectionState.logEvent]
    rw [hx]
    exact ⟨_, rfl, rfl, rfl, rfl, hhead, hnext _ rfl rfl rfl⟩

/-! ### The sends do not consume the record -/

theorem Outcome.bind_ne_fault {α β : Type} (x : Outcome α) (f : α → Outcome β) (e : Fault)
    (hx : x ≠ .fault e) (hf : ∀ a, f a ≠ .fault e) : x.bind f ≠ .fault e := by
  cases x with
  | ok a => exact hf a
  | fault e1 =>
    intro h
    apply hx
    simpa using h
  | outOfFuel => simp

theorem InitSendBuffer_no_record_fault (c : UNetConnectionState) :
    c.InitSendBuffer ≠ .fault .ChannelRecord := by
  unfold UNetConnectionState.InitSendBuffer
  split <;> simp

theorem GetFreeSendBufferBits_no_record_fault (env : ConnEnv) (c : UNetConnectionState) :
    c.GetFreeSendBufferBits env ≠ .fault .ChannelRecord := by
  intro h
  unfold UNetConnectionState.GetFreeSendBufferBits at h
  dsimp only at h
  by_cases hc : c.SendBufferMaxBits - ((c.SendBufferNumBits : Int) +
      (if c.SendBufferNumBits > 0 then env.MAX_PACKET_TRAILER_BITS
        else env.MAX_PACKET_HEADER_BITS + env.MAX_PACKET_TRAILER_BITS)) ≥ 0
  · rw [if_pos hc] at h; simp at h
  · rw [if_neg hc] at h
    exact absurd (Outcome.fault.inj h) (by decide)

/-- The check of `ConsumeChannelRecordsForPacket` is not met in `FlushNet`,
`WriteBitsToSendBuffer` and `Close`. -/
theorem send_no_record_fault (env : ConnEnv) :
    ∀ fuel, (∀ c : UNetConnectionState, c.FlushNet fuel env ≠ .fault .ChannelRecord)
      ∧ (∀ (c : UNetConnectionState) (s e : Nat),
          c.WriteBitsToSendBuffer fuel env s e ≠ .fault .ChannelRecord)
      ∧ (∀ c : UNetConnectionState, c.Close fuel env ≠ .fault .ChannelRecord) := by
  intro fuel
  induction fuel with
  | zero =>
    refine ⟨fun c => ?_, fun c s e => ?_, fun c => ?_⟩
    · rw [UNetConnectionState.FlushNet]; simp
    · rw [UNetConnectionState.WriteBitsToSendBuffer]; simp
    · rw [UNetConnectionState.Close]; simp
  | succ fuel ih =>
    obtain ⟨ihF, ihW, ihC⟩ := ih
    refine ⟨fun c => ?_, fun c s e => ?_, fun c => ?_⟩
    · rw [FlushNet_succ]
      split
      · simp
      · split
        · split
          · exact Outcome.bind_ne_fault _ _ _ (ihC _) InitSendBuffer_no_record_fault
          · split
            · exact Outcome.bind_ne_fault _ _ _ (ihW _ _ _)
                (fun x => InitSendBuffer_no_record_fault _)
            · exact InitSendBuffer_no_record_fault _
        · simp
    · rw [WriteBitsToSendBuffer_succ]
      refine Outcome.bind_ne_fault _ _ _ (GetFreeSendBufferBits_no_record_fault env c) ?_
      intro Free
      refine Outcome.bind_ne_fault _ _ _ (by split; exact ihF _; simp) ?_
      intro c1
      refine Outcome.bind_ne_fault _ _ _ (GetFreeSendBufferBits_no_record_fault env _) ?_
      intro Free2
      refine Outcome.bind_ne_fault _ _ _ (by split; exact ihF _; simp) ?_
      intro c4
      simp
    · rw [UNetConnectionState.Close]
      split
      · split
        · simp
        · refine Outcome.bind_ne_fault _ _ _ (by split; exact ihF _; simp) ?_
          intro c2
          simp
      · simp

/-- One call of a history: it keeps the invariant of the record, and a notification
consumes the front of the record. -/
theorem runOp_record (fuel : Nat) (env : ConnEnv) (c : UNetConnectionState) (op : ConnOp)
    (hint : c.InternalAck = false) (hinv : RecInv c) (hadm : admissibleOp env c op) :
    inOrderOp fuel env c op
    ∧ ∀ c1, runOp fuel env c op = .ok c1 →
        c1.InternalAck = false ∧ RecInv c1 ∧ c.OutPacketId ≤ c1.OutPacketId
        ∧ c.LastNotifiedPacketId ≤ c1.LastNotifiedPacketId := by
  cases op with
  | SendRawBunch Bunch InAllowMerge =>
    refine ⟨?_, ?_⟩
    · show (c.SendRawBunch fuel env Bunch InAllowMerge).bind (fun x => .ok x.2)
        ≠ .fault .ChannelRecord
      refine Outcome.bind_ne_fault _ _ _ ?_ (fun x => by simp)
      unfold UNetConnectionState.SendRawBunch
      split
      · simp
      · exact Outcome.bind_ne_fault _ _ _ ((send_no_record_fault env fuel).2.1 _ _ _)
          (fun x => by simp)
    · intro c1 h
      obtain ⟨x, hx, h⟩ := Outcome.bind_eq_ok _ _ _ h
      obtain ⟨a1, a2, a3, a4⟩ := SendRawBunch_record fuel env c Bunch InAllowMerge x hint hinv hx
      rw [← Outcome.ok.inj h]
      exact ⟨a1, a4, a3, le_of_eq a2.symm⟩
  | FlushNet =>
    refine ⟨(send_no_record_fault env fuel).1 c, ?_⟩
    intro c1 h
    obtain ⟨a1, a2, a3, a4⟩ := (send_keeps_record env fuel).1 c c1 h
    exact ⟨a1.trans hint, a4 hinv, a3, le_of_eq a2.symm⟩
  | Notify AckedSequence bDelivered =>
    obtain ⟨c2, h2, b1, b2, b3, b4, b5⟩ := HandlePacketNotification_record fuel env c
      AckedSequence bDelivered hinv hadm.1 hadm.2
    refine ⟨⟨c2, h2, b1, by rw [b1]; exact b4⟩, ?_⟩
    intro c1 h
    have e : c2 = c1 := Outcome.ok.inj (h2.symm.trans h)
    rw [← e]
    exact ⟨b3.trans hint, b5, le_of_eq b2.symm, by omega⟩

/-- A history of sends and admissible notifications consumes the record in the order of
the packet ids. -/
theorem runOps_record (fuel : Nat) (ops : List (ConnEnv × ConnOp)) :
    ∀ c : UNetConnectionState, c.InternalAck = false → RecInv c → Admissible fuel c ops →
      InOrder fuel c ops ∧ runOps fuel c ops ≠ .fault .ChannelRecord
        ∧ ∀ c1, runOps fuel c ops = .ok c1 → c1.InternalAck = false ∧ RecInv c1 := by
  induction ops with
  | nil =>
    intro c hint hinv _
    refine ⟨trivial, by simp [runOps], ?_⟩
    intro c1 h
    rw [← Outcome.ok.inj h]
    exact ⟨hint, hinv⟩
  | cons x rest ih =>
    intro c hint hinv hadm
    obtain ⟨h1, h2⟩ := runOp_record fuel x.1 c x.2 hint hinv hadm.1
    have hne : runOp fuel x.1 c x.2 ≠ .fault .ChannelRecord := by
      cases hop : x.2 with
      | SendRawBunch Bunch InAllowMerge => rw [hop] at h1; exact h1
      | FlushNet => rw [hop] at h1; exact h1
      | Notify AckedSequence bDelivered =>
        rw [hop] at h1
        obtain ⟨c1, e, _⟩ := h1
        show c.HandlePacketNotification fuel x.1 AckedSequence bDelivered ≠ _
        rw [e]
        simp
    refine ⟨⟨h1, fun c1 e => ?_⟩, ?_, ?_⟩
    · obtain ⟨a1, a2, _, _⟩ := h2 c1 e
      exact (ih c1 a1 a2 (hadm.2 c1 e)).1
    · show (runOp fuel x.1 c x.2).bind (fun c1 => runOps fuel c1 rest) ≠ _
      cases e : runOp fuel x.1 c x.2 with
      | ok c1 =>
        obtain ⟨a1, a2, _, _⟩ := h2 c1 e
        exact (ih c1 a1 a2 (hadm.2 c1 e)).2.1
      | fault f =>
        rw [e] at hne
        simpa using hne
      | outOfFuel => simp
    · intro c2 e2
      obtain ⟨c1, e, e3⟩ := Outcome.bind_eq_ok _ _ _ e2
      obtain ⟨a1, a2, _, _⟩ := h2 c1 e
      exact (ih c1 a1 a2 (hadm.2 c1 e)).2.2 c2 e3

/-- C28: on a connection that is not InternalAck and whose channel record holds one marker
with its channel entries for every packet id flushed and not yet notified, in the order of
the packet ids, every history of sends (`SendRawBunch`, `FlushNet`) and notifications that
arrive for a flushed packet with the sequence number of the next packet id consumes the
record in that order: each notification returns, moves `LastNotifiedPacketId` to the
previous value plus 1 and finds the marker of that id at the front of the record; the check
of `ConsumeChannelRecordsForPacket` never fails; and the record is in the same form after
the history.  A new connection whose record does not start with `LastPacketId` 0 has a
record of this form. -/
theorem record_consumed_in_order (fuel : Nat) (c : UNetConnectionState)
    (ops : List (ConnEnv × ConnOp)) (hint : c.InternalAck = false) (hinv : RecInv c)
    (hadm : Admissible fuel c ops) :
    InOrder fuel c ops
    ∧ runOps fuel c ops ≠ .fault .ChannelRecord
    ∧ (∀ c1, runOps fuel c ops = .ok c1 → RecInv c1)
    ∧ (∀ (MaxChannelSize : Nat) (InitialLastPacketId : Int), InitialLastPacketId ≠ 0 →
        RecInv (newConnectionState MaxChannelSize InitialLastPacketId)) := by
  obtain ⟨h1, h2, h3⟩ := runOps_record fuel ops c hint hinv hadm
  refine ⟨h1, h2, fun c1 e => (h3 c1 e).2, ?_⟩
  intro MaxChannelSize InitialLastPacketId hne
  refine ⟨?_, [], rfl, Or.inl ⟨?_, hne⟩⟩
  · show (-1 : Int) < 0
    decide
  · show (-1 : Int) + 1 + (([] : List (List Nat)).length : Int) = 0
    decide

/-- C28, on an example: the packets 0 and 1 were flushed, packet 0 with a bunch on channel
0; the notifications for 0 (delivered) and for 1 (lost) consume the record in this order and
leave it empty. -/
theorem record_consumed_in_order_witness :
    InOrder 4 sentState
        [(exampleConnEnv, .Notify 0 true), (exampleConnEnv, .Notify 1 false)]
    ∧ ∃ c1, runOps 4 sentState
          [(exampleConnEnv, .Notify 0 true), (exampleConnEnv, .Notify 1 false)] = .ok c1
        ∧ c1.LastNotifiedPacketId = 1 ∧ c1.ChannelRecord.ChannelRecord = []
        ∧ c1.Log = [.PackageMapNotified 0 true, .AckChannel 0 0,
            .PackageMapNotified 1 false] := by
  have hinv : RecInv sentState :=
    ⟨by decide, [[0], []], by decide, Or.inl ⟨by decide, by decide⟩⟩
  have hadm : Admissible 4 sentState
      [(exampleConnEnv, .Notify 0 true), (exampleConnEnv, .Notify 1 false)] := by
    refine ⟨⟨by decide, by decide⟩, fun c1 h1 => ⟨?_, fun _ _ => trivial⟩⟩
    obtain ⟨c2, h2, b1, b2, _⟩ := HandlePacketNotification_record 4 exampleConnEnv sentState
      0 true hinv (by decide) (by decide)
    have e : c2 = c1 := Outcome.ok.inj (h2.symm.trans h1)
    rw [← e]
    show c2.LastNotifiedPacketId + 1 < c2.OutPacketId
      ∧ 1 = exampleConnEnv.SequenceNumberT (c2.LastNotifiedPacketId + 1)
    rw [b1, b2]
    exact ⟨by decide, by decide⟩
  have h := record_consumed_in_order 4 sentState _ rfl hinv hadm
  exact ⟨h.1, _, rfl, by decide, by decide, by decide⟩


end NetConnection
